import Mathlib

/-!
# AgenticDemo: supervisor loop and tool registry

A shallow embedding of `server/internal/agent/supervisor.go`,
`server/internal/registry/registry.go` and
`server/internal/registry/builtin/builtin.go`, and the properties of the
repository specification that concern them.

Conventions of the embedding.

* A Go `string` is a Lean `String`, except where the code slices a string at a
  byte offset (`thoughtSummary`, `toolLabel`, the analysis summary): there the
  result is a list of bytes (`GoBytes`), because a byte slice of a UTF-8 string
  need not be a string of whole characters.
* A value of Go type `any` is a `GoVal`.  `map[string]any` and
  `map[string]string` are different constructors, as a type assertion tells
  them apart.  A map is a list of entries read with last-entry-wins lookup.
* A `json.RawMessage` is represented by the JSON document it holds, or by the
  syntax error `json.Unmarshal` reports for it.
* The wall clock, the random source, the model client and the file system are
  collaborators: they are fields of `Env`, and every theorem holds for every
  `Env`.  The `timestamp` entry of a thinking step or UI message is not
  represented.
* Observer callbacks, model invocations, tool dispatches and session-store
  writes are recorded, in order, in a trace of `Event`s.
* A run-time panic of an executor is a value (`ExecOutcome.panic`).  Nothing
  on the way up recovers it: the call phase stops at the call that panicked,
  the loop is left, and the run is marked (`RunResult.panicked`) as one that
  `RunSupervisor` does not return from.
-/

namespace AgenticDemo

/-! ## Values -/

/-- Go values of dynamic type (`any`). -/
inductive GoVal where
  | null
  | bool (b : Bool)
  | num (mant : Int) (exp : Int)
  | str (s : String)
  | list (xs : List GoVal)
  | obj (kvs : List (String × GoVal))
  | strMap (kvs : List (String × String))
  | rawNil
  | rawInvalid (err : String)
  | rawDoc (v : GoVal)

instance : Inhabited GoVal := ⟨GoVal.null⟩

/-- Bytes of a Go string that may have been cut inside a character. -/
abbrev GoBytes := List Nat

/-- UTF-8 encoding of one character. -/
def utf8EncodeChar (c : Char) : List Nat :=
  let v := c.toNat
  if v ≤ 0x7f then [v]
  else if v ≤ 0x7ff then [0xc0 + v / 64, 0x80 + v % 64]
  else if v ≤ 0xffff then [0xe0 + v / 4096, 0x80 + (v / 64) % 64, 0x80 + v % 64]
  else [0xf0 + v / 262144, 0x80 + (v / 4096) % 64, 0x80 + (v / 64) % 64, 0x80 + v % 64]

/-- The bytes of a Go string holding the text `s`. -/
def goBytes (s : String) : GoBytes :=
  s.toList.flatMap utf8EncodeChar

/-- Go `len(s)`: the number of bytes. -/
def goLen (s : String) : Nat :=
  (goBytes s).length

/-- Last-entry-wins lookup, the reading of a Go map built from a list of entries. -/
def mapGet {α : Type} (kvs : List (String × α)) (k : String) : Option α :=
  (kvs.reverse.find? (fun kv => kv.1 == k)).map (fun kv => kv.2)

/-- The type assertion `v.(map[string]any)`. -/
def GoVal.asObj : GoVal → Option (List (String × GoVal))
  | .obj kvs => some kvs
  | _ => none

/-- The type assertion `v.(string)`. -/
def GoVal.asStr : GoVal → Option String
  | .str s => some s
  | _ => none

/-- The type assertion `v.([]any)`. -/
def GoVal.asList : GoVal → Option (List GoVal)
  | .list xs => some xs
  | _ => none

/-- `m[k]` on a `map[string]any`, with the comma-ok flag as `Option`. -/
def objGet (m : List (String × GoVal)) (k : String) : Option GoVal :=
  mapGet m k

/-- `m[k].(string)` with the comma-ok flag as `Option`. -/
def objGetStr (m : List (String × GoVal)) (k : String) : Option String :=
  (objGet m k).bind GoVal.asStr

/-! ## Strings -/

/-- Go `unicode.IsSpace`. -/
def isGoSpace (c : Char) : Bool :=
  let v := c.toNat
  v == 0x09 || v == 0x0a || v == 0x0b || v == 0x0c || v == 0x0d || v == 0x20 ||
  v == 0x85 || v == 0xa0 || v == 0x1680 || (0x2000 ≤ v && v ≤ 0x200a) ||
  v == 0x2028 || v == 0x2029 || v == 0x202f || v == 0x205f || v == 0x3000

/-- Go `strings.TrimSpace`. -/
def trimSpace (s : String) : String :=
  String.mk ((s.toList.dropWhile isGoSpace).reverse.dropWhile isGoSpace).reverse

/-- The first element of `strings.SplitN(s, "\n", 2)`: the text before the
first line feed. -/
def firstLine (s : String) : String :=
  String.mk (s.toList.takeWhile (fun c => c != '\n'))

/-- Go `s[:n] + "..."` on the bytes of `s`. -/
def cutWithDots (s : String) (n : Nat) : GoBytes :=
  (goBytes s).take n ++ goBytes "..."

/-- `thoughtSummary` of supervisor.go. -/
def thoughtSummary (raw : String) (maxLen : Int) : GoBytes :=
  let maxLen := if maxLen ≤ 0 then 120 else maxLen
  let trimmed := trimSpace raw
  if trimmed = "" then []
  else
    let first := trimSpace (firstLine trimmed)
    if (goLen first : Int) > maxLen then cutWithDots first maxLen.toNat
    else goBytes first

/-- Go `fmt.Sprintf("%x", n)`. -/
def hexString (n : Nat) : String :=
  String.mk (Nat.toDigits 16 n)

/-! ## Thinking steps -/

/-- The map built by `thinkingStep`; `details` is present only when the
argument is non-empty. -/
structure ThinkingStep where
  id : String
  agentId : String
  agentName : GoBytes
  content : GoBytes
  status : String
  details : Option String
deriving DecidableEq, Repr

/-- `thinkingStep` of supervisor.go. -/
def thinkingStep (id agentID : String) (agentName content : GoBytes)
    (status details : String) : ThinkingStep :=
  { id := id, agentId := agentID, agentName := agentName, content := content,
    status := status, details := if details = "" then none else some details }

/-- `appendOrUpdate` of supervisor.go. -/
def appendOrUpdate : List ThinkingStep → String → ThinkingStep → List ThinkingStep
  | [], _, step => [step]
  | s :: rest, id, step =>
    if s.id = id then step :: rest else s :: appendOrUpdate rest id step

/-- The loop of `gatherThinkingSteps`: `seen` is the set of ids met so far. -/
def gatherLoop : List String → List ThinkingStep → List ThinkingStep
  | _, [] => []
  | seen, s :: rest =>
    if s.id ∈ seen then gatherLoop seen rest
    else s :: gatherLoop (s.id :: seen) rest

/-- `gatherThinkingSteps` of supervisor.go (its `uiMessages` argument is unused). -/
def gatherThinkingSteps (steps : List ThinkingStep) : List ThinkingStep :=
  gatherLoop [] steps

/-! ## Model client types (the part of `genai` the code uses) -/

/-- A `json.RawMessage`: nil, or the JSON document it holds, or the syntax
error `json.Unmarshal` reports for it. -/
inductive RawMessage where
  | nil
  | invalid (err : String)
  | doc (v : GoVal)

/-- The type `genai.FunctionCall` as the code uses it. -/
structure FunctionCall where
  name : String
  id : String
  args : RawMessage

/-- The type `genai.FunctionResponse` as the code uses it. -/
structure FunctionResponse where
  name : String
  id : String
  response : GoVal

/-- The type `genai.Part` as the code uses it: a struct, so several fields can be set. -/
structure Part where
  text : String := ""
  thought : String := ""
  functionCall : Option FunctionCall := none
  functionResponse : Option FunctionResponse := none

/-- The type `genai.Content`. -/
structure Content where
  role : String
  parts : List Part

/-- A candidate of a streamed response; `content` may be nil. -/
structure Candidate where
  content : Option Content

/-- The type `genai.GenerateContentResponse`. -/
structure GenerateContentResponse where
  candidates : List Candidate

/-- One `(resp, err)` pair yielded by `GenerateContentStream`: an error, or a
response that may be nil. -/
abbrev StreamItem := Except String (Option GenerateContentResponse)

/-! ## encoding/json: decoding into a struct -/

/-- Go types of the struct fields the executors decode. -/
inductive FieldKind where
  | string
  | bool
  | float64
  | stringSlice
deriving DecidableEq, Repr

/-- A decoded field value. -/
inductive FieldVal where
  | string (s : String)
  | bool (b : Bool)
  | float64 (mant : Int) (exp : Int)
  | stringSlice (xs : Option (List String))
deriving DecidableEq, Repr

/-- A struct field with its Go name and its `json` tag. -/
structure FieldSpec where
  goName : String
  jsonName : String
  kind : FieldKind
deriving DecidableEq, Repr

/-- A decoded struct: field values by `json` tag. -/
abbrev Struct := List (String × FieldVal)

/-- Zero value of a field. -/
def FieldKind.zero : FieldKind → FieldVal
  | .string => .string ""
  | .bool => .bool false
  | .float64 => .float64 0 0
  | .stringSlice => .stringSlice none

/-- Go type name of a field, as printed in error messages. -/
def FieldKind.goType : FieldKind → String
  | .string => "string"
  | .bool => "bool"
  | .float64 => "float64"
  | .stringSlice => "[]string"

/-- The zero struct. -/
def zeroStruct (fields : List FieldSpec) : Struct :=
  fields.map (fun f => (f.jsonName, f.kind.zero))

/-- Read a string field (zero value when absent). -/
def Struct.str (s : Struct) (name : String) : String :=
  match mapGet s name with
  | some (.string v) => v
  | _ => ""

/-- Read a bool field. -/
def Struct.flag (s : Struct) (name : String) : Bool :=
  match mapGet s name with
  | some (.bool v) => v
  | _ => false

/-- Read a float64 field as mantissa and decimal exponent. -/
def Struct.number (s : Struct) (name : String) : Int × Int :=
  match mapGet s name with
  | some (.float64 m e) => (m, e)
  | _ => (0, 0)

/-- Read a `[]string` field (nil is the empty list). -/
def Struct.strings (s : Struct) (name : String) : List String :=
  match mapGet s name with
  | some (.stringSlice (some xs)) => xs
  | _ => []

/-- Case folding of one character of a key, as `encoding/json` folds names:
ASCII letters to upper case, and the two non-ASCII characters whose fold orbit
holds an ASCII letter. -/
def foldChar (c : Char) : Char :=
  if 'a'.toNat ≤ c.toNat ∧ c.toNat ≤ 'z'.toNat then Char.ofNat (c.toNat - 32)
  else if c.toNat = 0x17f then 'S'
  else if c.toNat = 0x212a then 'K'
  else c

/-- Folded form of a key. -/
def foldName (s : String) : List Char :=
  s.toList.map foldChar

/-- Whether the object key `key` is decoded into the field tagged `name`
when looked up alone: exact match, or equal after folding. -/
def keyMatches (key name : String) : Bool :=
  key == name || foldName key == foldName name

/-- The field an object key is decoded into: exact match first, then the
first field equal after folding. -/
def findKey (names : List String) (key : String) : Option String :=
  match names.find? (fun n => n == key) with
  | some n => some n
  | none => names.find? (fun n => foldName n == foldName key)

/-- The struct field an object key is decoded into. -/
def findField (fields : List FieldSpec) (key : String) : Option FieldSpec :=
  (findKey (fields.map (fun f => f.jsonName)) key).bind
    (fun n => fields.find? (fun f => f.jsonName == n))

/-- The `Value` of an `UnmarshalTypeError` for a JSON value. -/
def jsonKindName : GoVal → String
  | .null => "null"
  | .bool _ => "bool"
  | .num _ _ => "number"
  | .str _ => "string"
  | .list _ => "array"
  | _ => "object"

/-- Whether a JSON number, `mant * 10^exp`, rounds to a finite float64:
its magnitude is below `2^1024 - 2^970`. -/
def fitsFloat64 (mant exp : Int) : Bool :=
  if 0 ≤ exp then decide (mant.natAbs * 10 ^ exp.toNat < 2 ^ 1024 - 2 ^ 970)
  else decide (mant.natAbs < (2 ^ 1024 - 2 ^ 970) * 10 ^ (-exp).toNat)

/-- Text of `UnmarshalTypeError.Error()` for a field of an anonymous struct. -/
def fieldTypeError (value field goType : String) : String :=
  "json: cannot unmarshal " ++ value ++ " into Go struct field ." ++ field ++ " of type " ++ goType

/-- Decode one element of a `[]string`: the element and a type error, if any. -/
def decodeStringElem (field : String) : GoVal → String × Option String
  | .str s => (s, none)
  | .null => ("", none)
  | v => ("", some (fieldTypeError (jsonKindName v) field "string"))

/-- Decode the elements of a `[]string`, keeping the first type error. -/
def decodeStringElems (field : String) : List GoVal → List String × Option String
  | [] => ([], none)
  | v :: rest =>
    let r := decodeStringElem field v
    let rs := decodeStringElems field rest
    (r.1 :: rs.1, r.2 <|> rs.2)

/-- Decode a JSON value into a field: the new field value (the old one is kept
on `null` and on a type error) and the type error, if any. -/
def decodeField (f : FieldSpec) (old : FieldVal) (v : GoVal) : FieldVal × Option String :=
  match f.kind, v with
  | _, .null => (old, none)
  | .string, .str s => (.string s, none)
  | .bool, .bool b => (.bool b, none)
  | .float64, .num m e =>
    if fitsFloat64 m e then (.float64 m e, none)
    else (old, some (fieldTypeError ("number " ++ toString m ++ "e" ++ toString e) f.jsonName "float64"))
  | .stringSlice, .list xs =>
    let r := decodeStringElems f.jsonName xs
    (.stringSlice (some r.1), r.2)
  | k, v => (old, some (fieldTypeError (jsonKindName v) f.jsonName k.goType))

/-- Store a field value. -/
def Struct.set (s : Struct) (name : String) (v : FieldVal) : Struct :=
  s.map (fun kv => if kv.1 == name then (kv.1, v) else kv)

/-- Decode one object entry into the struct; the first error is kept and
decoding goes on. -/
def decodeEntry (fields : List FieldSpec) (acc : Struct × Option String)
    (kv : String × GoVal) : Struct × Option String :=
  match findField fields kv.1 with
  | none => acc
  | some f =>
    let old := (mapGet acc.1 f.jsonName).getD f.kind.zero
    let r := decodeField f old kv.2
    (acc.1.set f.jsonName r.1, acc.2 <|> r.2)

/-- The printed Go type of an anonymous struct (braces written as escapes). -/
def structTypeName (fields : List FieldSpec) : String :=
  "struct \x7b " ++ "; ".intercalate (fields.map (fun f =>
    f.goName ++ " " ++ f.kind.goType ++ " \"json:\\\"" ++ f.jsonName ++ "\\\"\"")) ++ " \x7d"

/-- The call `json.Unmarshal(args, &inp)` for a struct `inp` with the given fields:
the struct after the call and the returned error. -/
def unmarshalStruct (fields : List FieldSpec) (args : RawMessage) : Struct × Option String :=
  match args with
  | .nil => (zeroStruct fields, some "unexpected end of JSON input")
  | .invalid e => (zeroStruct fields, some e)
  | .doc .null => (zeroStruct fields, none)
  | .doc (.obj kvs) => kvs.foldl (decodeEntry fields) (zeroStruct fields, none)
  | .doc v => (zeroStruct fields,
      some ("json: cannot unmarshal " ++ jsonKindName v ++ " into Go value of type " ++
        structTypeName fields))

/-- The call `json.Unmarshal(args, &m)` for a nil `m` of type `map[string]any`:
the map after the call (`none` is the nil map) and the returned error. -/
def unmarshalMap (args : RawMessage) : Option (List (String × GoVal)) × Option String :=
  match args with
  | .nil => (none, some "unexpected end of JSON input")
  | .invalid e => (none, some e)
  | .doc .null => (none, none)
  | .doc (.obj kvs) => (some kvs, none)
  | .doc v => (none,
      some ("json: cannot unmarshal " ++ jsonKindName v ++
        " into Go value of type map[string]interface \x7b\x7d"))

/-! ## Stores and collaborators -/

/-- The type `store.TodoItem`. -/
structure TodoItem where
  id : String
  title : String
  dueAt : String
  priority : String
  completed : Bool
  createdAt : Nat
deriving DecidableEq, Repr

/-- The payload of one `generate_chart` call: a `map[string]any`, `none` when nil. -/
abbrev ChartArgs := Option (List (String × GoVal))

/-- The assistant message map assembled by `RunSupervisor`; the `charts` and
`writtenFiles` keys are present only when the lists are non-empty. -/
structure AssistantMsg where
  id : String
  content : String
  thinkingSteps : List ThinkingStep
  charts : Option (List ChartArgs)
  writtenFiles : Option (List String)

/-- An entry of the UI message list: a value found in the session, or one of
the two maps `RunSupervisor` builds. -/
inductive UIMsg where
  | raw (v : GoVal)
  | user (id : String) (content : String)
  | assistant (m : AssistantMsg)

/-- Modelled from the spec: the session state record of the session store
(`store.AgentSessionState`; the session store is not among the sources).  The
two lists may be nil. -/
structure AgentSessionState where
  sessionID : String
  title : String
  geminiHistory : Option (List GoVal)
  uiMessages : Option (List UIMsg)
  vfs : GoVal
  knowledgeChunks : List GoVal

/-- The state of the collaborators a request can change: the session store,
the todo file (or the error reading it gives) and the number of clock
readings and sub-model calls made so far. -/
structure World where
  sessions : String → Option AgentSessionState
  todos : Except String (List TodoItem)
  tick : Nat

/-- The collaborators: model client, clock, random source, formatting and
library functions, the prompt package, and the allocation bound of the
runtime (`maxChunkCap`: the largest capacity with which
`make([]store.KnowledgeChunk, 0, cap)` returns). -/
structure Env where
  clientErr : Option String
  generate : Nat → List Content → List StreamItem
  fcTime : Nat → Nat
  fcRand : Nat → Nat
  userMsgTime : Nat
  assistantMsgTime : Nat
  sprintV : GoVal → String
  defaultVFS : GoVal
  nowRFC3339 : Nat → String
  nowMilli : Nat → Nat
  nowNano : Nat → Nat
  todoSaveErr : Option String
  vfsWrite : GoVal → String → String → String → Bool → GoVal
  rankChunks : String → Int × Int → List GoVal → List GoVal
  maxChunkCap : Nat
  subStream : Nat → Option String → String → List StreamItem
  subGenerate : Nat → String → Except String String
  parseJSON : String → RawMessage
  stripFences : String → String
  quote : String → String
  analyzeRequirementsPrompt : String → String → String → String
  selfReflectPrompt : String → String → String
  proposePlanSystem : String → String
  proposePlanUser : String → String

/-- Modelled from the spec: `SessionStore.GetSession`, state or not-found. -/
def getSession (w : World) (id : String) : Option AgentSessionState :=
  w.sessions id

/-- Modelled from the spec: `SessionStore.SaveSession`. -/
def saveSession (w : World) (id : String) (st : AgentSessionState) : World :=
  { w with sessions := fun k => if k = id then some st else w.sessions k }

/-- Modelled from the spec: `SessionStore.UpdateSession` with the two fields
`RunSupervisor` passes; a session that does not exist is not created. -/
def updateSession (w : World) (id : String) (history : List GoVal)
    (uiMessages : List UIMsg) : World :=
  match w.sessions id with
  | none => w
  | some st => saveSession w id
      { st with geminiHistory := some history, uiMessages := some uiMessages }

/-- Modelled from the spec: `SessionStore.UpdateVFS`, which touches the
virtual file system of the session only. -/
def updateVFS (env : Env) (w : World) (id path content language : String)
    (streaming : Bool) : World :=
  match w.sessions id with
  | none => w
  | some st => saveSession w id
      { st with vfs := env.vfsWrite st.vfs path content language streaming }

/-- Modelled from the spec: `SessionStore.GetKnowledgeChunks`. -/
def getKnowledgeChunks (w : World) (id : String) : Except String (List GoVal) :=
  match w.sessions id with
  | none => .error "session not found"
  | some st => .ok st.knowledgeChunks

/-- `fmt.Sprintf("%05x", n)`. -/
def hexPad5 (n : Nat) : String :=
  let d := Nat.toDigits 16 n
  String.mk (List.replicate (5 - d.length) '0' ++ d)

/-- `TodoStore.List`. -/
def todoList (w : World) (includeCompleted : Bool) : Except String (List TodoItem) :=
  match w.todos with
  | .error e => .error e
  | .ok items =>
    if !includeCompleted then .ok (items.filter (fun it => !it.completed))
    else .ok items

/-- `TodoStore.save`: the file after the call and the error. -/
def todoSave (env : Env) (w : World) (items : List TodoItem) : World × Option String :=
  match env.todoSaveErr with
  | some e => (w, some e)
  | none => ({ w with todos := .ok items }, none)

/-- `TodoStore.Add`; the id and the creation time read the clock three times. -/
def todoAdd (env : Env) (w : World) (title dueAt priority : String) :
    (TodoItem × Option String) × World :=
  match w.todos with
  | .error e => ((⟨"", "", "", "", false, 0⟩, some e), w)
  | .ok items =>
    let item : TodoItem :=
      ⟨"todo_" ++ hexString (env.nowMilli w.tick) ++
          hexPad5 (env.nowNano (w.tick + 1) % 0x100000),
        title, dueAt, priority, false, env.nowMilli (w.tick + 2)⟩
    let r := todoSave env { w with tick := w.tick + 3 } (items ++ [item])
    ((item, r.2), r.1)

/-- The loop of `TodoStore.Complete`: the list with the first item of that id
marked, when there is one. -/
def markCompleted (id : String) : List TodoItem → Option (List TodoItem)
  | [] => none
  | it :: rest =>
    if it.id = id then some ({ it with completed := true } :: rest)
    else (markCompleted id rest).map (fun r => it :: r)

/-- `TodoStore.Complete`. -/
def todoComplete (env : Env) (w : World) (id : String) : (Bool × Option String) × World :=
  match w.todos with
  | .error e => ((false, some e), w)
  | .ok items =>
    match markCompleted id items with
    | none => ((false, none), w)
    | some items' =>
      let r := todoSave env w items'
      ((true, r.2), r.1)

/-! ## Builtin tools (registry/builtin/builtin.go) -/

/-- The type `builtin.ExecutorContext`: the session id, whether the model
client and the progress callback are non-nil; the stores are in the `World`. -/
structure ExecutorContext where
  sessionID : String
  hasClient : Bool
  hasProgress : Bool

/-- What an executor returns: the result (`GoVal.null` is nil) and the error. -/
abbrev ExecResult := GoVal × Option String

/-- How a call of an executor ends: the result and the error it returns and
the world after the call; when the call panics instead of returning, `panic`
holds the text of the panic value, and the result and the error are nil. -/
structure ExecOutcome where
  result : ExecResult
  world : World
  panic : Option String := none

/-- A call that returns. -/
abbrev ExecOutcome.returns (p : ExecResult × World) : ExecOutcome :=
  { result := p.1, world := p.2 }

/-- The type `builtin.ToolExecutor`, with the world passed explicitly. -/
abbrev ToolExecutor := Env → ExecutorContext → RawMessage → World → ExecOutcome

/-- `errMissingArg.Error`. -/
def errMissingArg (e : String) : String :=
  "missing required argument: " ++ e

/-- A `store.TodoItem` as a value. -/
def TodoItem.toVal (it : TodoItem) : GoVal :=
  .obj [("id", .str it.id), ("title", .str it.title), ("dueAt", .str it.dueAt),
    ("priority", .str it.priority), ("completed", .bool it.completed),
    ("createdAt", .num it.createdAt 0)]

/-- `executeGetCurrentDate`. -/
def executeGetCurrentDate : ToolExecutor := fun env _ _ w => ExecOutcome.returns <|
  ((.strMap [("iso", env.nowRFC3339 w.tick)], none), { w with tick := w.tick + 1 })

/-- Argument struct of `executeCreateTodo`. -/
def createTodoFields : List FieldSpec :=
  [⟨"Title", "title", .string⟩, ⟨"DueAt", "dueAt", .string⟩, ⟨"Priority", "priority", .string⟩]

/-- `executeCreateTodo`. -/
def executeCreateTodo : ToolExecutor := fun env _ args w => ExecOutcome.returns <|
  let d := unmarshalStruct createTodoFields args
  match d.2 with
  | some err => ((.null, some err), w)
  | none =>
    let inp := d.1
    if inp.str "title" = "" then ((.null, some (errMissingArg "title")), w)
    else
      let r := todoAdd env w (inp.str "title") (inp.str "dueAt") (inp.str "priority")
      match r.1.2 with
      | some err => ((.null, some err), r.2)
      | none =>
        ((.obj [("status", .str "CREATED"), ("id", .str r.1.1.id),
          ("title", .str r.1.1.title)], none), r.2)

/-- Argument struct of `executeListTodos`. -/
def listTodosFields : List FieldSpec :=
  [⟨"IncludeCompleted", "includeCompleted", .bool⟩]

/-- `executeListTodos`; the decoding error is dropped. -/
def executeListTodos : ToolExecutor := fun _ _ args w => ExecOutcome.returns <|
  let inp := (unmarshalStruct listTodosFields args).1
  match todoList w (inp.flag "includeCompleted") with
  | .error err => ((.null, some err), w)
  | .ok items =>
    ((.obj [("todos", .list (items.map TodoItem.toVal)), ("count", .num items.length 0)],
      none), w)

/-- Argument struct of `executeCompleteTodo`. -/
def completeTodoFields : List FieldSpec :=
  [⟨"ID", "id", .string⟩]

/-- `executeCompleteTodo`. -/
def executeCompleteTodo : ToolExecutor := fun env _ args w => ExecOutcome.returns <|
  let d := unmarshalStruct completeTodoFields args
  match d.2 with
  | some err => ((.null, some err), w)
  | none =>
    let inp := d.1
    if inp.str "id" = "" then ((.null, some (errMissingArg "id")), w)
    else
      let r := todoComplete env w (inp.str "id")
      match r.1.2 with
      | some err => ((.null, some err), r.2)
      | none =>
        if r.1.1 then
          ((.obj [("status", .str "COMPLETED"), ("id", .str (inp.str "id"))], none), r.2)
        else
          ((.obj [("status", .str "NOT_FOUND"), ("id", .str (inp.str "id"))], none), r.2)

/-- Argument struct of `executeSearchKnowledge`. -/
def searchKnowledgeFields : List FieldSpec :=
  [⟨"Query", "query", .string⟩, ⟨"Limit", "limit", .float64⟩]

/-- The integer nearest to `n / d`, ties to the even one (`d` is positive). -/
def roundHalfEven (n d : Nat) : Nat :=
  if d < 2 * (n % d) ∨ (2 * (n % d) = d ∧ (n / d) % 2 = 1) then n / d + 1 else n / d

/-- The binary logarithm of a positive number, rounded down: the number of
halvings that bring it below 2. -/
def log2Floor : Nat → Nat → Nat
  | 0, _ => 0
  | fuel + 1, n => if 2 ≤ n then log2Floor fuel (n / 2) + 1 else 0

/-- The integer part of the float64 nearest to the positive rational `n / d`
(53 bits, round to nearest, ties to even).  Below 1 the float64 is 1 when
`n / d` is at least `1 - 2^-54`, and less than 1 otherwise; from 1 on, with
`b` the binary exponent of `n / d`, the float64 is a multiple of
`2^(b - 52)`. -/
def float64Trunc (n d : Nat) : Nat :=
  if n < d then (if d * (2 ^ 54 - 1) ≤ n * 2 ^ 54 then 1 else 0)
  else
    let b := log2Floor 1024 (n / d)
    if b ≤ 52 then roundHalfEven (n * 2 ^ (52 - b)) d / 2 ^ (52 - b)
    else roundHalfEven n (d * 2 ^ (b - 52)) * 2 ^ (b - 52)

/-- The conversion `int(f)` of a non-negative float64 with integer part `t`,
`int` being 64 bits wide: `t` when it is below `2^63`.  For a larger `t` the
language leaves the result to the implementation; amd64 gives the smallest
`int`, which is the value taken here (arm64 gives the largest `int`; `make`
panics on either). -/
def goInt (t : Nat) : Int :=
  if t < 2 ^ 63 then (t : Int) else -(2 ^ 63 : Int)

/-- Lines 122-126 of builtin.go: `limit` is 5, or `int(inp.Limit)` when
`inp.Limit > 0`.  The field holds the float64 nearest to `mant * 10^exp`,
which is positive when `mant` is and the number is above `2^-1075`. -/
def searchLimit (limit : Int × Int) : Int :=
  let n : Nat := if 0 ≤ limit.2 then limit.1.toNat * 10 ^ limit.2.toNat else limit.1.toNat
  let d : Nat := if 0 ≤ limit.2 then 1 else 10 ^ (-limit.2).toNat
  if 0 < limit.1 ∧ d < n * 2 ^ 1075 then goInt (float64Trunc n d) else 5

/-- Whether `make([]store.KnowledgeChunk, 0, cap)` panics (line 163):
`makeslice` panics for a negative capacity and for one the runtime does not
allocate; `maxCap` is the largest capacity it does allocate. -/
def makeslicePanics (maxCap : Nat) (cap : Int) : Bool :=
  decide (cap < 0 ∨ (maxCap : Int) < cap)

/-- `executeSearchKnowledge`.  With a non-empty knowledge base the executor
gets to `make([]store.KnowledgeChunk, 0, limit)`, which panics when `limit`
is out of range; otherwise the scoring, the sorting and the cut to `limit` of
the chunks is the collaborator `rankChunks`. -/
def executeSearchKnowledge : ToolExecutor := fun env ctx args w =>
  let d := unmarshalStruct searchKnowledgeFields args
  match d.2 with
  | some err => .returns ((.null, some err), w)
  | none =>
    let inp := d.1
    if inp.str "query" = "" then .returns ((.null, some (errMissingArg "query")), w)
    else
      let limit := searchLimit (inp.number "limit")
      match getKnowledgeChunks w ctx.sessionID with
      | .error _ =>
        .returns ((.obj [("matches", .list []),
          ("message", .str "知识库为空，请先在语义切片引擎中导入分块。")], none), w)
      | .ok chunks =>
        if chunks.length = 0 then
          .returns ((.obj [("matches", .list []),
            ("message", .str "知识库为空，请先在语义切片引擎中导入分块。")], none), w)
        else if makeslicePanics env.maxChunkCap limit then
          { result := (.null, none), world := w,
            panic := some "runtime error: makeslice: cap out of range" }
        else
          .returns ((.obj [("matches",
              .list (env.rankChunks (inp.str "query") (inp.number "limit") chunks)),
            ("total", .num chunks.length 0)], none), w)

/-- Argument struct of `executeReportStepDone`. -/
def reportStepDoneFields : List FieldSpec :=
  [⟨"StepID", "stepId", .string⟩]

/-- `executeReportStepDone`. -/
def executeReportStepDone : ToolExecutor := fun _ _ args w => ExecOutcome.returns <|
  let d := unmarshalStruct reportStepDoneFields args
  match d.2 with
  | some err => ((.null, some err), w)
  | none => ((.obj [("status", .str "OK"), ("stepId", .str (d.1.str "stepId"))], none), w)

/-- Argument struct of `executeWriteFile`. -/
def writeFileFields : List FieldSpec :=
  [⟨"Path", "path", .string⟩, ⟨"Content", "content", .string⟩,
   ⟨"ContentChunks", "contentChunks", .stringSlice⟩, ⟨"Language", "language", .string⟩]

/-- The chunk loop of `executeWriteFile`: the accumulated content and the
world after the streaming writes. -/
def writeChunks (env : Env) (id path language : String) :
    List String → String → World → String × World
  | [], acc, w => (acc, w)
  | ch :: rest, acc, w =>
    writeChunks env id path language rest (acc ++ ch)
      (updateVFS env w id path (acc ++ ch) language true)

/-- `executeWriteFile`; the progress callback has no effect on the result. -/
def executeWriteFile : ToolExecutor := fun env ctx args w => ExecOutcome.returns <|
  let d := unmarshalStruct writeFileFields args
  match d.2 with
  | some err => ((.null, some err), w)
  | none =>
    let inp := d.1
    if inp.str "path" = "" ∨ inp.str "language" = "" then
      ((.null, some (errMissingArg "path or language")), w)
    else
      let chunks :=
        if (inp.strings "contentChunks").length = 0 ∧ inp.str "content" ≠ "" then
          [inp.str "content"]
        else inp.strings "contentChunks"
      let w1 := updateVFS env w ctx.sessionID (inp.str "path") "" (inp.str "language") true
      let r := writeChunks env ctx.sessionID (inp.str "path") (inp.str "language") chunks "" w1
      let w2 := updateVFS env r.2 ctx.sessionID (inp.str "path") r.1 (inp.str "language") false
      ((.obj [("status", .str "SUCCESS"), ("path", .str (inp.str "path"))], none), w2)

/-- A `map[string]any` held in an interface: the nil map is a non-nil
interface value, shown here as the empty object. -/
def mapResult : Option (List (String × GoVal)) → GoVal
  | none => .obj []
  | some kvs => .obj kvs

/-- `executeGenerateChart`. -/
def executeGenerateChart : ToolExecutor := fun _ _ args w => ExecOutcome.returns <|
  let d := unmarshalMap args
  match d.2 with
  | some err => ((.null, some err), w)
  | none => ((mapResult d.1, none), w)

/-- Number of matches of the regular expression `\d+`: the maximal runs of
ASCII digits. -/
def countDigitRuns : List Char → Bool → Nat
  | [], _ => 0
  | c :: rest, inRun =>
    if c.isDigit then (if inRun then 0 else 1) + countDigitRuns rest true
    else countDigitRuns rest false

/-- Argument struct of `executeAnalyzeData`. -/
def analyzeDataFields : List FieldSpec :=
  [⟨"Data", "data", .string⟩, ⟨"Query", "query", .string⟩]

/-- `executeAnalyzeData`. -/
def executeAnalyzeData : ToolExecutor := fun env _ args w => ExecOutcome.returns <|
  let d := unmarshalStruct analyzeDataFields args
  match d.2 with
  | some err => ((.null, some err), w)
  | none =>
    let inp := d.1
    if inp.str "data" = "" ∨ inp.str "query" = "" then
      ((.null, some (errMissingArg "data or query")), w)
    else
      let data := inp.str "data"
      let query := inp.str "query"
      let digits := countDigitRuns data.toList false
      let findings : GoVal := .obj
        [("summary", .str ("基于 " ++ toString (goLen data) ++ " 字符的数据，针对查询 " ++
            env.quote query ++ " 的分析结果")),
         ("insights", .list
            [.str ("数据规模：" ++ toString (goLen data) ++ " 字符"),
             .str ("查询焦点：" ++ query),
             .str ("关键发现：数据中包含 " ++ toString digits ++ " 个数字")]),
         ("recommendations", .list [.str "建议进一步分析数据趋势", .str "考虑数据可视化展示"]),
         ("timestamp", .str (env.nowRFC3339 w.tick))]
      ((.obj [("findings", findings), ("status", .str "COMPLETED")], none),
        { w with tick := w.tick + 1 })

/-- The text parts of one streamed response, as the sub-model loops read them. -/
def responseText : Option GenerateContentResponse → String
  | none => ""
  | some resp =>
    match resp.candidates with
    | [] => ""
    | cand :: _ =>
      match cand.content with
      | none => ""
      | some c => String.join (c.parts.map (fun p => p.text))

/-- The sub-model loops of the tools: the concatenated text, or the first error. -/
def collectText : List StreamItem → String → Except String String
  | [], acc => .ok acc
  | .error e :: _, _ => .error e
  | .ok resp :: rest, acc => collectText rest (acc ++ responseText resp)

/-- Argument struct of `executeAnalyzeRequirements`. -/
def analyzeRequirementsFields : List FieldSpec :=
  [⟨"Context", "context", .string⟩, ⟨"Domain", "domain", .string⟩]

/-- `executeAnalyzeRequirements`. -/
def executeAnalyzeRequirements : ToolExecutor := fun env ctx args w => ExecOutcome.returns <|
  if !ctx.hasClient then ((.obj [("error", .str "Gemini client not configured")], none), w)
  else
    let d := unmarshalStruct analyzeRequirementsFields args
    match d.2 with
    | some err => ((.null, some err), w)
    | none =>
      let inp := d.1
      if inp.str "context" = "" ∨ inp.str "domain" = "" then
        ((.null, some (errMissingArg "context or domain")), w)
      else
        let prompt := env.analyzeRequirementsPrompt (inp.str "context") (inp.str "domain") "智能编排"
        let w1 := { w with tick := w.tick + 1 }
        match collectText (env.subStream w.tick none prompt) "" with
        | .error e => ((.obj [("error", .str e)], none), w1)
        | .ok fullText =>
          ((.obj [("analysis", .str fullText), ("status", .str "COMPLETED")], none), w1)

/-- Argument struct of `executeSelfReflect`. -/
def selfReflectFields : List FieldSpec :=
  [⟨"OutputSummary", "outputSummary", .string⟩, ⟨"UserRequest", "userRequest", .string⟩]

/-- `executeSelfReflect`. -/
def executeSelfReflect : ToolExecutor := fun env ctx args w => ExecOutcome.returns <|
  if !ctx.hasClient then ((.obj [("error", .str "Gemini client not configured")], none), w)
  else
    let d := unmarshalStruct selfReflectFields args
    match d.2 with
    | some err => ((.null, some err), w)
    | none =>
      let inp := d.1
      if inp.str "outputSummary" = "" ∨ inp.str "userRequest" = "" then
        ((.null, some (errMissingArg "outputSummary or userRequest")), w)
      else
        let prompt := env.selfReflectPrompt (inp.str "outputSummary") (inp.str "userRequest")
        let w1 := { w with tick := w.tick + 1 }
        match env.subGenerate w.tick prompt with
        | .error e => ((.obj [("error", .str e)], none), w1)
        | .ok text =>
          let r := unmarshalMap (env.parseJSON text)
          match r.2 with
          | some _ => ((.obj [("error", .str "invalid JSON")], none), w1)
          | none => ((mapResult r.1, none), w1)

/-- Element struct of the `steps` of a parsed plan. -/
def planStepFields : List FieldSpec :=
  [⟨"ID", "id", .string⟩, ⟨"Task", "task", .string⟩,
   ⟨"RequiresApproval", "requiresApproval", .bool⟩, ⟨"Parallel", "parallel", .bool⟩]

/-- The struct `parsed` of `executeProposePlan`. -/
structure ParsedPlan where
  title : String
  steps : List Struct

/-- Decode the elements of `steps`: each is an object or null. -/
def decodePlanSteps : List GoVal → List Struct × Option String
  | [] => ([], none)
  | v :: rest =>
    let r : Struct × Option String :=
      match v with
      | .null => (zeroStruct planStepFields, none)
      | .obj kvs => unmarshalStruct planStepFields (.doc (.obj kvs))
      | other => (zeroStruct planStepFields,
          some (fieldTypeError (jsonKindName other) "steps" (structTypeName planStepFields)))
    let rs := decodePlanSteps rest
    (r.1 :: rs.1, r.2 <|> rs.2)

/-- Decode one entry of the plan object. -/
def decodePlanEntry (acc : ParsedPlan × Option String) (kv : String × GoVal) :
    ParsedPlan × Option String :=
  match findKey ["title", "steps"] kv.1 with
  | none => acc
  | some name =>
    if name = "title" then
      match kv.2 with
      | .null => acc
      | .str s => ({ acc.1 with title := s }, acc.2)
      | v => (acc.1, acc.2 <|> some (fieldTypeError (jsonKindName v) "title" "string"))
    else
      match kv.2 with
      | .null => ({ acc.1 with steps := [] }, acc.2)
      | .list xs =>
        let r := decodePlanSteps xs
        ({ acc.1 with steps := r.1 }, acc.2 <|> r.2)
      | v => (acc.1, acc.2 <|> some (fieldTypeError (jsonKindName v) "steps" "[]struct"))

/-- The call `json.Unmarshal([]byte(rawJSON), &parsed)` of `executeProposePlan`. -/
def unmarshalPlan (r : RawMessage) : ParsedPlan × Option String :=
  match r with
  | .nil => ({ title := "", steps := [] }, some "unexpected end of JSON input")
  | .invalid e => ({ title := "", steps := [] }, some e)
  | .doc .null => ({ title := "", steps := [] }, none)
  | .doc (.obj kvs) => kvs.foldl decodePlanEntry ({ title := "", steps := [] }, none)
  | .doc v => ({ title := "", steps := [] },
      some ("json: cannot unmarshal " ++ jsonKindName v ++ " into Go value of type struct"))

/-- The step maps built by `executeProposePlan`; `i` is the index of the first step. -/
def planStepVals : Nat → List Struct → List GoVal
  | _, [] => []
  | i, s :: rest =>
    let id := if s.str "id" = "" then "step-" ++ toString (i + 1) else s.str "id"
    GoVal.obj [("id", .str id), ("task", .str (s.str "task")),
      ("requiresApproval", .bool (s.flag "requiresApproval")),
      ("parallel", .bool (s.flag "parallel")),
      ("status", .str "pending"), ("approved", .bool true),
      ("isAutoApproved", .bool (!(s.flag "requiresApproval")))] :: planStepVals (i + 1) rest

/-- Argument struct of `executeProposePlan`. -/
def proposePlanFields : List FieldSpec :=
  [⟨"UserRequest", "userRequest", .string⟩, ⟨"Industry", "industry", .string⟩]

/-- `executeProposePlan`; removing the code fences with the regular
expression is the collaborator `stripFences`, and reading the JSON text is
`parseJSON`. -/
def executeProposePlan : ToolExecutor := fun env ctx args w => ExecOutcome.returns <|
  if !ctx.hasClient then ((.obj [("error", .str "Gemini client not configured")], none), w)
  else
    let d := unmarshalStruct proposePlanFields args
    match d.2 with
    | some err => ((.null, some err), w)
    | none =>
      let inp := d.1
      let industry := if inp.str "industry" = "" then "通用" else inp.str "industry"
      let sysInst := env.proposePlanSystem industry
      let userText := env.proposePlanUser (inp.str "userRequest")
      let w1 := { w with tick := w.tick + 1 }
      match collectText (env.subStream w.tick (some sysInst) userText) "" with
      | .error e => ((.obj [("error", .str e)], none), w1)
      | .ok fullText =>
        let rawJSON := trimSpace (env.stripFences fullText)
        let p := unmarshalPlan (env.parseJSON rawJSON)
        match p.2 with
        | some _ =>
          ((.obj [("error", .str "子代理未能生成有效计划"), ("raw", .str fullText)], none), w1)
        | none =>
          let plan : GoVal := .obj [("title", .str p.1.title),
            ("steps", .list (planStepVals 0 p.1.steps)), ("isApproved", .bool false)]
          ((.obj [("plan", plan), ("status", .str "PLAN_PROPOSED")], none), w1)

/-- The table `executors`, in the order of the source. -/
def executors : List (String × ToolExecutor) :=
  [("get_current_date", executeGetCurrentDate),
   ("create_todo", executeCreateTodo),
   ("list_todos", executeListTodos),
   ("complete_todo", executeCompleteTodo),
   ("search_knowledge", executeSearchKnowledge),
   ("report_step_done", executeReportStepDone),
   ("write_file", executeWriteFile),
   ("generate_chart", executeGenerateChart),
   ("propose_plan", executeProposePlan),
   ("analyze_data", executeAnalyzeData),
   ("analyze_requirements", executeAnalyzeRequirements),
   ("self_reflect", executeSelfReflect)]

/-- `GetExecutor`. -/
def GetExecutor (name : String) : Option ToolExecutor :=
  mapGet executors name

/-- The fields of `genai.FunctionDeclaration` the code reads, with the
property names and the `Required` list of its parameter schema. -/
structure FunctionDeclaration where
  name : String
  description : String
  properties : List String
  required : List String
deriving DecidableEq, Repr

/-- `Definitions` of builtin.go. -/
def Definitions : List FunctionDeclaration :=
  [⟨"get_current_date", "获取当前系统时间（ISO 8601）。用于需要时间上下文的任务。", [], []⟩,
   ⟨"create_todo",
    "创建待办事项。参数：title、dueAt（可选，ISO 日期）、priority（可选：low/medium/high）。",
    ["title", "dueAt", "priority"], ["title"]⟩,
   ⟨"list_todos", "列出待办事项。includeCompleted 为 true 时包含已完成。",
    ["includeCompleted"], []⟩,
   ⟨"complete_todo", "将指定 ID 的待办标为已完成。", ["id"], ["id"]⟩,
   ⟨"search_knowledge",
    "从当前会话知识库检索相关分块。用于文档、长文本相关问题时获取上下文。若知识库为空则返回空结果。",
    ["query", "limit"], ["query"]⟩,
   ⟨"report_step_done",
    "计划执行时，每完成一个步骤后调用，传入该步骤的 id（如 step-1）。用于更新计划进度。",
    ["stepId"], ["stepId"]⟩,
   ⟨"write_file",
    "写入虚拟文件系统(VFS)。支持流式内容。多步骤任务须在 propose_plan 获批准后再调用；单步简单任务可直接调用。",
    ["path", "content", "contentChunks", "language"], ["path", "language"]⟩,
   ⟨"generate_chart",
    "生成数据可视化图表。支持柱状图(bar)、饼图(pie)、折线图(line)。需提供 labels 与 datasets。",
    ["type", "title", "labels", "datasets"], ["type", "title", "labels", "datasets"]⟩,
   ⟨"propose_plan",
    "当需求为多步骤时调用。传入用户请求摘要，由子代理生成执行计划并等待用户批准。单步请求勿调用。",
    ["userRequest", "industry"], ["userRequest"]⟩,
   ⟨"analyze_data",
    "分析数据并回答查询。接受数据字符串和查询问题，返回包含发现的 JSON 对象。",
    ["data", "query"], ["data", "query"]⟩,
   ⟨"analyze_requirements",
    "对复杂需求做精简分析：意图、实现路径、是否需 plan。输出流式返回。",
    ["context", "domain"], ["context", "domain"]⟩,
   ⟨"self_reflect",
    "对当前输出做自检，返回供 Agent 自行改进的要点。写操作或多步骤任务执行后可调用。",
    ["outputSummary", "userRequest"], ["outputSummary", "userRequest"]⟩]

/-- The label `toolLabel` computes from a description: the text before the
first of the four delimiters, trimmed, cut to 33 bytes plus "..." when longer
than 36 bytes. -/
def labelOf (description : String) : GoBytes :=
  let first := String.mk (description.toList.takeWhile (fun c => !("。；.;".toList.contains c)))
  let first := trimSpace first
  if goLen first > 36 then cutWithDots first 33 else goBytes first

/-- The loop of `toolLabel` over a list of definitions. -/
def toolLabelIn (defs : List FunctionDeclaration) (name : String) : GoBytes :=
  match defs.find? (fun d => d.name == name && d.description != "") with
  | some d => labelOf d.description
  | none => goBytes name

/-- `toolLabel` of supervisor.go. -/
def toolLabel (name : String) : GoBytes :=
  toolLabelIn Definitions name

/-! ## Registry (registry/registry.go) -/

/-- The type `registry.ToolDef`; the definition pointer may be nil. -/
structure ToolDef where
  definition : Option FunctionDeclaration
  blocking : Bool
deriving DecidableEq, Repr

/-- The map `Registry.tools`: entries with pairwise distinct keys, kept in
the order of first registration. -/
abbrev Registry := List (String × ToolDef)

/-- `registry.New`. -/
def Registry.New : Registry := []

/-- `Registry.Register`: `r.tools[id] = &ToolDef...`. -/
def Registry.Register : Registry → String → Option FunctionDeclaration → Bool → Registry
  | [], id, d, b => [(id, ⟨d, b⟩)]
  | (k, t) :: rest, id, d, b =>
    if k = id then (id, ⟨d, b⟩) :: rest
    else (k, t) :: Registry.Register rest id d b

/-- `Registry.GetDefinitions`. -/
def Registry.GetDefinitions (r : Registry) : List FunctionDeclaration :=
  r.filterMap (fun kt => kt.2.definition)

/-- `Registry.GetIDs`. -/
def Registry.GetIDs (r : Registry) : List String :=
  r.map (fun kt => kt.1)

/-- `Registry.GetTool`. -/
def Registry.GetTool (r : Registry) (id : String) : Option FunctionDeclaration × Bool × Bool :=
  match r.find? (fun kt => kt.1 == id) with
  | none => (none, false, false)
  | some kt =>
    match kt.2.definition with
    | none => (none, false, false)
    | some d => (some d, kt.2.blocking, true)

/-- `Registry.GetDefinitionsEnabled`; `isEnabled` may be nil. -/
def Registry.GetDefinitionsEnabled (r : Registry) (isEnabled : Option (String → Bool)) :
    List FunctionDeclaration :=
  r.filterMap (fun kt =>
    match kt.2.definition with
    | none => none
    | some d =>
      match isEnabled with
      | none => some d
      | some p => if p kt.1 then some d else none)

/-- `Registry.GetBlockingIDs`: the keys of the returned map. -/
def Registry.GetBlockingIDs (r : Registry) : List String :=
  (r.filter (fun kt => kt.2.blocking)).map (fun kt => kt.1)

/-- The type `registry.ExecuteRequest`, without the store handles. -/
structure ExecuteRequest where
  sessionID : String
  hasClient : Bool
  hasProgress : Bool

/-- `Registry.Execute`: the executor is looked up in the builtin table, not
in the registry. -/
def Registry.Execute (_r : Registry) (env : Env) (req : ExecuteRequest) (name : String)
    (args : RawMessage) (w : World) : ExecOutcome :=
  match GetExecutor name with
  | none => .returns ((.null, none), w)
  | some exec => exec env ⟨req.sessionID, req.hasClient, req.hasProgress⟩ args w

/-- `RegisterBuiltinTools` of setup.go. -/
def RegisterBuiltinTools (reg : Registry) : Registry :=
  Definitions.foldl (fun r d =>
    r.Register d.name (some d) (d.name == "propose_plan" || d.name == "analyze_requirements"))
    reg

/-! ## Supervisor loop (agent/supervisor.go) -/

/-- The actions of `RunSupervisor` that are visible outside it, recorded in order. -/
inductive Event where
  | generateStream (loopCount : Nat) (contents : List Content)
      (tools : List FunctionDeclaration)
  | onThinking (step : ThinkingStep)
  | onText (content : String)
  | onPlanProposed (plan : List (String × GoVal))
  | onChartData (data : ChartArgs)
  | onFilesWritten (paths : List String)
  | onPlanStepUpdate (msgID : String) (stepID : String) (status : String)
  | execute (call : FunctionCall)
  | saveSession (id : String)
  | updateSession (id : String) (history : List GoVal) (uiMessages : List UIMsg)

/-- The type `Callbacks`: which observers are non-nil. -/
structure Callbacks where
  onThinking : Bool
  onText : Bool
  onPlanProposed : Bool
  onChartData : Bool
  onFilesWritten : Bool
  onPlanStepUpdate : Bool
  onToast : Bool

/-- The resume parameters; `resumePlan` is an interface value, `none` when nil. -/
structure Params where
  resumePlan : Option GoVal
  isApprovalConfirmed : Bool
  planMsgID : String

/-- The type `SupervisorOptions`. -/
structure SupervisorOptions where
  industry : String
  mode : String

/-- The type `SupervisorDeps`; the stores are in the `World`, and `toolEnable`
is the `GetEnabled` method of the optional enable store. -/
structure SupervisorDeps where
  registry : Registry
  toolEnable : Option (String → Bool)

/-- A callback invocation guarded by `if cb.X != nil`. -/
def emit (present : Bool) (e : Event) : List Event :=
  if present then [e] else []

/-- The thinking step of a thought segment:
`thinkingStep(thoughtStepID, "supervisor", "Supervisor", thoughtSummary(currentThought, 120), status, currentThought)`. -/
def thoughtStep (thoughtStepID status currentThought : String) : ThinkingStep :=
  thinkingStep thoughtStepID "supervisor" (goBytes "Supervisor")
    (thoughtSummary currentThought 120) status currentThought

/-- The variables of one iteration that the stream loop updates, with the
count of synthesized call ids and the trace. -/
structure StreamState where
  currentTurnText : String
  accumulatedParts : List Part
  currentThought : String
  thinkingSteps : List ThinkingStep
  fresh : Nat
  trace : List Event

/-- Lines 158-162: extend the last part when it is a text part, else append a
new text part. -/
def appendTextPart : List Part → String → List Part
  | [], t => [{ text := t }]
  | [p], t => if p.text ≠ "" then [{ p with text := p.text ++ t }] else [p, { text := t }]
  | p :: q :: rest, t => p :: appendTextPart (q :: rest) t

/-- Lines 146-153: a pending thought is flushed before a text delta. -/
def flushBeforeText (cb : Callbacks) (thoughtStepID : String) (st : StreamState) : StreamState :=
  if st.currentThought ≠ "" then
    { st with
      trace := st.trace ++
        emit cb.onThinking (.onThinking (thoughtStep thoughtStepID "completed" st.currentThought)),
      thinkingSteps := st.thinkingSteps ++
        [thoughtStep thoughtStepID "completed" st.currentThought],
      accumulatedParts := st.accumulatedParts ++ [{ thought := st.currentThought }],
      currentThought := "" }
  else st

/-- Lines 171-178: a pending thought is flushed before a function call. -/
def flushBeforeCall (cb : Callbacks) (thoughtStepID : String) (st : StreamState) : StreamState :=
  if st.currentThought ≠ "" then
    { st with
      accumulatedParts := st.accumulatedParts ++ [{ thought := st.currentThought }],
      trace := st.trace ++
        emit cb.onThinking (.onThinking (thoughtStep thoughtStepID "completed" st.currentThought)),
      thinkingSteps := appendOrUpdate st.thinkingSteps thoughtStepID
        (thoughtStep thoughtStepID "completed" st.currentThought),
      currentThought := "" }
  else st

/-- The id synthesized for a call without one: `fmt.Sprintf("fc-%d-%x", now, rand.Uint32())`. -/
def synthId (env : Env) (k : Nat) : String :=
  "fc-" ++ toString (env.fcTime k) ++ "-" ++ hexString (env.fcRand k % 2 ^ 32)

/-- Lines 154-162: a text delta, after the flush. -/
def processTextPart (cb : Callbacks) (thoughtStepID : String) (st : StreamState)
    (text : String) : StreamState :=
  let st1 := flushBeforeText cb thoughtStepID st
  { st1 with
    currentTurnText := st1.currentTurnText ++ text,
    trace := st1.trace ++ emit cb.onText (.onText (st1.currentTurnText ++ text)),
    accumulatedParts := appendTextPart st1.accumulatedParts text }

/-- Lines 164-169: a thought delta. -/
def processThoughtPart (cb : Callbacks) (thoughtStepID : String) (st : StreamState)
    (thought : String) : StreamState :=
  { st with
    currentThought := st.currentThought ++ thought,
    trace := st.trace ++ emit cb.onThinking
      (.onThinking (thoughtStep thoughtStepID "active" (st.currentThought ++ thought))),
    thinkingSteps := appendOrUpdate st.thinkingSteps thoughtStepID
      (thoughtStep thoughtStepID "active" (st.currentThought ++ thought)),
    accumulatedParts := st.accumulatedParts ++ [{ thought := thought }] }

/-- Lines 179-184: the call with an id, synthesized when the model gave
none, and the count of synthesized ids. -/
def ensureCallId (env : Env) (fresh : Nat) (fc0 : FunctionCall) : FunctionCall × Nat :=
  if fc0.id = "" then (⟨fc0.name, synthId env fresh, fc0.args⟩, fresh + 1) else (fc0, fresh)

/-- The pending step of a call (lines 186-190). -/
def pendingStep (fc : FunctionCall) : ThinkingStep :=
  thinkingStep ("call-" ++ fc.id) fc.name (toolLabel fc.name) (toolLabel fc.name) "pending" ""

/-- Lines 185-191: the pending step of a call that is not display-suppressed. -/
def announceCall (cb : Callbacks) (st : StreamState) (fc : FunctionCall) : StreamState :=
  if fc.name ≠ "write_file" ∧ fc.name ≠ "generate_chart" then
    { st with
      trace := st.trace ++ emit cb.onThinking (.onThinking (pendingStep fc)),
      thinkingSteps := st.thinkingSteps ++ [pendingStep fc] }
  else st

/-- Lines 171-192: a function-call delta. -/
def processCallPart (env : Env) (cb : Callbacks) (thoughtStepID : String) (st : StreamState)
    (fc0 : FunctionCall) : StreamState :=
  let st1 := flushBeforeCall cb thoughtStepID st
  let r := ensureCallId env st1.fresh fc0
  let st2 := announceCall cb st1 r.1
  { st2 with
    fresh := r.2,
    accumulatedParts := st2.accumulatedParts ++ [{ functionCall := some r.1 }] }

/-- Lines 145-193: one part of a streamed response. -/
def processPart (env : Env) (cb : Callbacks) (thoughtStepID : String)
    (st : StreamState) (p : Part) : StreamState :=
  if p.text ≠ "" then processTextPart cb thoughtStepID st p.text
  else if p.thought ≠ "" then processThoughtPart cb thoughtStepID st p.thought
  else
    match p.functionCall with
    | none => st
    | some fc0 => processCallPart env cb thoughtStepID st fc0

/-- Lines 137-194: one streamed response; nil responses and responses
without candidate content are skipped. -/
def processResponse (env : Env) (cb : Callbacks) (thoughtStepID : String)
    (st : StreamState) (resp : Option GenerateContentResponse) : StreamState :=
  match resp with
  | none => st
  | some r =>
    match r.candidates with
    | [] => st
    | cand :: _ =>
      match cand.content with
      | none => st
      | some c => c.parts.foldl (processPart env cb thoughtStepID) st

/-- Lines 133-195: the loop over the stream; the first error ends it. -/
def consumeStream (env : Env) (cb : Callbacks) (thoughtStepID : String) :
    List StreamItem → StreamState → Option String × StreamState
  | [], st => (none, st)
  | .error e :: _, st => (some e, st)
  | .ok resp :: rest, st =>
    consumeStream env cb thoughtStepID rest (processResponse env cb thoughtStepID st resp)

/-- Lines 197-202: the thought still pending at the end of the stream. -/
def flushAtEnd (cb : Callbacks) (thoughtStepID : String) (st : StreamState) : StreamState :=
  if st.currentThought ≠ "" then
    { st with
      trace := st.trace ++
        emit cb.onThinking (.onThinking (thoughtStep thoughtStepID "completed" st.currentThought)),
      thinkingSteps := appendOrUpdate st.thinkingSteps thoughtStepID
        (thoughtStep thoughtStepID "completed" st.currentThought) }
  else st

/-- A `json.RawMessage` stored as a map value. -/
def RawMessage.toVal : RawMessage → GoVal
  | .nil => .rawNil
  | .invalid e => .rawInvalid e
  | .doc v => .rawDoc v

/-- The body of the loop of `partsToHistory`. -/
def partToHistory (p : Part) : Option GoVal :=
  if p.text ≠ "" then some (.strMap [("text", p.text)])
  else if p.thought ≠ "" then some (.obj [("thought", .str p.thought)])
  else
    match p.functionCall with
    | some fc => some (.obj [("functionCall",
        .obj [("name", .str fc.name), ("id", .str fc.id), ("args", fc.args.toVal)])])
    | none => none

/-- `partsToHistory` of supervisor.go. -/
def partsToHistory (parts : List Part) : List GoVal :=
  parts.filterMap partToHistory

/-- The body of the loop of `functionResponsesToHistory`. -/
def responseToHistory (p : Part) : Option GoVal :=
  match p.functionResponse with
  | some fr => some (.obj [("functionResponse",
      .obj [("name", .str fr.name), ("id", .str fr.id), ("response", fr.response)])])
  | none => none

/-- `functionResponsesToHistory` of supervisor.go. -/
def functionResponsesToHistory (parts : List Part) : List GoVal :=
  parts.filterMap responseToHistory

/-- Go `json.Marshal(a)` of the `args` entry of a stored function call, as a
`json.RawMessage`: a stored raw message is copied, a nil one is marshalled as
`null`, and an invalid one gives an error, so that `args` is nil. -/
def marshalArgs : GoVal → RawMessage
  | .rawDoc v => .doc v
  | .rawNil => .doc .null
  | .rawInvalid _ => .nil
  | v => .doc v

/-- The branches of the inner loop of `historyToContents` after the `text` test. -/
def historyPartOther (pm : List (String × GoVal)) : Option Part :=
  let afterThought : Option Part :=
    match (objGet pm "functionCall").bind GoVal.asObj with
    | some fc =>
      let args : RawMessage :=
        match objGet fc "args" with
        | some a => marshalArgs a
        | none => .nil
      let call : FunctionCall := ⟨(objGetStr fc "name").getD "", (objGetStr fc "id").getD "", args⟩
      some { functionCall := some call }
    | none =>
      match (objGet pm "functionResponse").bind GoVal.asObj with
      | some fr =>
        let r : FunctionResponse := ⟨(objGetStr fr "name").getD "", (objGetStr fr "id").getD "",
          (objGet fr "response").getD .null⟩
        some { functionResponse := some r }
      | none => none
  match objGetStr pm "thought" with
  | some thought => if thought ≠ "" then some { thought := thought } else afterThought
  | none => afterThought

/-- The body of the inner loop of `historyToContents`. -/
def historyPartToPart (p : GoVal) : Option Part :=
  match p.asObj with
  | none => none
  | some pm =>
    match objGetStr pm "text" with
    | some text =>
      if text ≠ "" then some { text := text } else historyPartOther pm
    | none => historyPartOther pm

/-- The body of the outer loop of `historyToContents`. -/
def historyEntryToContent (h : GoVal) : Option Content :=
  match h.asObj with
  | none => none
  | some m =>
    let role := (objGetStr m "role").getD ""
    let parts := ((objGet m "parts").bind GoVal.asList).getD []
    if role = "" ∨ parts.length = 0 then none
    else
      let genParts := parts.filterMap historyPartToPart
      if genParts.length > 0 then some ⟨role, genParts⟩ else none

/-- `historyToContents` of supervisor.go. -/
def historyToContents (history : List GoVal) : List Content :=
  history.filterMap historyEntryToContent

/-- The variables the call loop of one iteration updates, with the trace and
the world; `panic` holds the value of the panic once a dispatch has panicked
and the loop is being left. -/
structure CallState where
  thinkingSteps : List ThinkingStep
  responseParts : List Part
  charts : List ChartArgs
  writtenFilePaths : List String
  trace : List Event
  world : World
  panic : Option String := none

/-- A part holding a function response. -/
def responsePart (fc : FunctionCall) (response : List (String × GoVal)) : Part :=
  { functionResponse := some ⟨fc.name, fc.id, .obj response⟩ }

/-- The assignment `m[k] = v` on a map. -/
def mapSet (kvs : List (String × GoVal)) (k : String) (v : GoVal) : List (String × GoVal) :=
  kvs.filter (fun kv => kv.1 != k) ++ [(k, v)]

/-- Lines 319-328: the plan of a `propose_plan` result, with `isApproved`
set to false in place. -/
def approvedFalsePlan (result : GoVal) : Option (List (String × GoVal)) :=
  match result.asObj with
  | none => none
  | some m =>
    match (objGet m "plan").bind GoVal.asObj with
    | none => none
    | some plan => some (mapSet plan "isApproved" (.bool false))

/-- The result value after lines 319-328: the plan map is shared with the
result, so the assignment is seen through it. -/
def resultAfterPlanMark (result : GoVal) : GoVal :=
  match result.asObj, approvedFalsePlan result with
  | some m, some plan => .obj (mapSet m "plan" (.obj plan))
  | _, _ => result

/-- Lines 342-357: the content of the completed step. -/
def doneContent (label : GoBytes) (result : GoVal) : GoBytes :=
  match result.asObj with
  | none => label
  | some m =>
    match objGet m "plan" with
    | some p =>
      match p.asObj with
      | none => label
      | some pm =>
        match objGetStr pm "title" with
        | some t => goBytes ("Plan: " ++ t)
        | none => label
    | none =>
      match objGet m "analysis" with
      | none => label
      | some a =>
        match a.asStr with
        | none => label
        | some text => if goLen text > 80 then cutWithDots text 80 else goBytes text

/-- Lines 296-305: a dispatch that returned an error. -/
def dispatchFailure (cb : Callbacks) (st : CallState) (fc : FunctionCall)
    (execErr : String) : CallState :=
  { st with
    trace := st.trace ++ emit cb.onThinking (.onThinking
      (thinkingStep ("call-" ++ fc.id) fc.name (toolLabel fc.name)
        (goBytes ("Failed: " ++ execErr)) "failed" execErr)),
    thinkingSteps := appendOrUpdate st.thinkingSteps ("call-" ++ fc.id)
      (thinkingStep ("call-" ++ fc.id) fc.name (toolLabel fc.name)
        (goBytes ("Failed: " ++ execErr)) "failed" execErr),
    responseParts := st.responseParts ++ [responsePart fc [("error", .str execErr)]] }

/-- The field `PlanMsgID` of the resume parameters, empty when they are nil. -/
def planMsgIDOf (params : Option Params) : String :=
  match params with
  | some p => p.planMsgID
  | none => ""

/-- Lines 307-317: the plan-step observer after `report_step_done`. -/
def notifyStepDone (cb : Callbacks) (params : Option Params) (st : CallState)
    (fc : FunctionCall) (result : GoVal) : CallState :=
  if fc.name = "report_step_done" ∧ planMsgIDOf params ≠ "" ∧ cb.onPlanStepUpdate = true then
    match result.asObj.bind (fun m => objGetStr m "stepId") with
    | some sid =>
      { st with trace := st.trace ++
          [Event.onPlanStepUpdate (planMsgIDOf params) sid "completed"] }
    | none => st
  else st

/-- Lines 319-328: the plan observer after `propose_plan`. -/
def notifyPlan (cb : Callbacks) (st : CallState) (fc : FunctionCall) (result : GoVal) :
    CallState :=
  if fc.name = "propose_plan" then
    match approvedFalsePlan result with
    | some plan => { st with trace := st.trace ++ emit cb.onPlanProposed (.onPlanProposed plan) }
    | none => st
  else st

/-- Lines 330-339: the written path after `write_file`. -/
def recordWrittenFile (cb : Callbacks) (st : CallState) (fc : FunctionCall) (result : GoVal) :
    CallState :=
  if fc.name = "write_file" then
    match result.asObj.bind (fun m => objGetStr m "path") with
    | some path =>
      { st with
        writtenFilePaths := st.writtenFilePaths ++ [path],
        trace := st.trace ++
          emit cb.onFilesWritten (.onFilesWritten (st.writtenFilePaths ++ [path])) }
    | none => st
  else st

/-- Lines 341-362: the completed step of a call that is not display-suppressed. -/
def completeStep (env : Env) (cb : Callbacks) (st : CallState) (fc : FunctionCall)
    (result : GoVal) : CallState :=
  if fc.name ≠ "write_file" ∧ fc.name ≠ "generate_chart" then
    { st with
      trace := st.trace ++ emit cb.onThinking (.onThinking
        (thinkingStep ("call-" ++ fc.id) fc.name (toolLabel fc.name)
          (doneContent (toolLabel fc.name) result) "completed" (env.sprintV result))),
      thinkingSteps := appendOrUpdate st.thinkingSteps ("call-" ++ fc.id)
        (thinkingStep ("call-" ++ fc.id) fc.name (toolLabel fc.name)
          (doneContent (toolLabel fc.name) result) "completed" (env.sprintV result)) }
  else st

/-- The result as the code sees it after lines 319-328. -/
def markedResult (fc : FunctionCall) (result : GoVal) : GoVal :=
  if fc.name = "propose_plan" then resultAfterPlanMark result else result

/-- Lines 307-366: a dispatch that returned no error. -/
def dispatchSuccess (env : Env) (cb : Callbacks) (params : Option Params) (st : CallState)
    (fc : FunctionCall) (result : GoVal) : CallState :=
  let st1 := notifyStepDone cb params st fc result
  let st2 := notifyPlan cb st1 fc result
  let st3 := recordWrittenFile cb st2 fc (markedResult fc result)
  let st4 := completeStep env cb st3 fc (markedResult fc result)
  { st4 with
    responseParts := st4.responseParts ++
      [responsePart fc [("result", markedResult fc result)]] }

/-- The state after the call of `Registry.Execute` at line 292 returned. -/
def afterExecute (st : CallState) (fc : FunctionCall) (w : World) : CallState :=
  { st with trace := st.trace ++ [Event.execute fc], world := w }

/-- Lines 292-366: a call that is dispatched through `Registry.Execute`.  When
`Execute` panics nothing of the loop body runs after the call. -/
def dispatchCall (env : Env) (reg : Registry) (cb : Callbacks) (params : Option Params)
    (execReq : ExecuteRequest) (st : CallState) (fc : FunctionCall) : CallState :=
  let r := reg.Execute env execReq fc.name fc.args st.world
  match r.panic with
  | some v => { afterExecute st fc r.2 with panic := some v }
  | none =>
    match r.1.2 with
    | some execErr => dispatchFailure cb (afterExecute st fc r.2) fc execErr
    | none => dispatchSuccess env cb params (afterExecute st fc r.2) fc r.1.1

/-- Lines 266-366: the body of the call loop. -/
def processCall (env : Env) (reg : Registry) (cb : Callbacks) (params : Option Params)
    (execReq : ExecuteRequest) (hasPlanCall : Bool) (st : CallState) (fc : FunctionCall) :
    CallState :=
  if hasPlanCall = true ∧ fc.name ≠ "propose_plan" then
    { st with responseParts := st.responseParts ++
        [responsePart fc [("error", .str "Execution blocked: Plan must be approved first.")]] }
  else if fc.name = "generate_chart" then
    let chartArgs := (unmarshalMap fc.args).1
    { st with
      trace := st.trace ++ emit cb.onChartData (.onChartData chartArgs),
      charts := st.charts ++ [chartArgs],
      responseParts := st.responseParts ++
        [responsePart fc [("status", .str "CHART_RENDERED")]] }
  else dispatchCall env reg cb params execReq st fc

/-- Lines 215-223: the function calls of the accumulated parts, in order. -/
def extractCalls (parts : List Part) : List FunctionCall :=
  parts.filterMap (fun p => p.functionCall)

/-- Lines 229-235. -/
def hasPlanCall (calls : List FunctionCall) : Bool :=
  calls.any (fun fc => fc.name == "propose_plan")

/-- Lines 257-263: the body of the partition loop; the pair holds
`blockingCalls` and `nonBlockingCalls`. -/
def partitionStep (blockingIDs : List String)
    (acc : List FunctionCall × List FunctionCall) (fc : FunctionCall) :
    List FunctionCall × List FunctionCall :=
  if blockingIDs.contains fc.name then (acc.1 ++ [fc], acc.2) else (acc.1, acc.2 ++ [fc])

/-- Lines 247-263: `blockingCalls` after the partition loop. -/
def blockingCalls (blockingIDs : List String) (calls : List FunctionCall) : List FunctionCall :=
  (calls.foldl (partitionStep blockingIDs) ([], [])).1

/-- Lines 247-263: `nonBlockingCalls` after the partition loop. -/
def nonBlockingCalls (blockingIDs : List String) (calls : List FunctionCall) :
    List FunctionCall :=
  (calls.foldl (partitionStep blockingIDs) ([], [])).2

/-- Line 265: the order in which the calls are processed. -/
def processingOrder (blockingIDs : List String) (calls : List FunctionCall) :
    List FunctionCall :=
  blockingCalls blockingIDs calls ++ nonBlockingCalls blockingIDs calls

/-- The variables of `RunSupervisor` that live across iterations, with the
trace and the world.  `currentTurnText` is declared before the loop and set
anew at the start of every iteration (line 125).  The source declares
`writtenFilePaths`, `charts` and `thinkingSteps` inside the loop body (lines
129-131) and names them again after the loop (lines 386-393), where they are
not in scope; the fields of these names hold the values of the iteration the
loop entered last, which is one way to give the names after the loop a
meaning, and nothing is stated here about a value that depends on how they
are carried from one iteration to the next.  `panicked` tells that the loop
was left by a panic. -/
structure LoopState where
  loopCount : Nat
  history : List GoVal
  currentTurnText : String
  thinkingSteps : List ThinkingStep
  charts : List ChartArgs
  writtenFilePaths : List String
  fresh : Nat
  trace : List Event
  world : World
  panicked : Bool := false

/-- How an iteration of the loop ends: the stream failed, the loop is left by
`break`, the loop condition is tested again, or a dispatch panicked. -/
inductive IterOutcome where
  | failed (err : String) (st : LoopState)
  | exit (st : LoopState)
  | next (st : LoopState)
  | panicked (value : String) (st : LoopState)

/-- What is fixed during a request. -/
structure LoopCtx where
  env : Env
  registry : Registry
  cb : Callbacks
  params : Option Params
  execReq : ExecuteRequest
  toolDefs : List FunctionDeclaration
  blockingIDs : List String

/-- Lines 123-202: the start of an iteration and the stream loop, with the
final flush when the stream ended without error. -/
def streamPhase (c : LoopCtx) (st : LoopState) : Option String × StreamState :=
  let loopCount := st.loopCount + 1
  let contents := historyToContents st.history
  let thoughtStepID := "th-" ++ toString loopCount
  let s0 : StreamState :=
    { currentTurnText := "", accumulatedParts := [], currentThought := "", thinkingSteps := [],
      fresh := st.fresh, trace := st.trace ++ [.generateStream loopCount contents c.toolDefs] }
  let r := consumeStream c.env c.cb thoughtStepID (c.env.generate loopCount contents) s0
  match r.1 with
  | some err => (some err, r.2)
  | none => (none, flushAtEnd c.cb thoughtStepID r.2)

/-- One step of the call loop: the body at the call, and nothing once a
dispatch has panicked. -/
def callStep (env : Env) (reg : Registry) (cb : Callbacks) (params : Option Params)
    (execReq : ExecuteRequest) (hasPlanCall : Bool) (st : CallState) (fc : FunctionCall) :
    CallState :=
  if st.panic.isSome then st
  else processCall env reg cb params execReq hasPlanCall st fc

/-- Lines 229-367: the call loop of an iteration over the calls of the
accumulated parts, from the state the stream loop left. -/
def callPhase (c : LoopCtx) (w : World) (s1 : StreamState) : CallState :=
  let functionCalls := extractCalls s1.accumulatedParts
  (processingOrder c.blockingIDs functionCalls).foldl
    (callStep c.env c.registry c.cb c.params c.execReq (hasPlanCall functionCalls))
    { thinkingSteps := s1.thinkingSteps, responseParts := [], charts := [],
      writtenFilePaths := [], trace := s1.trace, world := w }

/-- Lines 204-208: the model turn appended to the history. -/
def modelTurn (s1 : StreamState) : GoVal :=
  .obj [("role", .str "model"), ("parts", .list (partsToHistory s1.accumulatedParts))]

/-- Lines 369-372: the user turn holding the function responses. -/
def responseTurn (c1 : CallState) : GoVal :=
  .obj [("role", .str "user"), ("parts", .list (functionResponsesToHistory c1.responseParts))]

/-- Lines 123-379: one iteration of the loop. -/
def iteration (c : LoopCtx) (st : LoopState) : IterOutcome :=
  let loopCount := st.loopCount + 1
  let r := streamPhase c st
  match r.1 with
  | some err =>
    .failed err { st with
      loopCount := loopCount, currentTurnText := r.2.currentTurnText,
      thinkingSteps := r.2.thinkingSteps, charts := [], writtenFilePaths := [],
      fresh := r.2.fresh, trace := r.2.trace }
  | none =>
    let s1 := r.2
    let history := st.history ++ [modelTurn s1]
    let functionCalls := extractCalls s1.accumulatedParts
    if functionCalls.length = 0 then
      .exit { loopCount := loopCount, history := history,
              currentTurnText := s1.currentTurnText, thinkingSteps := s1.thinkingSteps,
              charts := [], writtenFilePaths := [], fresh := s1.fresh, trace := s1.trace,
              world := st.world }
    else
      let c1 := callPhase c st.world s1
      match c1.panic with
      | some v =>
        .panicked v
          { loopCount := loopCount, history := history,
            currentTurnText := s1.currentTurnText, thinkingSteps := c1.thinkingSteps,
            charts := c1.charts, writtenFilePaths := c1.writtenFilePaths, fresh := s1.fresh,
            trace := c1.trace, world := c1.world, panicked := true }
      | none =>
        let st1 : LoopState :=
          { loopCount := loopCount,
            history := history ++ [responseTurn c1],
            currentTurnText := s1.currentTurnText, thinkingSteps := c1.thinkingSteps,
            charts := c1.charts, writtenFilePaths := c1.writtenFilePaths, fresh := s1.fresh,
            trace := c1.trace, world := c1.world }
        if hasPlanCall functionCalls then .exit st1
        else if (blockingCalls c.blockingIDs functionCalls).length > 0 then .next st1
        else .next st1

/-- Lines 122-380: `for loopCount < 10`.  The recursion is on `fuel`;
`RunSupervisor` starts it with fuel 10, and the loop condition, not the fuel,
is what ends it.  The first component is the error with which the loop
returns from `RunSupervisor`, or the value of the panic that leaves it (the
state then has `panicked` set). -/
def supervisorLoop (c : LoopCtx) : Nat → LoopState → Option String × LoopState
  | 0, st => (none, st)
  | fuel + 1, st =>
    if st.loopCount < 10 then
      match iteration c st with
      | .failed err st1 => (some err, st1)
      | .exit st1 => (none, st1)
      | .next st1 => supervisorLoop c fuel st1
      | .panicked v st1 => (some v, st1)
    else (none, st)

/-- The key `id` of a UI message as lines 399-404 read it: `none` when the
entry is not a `map[string]any`, the empty string when the key is missing or
not a string. -/
def UIMsg.mapId : UIMsg → Option String
  | .raw v => v.asObj.map (fun m => (objGetStr m "id").getD "")
  | .user id _ => some id
  | .assistant m => some m.id

/-- Lines 396-410: the loop that replaces the entries with the assistant id. -/
def replaceAssistant (assistantMsgID : String) (assistantMsg : AssistantMsg) :
    List UIMsg → List UIMsg × Bool
  | [] => ([], false)
  | m :: rest =>
    let r := replaceAssistant assistantMsgID assistantMsg rest
    match m.mapId with
    | none => (m :: r.1, r.2)
    | some rid =>
      if rid = assistantMsgID then (.assistant assistantMsg :: r.1, true)
      else (m :: r.1, r.2)

/-- Lines 396-413: the final UI message list. -/
def finalUIMessages (assistantMsgID : String) (assistantMsg : AssistantMsg)
    (uiMessages : List UIMsg) : List UIMsg :=
  let r := replaceAssistant assistantMsgID assistantMsg uiMessages
  if r.2 then r.1 else r.1 ++ [.assistant assistantMsg]

/-- Lines 382-394: the final assistant message.  The id and the content are
what the source fixes; `thinkingSteps`, `charts` and `writtenFilePaths` are
names out of scope at these lines, read here as the fields of the loop state
(see `LoopState`). -/
def assembleAssistantMsg (assistantMsgID : String) (st : LoopState) : AssistantMsg :=
  { id := assistantMsgID, content := st.currentTurnText, thinkingSteps := st.thinkingSteps,
    charts := if st.charts.length > 0 then some st.charts else none,
    writtenFiles := if st.writtenFilePaths.length > 0 then some st.writtenFilePaths else none }

/-- What a call of `RunSupervisor` yields: the returned error, the assistant
message it assembled (when it got that far), the trace and the world.  When
the call panics instead of returning, `panicked` is set and `err` holds the
value of the panic. -/
structure RunResult where
  err : Option String
  assistantMsg : Option AssistantMsg
  trace : List Event
  world : World
  panicked : Bool := false

/-- Lines 81-84: the effective user text. -/
def effectiveUserText (message : String) (params : Option Params) : String :=
  match params with
  | some p =>
    if p.isApprovalConfirmed = true ∧ p.resumePlan.isSome = true then
      "计划已批准。请按计划立即开始执行。"
    else message
  | none => message

/-- Lines 63-74: the session found in the store, or the new one. -/
def newSession (env : Env) (sessionID : String) : AgentSessionState :=
  { sessionID := sessionID, title := "新会话", geminiHistory := some [], uiMessages := some [],
    vfs := env.defaultVFS, knowledgeChunks := [] }

/-- The loop state at line 120. -/
def initialLoopState (history : List GoVal) (trace : List Event) (w : World) : LoopState :=
  { loopCount := 0, history := history, currentTurnText := "", thinkingSteps := [],
    charts := [], writtenFilePaths := [], fresh := 0, trace := trace, world := w }

/-- Lines 63-74: the session the request works on, the one found or the new one. -/
def loadedSession (env : Env) (sessionID : String) (w : World) : AgentSessionState :=
  (getSession w sessionID).getD (newSession env sessionID)

/-- Lines 63-74: the world after the session was loaded, or created and saved. -/
def loadedWorld (env : Env) (sessionID : String) (w : World) : World :=
  if (getSession w sessionID).isSome then w
  else saveSession w sessionID (newSession env sessionID)

/-- Lines 76-89: the history with the user turn appended. -/
def startHistory (env : Env) (sessionID message : String) (params : Option Params)
    (w : World) : List GoVal :=
  (loadedSession env sessionID w).geminiHistory.getD [] ++
    [.obj [("role", .str "user"),
      ("parts", .list [.strMap [("text", effectiveUserText message params)]])]]

/-- The loop state at line 120 of a request. -/
def startState (env : Env) (sessionID message : String) (params : Option Params)
    (w : World) : LoopState :=
  initialLoopState (startHistory env sessionID message params w)
    (if (getSession w sessionID).isSome then [] else [.saveSession sessionID])
    (loadedWorld env sessionID w)

/-- Lines 97-103 and 238-245: what is fixed during the request. -/
def requestCtx (env : Env) (deps : SupervisorDeps) (sessionID : String) (cb : Callbacks)
    (params : Option Params) : LoopCtx :=
  { env := env, registry := deps.registry, cb := cb, params := params,
    execReq := ⟨sessionID, true, false⟩,
    toolDefs :=
      match deps.toolEnable with
      | some isEnabled => deps.registry.GetDefinitionsEnabled (some isEnabled)
      | none => deps.registry.GetDefinitions,
    blockingIDs := deps.registry.GetBlockingIDs }

/-- Line 106: the id of the assistant message. -/
def assistantMsgIDOf (env : Env) : String :=
  "agent-" ++ toString env.assistantMsgTime

/-- Lines 105-113: the UI messages with the user message and the placeholder. -/
def startUIMessages (env : Env) (sessionID message : String) (params : Option Params)
    (w : World) : List UIMsg :=
  (loadedSession env sessionID w).uiMessages.getD [] ++
    [.user ("u-" ++ toString env.userMsgTime) (effectiveUserText message params),
     .assistant { id := assistantMsgIDOf env, content := "", thinkingSteps := [],
                  charts := none, writtenFiles := none }]

/-- `RunSupervisor` of supervisor.go. -/
def RunSupervisor (env : Env) (deps : SupervisorDeps) (sessionID message : String)
    (_opts : SupervisorOptions) (cb : Callbacks) (params : Option Params) (w : World) :
    RunResult :=
  match env.clientErr with
  | some e => { err := some ("create genai client: " ++ e), assistantMsg := none,
                trace := [], world := w }
  | none =>
    let r := supervisorLoop (requestCtx env deps sessionID cb params) 10
      (startState env sessionID message params w)
    match r.1 with
    | some err => { err := some err, assistantMsg := none, trace := r.2.trace,
                    world := r.2.world, panicked := r.2.panicked }
    | none =>
      let assistantMsg := assembleAssistantMsg (assistantMsgIDOf env) r.2
      let final := finalUIMessages (assistantMsgIDOf env) assistantMsg
        (startUIMessages env sessionID message params w)
      { err := none, assistantMsg := some assistantMsg,
        trace := r.2.trace ++ [.updateSession sessionID r.2.history final],
        world := updateSession r.2.world sessionID r.2.history final }

/-! ## Reading traces and stored turns -/

/-- Whether an event is a model stream invocation of the loop (line 133). -/
def Event.isGenerateStream : Event → Bool
  | .generateStream _ _ _ => true
  | _ => false

/-- Whether an event is an `UpdateSession` call. -/
def Event.isUpdateSession : Event → Bool
  | .updateSession _ _ _ => true
  | _ => false

/-- Number of model stream invocations of the loop in a trace. -/
def modelInvocations (t : List Event) : Nat :=
  t.countP Event.isGenerateStream

/-- The call of a dispatch event. -/
def Event.executed : Event → Option FunctionCall
  | .execute fc => some fc
  | _ => none

/-- The calls dispatched to `Registry.Execute`, in order. -/
def executedCalls (t : List Event) : List FunctionCall :=
  t.filterMap Event.executed

/-- Name and id of a function call or response. -/
abbrev CallKey := String × String

/-- Name and id of a call. -/
def FunctionCall.key (fc : FunctionCall) : CallKey :=
  (fc.name, fc.id)

/-- Name and id of the function response stored in a history part. -/
def storedResponseKey (p : GoVal) : Option CallKey :=
  match p.asObj.bind (fun pm => (objGet pm "functionResponse").bind GoVal.asObj) with
  | some fr => some ((objGetStr fr "name").getD "", (objGetStr fr "id").getD "")
  | none => none

/-- Name and id of the function call stored in a history part. -/
def storedCallKey (p : GoVal) : Option CallKey :=
  match p.asObj.bind (fun pm => (objGet pm "functionCall").bind GoVal.asObj) with
  | some fc => some ((objGetStr fc "name").getD "", (objGetStr fc "id").getD "")
  | none => none

/-- The parts of a stored turn. -/
def turnParts (turn : GoVal) : List GoVal :=
  ((turn.asObj.bind (fun m => objGet m "parts")).bind GoVal.asList).getD []

/-- The stored history and UI message list of a session, as the store holds them. -/
def storedLists (w : World) (id : String) :
    Option (Option (List GoVal) × Option (List UIMsg)) :=
  (w.sessions id).map (fun s => (s.geminiHistory, s.uiMessages))

/-- The first error a stream yields, if any. -/
def streamError : List StreamItem → Option String
  | [] => none
  | .error e :: _ => some e
  | .ok _ :: rest => streamError rest

/-- Whether an event is an observer callback. -/
def Event.isObserver : Event → Bool
  | .onThinking _ => true
  | .onText _ => true
  | .onPlanProposed _ => true
  | .onChartData _ => true
  | .onFilesWritten _ => true
  | .onPlanStepUpdate _ _ _ => true
  | _ => false

/-- Whether the call loop passes a call to `Registry.Execute`: it is neither
blocked by the plan lock nor the chart special case. -/
def isDispatched (plan : Bool) (fc : FunctionCall) : Bool :=
  !(plan && fc.name != "propose_plan") && fc.name != "generate_chart"

/-- The trace `t1` is the trace `t0` followed by events that satisfy `P`. -/
def ExtendsBy (P : Event → Bool) (t0 t1 : List Event) : Prop :=
  ∃ d, t1 = t0 ++ d ∧ ∀ e ∈ d, P e = true

/-- Whether an event is an observer callback or a dispatch. -/
def Event.isCallEvent (e : Event) : Bool :=
  e.isObserver || e.executed.isSome

/-- The loop state an iteration ends in. -/
def IterOutcome.state : IterOutcome → LoopState
  | .failed _ st => st
  | .exit st => st
  | .next st => st
  | .panicked _ st => st

/-- A part that holds a function call holds nothing else. -/
def Part.callOnly (p : Part) : Prop :=
  p.functionCall = none ∨ (p.text = "" ∧ p.thought = "")

/-- The id of a call key. -/
def CallKey.hasId (id : String) (k : CallKey) : Bool :=
  k.2 == id

/-- Whether a call is the plan proposal. -/
def isPlanCall (fc : FunctionCall) : Bool :=
  fc.name == "propose_plan"

/-- The blocked response of the plan lock. -/
def blockedResponse (fc : FunctionCall) : Part :=
  responsePart fc [("error", .str "Execution blocked: Plan must be approved first.")]

/-- The response of a call under the plan lock: that of its dispatch for the
plan proposal, the blocked response for any other call. -/
def lockedResponse (fc : FunctionCall) (r : List (String × GoVal)) : Part :=
  if fc.name = "propose_plan" then responsePart fc r else blockedResponse fc

/-- The loop state at the start of iteration `k + 1`, when the loop gets
there: the first `k` iterations ended without `break` or error and the loop
condition held before each. -/
def stateAt (c : LoopCtx) : Nat → LoopState → Option LoopState
  | 0, st => some st
  | k + 1, st =>
    if st.loopCount < 10 then
      match iteration c st with
      | .next st1 => stateAt c k st1
      | _ => none
    else none

/-- The parts the stream loop reads from one streamed response (lines 137-144):
none for a nil response, a response without candidates, or a first candidate
without content. -/
def readParts (resp : Option GenerateContentResponse) : List Part :=
  match resp with
  | none => []
  | some r =>
    match r.candidates with
    | [] => []
    | cand :: _ =>
      match cand.content with
      | none => []
      | some c => c.parts

/-- The parts the stream loop reads from a stream, in order, up to the first
error. -/
def streamParts : List StreamItem → List Part
  | [] => []
  | .error _ :: _ => []
  | .ok resp :: rest => readParts resp ++ streamParts rest

/-- The non-empty text deltas of a stream, in order. -/
def textDeltas (items : List StreamItem) : List String :=
  ((streamParts items).map (fun p => p.text)).filter (fun t => t ≠ "")

/-- The argument of a call of the text observer. -/
def Event.text : Event → Option String
  | .onText content => some content
  | _ => none

/-- The arguments of the calls of the text observer, in order. -/
def textCalls (t : List Event) : List String :=
  t.filterMap Event.text

/-- The argument of a call of the plan-proposed observer. -/
def Event.plan : Event → Option (List (String × GoVal))
  | .onPlanProposed plan => some plan
  | _ => none

/-- The arguments of the calls of the plan-proposed observer, in order. -/
def planCalls (t : List Event) : List (List (String × GoVal)) :=
  t.filterMap Event.plan

/-- Whether an event is neither a call of the text observer nor of the
plan-proposed observer. -/
def Event.isOther : Event → Bool
  | .onText _ => false
  | .onPlanProposed _ => false
  | _ => true

/-- The values the accumulator `currentTurnText` takes as the deltas are added
to it one by one. -/
def runningTexts (acc : String) : List String → List String
  | [] => []
  | t :: rest => (acc ++ t) :: runningTexts (acc ++ t) rest

/-! ## Reading the registry -/

/-- The map read `r.tools[id]` with the comma-ok flag as `Option`. -/
def Registry.lookup (r : Registry) (id : String) : Option ToolDef :=
  (r.find? (fun kt => kt.1 == id)).map (fun kt => kt.2)

/-- The registry reached from `registry.New` by a sequence of `Register`
calls; `Register` is the only method that writes the map, so these are all
the registries there are. -/
def Registry.ofCalls (calls : List (String × Option FunctionDeclaration × Bool)) : Registry :=
  calls.foldl (fun r call => r.Register call.1 call.2.1 call.2.2) Registry.New

/-! ## Settings stores (store/tool_enable.go, store/mcp.go, store/mcp_status.go)

The file write at the end of an operation (`os.WriteFile` in `save`) is a
collaborator: its result is the argument `writeErr` of the operation.
`json.MarshalIndent` cannot fail on the values saved here. -/

/-- The assignment `m[k] = v` on a Go map of any value type. -/
def mapPut {α : Type} (kvs : List (String × α)) (k : String) (v : α) : List (String × α) :=
  kvs.filter (fun kv => kv.1 != k) ++ [(k, v)]

/-- The statement `delete(m, k)` on a Go map. -/
def mapDelete {α : Type} (kvs : List (String × α)) (k : String) : List (String × α) :=
  kvs.filter (fun kv => kv.1 != k)

/-- The type `store.ToolEnableStore`: the map `data`.  Its mutex is held for
the whole of each method and nothing inside a method acquires it. -/
structure ToolEnableStore where
  data : List (String × Bool)

/-- `ToolEnableStore.GetEnabled`. -/
def ToolEnableStore.GetEnabled (s : ToolEnableStore) (id : String) : Bool :=
  match mapGet s.data id with
  | some v => v
  | none => true

/-- `ToolEnableStore.SetEnabled`: the store after the call and the returned
error, which is the error of the file write. -/
def ToolEnableStore.SetEnabled (s : ToolEnableStore) (writeErr : Option String) (id : String)
    (enabled : Bool) : ToolEnableStore × Option String :=
  ({ data := mapPut s.data id enabled }, writeErr)

/-- `ToolEnableStore.GetAll`. -/
def ToolEnableStore.GetAll (s : ToolEnableStore) : List (String × Bool) :=
  s.data

/-- The errors the MCP store returns: the two sentinel values and the error
of a file write. -/
inductive StoreError where
  | mcpExists
  | mcpNotFound
  | other (msg : String)
deriving DecidableEq, Repr

/-- The method `Error()` of a store error. -/
def StoreError.Error : StoreError → String
  | .mcpExists => "mcp url already exists"
  | .mcpNotFound => "mcp server not found"
  | .other msg => msg

/-- The type `store.McpServer`. -/
structure McpServer where
  id : String
  name : String
  url : String
deriving DecidableEq, Repr

/-- The type `store.McpStore`: the slice `servers`.  Its mutex is held for the
whole of each method and nothing inside a method acquires it. -/
structure McpStore where
  servers : List McpServer
deriving DecidableEq, Repr

/-- `normalizeMcpUrl`: the loop drops the last byte while it is `/` or a
space.  Both are ASCII, so on the characters of a string the loop drops the
same suffix. -/
def normalizeMcpUrl (url : String) : String :=
  String.mk (url.toList.rdropWhile (fun c => c == '/' || c == ' '))

/-- `genMcpID`; `randomID` is a collaborator whose result is the argument. -/
def genMcpID (randomID : String) : String :=
  "mcp_" ++ randomID

/-- The loop of `McpStore.Get` from index `i` on. -/
def getFrom : List McpServer → String → Nat → Option McpServer × Int
  | [], _, _ => (none, -1)
  | svr :: rest, id, i => if svr.id = id then (some svr, (i : Int)) else getFrom rest id (i + 1)

/-- `McpStore.Get`: the first server with the id and its index, or `(nil, -1)`. -/
def McpStore.Get (s : McpStore) (id : String) : Option McpServer × Int :=
  getFrom s.servers id 0

/-- `McpStore.Add`: the store after the call, the returned server and the
returned error. -/
def McpStore.Add (s : McpStore) (randomID : String) (writeErr : Option String)
    (name url : String) : McpStore × McpServer × Option StoreError :=
  if s.servers.any (fun svr => normalizeMcpUrl svr.url == normalizeMcpUrl url) then
    (s, ⟨"", "", ""⟩, some .mcpExists)
  else
    let svr : McpServer := ⟨genMcpID randomID, name, url⟩
    let s1 : McpStore := { servers := s.servers ++ [svr] }
    match writeErr with
    | some e => (s1, ⟨"", "", ""⟩, some (.other e))
    | none => (s1, svr, none)

/-- `McpStore.Remove`: the store after the call and the returned error.  The
loop stops at the first server with the id, at index `i`, and the list
becomes `append(servers[:i], servers[i+1:]...)`. -/
def McpStore.Remove (s : McpStore) (writeErr : Option String) (id : String) :
    McpStore × Option StoreError :=
  match s.servers.findIdx? (fun svr => svr.id == id) with
  | some i => ({ servers := s.servers.take i ++ s.servers.drop (i + 1) },
      writeErr.map StoreError.other)
  | none => (s, some .mcpNotFound)

/-- A `sync.RWMutex` as one goroutine sees it: whether the write lock is held
and how many read locks are. -/
structure RWMutex where
  writer : Bool
  readers : Nat
deriving DecidableEq, Repr

/-- `RWMutex.Lock`: `none` when the call blocks, because the lock is held. -/
def RWMutex.Lock (m : RWMutex) : Option RWMutex :=
  if m.writer = true ∨ 0 < m.readers then none else some { m with writer := true }

/-- `RWMutex.Unlock`. -/
def RWMutex.Unlock (m : RWMutex) : RWMutex :=
  { m with writer := false }

/-- `RWMutex.RLock`: `none` when the call blocks, because the write lock is held. -/
def RWMutex.RLock (m : RWMutex) : Option RWMutex :=
  if m.writer = true then none else some { m with readers := m.readers + 1 }

/-- `RWMutex.RUnlock`. -/
def RWMutex.RUnlock (m : RWMutex) : RWMutex :=
  { m with readers := m.readers - 1 }

/-- The type `store.McpServerStatusEntry`. -/
structure McpServerStatusEntry where
  status : String
  lastCheckAt : Int
  lastError : String
  toolsCount : Int
  endpoint : String
deriving DecidableEq, Repr

/-- The type `store.McpStatusStore`: its mutex and the map `byID`. -/
structure McpStatusStore where
  mu : RWMutex
  byID : List (String × McpServerStatusEntry)
deriving DecidableEq, Repr

/-- `McpStatusStore.save`: it takes the read lock while it copies the
entries; `none` when the goroutine blocks on the lock. -/
def McpStatusStore.save (s : McpStatusStore) (writeErr : Option String) :
    Option (McpStatusStore × Option String) :=
  match s.mu.RLock with
  | none => none
  | some m1 => some ({ s with mu := m1.RUnlock }, writeErr)

/-- `McpStatusStore.EnsureEntry`: the store after the call, `none` when the
call does not return because the goroutine blocks on the mutex. -/
def McpStatusStore.EnsureEntry (s : McpStatusStore) (writeErr : Option String) (id : String) :
    Option McpStatusStore :=
  match s.mu.Lock with
  | none => none
  | some m1 =>
    match mapGet s.byID id with
    | some _ => some { s with mu := m1.Unlock }
    | none =>
      let s1 : McpStatusStore :=
        { mu := m1, byID := mapPut s.byID id ⟨"unknown", 0, "", 0, ""⟩ }
      match s1.save writeErr with
      | none => none
      | some r => some { r.1 with mu := r.1.mu.Unlock }

/-- `McpStatusStore.RemoveServer`: the store after the call, `none` when the
call does not return. -/
def McpStatusStore.RemoveServer (s : McpStatusStore) (writeErr : Option String) (id : String) :
    Option McpStatusStore :=
  match s.mu.Lock with
  | none => none
  | some m1 =>
    let s1 : McpStatusStore := { mu := m1, byID := mapDelete s.byID id }
    match s1.save writeErr with
    | none => none
    | some r => some { r.1 with mu := r.1.mu.Unlock }

/-! ## HTTP handlers (handler/tools.go, handler/mcp.go, handler/chat.go) -/

/-- What a handler reads of an `http.Request`: the method and the body as
`json.Decoder` reads it, which is the first JSON value in it (`nil` for an
empty body, `invalid` when no JSON value can be read from its start); the
decoder does not read what follows the first value. -/
structure Request where
  method : String
  body : RawMessage

/-- What a handler writes: the status code and the body, a JSON value (the
plain text of `http.Error` is a string). -/
structure Response where
  code : Nat
  body : GoVal

/-- The type `handler.Handler`; the session and todo stores are in the `World`. -/
structure Handler where
  registry : Registry
  toolEnable : Option ToolEnableStore
  mcpStore : Option McpStore
  mcpStatus : Option McpStatusStore

/-- `http.Error(w, msg, code)`. -/
def httpError (msg : String) (code : Nat) : Response :=
  ⟨code, .str (msg ++ "\n")⟩

/-- `writeJSON` of util.go. -/
def writeJSON (v : GoVal) : Response :=
  ⟨200, v⟩

/-- `writeJSONStatus` of util.go. -/
def writeJSONStatus (code : Nat) (v : GoVal) : Response :=
  ⟨code, v⟩

/-- `writeJSONError` of util.go. -/
def writeJSONError (code : Nat) (message : String) : Response :=
  ⟨code, .strMap [("error", message)]⟩

/-- The call `json.NewDecoder(r.Body).Decode(&body)` for a struct with the
given fields: the first JSON value of the body is decoded as `json.Unmarshal`
decodes it, and an empty body is the error `io.EOF`.  The handlers read only
whether there is an error. -/
def decodeStructBody (fields : List FieldSpec) (body : RawMessage) : Struct × Option String :=
  match body with
  | .nil => (zeroStruct fields, some "EOF")
  | b => unmarshalStruct fields b

/-- One object entry decoded into `struct { Enabled *bool }`: `null` sets the
pointer to nil, a boolean sets the pointed value, and a value of another type
is a type error that leaves an allocated pointer. -/
def decodeEnabledEntry (acc : Option Bool × Option String) (kv : String × GoVal) :
    Option Bool × Option String :=
  match findKey ["enabled"] kv.1 with
  | none => acc
  | some _ =>
    match kv.2 with
    | .null => (none, acc.2)
    | .bool b => (some b, acc.2)
    | v => (some (acc.1.getD false),
        acc.2 <|> some (fieldTypeError (jsonKindName v) "enabled" "bool"))

/-- The call `json.NewDecoder(r.Body).Decode(&body)` of `UpdateTool`: the
field `Enabled` after the call and the returned error. -/
def decodeEnabledBody (body : RawMessage) : Option Bool × Option String :=
  match body with
  | .nil => (none, some "EOF")
  | .invalid e => (none, some e)
  | .doc .null => (none, none)
  | .doc (.obj kvs) => kvs.foldl decodeEnabledEntry (none, none)
  | .doc v => (none,
      some ("json: cannot unmarshal " ++ jsonKindName v ++ " into Go value of type struct"))

/-- `Handler.UpdateTool`: the response and the handler after the call. -/
def Handler.UpdateTool (h : Handler) (writeErr : Option String) (r : Request) (id : String) :
    Response × Handler :=
  if r.method ≠ "PUT" then (httpError "Method not allowed" 405, h)
  else
    match h.toolEnable with
    | none =>
      (writeJSONStatus 500 (.strMap [("error", "tool enable store not configured")]), h)
    | some store =>
      let d := decodeEnabledBody r.body
      match d.2 with
      | some _ => (writeJSONStatus 400 (.strMap [("error", "invalid JSON")]), h)
      | none =>
        match d.1 with
        | none => (writeJSONStatus 400 (.strMap [("error", "enabled field required")]), h)
        | some enabled =>
          let res := store.SetEnabled writeErr id enabled
          match res.2 with
          | some e =>
            (writeJSONStatus 500 (.strMap [("error", e)]), { h with toolEnable := some res.1 })
          | none =>
            (writeJSON (.obj [("id", .str id), ("enabled", .bool enabled)]),
              { h with toolEnable := some res.1 })

/-- The body struct of `AddMcpServer`. -/
def addMcpServerFields : List FieldSpec :=
  [⟨"URL", "url", .string⟩, ⟨"Name", "name", .string⟩]

/-- The JSON form of `mcpServerResp` with the id, name and URL set; the name
is `omitempty`, and so are the fields left at zero. -/
def mcpServerResp (svr : McpServer) : GoVal :=
  .obj ([("id", GoVal.str svr.id)] ++ (if svr.name = "" then [] else [("name", GoVal.str svr.name)])
    ++ [("url", GoVal.str svr.url)])

/-- `Handler.AddMcpServer`: the response and the handler after the call;
`none` when the call does not return.  `statusWriteErr` is the result of the
file write of the status store. -/
def Handler.AddMcpServer (h : Handler) (randomID : String)
    (writeErr statusWriteErr : Option String) (r : Request) : Option (Response × Handler) :=
  if r.method ≠ "POST" then some (httpError "Method not allowed" 405, h)
  else
    match h.mcpStore with
    | none => some (writeJSONStatus 500 (.strMap [("error", "mcp store not configured")]), h)
    | some store =>
      let d := decodeStructBody addMcpServerFields r.body
      match d.2 with
      | some _ => some (writeJSONStatus 400 (.strMap [("error", "invalid JSON")]), h)
      | none =>
        let url := trimSpace (d.1.str "url")
        if url = "" then some (writeJSONStatus 400 (.strMap [("error", "url required")]), h)
        else
          let res := store.Add randomID writeErr (d.1.str "name") url
          let h1 : Handler := { h with mcpStore := some res.1 }
          match res.2.2 with
          | some err =>
            if err = .mcpExists then
              some (writeJSONStatus 409 (.strMap [("error", "该 MCP 地址已存在")]), h1)
            else some (writeJSONStatus 500 (.strMap [("error", err.Error)]), h1)
          | none =>
            match h.mcpStatus with
            | none => some (writeJSONStatus 201 (mcpServerResp res.2.1), h1)
            | some status =>
              match status.EnsureEntry statusWriteErr res.2.1.id with
              | none => none
              | some status1 =>
                some (writeJSONStatus 201 (mcpServerResp res.2.1),
                  { h1 with mcpStatus := some status1 })

/-- `Handler.DeleteMcpServer`: the response and the handler after the call;
`none` when the call does not return. -/
def Handler.DeleteMcpServer (h : Handler) (writeErr statusWriteErr : Option String)
    (r : Request) (id : String) : Option (Response × Handler) :=
  if r.method ≠ "DELETE" then some (httpError "Method not allowed" 405, h)
  else
    match h.mcpStore with
    | none => some (writeJSONStatus 500 (.strMap [("error", "mcp store not configured")]), h)
    | some store =>
      let res := store.Remove writeErr id
      let h1 : Handler := { h with mcpStore := some res.1 }
      match res.2 with
      | some err =>
        if err = .mcpNotFound then
          some (writeJSONStatus 404 (.strMap [("error", "not found")]), h1)
        else some (writeJSONStatus 500 (.strMap [("error", err.Error)]), h1)
      | none =>
        match h.mcpStatus with
        | none => some (writeJSON (.strMap [("status", "deleted")]), h1)
        | some status =>
          match status.RemoveServer statusWriteErr id with
          | none => none
          | some status1 =>
            some (writeJSON (.strMap [("status", "deleted")]),
              { h1 with mcpStatus := some status1 })

/-- The struct behind `ChatStreamRequest.Params.Options`. -/
structure ChatOptions where
  mode : String
  industry : String
deriving DecidableEq, Repr

/-- The struct behind `ChatStreamRequest.Params`; `resumePlan` is an
interface value, `none` when nil. -/
structure ChatParams where
  resumePlan : Option GoVal
  isApprovalConfirmed : Bool
  planMsgID : String
  options : Option ChatOptions

/-- The type `ChatStreamRequest`. -/
structure ChatStreamRequest where
  sessionID : String
  message : String
  params : Option ChatParams

/-- A JSON value decoded into a string field: `null` keeps the old value. -/
def decodeStringInto (field : String) (old : String) : GoVal → String × Option String
  | .null => (old, none)
  | .str s => (s, none)
  | v => (old, some (fieldTypeError (jsonKindName v) field "string"))

/-- A JSON value decoded into a bool field: `null` keeps the old value. -/
def decodeBoolInto (field : String) (old : Bool) : GoVal → Bool × Option String
  | .null => (old, none)
  | .bool b => (b, none)
  | v => (old, some (fieldTypeError (jsonKindName v) field "bool"))

/-- One object entry decoded into the options struct. -/
def decodeOptionsEntry (acc : ChatOptions × Option String) (kv : String × GoVal) :
    ChatOptions × Option String :=
  match findKey ["mode", "industry"] kv.1 with
  | some "mode" =>
    let r := decodeStringInto "mode" acc.1.mode kv.2
    ({ acc.1 with mode := r.1 }, acc.2 <|> r.2)
  | some "industry" =>
    let r := decodeStringInto "industry" acc.1.industry kv.2
    ({ acc.1 with industry := r.1 }, acc.2 <|> r.2)
  | _ => acc

/-- A JSON value decoded into the pointer `Options`: `null` sets it to nil, an
object is decoded into the struct it points to (allocated when nil), and
another value is a type error that leaves an allocated pointer. -/
def decodeOptionsInto (old : Option ChatOptions) : GoVal → Option ChatOptions × Option String
  | .null => (none, none)
  | .obj kvs =>
    let r := kvs.foldl decodeOptionsEntry (old.getD ⟨"", ""⟩, none)
    (some r.1, r.2)
  | v => (some (old.getD ⟨"", ""⟩), some (fieldTypeError (jsonKindName v) "options" "struct"))

/-- One object entry decoded into the params struct. -/
def decodeParamsEntry (acc : ChatParams × Option String) (kv : String × GoVal) :
    ChatParams × Option String :=
  match findKey ["resumePlan", "isApprovalConfirmed", "planMsgId", "options"] kv.1 with
  | some "resumePlan" =>
    match kv.2 with
    | .null => ({ acc.1 with resumePlan := none }, acc.2)
    | v => ({ acc.1 with resumePlan := some v }, acc.2)
  | some "isApprovalConfirmed" =>
    let r := decodeBoolInto "isApprovalConfirmed" acc.1.isApprovalConfirmed kv.2
    ({ acc.1 with isApprovalConfirmed := r.1 }, acc.2 <|> r.2)
  | some "planMsgId" =>
    let r := decodeStringInto "planMsgId" acc.1.planMsgID kv.2
    ({ acc.1 with planMsgID := r.1 }, acc.2 <|> r.2)
  | some "options" =>
    let r := decodeOptionsInto acc.1.options kv.2
    ({ acc.1 with options := r.1 }, acc.2 <|> r.2)
  | _ => acc

/-- A JSON value decoded into the pointer `Params`. -/
def decodeParamsInto (old : Option ChatParams) : GoVal → Option ChatParams × Option String
  | .null => (none, none)
  | .obj kvs =>
    let r := kvs.foldl decodeParamsEntry (old.getD ⟨none, false, "", none⟩, none)
    (some r.1, r.2)
  | v => (some (old.getD ⟨none, false, "", none⟩),
      some (fieldTypeError (jsonKindName v) "params" "struct"))

/-- One object entry decoded into `ChatStreamRequest`. -/
def decodeChatEntry (acc : ChatStreamRequest × Option String) (kv : String × GoVal) :
    ChatStreamRequest × Option String :=
  match findKey ["sessionId", "message", "params"] kv.1 with
  | some "sessionId" =>
    let r := decodeStringInto "sessionId" acc.1.sessionID kv.2
    ({ acc.1 with sessionID := r.1 }, acc.2 <|> r.2)
  | some "message" =>
    let r := decodeStringInto "message" acc.1.message kv.2
    ({ acc.1 with message := r.1 }, acc.2 <|> r.2)
  | some "params" =>
    let r := decodeParamsInto acc.1.params kv.2
    ({ acc.1 with params := r.1 }, acc.2 <|> r.2)
  | _ => acc

/-- The call `json.NewDecoder(r.Body).Decode(&req)` of `ChatStream`: the
request struct after the call and the returned error.  The handler reads only
whether there is an error. -/
def decodeChatRequest (body : RawMessage) : ChatStreamRequest × Option String :=
  match body with
  | .nil => (⟨"", "", none⟩, some "EOF")
  | .invalid e => (⟨"", "", none⟩, some e)
  | .doc .null => (⟨"", "", none⟩, none)
  | .doc (.obj kvs) => kvs.foldl decodeChatEntry (⟨"", "", none⟩, none)
  | .doc v => (⟨"", "", none⟩,
      some ("json: cannot unmarshal " ++ jsonKindName v ++
        " into Go value of type handler.ChatStreamRequest"))

/-- What a call of `ChatStream` does: it writes one error response, or it sets
up the event stream, runs the supervisor and sends the final event. -/
inductive ChatResult where
  | rejected (resp : Response)
  | streamed (run : RunResult) (finalEvent : String) (finalData : GoVal)

/-- The status code a call of `ChatStream` wrote with an error response. -/
def ChatResult.code : ChatResult → Option Nat
  | .rejected resp => some resp.code
  | .streamed _ _ _ => none

/-- The run of the supervisor a call of `ChatStream` made, if it made one. -/
def ChatResult.run : ChatResult → Option RunResult
  | .rejected _ => none
  | .streamed run _ _ => some run

/-- Lines 56-67: the options of the run. -/
def chatOptions (req : ChatStreamRequest) : SupervisorOptions :=
  let industry := "通用政企"
  let mode := "智能编排"
  match req.params.bind (fun p => p.options) with
  | some o =>
    ⟨if o.industry ≠ "" then o.industry else industry, if o.mode ≠ "" then o.mode else mode⟩
  | none => ⟨industry, mode⟩

/-- `Handler.ChatStream`.  `apiKey` is `config.GeminiAPIKey`, `canFlush` is
whether the response writer is an `http.Flusher`, and `env` holds the
collaborators of the supervisor. -/
def Handler.ChatStream (h : Handler) (env : Env) (apiKey : String) (canFlush : Bool)
    (r : Request) (w : World) : ChatResult :=
  if r.method ≠ "POST" then .rejected (httpError "Method not allowed" 405)
  else
    let d := decodeChatRequest r.body
    match d.2 with
    | some _ => .rejected (writeJSONError 400 "invalid request body")
    | none =>
      let req := d.1
      if req.sessionID = "" then .rejected (writeJSONError 400 "sessionId is required")
      else if apiKey = "" then .rejected (writeJSONError 500 "GEMINI_API_KEY not configured")
      else if !canFlush then .rejected (writeJSONError 500 "streaming not supported")
      else
        let run := RunSupervisor env
          { registry := h.registry,
            toolEnable := h.toolEnable.map (fun s => s.GetEnabled) }
          req.sessionID req.message (chatOptions req) ⟨true, true, true, true, true, true, true⟩
          (req.params.map (fun p => ⟨p.resumePlan, p.isApprovalConfirmed, p.planMsgID⟩)) w
        match run.err with
        | some e => .streamed run "error" (.strMap [("message", e)])
        | none => .streamed run "done" (.obj [])

/-! ## Reading stored turns and labels -/

/-- The thought deltas of a stream, in order: the parts the stream loop takes
as thought parts (no text, a non-empty thought). -/
def thoughtDeltas (items : List StreamItem) : List String :=
  (streamParts items).filterMap
    (fun p => if p.text = "" ∧ p.thought ≠ "" then some p.thought else none)

/-- The thought of a stored part, if it is a thought part. -/
def storedThought (p : GoVal) : Option String :=
  p.asObj.bind (fun m => objGetStr m "thought")

/-- The text of a stored part, if it is a text part as `partsToHistory`
writes it. -/
def storedText : GoVal → Option String
  | .strMap m => mapGet m "text"
  | _ => none

/-- The thought parts of a stored turn, in order. -/
def storedThoughts (turn : GoVal) : List String :=
  (turnParts turn).filterMap storedThought

/-- The text parts of a stored turn, in order. -/
def storedTexts (turn : GoVal) : List String :=
  (turnParts turn).filterMap storedText

/-- The contents a model invocation received. -/
def Event.contents : Event → Option (List Content)
  | .generateStream _ contents _ => some contents
  | _ => none

/-- What a part holds, for comparing parts: text, thought and the name and
id of the function call. -/
def Part.summary (p : Part) : String × String × Option (String × String) :=
  (p.text, p.thought, p.functionCall.map (fun fc => (fc.name, fc.id)))

/-- The first sentence of a description: the text before the first of the
delimiters "。", "；", ".", ";", trimmed of surrounding white space. -/
def firstSentence (description : String) : String :=
  trimSpace (String.mk (description.toList.takeWhile (fun c => !("。；.;".toList.contains c))))

/-- The description of a builtin tool, empty when there is none. -/
def descriptionOf (name : String) : String :=
  match Definitions.find? (fun d => d.name == name) with
  | some d => d.description
  | none => ""

/-- Scanning bytes as UTF-8: `need` is the number of continuation bytes the
character begun still lacks. -/
def utf8Scan : Nat → List Nat → Bool
  | need, [] => need == 0
  | 0, b :: rest =>
    if b < 0x80 then utf8Scan 0 rest
    else if 0xc2 ≤ b ∧ b < 0xe0 then utf8Scan 1 rest
    else if 0xe0 ≤ b ∧ b < 0xf0 then utf8Scan 2 rest
    else if 0xf0 ≤ b ∧ b < 0xf5 then utf8Scan 3 rest
    else false
  | need + 1, b :: rest =>
    if 0x80 ≤ b ∧ b < 0xc0 then utf8Scan need rest else false

/-- Whether bytes are a sequence of whole UTF-8 encoded characters. -/
def utf8Whole (bytes : GoBytes) : Bool :=
  utf8Scan 0 bytes

/-! ## Settings stores, continued (store/mcp.go, store/mcp_status.go, handler/mcp.go) -/

/-- The outer loop of `McpStore.Update`, `for i := range s.servers` with the
test `s.servers[i].ID == id`: the servers before the first one with the id,
that server, and the servers after it. -/
def splitAtId : List McpServer → String → Option (List McpServer × McpServer × List McpServer)
  | [], _ => none
  | svr :: rest, id =>
    if svr.id = id then some ([], svr, rest)
    else (splitAtId rest id).map (fun r => (svr :: r.1, r.2.1, r.2.2))

/-- `McpStore.Update`: the store after the call and the returned error.  The
name is assigned first; the inner loop then looks among the servers at the
other indexes for the normal form of the new URL. -/
def McpStore.Update (s : McpStore) (writeErr : Option String) (id : String)
    (updates : List (String × String)) : McpStore × Option StoreError :=
  match splitAtId s.servers id with
  | none => (s, some .mcpNotFound)
  | some (before, svr, after) =>
    let named : McpServer :=
      match mapGet updates "name" with
      | some name => { svr with name := name }
      | none => svr
    match mapGet updates "url" with
    | some url =>
      if (before ++ after).any
          (fun other => normalizeMcpUrl other.url == normalizeMcpUrl url) then
        (⟨before ++ named :: after⟩, some .mcpExists)
      else (⟨before ++ { named with url := url } :: after⟩, writeErr.map StoreError.other)
    | none => (⟨before ++ named :: after⟩, writeErr.map StoreError.other)

/-- A call of one of the methods of `McpStore` that write the list, with the
results of the collaborators it reads. -/
inductive McpCall where
  | add (randomID : String) (writeErr : Option String) (name url : String)
  | update (writeErr : Option String) (id : String) (updates : List (String × String))
  | remove (writeErr : Option String) (id : String)

/-- The store after a call, whether it succeeded or failed. -/
def McpStore.after (s : McpStore) : McpCall → McpStore
  | .add randomID writeErr name url => (s.Add randomID writeErr name url).1
  | .update writeErr id updates => (s.Update writeErr id updates).1
  | .remove writeErr id => (s.Remove writeErr id).1

/-- The store reached from the empty store by a sequence of calls. -/
def McpStore.afterAll (calls : List McpCall) : McpStore :=
  calls.foldl McpStore.after ⟨[]⟩

/-- The body struct of `UpdateMcpServer`. -/
def updateMcpServerFields : List FieldSpec :=
  [⟨"Name", "name", .string⟩, ⟨"URL", "url", .string⟩]

/-- The map `updates` of `UpdateMcpServer`. -/
def updatesOf (body : Struct) : List (String × String) :=
  (if body.str "name" ≠ "" then [("name", trimSpace (body.str "name"))] else []) ++
  (if body.str "url" ≠ "" then [("url", trimSpace (body.str "url"))] else [])

/-- `Handler.UpdateMcpServer`: the response and the handler after the call. -/
def Handler.UpdateMcpServer (h : Handler) (writeErr : Option String) (r : Request)
    (id : String) : Response × Handler :=
  if r.method ≠ "PUT" then (httpError "Method not allowed" 405, h)
  else
    match h.mcpStore with
    | none => (writeJSONStatus 500 (.strMap [("error", "mcp store not configured")]), h)
    | some store =>
      let d := decodeStructBody updateMcpServerFields r.body
      match d.2 with
      | some _ => (writeJSONStatus 400 (.strMap [("error", "invalid JSON")]), h)
      | none =>
        let updates := updatesOf d.1
        if updates.length = 0 then
          match (store.Get id).1 with
          | none => (writeJSONStatus 404 (.strMap [("error", "not found")]), h)
          | some svr => (writeJSON (mcpServerResp svr), h)
        else
          let res := store.Update writeErr id updates
          let h1 : Handler := { h with mcpStore := some res.1 }
          match res.2 with
          | some err =>
            if err = .mcpExists then
              (writeJSONStatus 409 (.strMap [("error", "该 MCP 地址已被其他服务器使用")]), h1)
            else if err = .mcpNotFound then
              (writeJSONStatus 404 (.strMap [("error", "not found")]), h1)
            else (writeJSONStatus 500 (.strMap [("error", err.Error)]), h1)
          | none =>
            match (res.1.Get id).1 with
            | some svr => (writeJSON (mcpServerResp svr), h1)
            | none => (writeJSONStatus 200 (.strMap [("status", "ok")]), h1)

/-- `McpStatusStore.Get`: a copy of the entry, or nil, and the store after
the call; `none` when the call does not return. -/
def McpStatusStore.Get (s : McpStatusStore) (id : String) :
    Option (Option McpServerStatusEntry × McpStatusStore) :=
  match s.mu.RLock with
  | none => none
  | some m1 => some (mapGet s.byID id, { s with mu := m1.RUnlock })

/-- `McpStatusStore.SetChecking`: the store after the call, `none` when the
call does not return; `nowMilli` is the clock reading. -/
def McpStatusStore.SetChecking (s : McpStatusStore) (writeErr : Option String)
    (nowMilli : Int) (id : String) : Option McpStatusStore :=
  match s.mu.Lock with
  | none => none
  | some m1 =>
    match mapGet s.byID id with
    | none => some { s with mu := m1.Unlock }
    | some e =>
      let s1 : McpStatusStore :=
        { mu := m1,
          byID := mapPut s.byID id
            { e with status := "checking", lastCheckAt := nowMilli, lastError := "" } }
      match s1.save writeErr with
      | none => none
      | some r => some { r.1 with mu := r.1.mu.Unlock }

/-- `McpStatusStore.SetResult`: the store after the call, `none` when the
call does not return. -/
def McpStatusStore.SetResult (s : McpStatusStore) (writeErr : Option String)
    (nowMilli : Int) (id status errMsg : String) (toolsCount : Int) (endpoint : String) :
    Option McpStatusStore :=
  match s.mu.Lock with
  | none => none
  | some m1 =>
    let e : McpServerStatusEntry := (mapGet s.byID id).getD ⟨"unknown", 0, "", 0, ""⟩
    let s1 : McpStatusStore :=
      { mu := m1,
        byID := mapPut s.byID id
          { status := status, lastCheckAt := nowMilli, lastError := errMsg,
            toolsCount := toolsCount,
            endpoint := if endpoint ≠ "" then endpoint else e.endpoint } }
    match s1.save writeErr with
    | none => none
    | some r => some { r.1 with mu := r.1.mu.Unlock }

/-! ## Concrete collaborators for the examples -/

/-- A stream item carrying one response with the given parts. -/
def partsResponse (ps : List Part) : StreamItem :=
  .ok (some ⟨[⟨some ⟨"model", ps⟩⟩]⟩)

/-- Collaborators for the examples: the model answers its `k`-th invocation
with `script k`; the clock stands at 0 and the other collaborators are trivial. -/
def scriptedEnv (script : Nat → List StreamItem) : Env :=
  { clientErr := none
    generate := fun k _ => script k
    fcTime := fun _ => 0
    fcRand := fun k => k
    userMsgTime := 0
    assistantMsgTime := 0
    sprintV := fun _ => "result"
    defaultVFS := .null
    nowRFC3339 := fun _ => "1970-01-01T00:00:00Z"
    nowMilli := fun _ => 0
    nowNano := fun _ => 0
    todoSaveErr := none
    vfsWrite := fun v _ _ _ _ => v
    rankChunks := fun _ _ chunks => chunks
    maxChunkCap := 2 ^ 48
    subStream := fun _ _ _ => []
    subGenerate := fun _ _ => .ok ""
    parseJSON := fun _ => .nil
    stripFences := fun t => t
    quote := fun t => t
    analyzeRequirementsPrompt := fun a _ _ => a
    selfReflectPrompt := fun a _ => a
    proposePlanSystem := fun a => a
    proposePlanUser := fun a => a }

/-- A world with no session and an empty todo file. -/
def emptyWorld : World :=
  { sessions := fun _ => none, todos := .ok [], tick := 0 }

/-- All observers present. -/
def allCallbacks : Callbacks :=
  ⟨true, true, true, true, true, true, true⟩

/-- The registry after `RegisterBuiltinTools`, with no enable store. -/
def builtinDeps : SupervisorDeps :=
  { registry := RegisterBuiltinTools Registry.New, toolEnable := none }

/-- Options of the examples. -/
def demoOptions : SupervisorOptions :=
  ⟨"通用政企", "智能编排"⟩

/-- A thought delta followed by a text delta, then the end of the stream. -/
def thoughtThenTextScript (k : Nat) : List StreamItem :=
  if k = 1 then [partsResponse [{ thought := "plan" }], partsResponse [{ text := "hi" }]] else []

/-- A `generate_chart` call with a small payload. -/
def chartCall : FunctionCall :=
  ⟨"generate_chart", "c1", .doc (.obj [("type", .str "bar")])⟩

/-- A `propose_plan` call. -/
def planCall : FunctionCall :=
  ⟨"propose_plan", "p1", .doc (.obj [("userRequest", .str "build a report")])⟩

/-- A call of a tool that has no executor. -/
def unknownCall : FunctionCall :=
  ⟨"launch_rocket", "u1", .doc (.obj [])⟩

/-- A batch with a chart call, the plan proposal and an unknown tool. -/
def planLockScript (_k : Nat) : List StreamItem :=
  [partsResponse [{ functionCall := some chartCall }, { functionCall := some planCall },
    { functionCall := some unknownCall }]]

/-- The request context of the examples. -/
def demoCtx (script : Nat → List StreamItem) : LoopCtx :=
  requestCtx (scriptedEnv script) builtinDeps "s" allCallbacks none

/-- The loop state of the examples: an empty store and the message "hello". -/
def demoStart (script : Nat → List StreamItem) : LoopState :=
  startState (scriptedEnv script) "s" "hello" none emptyWorld

/-- The final assistant message of the example request with the given model script. -/
def demoFinalMsg (script : Nat → List StreamItem) : Option AssistantMsg :=
  (RunSupervisor (scriptedEnv script) builtinDeps "s" "hello" demoOptions allCallbacks none
    emptyWorld).assistantMsg

/-- A thought delta followed by a function call of an unknown tool, then plain text. -/
def thoughtThenCallScript (k : Nat) : List StreamItem :=
  if k = 1 then
    [partsResponse [{ thought := "plan" }], partsResponse [{ functionCall := some unknownCall }]]
  else [partsResponse [{ text := "hi" }]]

/-- The `get_current_date` call, which needs no argument. -/
def dateCall : FunctionCall :=
  ⟨"get_current_date", "d1", .doc (.obj [])⟩

/-- A call state with nothing recorded yet, on the empty world. -/
def emptyCallState : CallState :=
  { thinkingSteps := [], responseParts := [], charts := [], writtenFilePaths := [],
    trace := [], world := emptyWorld }

/-- The argument struct the executor of a builtin tool decodes. -/
def argFields (name : String) : List FieldSpec :=
  if name = "create_todo" then createTodoFields
  else if name = "list_todos" then listTodosFields
  else if name = "complete_todo" then completeTodoFields
  else if name = "search_knowledge" then searchKnowledgeFields
  else if name = "report_step_done" then reportStepDoneFields
  else if name = "write_file" then writeFileFields
  else if name = "propose_plan" then proposePlanFields
  else if name = "analyze_data" then analyzeDataFields
  else if name = "analyze_requirements" then analyzeRequirementsFields
  else if name = "self_reflect" then selfReflectFields
  else []

/-- A context with a model client, as `RunSupervisor` builds it. -/
def demoExecutorContext : ExecutorContext :=
  ⟨"s", true, false⟩

/-- The model answers its first invocation with a call of an unknown tool
and fails on the second. -/
def failingScript (k : Nat) : List StreamItem :=
  if k = 1 then [partsResponse [{ functionCall := some unknownCall }]]
  else [partsResponse [{ text := "partial" }], .error "stream broke"]

/-- A `create_todo` call without the required title. -/
def badTodoCall : FunctionCall :=
  ⟨"create_todo", "t1", .doc (.obj [])⟩

/-- The step recorded for a failed dispatch (lines 298-300). -/
def failedStep (fc : FunctionCall) (execErr : String) : ThinkingStep :=
  thinkingStep ("call-" ++ fc.id) fc.name (toolLabel fc.name)
    (goBytes ("Failed: " ++ execErr)) "failed" execErr

/-- Two text deltas in two responses, with a thought and an empty part between. -/
def twoTextScript (k : Nat) : List StreamItem :=
  if k = 1 then
    [partsResponse [{ text := "Hel" }, { thought := "hm" }], partsResponse [{}, { text := "lo" }]]
  else []

/-- Resume parameters of an approved plan. -/
def approvedParams : Params :=
  ⟨some (.obj [("title", .str "T")]), true, "agent-1"⟩

/-- The plan document the sub-model of the example answers with; its own
`isApproved` entry is not read. -/
def demoPlanDoc : GoVal :=
  .obj [("title", .str "Report"), ("steps", .list [.obj [("task", .str "collect")]]),
    ("isApproved", .bool true)]

/-- Collaborators whose sub-model answers with a plan document. -/
def planEnv (script : Nat → List StreamItem) : Env :=
  { scriptedEnv script with
    subStream := fun _ _ _ => [partsResponse [{ text := "plan" }]]
    parseJSON := fun _ => .doc demoPlanDoc }

/-- Text, then a `propose_plan` call, in the first response of the model. -/
def textThenPlanScript (_k : Nat) : List StreamItem :=
  [partsResponse [{ text := "Here is the plan." }, { functionCall := some planCall }]]

/-- The plan map the example dispatch of `propose_plan` returns. -/
def demoPlanMap : List (String × GoVal) :=
  [("title", .str "Report"),
   ("steps", .list [.obj [("id", .str "step-1"), ("task", .str "collect"),
      ("requiresApproval", .bool false), ("parallel", .bool false),
      ("status", .str "pending"), ("approved", .bool true), ("isAutoApproved", .bool true)]]),
   ("isApproved", .bool false)]

/-- A registry call sequence of the examples: one tool with a definition and
one registered without. -/
def demoCalls : List (String × Option FunctionDeclaration × Bool) :=
  [("alpha", some ⟨"alpha", "first tool", [], []⟩, true), ("gamma", none, false)]

/-- Two definitions for the same name. -/
def betaOld : FunctionDeclaration :=
  ⟨"beta", "old schema", [], []⟩

/-- The definition that replaces `betaOld`. -/
def betaNew : FunctionDeclaration :=
  ⟨"beta", "new schema", ["q"], ["q"]⟩

/-- An enable store with one entry, for a tool switched off. -/
def demoEnableStore : ToolEnableStore :=
  { data := [("write_file", false)] }

/-- A handler with the builtin registry, all settings stores configured and
empty MCP stores. -/
def demoHandler : Handler :=
  { registry := RegisterBuiltinTools Registry.New, toolEnable := some demoEnableStore,
    mcpStore := some ⟨[]⟩, mcpStatus := some ⟨⟨false, 0⟩, []⟩ }

/-- A `PUT` request with the body `\x7b"enabled": false\x7d`. -/
def disableRequest : Request :=
  ⟨"PUT", .doc (.obj [("enabled", .bool false)])⟩

/-- The server the examples add first. -/
def utilsServer : McpServer :=
  ⟨"mcp_1", "utils", "http://localhost:5202/mcp"⟩

/-- The example handler after `utilsServer` was added. -/
def demoHandlerWithServer : Handler :=
  { demoHandler with mcpStore := some ⟨[utilsServer]⟩ }

/-- A `POST` request that adds the URL of `utilsServer` again, written with
spaces around it and a trailing slash. -/
def duplicateRequest : Request :=
  ⟨"POST", .doc (.obj [("url", .str " http://localhost:5202/mcp/ ")])⟩

/-- A store in which two servers carry the same id. -/
def twinStore : McpStore :=
  ⟨[⟨"mcp_7", "first", "http://a"⟩, ⟨"mcp_7", "second", "http://b"⟩]⟩

/-- A store with three servers of distinct ids. -/
def threeStore : McpStore :=
  ⟨[⟨"mcp_1", "a", "http://a"⟩, ⟨"mcp_2", "b", "http://b"⟩, ⟨"mcp_3", "c", "http://c"⟩]⟩

/-- The body `\x7binvalid`, which is not JSON, with the error of the decoder. -/
def invalidBody : RawMessage :=
  .invalid "invalid character 'i' looking for beginning of object key string"

/-- The body `\x7b"sessionId": "s1", "message": "hi"\x7d`. -/
def sessionBody : RawMessage :=
  .doc (.obj [("sessionId", .str "s1"), ("message", .str "hi")])

/-- A thought delta and then the end of the stream. -/
def thoughtOnlyScript (k : Nat) : List StreamItem :=
  if k = 1 then [partsResponse [{ thought := "plan" }]] else []

/-- Parts of the three kinds the model turn stores. -/
def mixedParts : List Part :=
  [{ thought := "t" }, { text := "hi" }, { functionCall := some dateCall }]

/-- A store with two servers. -/
def pairStore : McpStore :=
  ⟨[⟨"mcp_1", "utils", "http://a"⟩, ⟨"mcp_2", "notes", "http://b"⟩]⟩

/-- The example handler with the two servers of `pairStore`. -/
def pairHandler : Handler :=
  { demoHandler with mcpStore := some pairStore }

/-- A `PUT` request that renames a server and gives it the URL of the other
server of `pairStore`, written with a trailing slash. -/
def renameCollideRequest : Request :=
  ⟨"PUT", .doc (.obj [("name", .str "renamed"), ("url", .str "http://b/")])⟩

/-- A `POST` request that adds a server. -/
def addServerRequest : Request :=
  ⟨"POST", .doc (.obj [("url", .str "http://localhost:5205/mcp")])⟩

/-- A new status store: the mutex free, no entry. -/
def newStatusStore : McpStatusStore :=
  ⟨⟨false, 0⟩, []⟩

/-- The model answers its first invocation with a call of the blocking tool
`analyze_requirements`, without its required argument, and then with text. -/
def blockingCallScript (k : Nat) : List StreamItem :=
  if k = 1 then
    [partsResponse [{ functionCall := some ⟨"analyze_requirements", "a1", .doc (.obj [])⟩ }]]
  else [partsResponse [{ text := "hi" }]]

/-- A step list with two ids. -/
def demoSteps : List ThinkingStep :=
  [thoughtStep "th-1" "active" "plan", pendingStep dateCall]

/-- A world whose session "s" holds one UI message already. -/
def worldWithMessage : World :=
  { sessions := fun k =>
      if k = "s" then
        some { sessionID := "s", title := "t", geminiHistory := some [],
               uiMessages := some [.user "u-1" "earlier"], vfs := .null, knowledgeChunks := [] }
      else none,
    todos := .ok [], tick := 0 }

/-- A `search_knowledge` call whose `limit` is `1e19`. -/
def searchCall : FunctionCall :=
  ⟨"search_knowledge", "k1", .doc (.obj [("query", .str "alpha"), ("limit", .num 1 19)])⟩

/-- A second `get_current_date` call. -/
def dateCall2 : FunctionCall :=
  ⟨"get_current_date", "d2", .doc (.obj [])⟩

/-- A world whose session "s" holds one knowledge chunk. -/
def worldWithChunk : World :=
  { sessions := fun k =>
      if k = "s" then
        some { sessionID := "s", title := "t", geminiHistory := some [],
               uiMessages := some [], vfs := .null,
               knowledgeChunks := [.obj [("content", .str "alpha beta")]] }
      else none,
    todos := .ok [], tick := 0 }

/-- The model answers its first invocation with the `search_knowledge` call
of limit `1e19`, and any later one with the text "Done". -/
def searchScript (k : Nat) : List StreamItem :=
  if k = 1 then [partsResponse [{ functionCall := some searchCall }]]
  else [partsResponse [{ text := "Done" }]]

/-- The model answers its first invocation with three calls, the one in the
middle being the `search_knowledge` call of limit `1e19`. -/
def dateSearchDateScript (k : Nat) : List StreamItem :=
  if k = 1 then
    [partsResponse [{ functionCall := some dateCall }, { functionCall := some searchCall },
      { functionCall := some dateCall2 }]]
  else [partsResponse [{ text := "Done" }]]

/-- The model answers its first invocation with a `create_todo` call without
title and the `search_knowledge` call of limit `1e19`. -/
def todoSearchScript (k : Nat) : List StreamItem :=
  if k = 1 then
    [partsResponse [{ functionCall := some badTodoCall }, { functionCall := some searchCall }]]
  else [partsResponse [{ text := "Done" }]]

/-- The model answers its first invocation with a `create_todo` call without
title and a `get_current_date` call. -/
def todoDateScript (k : Nat) : List StreamItem :=
  if k = 1 then
    [partsResponse [{ functionCall := some badTodoCall }, { functionCall := some dateCall }]]
  else [partsResponse [{ text := "Done" }]]

/-- The loop state of the examples on the world with a knowledge chunk. -/
def chunkStart (script : Nat → List StreamItem) : LoopState :=
  startState (scriptedEnv script) "s" "hello" none worldWithChunk

/-! ## Lemmas: traces -/

theorem emit_observer (b : Bool) (e : Event) (h : e.isObserver = true) :
    ∀ x ∈ emit b e, x.isObserver = true := by
  intro x hx
  unfold emit at hx
  split at hx
  · simp at hx; rw [hx]; exact h
  · simp at hx

theorem modelInvocations_append (a b : List Event) :
    modelInvocations (a ++ b) = modelInvocations a + modelInvocations b := by
  simp [modelInvocations]

theorem executedCalls_append (a b : List Event) :
    executedCalls (a ++ b) = executedCalls a ++ executedCalls b := by
  simp [executedCalls]

theorem observer_not_generate (e : Event) (h : e.isObserver = true) :
    e.isGenerateStream = false := by
  cases e <;> simp_all [Event.isObserver, Event.isGenerateStream]

theorem observer_not_executed (e : Event) (h : e.isObserver = true) :
    e.executed = none := by
  cases e <;> simp_all [Event.isObserver, Event.executed]

theorem observer_not_update (e : Event) (h : e.isObserver = true) :
    e.isUpdateSession = false := by
  cases e <;> simp_all [Event.isObserver, Event.isUpdateSession]

theorem modelInvocations_observers (d : List Event) (h : ∀ e ∈ d, e.isObserver = true) :
    modelInvocations d = 0 := by
  simp only [modelInvocations, List.countP_eq_zero]
  intro e he
  simp [observer_not_generate e (h e he)]

theorem executedCalls_observers (d : List Event) (h : ∀ e ∈ d, e.isObserver = true) :
    executedCalls d = [] := by
  simp only [executedCalls, List.filterMap_eq_nil_iff]
  intro e he
  exact observer_not_executed e (h e he)

theorem ExtendsBy.refl (P : Event → Bool) (t : List Event) : ExtendsBy P t t :=
  ⟨[], by simp, by simp⟩

theorem ExtendsBy.trans {P : Event → Bool} {t0 t1 t2 : List Event}
    (h1 : ExtendsBy P t0 t1) (h2 : ExtendsBy P t1 t2) : ExtendsBy P t0 t2 := by
  obtain ⟨d1, e1, p1⟩ := h1
  obtain ⟨d2, e2, p2⟩ := h2
  refine ⟨d1 ++ d2, by rw [e2, e1, List.append_assoc], ?_⟩
  intro e he
  rcases List.mem_append.mp he with h | h
  · exact p1 e h
  · exact p2 e h

theorem ExtendsBy.append {P : Event → Bool} (t d : List Event) (h : ∀ e ∈ d, P e = true) :
    ExtendsBy P t (t ++ d) :=
  ⟨d, rfl, h⟩

theorem ExtendsBy.emit {P : Event → Bool} (t : List Event) (b : Bool) (e : Event)
    (h : P e = true) : ExtendsBy P t (t ++ emit b e) := by
  apply ExtendsBy.append
  intro x hx
  unfold AgenticDemo.emit at hx
  split at hx
  · simp at hx; rw [hx]; exact h
  · simp at hx

theorem ExtendsBy.mono {P Q : Event → Bool} {t0 t1 : List Event}
    (hPQ : ∀ e, P e = true → Q e = true) (h : ExtendsBy P t0 t1) : ExtendsBy Q t0 t1 := by
  obtain ⟨d, e, p⟩ := h
  exact ⟨d, e, fun x hx => hPQ x (p x hx)⟩

theorem flushBeforeText_trace (cb : Callbacks) (tid : String) (st : StreamState) :
    ExtendsBy Event.isObserver st.trace (flushBeforeText cb tid st).trace := by
  unfold flushBeforeText
  split
  · exact ExtendsBy.emit _ _ _ rfl
  · exact ExtendsBy.refl _ _

theorem flushBeforeCall_trace (cb : Callbacks) (tid : String) (st : StreamState) :
    ExtendsBy Event.isObserver st.trace (flushBeforeCall cb tid st).trace := by
  unfold flushBeforeCall
  split
  · exact ExtendsBy.emit _ _ _ rfl
  · exact ExtendsBy.refl _ _

theorem flushAtEnd_trace (cb : Callbacks) (tid : String) (st : StreamState) :
    ExtendsBy Event.isObserver st.trace (flushAtEnd cb tid st).trace := by
  unfold flushAtEnd
  split
  · exact ExtendsBy.emit _ _ _ rfl
  · exact ExtendsBy.refl _ _

theorem announceCall_trace (cb : Callbacks) (st : StreamState) (fc : FunctionCall) :
    ExtendsBy Event.isObserver st.trace (announceCall cb st fc).trace := by
  unfold announceCall
  split
  · exact ExtendsBy.emit _ _ _ rfl
  · exact ExtendsBy.refl _ _

/-- The events a part of a stream adds to the trace are observer callbacks. -/
theorem processPart_trace (env : Env) (cb : Callbacks) (tid : String) (st : StreamState)
    (p : Part) :
    ExtendsBy Event.isObserver st.trace (processPart env cb tid st p).trace := by
  unfold processPart
  split
  · exact (flushBeforeText_trace cb tid st).trans (ExtendsBy.emit _ _ _ rfl)
  · split
    · exact ExtendsBy.emit _ _ _ rfl
    · split
      · exact ExtendsBy.refl _ _
      · exact (flushBeforeCall_trace cb tid st).trans (announceCall_trace cb _ _)

theorem foldl_processPart_trace (env : Env) (cb : Callbacks) (tid : String)
    (ps : List Part) (st : StreamState) :
    ExtendsBy Event.isObserver st.trace (ps.foldl (processPart env cb tid) st).trace := by
  induction ps generalizing st with
  | nil => exact ExtendsBy.refl _ _
  | cons p rest ih => exact (processPart_trace env cb tid st p).trans (ih _)

theorem processResponse_trace (env : Env) (cb : Callbacks) (tid : String) (st : StreamState)
    (resp : Option GenerateContentResponse) :
    ExtendsBy Event.isObserver st.trace (processResponse env cb tid st resp).trace := by
  unfold processResponse
  split
  · exact ExtendsBy.refl _ _
  · split
    · exact ExtendsBy.refl _ _
    · split
      · exact ExtendsBy.refl _ _
      · exact foldl_processPart_trace env cb tid _ st

theorem consumeStream_trace (env : Env) (cb : Callbacks) (tid : String)
    (items : List StreamItem) (st : StreamState) :
    ExtendsBy Event.isObserver st.trace (consumeStream env cb tid items st).2.trace := by
  induction items generalizing st with
  | nil => exact ExtendsBy.refl _ _
  | cons it rest ih =>
    cases it with
    | error e => exact ExtendsBy.refl _ _
    | ok resp =>
      simp only [consumeStream]
      exact (processResponse_trace env cb tid st resp).trans (ih _)

/-! ## Lemmas: the call loop -/

theorem notifyStepDone_trace (cb : Callbacks) (params : Option Params) (st : CallState)
    (fc : FunctionCall) (result : GoVal) :
    ExtendsBy Event.isObserver st.trace (notifyStepDone cb params st fc result).trace := by
  unfold notifyStepDone
  split
  · split
    · exact ExtendsBy.append _ _ (by simp [Event.isObserver])
    · exact ExtendsBy.refl _ _
  · exact ExtendsBy.refl _ _

theorem notifyPlan_trace (cb : Callbacks) (st : CallState) (fc : FunctionCall) (result : GoVal) :
    ExtendsBy Event.isObserver st.trace (notifyPlan cb st fc result).trace := by
  unfold notifyPlan
  split
  · split
    · exact ExtendsBy.emit _ _ _ rfl
    · exact ExtendsBy.refl _ _
  · exact ExtendsBy.refl _ _

theorem recordWrittenFile_trace (cb : Callbacks) (st : CallState) (fc : FunctionCall)
    (result : GoVal) :
    ExtendsBy Event.isObserver st.trace (recordWrittenFile cb st fc result).trace := by
  unfold recordWrittenFile
  split
  · split
    · exact ExtendsBy.emit _ _ _ rfl
    · exact ExtendsBy.refl _ _
  · exact ExtendsBy.refl _ _

theorem completeStep_trace (env : Env) (cb : Callbacks) (st : CallState) (fc : FunctionCall)
    (result : GoVal) :
    ExtendsBy Event.isObserver st.trace (completeStep env cb st fc result).trace := by
  unfold completeStep
  split
  · exact ExtendsBy.emit _ _ _ rfl
  · exact ExtendsBy.refl _ _

theorem notifyStepDone_frame (cb : Callbacks) (params : Option Params) (st : CallState)
    (fc : FunctionCall) (result : GoVal) :
    (notifyStepDone cb params st fc result).responseParts = st.responseParts ∧
    (notifyStepDone cb params st fc result).world = st.world ∧
    (notifyStepDone cb params st fc result).charts = st.charts ∧
    (notifyStepDone cb params st fc result).thinkingSteps = st.thinkingSteps := by
  unfold notifyStepDone
  split
  · split <;> simp
  · simp

theorem notifyPlan_frame (cb : Callbacks) (st : CallState) (fc : FunctionCall) (result : GoVal) :
    (notifyPlan cb st fc result).responseParts = st.responseParts ∧
    (notifyPlan cb st fc result).world = st.world ∧
    (notifyPlan cb st fc result).charts = st.charts ∧
    (notifyPlan cb st fc result).thinkingSteps = st.thinkingSteps := by
  unfold notifyPlan
  split
  · split <;> simp
  · simp

theorem recordWrittenFile_frame (cb : Callbacks) (st : CallState) (fc : FunctionCall)
    (result : GoVal) :
    (recordWrittenFile cb st fc result).responseParts = st.responseParts ∧
    (recordWrittenFile cb st fc result).world = st.world ∧
    (recordWrittenFile cb st fc result).charts = st.charts ∧
    (recordWrittenFile cb st fc result).thinkingSteps = st.thinkingSteps := by
  unfold recordWrittenFile
  split
  · split <;> simp
  · simp

theorem completeStep_frame (env : Env) (cb : Callbacks) (st : CallState) (fc : FunctionCall)
    (result : GoVal) :
    (completeStep env cb st fc result).responseParts = st.responseParts ∧
    (completeStep env cb st fc result).world = st.world ∧
    (completeStep env cb st fc result).charts = st.charts := by
  unfold completeStep
  split <;> simp

theorem dispatchSuccess_trace (env : Env) (cb : Callbacks) (params : Option Params)
    (st : CallState) (fc : FunctionCall) (result : GoVal) :
    ExtendsBy Event.isObserver st.trace (dispatchSuccess env cb params st fc result).trace := by
  unfold dispatchSuccess
  exact ((notifyStepDone_trace cb params st fc result).trans
    (notifyPlan_trace cb _ fc result)).trans
    ((recordWrittenFile_trace cb _ fc _).trans (completeStep_trace env cb _ fc _))

theorem dispatchSuccess_frame (env : Env) (cb : Callbacks) (params : Option Params)
    (st : CallState) (fc : FunctionCall) (result : GoVal) :
    (dispatchSuccess env cb params st fc result).responseParts =
      st.responseParts ++ [responsePart fc [("result", markedResult fc result)]] ∧
    (dispatchSuccess env cb params st fc result).world = st.world ∧
    (dispatchSuccess env cb params st fc result).charts = st.charts := by
  unfold dispatchSuccess
  simp only [(completeStep_frame _ _ _ _ _).1, (completeStep_frame _ _ _ _ _).2.1,
    (completeStep_frame _ _ _ _ _).2.2,
    (recordWrittenFile_frame _ _ _ _).1, (recordWrittenFile_frame _ _ _ _).2.1,
    (recordWrittenFile_frame _ _ _ _).2.2.1,
    (notifyPlan_frame _ _ _ _).1, (notifyPlan_frame _ _ _ _).2.1, (notifyPlan_frame _ _ _ _).2.2.1,
    (notifyStepDone_frame _ _ _ _ _).1, (notifyStepDone_frame _ _ _ _ _).2.1,
    (notifyStepDone_frame _ _ _ _ _).2.2.1, and_self]

theorem dispatchFailure_trace (cb : Callbacks) (st : CallState) (fc : FunctionCall)
    (e : String) :
    ExtendsBy Event.isObserver st.trace (dispatchFailure cb st fc e).trace := by
  unfold dispatchFailure
  exact ExtendsBy.emit _ _ _ rfl

theorem dispatchCall_panicked (env : Env) (reg : Registry) (cb : Callbacks)
    (params : Option Params) (execReq : ExecuteRequest) (st : CallState) (fc : FunctionCall)
    (v : String) (h : (reg.Execute env execReq fc.name fc.args st.world).panic = some v) :
    dispatchCall env reg cb params execReq st fc =
      { afterExecute st fc (reg.Execute env execReq fc.name fc.args st.world).2 with
        panic := some v } := by
  simp only [dispatchCall, h]

theorem dispatchCall_err (env : Env) (reg : Registry) (cb : Callbacks)
    (params : Option Params) (execReq : ExecuteRequest) (st : CallState) (fc : FunctionCall)
    (e : String) (hp : (reg.Execute env execReq fc.name fc.args st.world).panic = none)
    (h : (reg.Execute env execReq fc.name fc.args st.world).1.2 = some e) :
    dispatchCall env reg cb params execReq st fc =
      dispatchFailure cb
        (afterExecute st fc (reg.Execute env execReq fc.name fc.args st.world).2) fc e := by
  simp only [dispatchCall, hp, h]

theorem dispatchCall_ok (env : Env) (reg : Registry) (cb : Callbacks)
    (params : Option Params) (execReq : ExecuteRequest) (st : CallState) (fc : FunctionCall)
    (hp : (reg.Execute env execReq fc.name fc.args st.world).panic = none)
    (h : (reg.Execute env execReq fc.name fc.args st.world).1.2 = none) :
    dispatchCall env reg cb params execReq st fc =
      dispatchSuccess env cb params
        (afterExecute st fc (reg.Execute env execReq fc.name fc.args st.world).2) fc
        (reg.Execute env execReq fc.name fc.args st.world).1.1 := by
  simp only [dispatchCall, hp, h]

/-- A dispatched call adds one dispatch event and then observer callbacks. -/
theorem dispatchCall_trace (env : Env) (reg : Registry) (cb : Callbacks)
    (params : Option Params) (execReq : ExecuteRequest) (st : CallState) (fc : FunctionCall) :
    ∃ d, (dispatchCall env reg cb params execReq st fc).trace =
        st.trace ++ Event.execute fc :: d ∧ ∀ e ∈ d, e.isObserver = true := by
  cases hp : (reg.Execute env execReq fc.name fc.args st.world).panic with
  | some v =>
    rw [dispatchCall_panicked env reg cb params execReq st fc v hp]
    exact ⟨[], by simp [afterExecute], by simp⟩
  | none =>
    cases h : (reg.Execute env execReq fc.name fc.args st.world).1.2 with
    | some e =>
      rw [dispatchCall_err env reg cb params execReq st fc e hp h]
      obtain ⟨d, hd, ho⟩ := dispatchFailure_trace cb
        (afterExecute st fc (reg.Execute env execReq fc.name fc.args st.world).2) fc e
      exact ⟨d, by rw [hd]; simp [afterExecute], ho⟩
    | none =>
      rw [dispatchCall_ok env reg cb params execReq st fc hp h]
      obtain ⟨d, hd, ho⟩ := dispatchSuccess_trace env cb params
        (afterExecute st fc (reg.Execute env execReq fc.name fc.args st.world).2) fc
        (reg.Execute env execReq fc.name fc.args st.world).1.1
      exact ⟨d, by rw [hd]; simp [afterExecute], ho⟩

/-- A dispatched call whose `Execute` returns adds one response, for that
call. -/
theorem dispatchCall_response (env : Env) (reg : Registry) (cb : Callbacks)
    (params : Option Params) (execReq : ExecuteRequest) (st : CallState) (fc : FunctionCall)
    (hp : (reg.Execute env execReq fc.name fc.args st.world).panic = none) :
    ∃ resp, (dispatchCall env reg cb params execReq st fc).responseParts =
        st.responseParts ++ [responsePart fc resp] := by
  cases h : (reg.Execute env execReq fc.name fc.args st.world).1.2 with
  | some e =>
    rw [dispatchCall_err env reg cb params execReq st fc e hp h]
    exact ⟨_, rfl⟩
  | none =>
    rw [dispatchCall_ok env reg cb params execReq st fc hp h]
    exact ⟨_, (dispatchSuccess_frame env cb params _ fc _).1⟩

theorem dispatchCall_world (env : Env) (reg : Registry) (cb : Callbacks)
    (params : Option Params) (execReq : ExecuteRequest) (st : CallState) (fc : FunctionCall) :
    (dispatchCall env reg cb params execReq st fc).world =
      (reg.Execute env execReq fc.name fc.args st.world).2 := by
  cases hp : (reg.Execute env execReq fc.name fc.args st.world).panic with
  | some v =>
    rw [dispatchCall_panicked env reg cb params execReq st fc v hp]
    rfl
  | none =>
    cases h : (reg.Execute env execReq fc.name fc.args st.world).1.2 with
    | some e =>
      rw [dispatchCall_err env reg cb params execReq st fc e hp h]
      rfl
    | none =>
      rw [dispatchCall_ok env reg cb params execReq st fc hp h]
      exact (dispatchSuccess_frame env cb params _ fc _).2.1

theorem notifyStepDone_panic (cb : Callbacks) (params : Option Params) (st : CallState)
    (fc : FunctionCall) (result : GoVal) :
    (notifyStepDone cb params st fc result).panic = st.panic := by
  unfold notifyStepDone
  split
  · split <;> rfl
  · rfl

theorem notifyPlan_panic (cb : Callbacks) (st : CallState) (fc : FunctionCall)
    (result : GoVal) : (notifyPlan cb st fc result).panic = st.panic := by
  unfold notifyPlan
  split
  · split <;> rfl
  · rfl

theorem recordWrittenFile_panic (cb : Callbacks) (st : CallState) (fc : FunctionCall)
    (result : GoVal) : (recordWrittenFile cb st fc result).panic = st.panic := by
  unfold recordWrittenFile
  split
  · split <;> rfl
  · rfl

theorem completeStep_panic (env : Env) (cb : Callbacks) (st : CallState) (fc : FunctionCall)
    (result : GoVal) : (completeStep env cb st fc result).panic = st.panic := by
  unfold completeStep
  split <;> rfl

theorem dispatchSuccess_panic (env : Env) (cb : Callbacks) (params : Option Params)
    (st : CallState) (fc : FunctionCall) (result : GoVal) :
    (dispatchSuccess env cb params st fc result).panic = st.panic := by
  unfold dispatchSuccess
  simp only [completeStep_panic, recordWrittenFile_panic, notifyPlan_panic,
    notifyStepDone_panic]

/-- The panic a dispatched call leaves: that of `Execute`, or the one the
state held. -/
theorem dispatchCall_panic (env : Env) (reg : Registry) (cb : Callbacks)
    (params : Option Params) (execReq : ExecuteRequest) (st : CallState) (fc : FunctionCall) :
    (dispatchCall env reg cb params execReq st fc).panic =
      match (reg.Execute env execReq fc.name fc.args st.world).panic with
      | some v => some v
      | none => st.panic := by
  cases hp : (reg.Execute env execReq fc.name fc.args st.world).panic with
  | some v =>
    rw [dispatchCall_panicked env reg cb params execReq st fc v hp]
  | none =>
    cases h : (reg.Execute env execReq fc.name fc.args st.world).1.2 with
    | some e =>
      rw [dispatchCall_err env reg cb params execReq st fc e hp h]
      rfl
    | none =>
      rw [dispatchCall_ok env reg cb params execReq st fc hp h, dispatchSuccess_panic]
      rfl

/-- The panic a call leaves: that of `Execute` when the call is dispatched and
`Execute` panics, otherwise the one the state held. -/
theorem processCall_panic (env : Env) (reg : Registry) (cb : Callbacks)
    (params : Option Params) (execReq : ExecuteRequest) (plan : Bool) (st : CallState)
    (fc : FunctionCall) :
    (processCall env reg cb params execReq plan st fc).panic =
      if isDispatched plan fc = true then
        match (reg.Execute env execReq fc.name fc.args st.world).panic with
        | some v => some v
        | none => st.panic
      else st.panic := by
  unfold processCall
  split
  · rename_i h
    have : isDispatched plan fc = false := by simp [isDispatched, h.1, h.2]
    simp [this]
  · rename_i h
    split
    · rename_i hc
      have hd : isDispatched plan fc = false := by simp [isDispatched, hc]
      simp [hd]
    · rename_i hc
      have hd : isDispatched plan fc = true := by
        simp only [isDispatched, Bool.and_eq_true, Bool.not_eq_true', bne_iff_ne, ne_eq]
        refine ⟨?_, hc⟩
        by_cases hp : plan = true
        · have : fc.name = "propose_plan" := by
            by_contra hne
            exact h ⟨hp, hne⟩
          simp [this]
        · simp [hp]
      rw [dispatchCall_panic]
      simp [hd]

/-- A call that leaves no panic found none, and its `Execute`, when it was
dispatched, returned. -/
theorem processCall_panic_none (env : Env) (reg : Registry) (cb : Callbacks)
    (params : Option Params) (execReq : ExecuteRequest) (plan : Bool) (st : CallState)
    (fc : FunctionCall)
    (h : (processCall env reg cb params execReq plan st fc).panic = none) :
    st.panic = none ∧ (isDispatched plan fc = true →
      (reg.Execute env execReq fc.name fc.args st.world).panic = none) := by
  rw [processCall_panic] at h
  by_cases hd : isDispatched plan fc = true
  · simp only [hd, if_true] at h
    cases hp : (reg.Execute env execReq fc.name fc.args st.world).panic with
    | some v => rw [hp] at h; cases h
    | none => rw [hp] at h; exact ⟨h, fun _ => rfl⟩
  · simp only [hd] at h
    exact ⟨h, fun hx => absurd hx hd⟩

/-- The events a call adds: its dispatch, when it is dispatched, and observer
callbacks. -/
theorem processCall_trace (env : Env) (reg : Registry) (cb : Callbacks)
    (params : Option Params) (execReq : ExecuteRequest) (plan : Bool) (st : CallState)
    (fc : FunctionCall) :
    ∃ d, (processCall env reg cb params execReq plan st fc).trace = st.trace ++ d ∧
      executedCalls d = (if isDispatched plan fc = true then [fc] else []) ∧
      ∀ e ∈ d, e.isCallEvent = true := by
  unfold processCall
  split
  · rename_i h
    refine ⟨[], by simp, ?_, by simp⟩
    have : isDispatched plan fc = false := by
      simp [isDispatched, h.1, h.2]
    simp [this, executedCalls]
  · rename_i h
    split
    · rename_i hc
      have hd : isDispatched plan fc = false := by simp [isDispatched, hc]
      refine ⟨emit cb.onChartData (.onChartData (unmarshalMap fc.args).1), rfl, ?_, ?_⟩
      · rw [hd]
        simp only [Bool.false_eq_true, if_false]
        exact executedCalls_observers _
          (emit_observer cb.onChartData (.onChartData (unmarshalMap fc.args).1) rfl)
      · intro e he
        simp [Event.isCallEvent,
          emit_observer cb.onChartData (.onChartData (unmarshalMap fc.args).1) rfl e he]
    · rename_i hc
      have hd : isDispatched plan fc = true := by
        simp only [isDispatched, Bool.and_eq_true, Bool.not_eq_true', bne_iff_ne, ne_eq]
        refine ⟨?_, hc⟩
        by_cases hp : plan = true
        · have : fc.name = "propose_plan" := by
            by_contra hne
            exact h ⟨hp, hne⟩
          simp [this]
        · simp [hp]
      obtain ⟨d, hd1, hd2⟩ := dispatchCall_trace env reg cb params execReq st fc
      refine ⟨Event.execute fc :: d, hd1, ?_, ?_⟩
      · rw [hd]
        simp [executedCalls, Event.executed]
        intro e he
        exact observer_not_executed e (hd2 e he)
      · intro e he
        rcases List.mem_cons.mp he with h1 | h1
        · rw [h1]; rfl
        · simp [Event.isCallEvent, hd2 e h1]

/-- Every call whose dispatch, if it has one, returns gets exactly one
response, carrying its name and id. -/
theorem processCall_response (env : Env) (reg : Registry) (cb : Callbacks)
    (params : Option Params) (execReq : ExecuteRequest) (plan : Bool) (st : CallState)
    (fc : FunctionCall)
    (hx : isDispatched plan fc = true →
      (reg.Execute env execReq fc.name fc.args st.world).panic = none) :
    ∃ resp, (processCall env reg cb params execReq plan st fc).responseParts =
        st.responseParts ++ [responsePart fc resp] := by
  unfold processCall
  split
  · exact ⟨_, rfl⟩
  · rename_i h
    split
    · exact ⟨_, rfl⟩
    · rename_i hc
      refine dispatchCall_response env reg cb params execReq st fc (hx ?_)
      simp only [isDispatched, Bool.and_eq_true, Bool.not_eq_true', bne_iff_ne, ne_eq]
      refine ⟨?_, hc⟩
      by_cases hpl : plan = true
      · have : fc.name = "propose_plan" := by
          by_contra hne
          exact h ⟨hpl, hne⟩
        simp [this]
      · simp [hpl]

theorem callEvent_not_generate (e : Event) (h : e.isCallEvent = true) :
    e.isGenerateStream = false := by
  cases e <;> simp_all [Event.isCallEvent, Event.isObserver, Event.executed,
    Event.isGenerateStream]

theorem callEvent_not_update (e : Event) (h : e.isCallEvent = true) :
    e.isUpdateSession = false := by
  cases e <;> simp_all [Event.isCallEvent, Event.isObserver, Event.executed,
    Event.isUpdateSession]

theorem observer_isCallEvent (e : Event) (h : e.isObserver = true) : e.isCallEvent = true := by
  simp [Event.isCallEvent, h]

theorem modelInvocations_callEvents (d : List Event) (h : ∀ e ∈ d, e.isCallEvent = true) :
    modelInvocations d = 0 := by
  simp only [modelInvocations, List.countP_eq_zero]
  intro e he
  simp [callEvent_not_generate e (h e he)]

theorem ExtendsBy.modelInvocations {t0 t1 : List Event}
    (h : ExtendsBy Event.isCallEvent t0 t1) : modelInvocations t1 = modelInvocations t0 := by
  obtain ⟨d, hd, hp⟩ := h
  rw [hd, modelInvocations_append, modelInvocations_callEvents d hp]
  rfl

theorem ExtendsBy.noUpdate {t0 t1 : List Event}
    (h : ExtendsBy Event.isCallEvent t0 t1) (h0 : ∀ e ∈ t0, e.isUpdateSession = false) :
    ∀ e ∈ t1, e.isUpdateSession = false := by
  obtain ⟨d, hd, hp⟩ := h
  intro e he
  rw [hd] at he
  rcases List.mem_append.mp he with h1 | h1
  · exact h0 e h1
  · exact callEvent_not_update e (hp e h1)

/-- The call loop adds the dispatches of the dispatched calls, in the order
of processing, and observer callbacks. -/
theorem foldl_processCall_trace (env : Env) (reg : Registry) (cb : Callbacks)
    (params : Option Params) (execReq : ExecuteRequest) (plan : Bool)
    (order : List FunctionCall) (st : CallState) :
    ∃ d, (order.foldl (processCall env reg cb params execReq plan) st).trace = st.trace ++ d ∧
      executedCalls d = order.filter (isDispatched plan) ∧
      ∀ e ∈ d, e.isCallEvent = true := by
  induction order generalizing st with
  | nil => exact ⟨[], by simp, by simp [executedCalls], by simp⟩
  | cons fc rest ih =>
    obtain ⟨d1, h1, x1, p1⟩ := processCall_trace env reg cb params execReq plan st fc
    obtain ⟨d2, h2, x2, p2⟩ := ih (processCall env reg cb params execReq plan st fc)
    refine ⟨d1 ++ d2, ?_, ?_, ?_⟩
    · simp only [List.foldl_cons]
      rw [h2, h1, List.append_assoc]
    · rw [executedCalls_append, x1, x2, List.filter_cons]
      split <;> simp
    · intro e he
      rcases List.mem_append.mp he with h | h
      · exact p1 e h
      · exact p2 e h

/-- A panic, once left in the state, stays. -/
theorem foldl_processCall_panic_none (env : Env) (reg : Registry) (cb : Callbacks)
    (params : Option Params) (execReq : ExecuteRequest) (plan : Bool)
    (order : List FunctionCall) (st : CallState)
    (h : (order.foldl (processCall env reg cb params execReq plan) st).panic = none) :
    st.panic = none := by
  induction order generalizing st with
  | nil => exact h
  | cons fc rest ih =>
    exact (processCall_panic_none env reg cb params execReq plan st fc (ih _ h)).1

/-- Once a dispatch has panicked the call loop does nothing more. -/
theorem foldl_callStep_stuck (env : Env) (reg : Registry) (cb : Callbacks)
    (params : Option Params) (execReq : ExecuteRequest) (plan : Bool)
    (order : List FunctionCall) (st : CallState) (h : st.panic.isSome = true) :
    order.foldl (callStep env reg cb params execReq plan) st = st := by
  induction order with
  | nil => rfl
  | cons fc rest ih =>
    simp only [List.foldl_cons, callStep, h, if_true]
    exact ih

/-- A call loop that ends without a panic ran the loop body at every call. -/
theorem foldl_callStep_eq (env : Env) (reg : Registry) (cb : Callbacks)
    (params : Option Params) (execReq : ExecuteRequest) (plan : Bool)
    (order : List FunctionCall) (st : CallState)
    (h : (order.foldl (callStep env reg cb params execReq plan) st).panic = none) :
    order.foldl (callStep env reg cb params execReq plan) st =
      order.foldl (processCall env reg cb params execReq plan) st := by
  induction order generalizing st with
  | nil => rfl
  | cons fc rest ih =>
    have hst : st.panic.isSome = false := by
      cases hs : st.panic.isSome with
      | false => rfl
      | true =>
        rw [foldl_callStep_stuck env reg cb params execReq plan _ st hs] at h
        rw [h] at hs
        cases hs
    simp only [List.foldl_cons, callStep, hst, Bool.false_eq_true, if_false] at h ⊢
    exact ih _ h

/-- What the loop body keeps at every call the call loop keeps, also when it
is left by a panic. -/
theorem foldl_callStep_keeps (env : Env) (reg : Registry) (cb : Callbacks)
    (params : Option Params) (execReq : ExecuteRequest) (plan : Bool)
    (P : CallState → Prop)
    (hstep : ∀ st fc, P st → P (processCall env reg cb params execReq plan st fc))
    (order : List FunctionCall) (st : CallState) (h : P st) :
    P (order.foldl (callStep env reg cb params execReq plan) st) := by
  induction order generalizing st with
  | nil => exact h
  | cons fc rest ih =>
    simp only [List.foldl_cons]
    apply ih
    unfold callStep
    split
    · exact h
    · exact hstep st fc h

/-- The events the call loop adds are dispatches and observer callbacks, also
when it is left by a panic. -/
theorem foldl_callStep_trace (env : Env) (reg : Registry) (cb : Callbacks)
    (params : Option Params) (execReq : ExecuteRequest) (plan : Bool)
    (order : List FunctionCall) (st : CallState) :
    ExtendsBy Event.isCallEvent st.trace
      (order.foldl (callStep env reg cb params execReq plan) st).trace := by
  induction order generalizing st with
  | nil => exact ExtendsBy.refl _ _
  | cons fc rest ih =>
    simp only [List.foldl_cons]
    refine ExtendsBy.trans ?_ (ih _)
    unfold callStep
    split
    · exact ExtendsBy.refl _ _
    · obtain ⟨d, hd, _, hp⟩ := processCall_trace env reg cb params execReq plan st fc
      exact ⟨d, hd, hp⟩

/-- The call loop adds one response per call, in the order of processing,
when it leaves no panic. -/
theorem foldl_processCall_response (env : Env) (reg : Registry) (cb : Callbacks)
    (params : Option Params) (execReq : ExecuteRequest) (plan : Bool)
    (order : List FunctionCall) (st : CallState)
    (hp : (order.foldl (processCall env reg cb params execReq plan) st).panic = none) :
    ∃ rs : List (List (String × GoVal)), rs.length = order.length ∧
      (order.foldl (processCall env reg cb params execReq plan) st).responseParts =
        st.responseParts ++ List.zipWith responsePart order rs := by
  induction order generalizing st with
  | nil => exact ⟨[], rfl, by simp⟩
  | cons fc rest ih =>
    have h1 := foldl_processCall_panic_none env reg cb params execReq plan rest _ hp
    obtain ⟨r, hr⟩ := processCall_response env reg cb params execReq plan st fc
      (processCall_panic_none env reg cb params execReq plan st fc h1).2
    obtain ⟨rs, hl, hrs⟩ := ih (processCall env reg cb params execReq plan st fc) hp
    refine ⟨r :: rs, by simp [hl], ?_⟩
    simp only [List.foldl_cons]
    rw [hrs, hr]
    simp

/-- The stream phase adds the model invocation of the iteration and then
observer callbacks. -/
theorem streamPhase_trace (c : LoopCtx) (st : LoopState) :
    ∃ d, (streamPhase c st).2.trace =
        st.trace ++ Event.generateStream (st.loopCount + 1) (historyToContents st.history)
          c.toolDefs :: d ∧
      ∀ e ∈ d, e.isObserver = true := by
  unfold streamPhase
  dsimp only
  obtain ⟨d, hd, ho⟩ := consumeStream_trace c.env c.cb ("th-" ++ toString (st.loopCount + 1))
    (c.env.generate (st.loopCount + 1) (historyToContents st.history))
    { currentTurnText := "", accumulatedParts := [], currentThought := "", thinkingSteps := [],
      fresh := st.fresh,
      trace := st.trace ++ [.generateStream (st.loopCount + 1) (historyToContents st.history)
        c.toolDefs] }
  split
  · exact ⟨d, by rw [hd]; simp, ho⟩
  · obtain ⟨d2, hd2, ho2⟩ := flushAtEnd_trace c.cb ("th-" ++ toString (st.loopCount + 1))
      (consumeStream c.env c.cb ("th-" ++ toString (st.loopCount + 1))
        (c.env.generate (st.loopCount + 1) (historyToContents st.history))
        { currentTurnText := "", accumulatedParts := [], currentThought := "",
          thinkingSteps := [], fresh := st.fresh,
          trace := st.trace ++ [.generateStream (st.loopCount + 1)
            (historyToContents st.history) c.toolDefs] }).2
    refine ⟨d ++ d2, ?_, ?_⟩
    · rw [hd2, hd]; simp
    · intro e he
      rcases List.mem_append.mp he with h | h
      · exact ho e h
      · exact ho2 e h

theorem streamPhase_modelInvocations (c : LoopCtx) (st : LoopState) :
    modelInvocations (streamPhase c st).2.trace = modelInvocations st.trace + 1 := by
  obtain ⟨d, hd, ho⟩ := streamPhase_trace c st
  rw [hd, modelInvocations_append]
  have : modelInvocations (Event.generateStream (st.loopCount + 1)
      (historyToContents st.history) c.toolDefs :: d) = 1 := by
    have h0 := modelInvocations_observers d ho
    simp only [modelInvocations] at h0 ⊢
    rw [List.countP_cons, h0]
    rfl
  rw [this]

/-- A call phase that leaves no panic is the fold of the loop body over the
calls. -/
theorem callPhase_eq (c : LoopCtx) (w : World) (s1 : StreamState)
    (hp : (callPhase c w s1).panic = none) :
    callPhase c w s1 =
      (processingOrder c.blockingIDs (extractCalls s1.accumulatedParts)).foldl
        (processCall c.env c.registry c.cb c.params c.execReq
          (hasPlanCall (extractCalls s1.accumulatedParts)))
        { thinkingSteps := s1.thinkingSteps, responseParts := [], charts := [],
          writtenFilePaths := [], trace := s1.trace, world := w } := by
  unfold callPhase at hp ⊢
  exact foldl_callStep_eq c.env c.registry c.cb c.params c.execReq _ _ _ hp

/-- The events of the call phase are dispatches and observer callbacks; when
it leaves no panic, the dispatches are those of the dispatched calls in the
order of processing. -/
theorem callPhase_trace (c : LoopCtx) (w : World) (s1 : StreamState) :
    ∃ d, (callPhase c w s1).trace = s1.trace ++ d ∧
      ((callPhase c w s1).panic = none →
        executedCalls d =
          (processingOrder c.blockingIDs (extractCalls s1.accumulatedParts)).filter
            (isDispatched (hasPlanCall (extractCalls s1.accumulatedParts)))) ∧
      ∀ e ∈ d, e.isCallEvent = true := by
  obtain ⟨d, hd, hc⟩ : ExtendsBy Event.isCallEvent s1.trace (callPhase c w s1).trace := by
    unfold callPhase
    exact foldl_callStep_trace c.env c.registry c.cb c.params c.execReq _ _ _
  refine ⟨d, hd, ?_, hc⟩
  intro hp
  obtain ⟨d1, hd1, hx1, _⟩ := foldl_processCall_trace c.env c.registry c.cb c.params c.execReq
    (hasPlanCall (extractCalls s1.accumulatedParts))
    (processingOrder c.blockingIDs (extractCalls s1.accumulatedParts))
    { thinkingSteps := s1.thinkingSteps, responseParts := [], charts := [],
      writtenFilePaths := [], trace := s1.trace, world := w }
  rw [← callPhase_eq c w s1 hp, hd] at hd1
  have : d = d1 := List.append_cancel_left hd1
  rw [this]
  exact hx1

/-- The ways an iteration ends, by the stream and the calls: a stream error,
a turn without calls, a panic of a dispatch, a completed call phase. -/
theorem iteration_failed (c : LoopCtx) (st : LoopState) (e : String)
    (h : (streamPhase c st).1 = some e) :
    ∃ st1, iteration c st = .failed e st1 ∧ st1.loopCount = st.loopCount + 1 ∧
      st1.trace = (streamPhase c st).2.trace ∧ st1.world = st.world ∧
      st1.history = st.history := by
  simp only [iteration, h]
  exact ⟨_, rfl, rfl, rfl, rfl, rfl⟩

theorem iteration_noCalls (c : LoopCtx) (st : LoopState)
    (h : (streamPhase c st).1 = none)
    (h0 : extractCalls (streamPhase c st).2.accumulatedParts = []) :
    ∃ st1, iteration c st = .exit st1 ∧ st1.loopCount = st.loopCount + 1 ∧
      st1.trace = (streamPhase c st).2.trace ∧ st1.world = st.world ∧
      st1.history = st.history ++ [modelTurn (streamPhase c st).2] ∧
      st1.currentTurnText = (streamPhase c st).2.currentTurnText ∧
      st1.thinkingSteps = (streamPhase c st).2.thinkingSteps ∧
      st1.charts = [] := by
  simp only [iteration, h, h0, List.length_nil, if_true]
  exact ⟨_, rfl, rfl, rfl, rfl, rfl, rfl, rfl, rfl⟩

/-- An iteration whose call phase is left by a panic: the model turn is in
the history, no turn of responses is. -/
theorem iteration_panicked (c : LoopCtx) (st : LoopState) (v : String)
    (h : (streamPhase c st).1 = none)
    (h0 : extractCalls (streamPhase c st).2.accumulatedParts ≠ [])
    (hp : (callPhase c st.world (streamPhase c st).2).panic = some v) :
    ∃ st1, iteration c st = .panicked v st1 ∧
      st1.loopCount = st.loopCount + 1 ∧
      st1.trace = (callPhase c st.world (streamPhase c st).2).trace ∧
      st1.world = (callPhase c st.world (streamPhase c st).2).world ∧
      st1.history = st.history ++ [modelTurn (streamPhase c st).2] ∧
      st1.panicked = true ∧
      st1.currentTurnText = (streamPhase c st).2.currentTurnText := by
  have hlen : ¬ (extractCalls (streamPhase c st).2.accumulatedParts).length = 0 := by
    simpa using h0
  simp only [iteration, h, hlen, if_false, hp]
  exact ⟨_, rfl, rfl, rfl, rfl, rfl, rfl, rfl⟩

theorem iteration_calls (c : LoopCtx) (st : LoopState)
    (h : (streamPhase c st).1 = none)
    (h0 : extractCalls (streamPhase c st).2.accumulatedParts ≠ [])
    (hp : (callPhase c st.world (streamPhase c st).2).panic = none) :
    ∃ st1, iteration c st =
        (if hasPlanCall (extractCalls (streamPhase c st).2.accumulatedParts) = true
          then IterOutcome.exit st1 else IterOutcome.next st1) ∧
      st1.loopCount = st.loopCount + 1 ∧
      st1.trace = (callPhase c st.world (streamPhase c st).2).trace ∧
      st1.world = (callPhase c st.world (streamPhase c st).2).world ∧
      st1.history = st.history ++ [modelTurn (streamPhase c st).2,
        responseTurn (callPhase c st.world (streamPhase c st).2)] ∧
      st1.currentTurnText = (streamPhase c st).2.currentTurnText ∧
      st1.thinkingSteps = (callPhase c st.world (streamPhase c st).2).thinkingSteps ∧
      st1.charts = (callPhase c st.world (streamPhase c st).2).charts := by
  have hlen : ¬ (extractCalls (streamPhase c st).2.accumulatedParts).length = 0 := by
    simpa using h0
  simp only [iteration, h, hlen, if_false, hp]
  refine ⟨{ loopCount := st.loopCount + 1,
            history := st.history ++ [modelTurn (streamPhase c st).2] ++
              [responseTurn (callPhase c st.world (streamPhase c st).2)],
            currentTurnText := (streamPhase c st).2.currentTurnText,
            thinkingSteps := (callPhase c st.world (streamPhase c st).2).thinkingSteps,
            charts := (callPhase c st.world (streamPhase c st).2).charts,
            writtenFilePaths := (callPhase c st.world (streamPhase c st).2).writtenFilePaths,
            fresh := (streamPhase c st).2.fresh,
            trace := (callPhase c st.world (streamPhase c st).2).trace,
            world := (callPhase c st.world (streamPhase c st).2).world },
    ?_, rfl, rfl, rfl, ?_, rfl, rfl, rfl⟩
  · split
    · rfl
    · split <;> rfl
  · simp

/-! ## Lemmas: the loop -/

/-- Every iteration makes exactly one model invocation and counts itself. -/
theorem iteration_counts (c : LoopCtx) (st : LoopState) :
    modelInvocations (iteration c st).state.trace = modelInvocations st.trace + 1 ∧
    (iteration c st).state.loopCount = st.loopCount + 1 := by
  cases h : (streamPhase c st).1 with
  | some e =>
    obtain ⟨st1, h1, hc, ht, _, _⟩ := iteration_failed c st e h
    rw [h1]
    simp only [IterOutcome.state, hc, ht, streamPhase_modelInvocations, and_self]
  | none =>
    by_cases h0 : extractCalls (streamPhase c st).2.accumulatedParts = []
    · obtain ⟨st1, h1, hc, ht, _⟩ := iteration_noCalls c st h h0
      rw [h1]
      simp only [IterOutcome.state, hc, ht, streamPhase_modelInvocations, and_self]
    · obtain ⟨d, hd, _, hp⟩ := callPhase_trace c st.world (streamPhase c st).2
      have hinv := ExtendsBy.modelInvocations ⟨d, hd, hp⟩
      cases hpan : (callPhase c st.world (streamPhase c st).2).panic with
      | some v =>
        obtain ⟨st1, h1, hc, ht, _⟩ := iteration_panicked c st v h h0 hpan
        rw [h1]
        simp only [IterOutcome.state, hc, ht, hinv, streamPhase_modelInvocations, and_self]
      | none =>
        obtain ⟨st1, h1, hc, ht, _⟩ := iteration_calls c st h h0 hpan
        have hs : (iteration c st).state = st1 := by
          rw [h1]; split <;> rfl
        rw [hs, hc, ht, hinv, streamPhase_modelInvocations]
        simp

/-- The loop condition bounds the model invocations, whatever the fuel. -/
theorem supervisorLoop_bound (c : LoopCtx) (fuel : Nat) (st : LoopState)
    (h : st.loopCount ≤ 10) :
    modelInvocations (supervisorLoop c fuel st).2.trace + st.loopCount ≤
      modelInvocations st.trace + 10 := by
  induction fuel generalizing st with
  | zero => simp [supervisorLoop]; omega
  | succ n ih =>
    unfold supervisorLoop
    split
    · rename_i hlt
      have hc := iteration_counts c st
      cases hi : iteration c st with
      | failed e st1 =>
        rw [hi] at hc
        simp only [IterOutcome.state] at hc
        simp only
        omega
      | exit st1 =>
        rw [hi] at hc
        simp only [IterOutcome.state] at hc
        simp only
        omega
      | next st1 =>
        rw [hi] at hc
        simp only [IterOutcome.state] at hc
        simp only
        have := ih st1 (by omega)
        omega
      | panicked v st1 =>
        rw [hi] at hc
        simp only [IterOutcome.state] at hc
        simp only
        omega
    · simp only; omega

/-- Fuel beyond what the loop condition allows changes nothing. -/
theorem supervisorLoop_fuel (c : LoopCtx) (fuel : Nat) (st : LoopState)
    (h : 10 ≤ fuel + st.loopCount) :
    supervisorLoop c (fuel + 1) st = supervisorLoop c fuel st := by
  induction fuel generalizing st with
  | zero =>
    have : ¬ st.loopCount < 10 := by omega
    simp [supervisorLoop, this]
  | succ n ih =>
    conv_lhs => unfold supervisorLoop
    conv_rhs => unfold supervisorLoop
    split
    · cases hi : iteration c st with
      | failed e st1 => rfl
      | exit st1 => rfl
      | next st1 =>
        simp only
        have hc := (iteration_counts c st).2
        rw [hi] at hc
        simp only [IterOutcome.state] at hc
        exact ih st1 (by omega)
      | panicked v st1 => rfl
    · rfl

/-! ## Lemmas: partition and stored turns -/

theorem foldl_partitionStep (blockingIDs : List String) (calls : List FunctionCall)
    (acc : List FunctionCall × List FunctionCall) :
    calls.foldl (partitionStep blockingIDs) acc =
      (acc.1 ++ calls.filter (fun fc => blockingIDs.contains fc.name),
       acc.2 ++ calls.filter (fun fc => !blockingIDs.contains fc.name)) := by
  induction calls generalizing acc with
  | nil => simp
  | cons fc rest ih =>
    simp only [List.foldl_cons, ih, partitionStep, List.filter_cons]
    by_cases h : blockingIDs.contains fc.name = true
    · simp only [h, if_true, Bool.not_true, Bool.false_eq_true, if_false, List.append_assoc,
        List.singleton_append]
    · simp only [h, if_false, Bool.not_eq_true] at h ⊢
      simp only [h, Bool.false_eq_true, if_false, Bool.not_false, if_true, List.append_assoc,
        List.singleton_append]

theorem processingOrder_eq (blockingIDs : List String) (calls : List FunctionCall) :
    processingOrder blockingIDs calls =
      calls.filter (fun fc => blockingIDs.contains fc.name) ++
      calls.filter (fun fc => !blockingIDs.contains fc.name) := by
  simp [processingOrder, blockingCalls, nonBlockingCalls, foldl_partitionStep]

theorem processingOrder_perm (blockingIDs : List String) (calls : List FunctionCall) :
    (processingOrder blockingIDs calls).Perm calls := by
  rw [processingOrder_eq]
  exact List.filter_append_perm _ _

theorem turnParts_responseTurn (c1 : CallState) :
    turnParts (responseTurn c1) = functionResponsesToHistory c1.responseParts := by
  simp [turnParts, responseTurn, GoVal.asObj, objGet, mapGet, GoVal.asList]

theorem turnParts_modelTurn (s1 : StreamState) :
    turnParts (modelTurn s1) = partsToHistory s1.accumulatedParts := by
  simp [turnParts, modelTurn, GoVal.asObj, objGet, mapGet, GoVal.asList]

theorem storedResponseKey_responsePart (fc : FunctionCall) (r : List (String × GoVal)) :
    (responseToHistory (responsePart fc r)).bind storedResponseKey = some fc.key := by
  simp [responseToHistory, responsePart, storedResponseKey, GoVal.asObj, objGet, mapGet,
    objGetStr, GoVal.asStr, FunctionCall.key]

theorem responses_keys (order : List FunctionCall) (rs : List (List (String × GoVal)))
    (h : rs.length = order.length) :
    (functionResponsesToHistory (List.zipWith responsePart order rs)).filterMap
      storedResponseKey = order.map FunctionCall.key := by
  induction order generalizing rs with
  | nil => simp [functionResponsesToHistory]
  | cons fc rest ih =>
    cases rs with
    | nil => simp at h
    | cons r rs =>
      have hl : rs.length = rest.length := by simpa using h
      have := ih rs hl
      simp only [functionResponsesToHistory, List.filterMap_filterMap] at this ⊢
      simp only [List.zipWith_cons_cons, List.filterMap_cons, List.map_cons]
      rw [storedResponseKey_responsePart fc r]
      simp only [this]

theorem responses_length (order : List FunctionCall) (rs : List (List (String × GoVal)))
    (h : rs.length = order.length) :
    (functionResponsesToHistory (List.zipWith responsePart order rs)).length = order.length := by
  induction order generalizing rs with
  | nil => simp [functionResponsesToHistory]
  | cons fc rest ih =>
    cases rs with
    | nil => simp at h
    | cons r rs =>
      have hl : rs.length = rest.length := by simpa using h
      have := ih rs hl
      simp only [functionResponsesToHistory] at this ⊢
      simp [responseToHistory, responsePart, this]

theorem callPhase_responses (c : LoopCtx) (w : World) (s1 : StreamState)
    (hp : (callPhase c w s1).panic = none) :
    ∃ rs : List (List (String × GoVal)),
      rs.length = (processingOrder c.blockingIDs (extractCalls s1.accumulatedParts)).length ∧
      (callPhase c w s1).responseParts =
        List.zipWith responsePart
          (processingOrder c.blockingIDs (extractCalls s1.accumulatedParts)) rs := by
  have he := callPhase_eq c w s1 hp
  rw [he] at hp ⊢
  obtain ⟨rs, hl, hr⟩ := foldl_processCall_response c.env c.registry c.cb c.params c.execReq
    (hasPlanCall (extractCalls s1.accumulatedParts))
    (processingOrder c.blockingIDs (extractCalls s1.accumulatedParts))
    { thinkingSteps := s1.thinkingSteps, responseParts := [], charts := [],
      writtenFilePaths := [], trace := s1.trace, world := w } hp
  exact ⟨rs, hl, by simpa using hr⟩

theorem streamPhase_executed (c : LoopCtx) (st : LoopState) :
    executedCalls (streamPhase c st).2.trace = executedCalls st.trace := by
  obtain ⟨d, hd, ho⟩ := streamPhase_trace c st
  rw [hd, executedCalls_append]
  have := executedCalls_observers d ho
  simp only [executedCalls] at this ⊢
  simp [Event.executed, this]

/-- The executor of `propose_plan` has no panic path. -/
theorem Execute_propose_plan_panic (reg : Registry) (env : Env) (req : ExecuteRequest)
    (args : RawMessage) (w : World) :
    (reg.Execute env req "propose_plan" args w).panic = none := rfl

/-- Under the plan lock no call leaves a panic. -/
theorem processCall_locked_panic (env : Env) (reg : Registry) (cb : Callbacks)
    (params : Option Params) (execReq : ExecuteRequest) (st : CallState) (fc : FunctionCall) :
    (processCall env reg cb params execReq true st fc).panic = st.panic := by
  rw [processCall_panic]
  by_cases h : fc.name = "propose_plan"
  · rw [h, Execute_propose_plan_panic]
    simp
  · have hd : isDispatched true fc = false := by simp [isDispatched, h]
    simp [hd]

theorem foldl_processCall_locked_panic (env : Env) (reg : Registry) (cb : Callbacks)
    (params : Option Params) (execReq : ExecuteRequest)
    (order : List FunctionCall) (st : CallState) :
    (order.foldl (processCall env reg cb params execReq true) st).panic = st.panic := by
  induction order generalizing st with
  | nil => rfl
  | cons fc rest ih =>
    simp only [List.foldl_cons]
    rw [ih, processCall_locked_panic]

/-- Under the plan lock the call loop is the fold of the loop body. -/
theorem foldl_callStep_locked (env : Env) (reg : Registry) (cb : Callbacks)
    (params : Option Params) (execReq : ExecuteRequest)
    (order : List FunctionCall) (st : CallState) (h : st.panic = none) :
    order.foldl (callStep env reg cb params execReq true) st =
      order.foldl (processCall env reg cb params execReq true) st := by
  induction order generalizing st with
  | nil => rfl
  | cons fc rest ih =>
    simp only [List.foldl_cons, callStep, h, Option.isSome_none, Bool.false_eq_true, if_false]
    exact ih _ (by rw [processCall_locked_panic]; exact h)

/-- A call phase under the plan lock leaves no panic. -/
theorem callPhase_locked_panic (c : LoopCtx) (w : World) (s1 : StreamState)
    (h : hasPlanCall (extractCalls s1.accumulatedParts) = true) :
    (callPhase c w s1).panic = none := by
  unfold callPhase
  dsimp only
  rw [h, foldl_callStep_locked _ _ _ _ _ _ _ rfl, foldl_processCall_locked_panic]

theorem processCall_locked (env : Env) (reg : Registry) (cb : Callbacks)
    (params : Option Params) (execReq : ExecuteRequest) (st : CallState) (fc : FunctionCall) :
    ∃ r, (processCall env reg cb params execReq true st fc).responseParts =
      st.responseParts ++ [lockedResponse fc r] := by
  by_cases h : fc.name = "propose_plan"
  · obtain ⟨r, hr⟩ := processCall_response env reg cb params execReq true st fc
      (fun _ => by rw [h]; exact Execute_propose_plan_panic reg env execReq fc.args st.world)
    exact ⟨r, by rw [hr]; simp [lockedResponse, h]⟩
  · refine ⟨[], ?_⟩
    simp [processCall, h, lockedResponse, blockedResponse]

theorem foldl_processCall_locked (env : Env) (reg : Registry) (cb : Callbacks)
    (params : Option Params) (execReq : ExecuteRequest)
    (order : List FunctionCall) (st : CallState) :
    ∃ rs : List (List (String × GoVal)), rs.length = order.length ∧
      (order.foldl (processCall env reg cb params execReq true) st).responseParts =
        st.responseParts ++ List.zipWith lockedResponse order rs := by
  induction order generalizing st with
  | nil => exact ⟨[], rfl, by simp⟩
  | cons fc rest ih =>
    obtain ⟨r, hr⟩ := processCall_locked env reg cb params execReq st fc
    obtain ⟨rs, hl, hrs⟩ := ih (processCall env reg cb params execReq true st fc)
    refine ⟨r :: rs, by simp [hl], ?_⟩
    simp only [List.foldl_cons]
    rw [hrs, hr]
    simp

theorem blocked_mem_zipWith (order : List FunctionCall) (rs : List (List (String × GoVal)))
    (h : rs.length = order.length) (fc : FunctionCall) (hm : fc ∈ order)
    (hn : fc.name ≠ "propose_plan") :
    blockedResponse fc ∈ List.zipWith lockedResponse order rs := by
  induction order generalizing rs with
  | nil => simp at hm
  | cons x rest ih =>
    cases rs with
    | nil => simp at h
    | cons r rs =>
      have hl : rs.length = rest.length := by simpa using h
      simp only [List.zipWith_cons_cons, List.mem_cons]
      rcases List.mem_cons.mp hm with h1 | h1
      · left
        rw [← h1]
        simp [lockedResponse, hn]
      · right
        exact ih rs hl h1

theorem processCall_dispatched (env : Env) (reg : Registry) (cb : Callbacks)
    (params : Option Params) (execReq : ExecuteRequest) (plan : Bool) (st : CallState)
    (fc : FunctionCall) (h : isDispatched plan fc = true) :
    processCall env reg cb params execReq plan st fc =
      dispatchCall env reg cb params execReq st fc := by
  simp only [isDispatched, Bool.and_eq_true, Bool.not_eq_true', bne_iff_ne, ne_eq] at h
  have h1 : ¬ (plan = true ∧ fc.name ≠ "propose_plan") := by
    intro hh
    have := h.1
    simp [hh.1, hh.2] at this
  simp only [processCall, h1, if_false, h.2]

theorem dispatchCall_charts (env : Env) (reg : Registry) (cb : Callbacks)
    (params : Option Params) (execReq : ExecuteRequest) (st : CallState) (fc : FunctionCall) :
    (dispatchCall env reg cb params execReq st fc).charts = st.charts := by
  cases hp : (reg.Execute env execReq fc.name fc.args st.world).panic with
  | some v =>
    rw [dispatchCall_panicked env reg cb params execReq st fc v hp]
    rfl
  | none =>
    cases h : (reg.Execute env execReq fc.name fc.args st.world).1.2 with
    | some e =>
      rw [dispatchCall_err env reg cb params execReq st fc e hp h]
      rfl
    | none =>
      rw [dispatchCall_ok env reg cb params execReq st fc hp h]
      exact (dispatchSuccess_frame env cb params _ fc _).2.2

theorem processCall_locked_charts (env : Env) (reg : Registry) (cb : Callbacks)
    (params : Option Params) (execReq : ExecuteRequest) (st : CallState) (fc : FunctionCall) :
    (processCall env reg cb params execReq true st fc).charts = st.charts := by
  by_cases h : fc.name = "propose_plan"
  · have hd : isDispatched true fc = true := by simp [isDispatched, h]
    rw [processCall_dispatched env reg cb params execReq true st fc hd]
    exact dispatchCall_charts env reg cb params execReq st fc
  · simp [processCall, h]

theorem foldl_processCall_locked_charts (env : Env) (reg : Registry) (cb : Callbacks)
    (params : Option Params) (execReq : ExecuteRequest)
    (order : List FunctionCall) (st : CallState) :
    (order.foldl (processCall env reg cb params execReq true) st).charts = st.charts := by
  induction order generalizing st with
  | nil => rfl
  | cons fc rest ih =>
    simp only [List.foldl_cons]
    rw [ih, processCall_locked_charts]

theorem isDispatched_locked (fc : FunctionCall) : isDispatched true fc = isPlanCall fc := by
  by_cases h : fc.name = "propose_plan"
  · simp [isDispatched, isPlanCall, h]
  · have h1 : (fc.name == "propose_plan") = false := by simpa using h
    have h2 : (fc.name != "propose_plan") = true := by simpa using h
    simp [isDispatched, isPlanCall, h1, h2]

theorem hasPlanCall_of_filter (calls : List FunctionCall) (pp : FunctionCall)
    (h : calls.filter isPlanCall = [pp]) : hasPlanCall calls = true := by
  have hm : pp ∈ calls.filter isPlanCall := by rw [h]; simp
  rw [List.mem_filter] at hm
  simp only [hasPlanCall, List.any_eq_true]
  exact ⟨pp, hm.1, hm.2⟩

theorem supervisorLoop_exit (c : LoopCtx) (fuel : Nat) (st st1 : LoopState)
    (hlt : st.loopCount < 10) (h : iteration c st = .exit st1) :
    supervisorLoop c (fuel + 1) st = (none, st1) := by
  simp [supervisorLoop, hlt, h]

theorem supervisorLoop_next (c : LoopCtx) (fuel : Nat) (st st1 : LoopState)
    (hlt : st.loopCount < 10) (h : iteration c st = .next st1) :
    supervisorLoop c (fuel + 1) st = supervisorLoop c fuel st1 := by
  simp [supervisorLoop, hlt, h]

theorem supervisorLoop_failed (c : LoopCtx) (fuel : Nat) (st st1 : LoopState) (e : String)
    (hlt : st.loopCount < 10) (h : iteration c st = .failed e st1) :
    supervisorLoop c (fuel + 1) st = (some e, st1) := by
  simp [supervisorLoop, hlt, h]

theorem supervisorLoop_panicked (c : LoopCtx) (fuel : Nat) (st st1 : LoopState) (v : String)
    (hlt : st.loopCount < 10) (h : iteration c st = .panicked v st1) :
    supervisorLoop c (fuel + 1) st = (some v, st1) := by
  simp [supervisorLoop, hlt, h]

/-! ## Lemmas: accumulated parts -/

theorem appendTextPart_callOnly (parts : List Part) (t : String)
    (h : ∀ p ∈ parts, p.callOnly) : ∀ p ∈ appendTextPart parts t, p.callOnly := by
  induction parts with
  | nil =>
    intro p hp
    simp only [appendTextPart, List.mem_singleton] at hp
    rw [hp]
    exact Or.inl rfl
  | cons x rest ih =>
    cases rest with
    | nil =>
      intro p hp
      simp only [appendTextPart] at hp
      split at hp
      · rename_i hx
        simp only [List.mem_singleton] at hp
        rw [hp]
        rcases h x (by simp) with h1 | h1
        · exact Or.inl h1
        · exact absurd h1.1 hx
      · simp only [List.mem_cons, List.mem_singleton, List.not_mem_nil, or_false] at hp
        rcases hp with h1 | h1
        · rw [h1]; exact h x (by simp)
        · rw [h1]; exact Or.inl rfl
    | cons y rest2 =>
      intro p hp
      simp only [appendTextPart, List.mem_cons] at hp
      rcases hp with h1 | h1
      · rw [h1]; exact h x (by simp)
      · exact ih (fun q hq => h q (List.mem_cons_of_mem _ hq)) p (by simpa using h1)

theorem append_callOnly (parts : List Part) (q : Part)
    (h : ∀ p ∈ parts, p.callOnly) (hq : q.callOnly) : ∀ p ∈ parts ++ [q], p.callOnly := by
  intro p hp
  rcases List.mem_append.mp hp with h1 | h1
  · exact h p h1
  · simp only [List.mem_singleton] at h1
    rw [h1]; exact hq

theorem flushBeforeText_callOnly (cb : Callbacks) (tid : String) (st : StreamState)
    (h : ∀ p ∈ st.accumulatedParts, p.callOnly) :
    ∀ p ∈ (flushBeforeText cb tid st).accumulatedParts, p.callOnly := by
  unfold flushBeforeText
  split
  · exact append_callOnly _ _ h (Or.inl rfl)
  · exact h

theorem flushBeforeCall_callOnly (cb : Callbacks) (tid : String) (st : StreamState)
    (h : ∀ p ∈ st.accumulatedParts, p.callOnly) :
    ∀ p ∈ (flushBeforeCall cb tid st).accumulatedParts, p.callOnly := by
  unfold flushBeforeCall
  split
  · exact append_callOnly _ _ h (Or.inl rfl)
  · exact h

theorem announceCall_parts (cb : Callbacks) (st : StreamState) (fc : FunctionCall) :
    (announceCall cb st fc).accumulatedParts = st.accumulatedParts := by
  unfold announceCall
  split <;> rfl

theorem processPart_callOnly (env : Env) (cb : Callbacks) (tid : String) (st : StreamState)
    (p : Part) (h : ∀ q ∈ st.accumulatedParts, q.callOnly) :
    ∀ q ∈ (processPart env cb tid st p).accumulatedParts, q.callOnly := by
  unfold processPart
  split
  · exact appendTextPart_callOnly _ _ (flushBeforeText_callOnly cb tid st h)
  · split
    · exact append_callOnly _ _ h (Or.inl rfl)
    · split
      · exact h
      · simp only [processCallPart, announceCall_parts]
        exact append_callOnly _ _ (flushBeforeCall_callOnly cb tid st h) (Or.inr ⟨rfl, rfl⟩)

theorem foldl_processPart_callOnly (env : Env) (cb : Callbacks) (tid : String)
    (ps : List Part) (st : StreamState) (h : ∀ q ∈ st.accumulatedParts, q.callOnly) :
    ∀ q ∈ (ps.foldl (processPart env cb tid) st).accumulatedParts, q.callOnly := by
  induction ps generalizing st with
  | nil => exact h
  | cons p rest ih => exact ih _ (processPart_callOnly env cb tid st p h)

theorem processResponse_callOnly (env : Env) (cb : Callbacks) (tid : String)
    (st : StreamState) (resp : Option GenerateContentResponse)
    (h : ∀ q ∈ st.accumulatedParts, q.callOnly) :
    ∀ q ∈ (processResponse env cb tid st resp).accumulatedParts, q.callOnly := by
  unfold processResponse
  split
  · exact h
  · split
    · exact h
    · split
      · exact h
      · exact foldl_processPart_callOnly env cb tid _ st h

theorem consumeStream_callOnly (env : Env) (cb : Callbacks) (tid : String)
    (items : List StreamItem) (st : StreamState)
    (h : ∀ q ∈ st.accumulatedParts, q.callOnly) :
    ∀ q ∈ (consumeStream env cb tid items st).2.accumulatedParts, q.callOnly := by
  induction items generalizing st with
  | nil => exact h
  | cons it rest ih =>
    cases it with
    | error e => exact h
    | ok resp =>
      simp only [consumeStream]
      exact ih _ (processResponse_callOnly env cb tid st resp h)

theorem flushAtEnd_parts (cb : Callbacks) (tid : String) (st : StreamState) :
    (flushAtEnd cb tid st).accumulatedParts = st.accumulatedParts := by
  unfold flushAtEnd
  split <;> rfl

theorem streamPhase_callOnly (c : LoopCtx) (st : LoopState) :
    ∀ q ∈ (streamPhase c st).2.accumulatedParts, q.callOnly := by
  unfold streamPhase
  dsimp only
  split
  · exact consumeStream_callOnly _ _ _ _ _ (by simp)
  · rw [flushAtEnd_parts]
    exact consumeStream_callOnly _ _ _ _ _ (by simp)

theorem partToHistory_callKey (p : Part) (h : p.callOnly) :
    (partToHistory p).bind storedCallKey = p.functionCall.map FunctionCall.key := by
  rcases h with h1 | ⟨h1, h2⟩
  · simp only [partToHistory, h1]
    by_cases ht : p.text = ""
    · by_cases hth : p.thought = ""
      · simp [ht, hth]
      · simp [ht, hth, storedCallKey, GoVal.asObj, objGet, mapGet]
    · simp [ht, storedCallKey, GoVal.asObj]
  · cases hfc : p.functionCall with
    | none => simp [partToHistory, h1, h2, hfc]
    | some fc =>
      simp [partToHistory, h1, h2, hfc, storedCallKey, GoVal.asObj, objGet, mapGet, objGetStr,
        GoVal.asStr, FunctionCall.key]

/-- The function calls stored in the model turn are the calls of the parts. -/
theorem partsToHistory_callKeys (parts : List Part) (h : ∀ q ∈ parts, q.callOnly) :
    (partsToHistory parts).filterMap storedCallKey = (extractCalls parts).map FunctionCall.key := by
  simp only [partsToHistory, extractCalls, List.filterMap_filterMap, List.map_filterMap]
  apply List.filterMap_congr
  intro q hq
  rw [partToHistory_callKey q (h q hq)]

theorem filter_hasId_of_nodup (calls : List FunctionCall)
    (hid : (calls.map (fun fc => fc.id)).Nodup) (fc : FunctionCall) (hm : fc ∈ calls) :
    (calls.map FunctionCall.key).filter (CallKey.hasId fc.id) = [fc.key] := by
  induction calls with
  | nil => simp at hm
  | cons x rest ih =>
    simp only [List.map_cons, List.nodup_cons, List.mem_map, not_exists, not_and] at hid
    rcases List.mem_cons.mp hm with h1 | h1
    · subst h1
      have hrest : (rest.map FunctionCall.key).filter (CallKey.hasId fc.id) = [] := by
        simp only [List.filter_eq_nil_iff, List.mem_map, forall_exists_index, and_imp]
        intro k y hy hk
        rw [← hk]
        simp only [CallKey.hasId, FunctionCall.key, beq_iff_eq]
        exact hid.1 y hy
      simp [List.filter_cons, CallKey.hasId, FunctionCall.key, hrest]
    · have hne : x.id ≠ fc.id := fun h => hid.1 fc h1 h.symm
      have := ih hid.2 h1
      simp [List.filter_cons, CallKey.hasId, FunctionCall.key, hne] at this ⊢
      exact this

theorem responseTurn_keys (c : LoopCtx) (w : World) (s1 : StreamState)
    (hp : (callPhase c w s1).panic = none) :
    (turnParts (responseTurn (callPhase c w s1))).filterMap storedResponseKey =
      (processingOrder c.blockingIDs (extractCalls s1.accumulatedParts)).map
        FunctionCall.key := by
  obtain ⟨rs, hl, hr⟩ := callPhase_responses c w s1 hp
  rw [turnParts_responseTurn, hr]
  exact responses_keys _ rs hl

theorem responseTurn_length (c : LoopCtx) (w : World) (s1 : StreamState)
    (hp : (callPhase c w s1).panic = none) :
    (turnParts (responseTurn (callPhase c w s1))).length =
      (extractCalls s1.accumulatedParts).length := by
  obtain ⟨rs, hl, hr⟩ := callPhase_responses c w s1 hp
  rw [turnParts_responseTurn, hr, responses_length _ rs hl]
  exact (processingOrder_perm _ _).length_eq

/-! ## Lemmas: dispatch -/

theorem Execute_unknown (r : Registry) (env : Env) (req : ExecuteRequest) (name : String)
    (args : RawMessage) (w : World) (h : GetExecutor name = none) :
    r.Execute env req name args w = .returns ((.null, none), w) := by
  simp only [Registry.Execute, h]

theorem markedResult_null (fc : FunctionCall) : markedResult fc .null = .null := by
  unfold markedResult
  split
  · rfl
  · rfl

theorem generate_chart_known : (GetExecutor "generate_chart").isSome = true := by
  rfl

theorem propose_plan_known : (GetExecutor "propose_plan").isSome = true := by
  rfl

/-! ## Lemmas: decoding arguments -/

theorem find_map_keep (l : List (String × FieldVal)) (name field : String) (v : FieldVal)
    (hne : name ≠ field) :
    ((l.map (fun kv => if kv.1 == name then (kv.1, v) else kv)).find?
        (fun kv => kv.1 == field)).map (fun kv => kv.2) =
      (l.find? (fun kv => kv.1 == field)).map (fun kv => kv.2) := by
  induction l with
  | nil => rfl
  | cons x rest ih =>
    by_cases hx : x.1 = field
    · have h1 : (x.1 == name) = false := by
        simp only [beq_eq_false_iff_ne, ne_eq]
        intro h; exact hne (h.symm.trans hx)
      have h3 : (x.1 == field) = true := by simpa using hx
      rw [List.map_cons, h1]
      simp only [Bool.false_eq_true, if_false]
      rw [List.find?_cons, List.find?_cons, h3]
    · have h2 : (x.1 == field) = false := by simpa using hx
      rw [List.map_cons, List.find?_cons, List.find?_cons, h2]
      by_cases hn : (x.1 == name) = true
      · simp only [hn, if_true, h2]
        exact ih
      · have hn2 : (x.1 == name) = false := by simpa using hn
        simp only [hn2, Bool.false_eq_true, if_false, h2]
        exact ih

theorem set_str_other (s : Struct) (name field : String) (v : FieldVal) (hne : name ≠ field) :
    (s.set name v).str field = s.str field := by
  have h : mapGet (s.set name v) field = mapGet s field := by
    simp only [mapGet, Struct.set, ← List.map_reverse]
    exact find_map_keep s.reverse name field v hne
  simp only [Struct.str, h]

theorem findKey_matches (names : List String) (key n : String)
    (h : findKey names key = some n) : keyMatches key n = true := by
  unfold findKey at h
  split at h
  · rename_i m hm
    have := List.find?_some hm
    simp only [Option.some.injEq] at h
    subst h
    simp only [beq_iff_eq] at this
    simp [keyMatches, this]
  · have := List.find?_some h
    simp only [beq_iff_eq] at this
    simp [keyMatches, this]

theorem findField_matches (fields : List FieldSpec) (key : String) (f : FieldSpec)
    (h : findField fields key = some f) : keyMatches key f.jsonName = true := by
  unfold findField at h
  cases hk : findKey (fields.map (fun f => f.jsonName)) key with
  | none => simp [hk] at h
  | some n =>
    simp only [hk, Option.bind_some] at h
    have := List.find?_some h
    simp only [beq_iff_eq] at this
    rw [this]
    exact findKey_matches _ key n hk

theorem decodeEntry_str (fields : List FieldSpec) (acc : Struct × Option String)
    (kv : String × GoVal) (field : String) (h : keyMatches kv.1 field = false) :
    (decodeEntry fields acc kv).1.str field = acc.1.str field := by
  unfold decodeEntry
  split
  · rfl
  · rename_i f hf
    have hm := findField_matches fields kv.1 f hf
    have hne : f.jsonName ≠ field := by
      intro heq
      rw [heq, h] at hm
      exact Bool.false_ne_true hm
    exact set_str_other _ _ _ _ hne

theorem foldl_decodeEntry_str (fields : List FieldSpec) (kvs : List (String × GoVal))
    (acc : Struct × Option String) (field : String)
    (h : ∀ kv ∈ kvs, keyMatches kv.1 field = false) :
    (kvs.foldl (decodeEntry fields) acc).1.str field = acc.1.str field := by
  induction kvs generalizing acc with
  | nil => rfl
  | cons kv rest ih =>
    simp only [List.foldl_cons]
    rw [ih _ (fun x hx => h x (List.mem_cons_of_mem _ hx))]
    exact decodeEntry_str fields acc kv field (h kv (by simp))

/-- A field that no key of the object matches keeps the value of the zero struct. -/
theorem unmarshalStruct_omitted (fields : List FieldSpec) (kvs : List (String × GoVal))
    (field : String) (h : ∀ kv ∈ kvs, keyMatches kv.1 field = false) :
    (unmarshalStruct fields (.doc (.obj kvs))).1.str field = (zeroStruct fields).str field := by
  simp only [unmarshalStruct]
  exact foldl_decodeEntry_str fields kvs _ field h

theorem executeCreateTodo_missing (env : Env) (ctx : ExecutorContext) (w : World)
    (args : RawMessage) (hdec : (unmarshalStruct createTodoFields args).2 = none)
    (h : (unmarshalStruct createTodoFields args).1.str "title" = "") :
    executeCreateTodo env ctx args w = .returns ((.null, some (errMissingArg "title")), w) := by
  simp [executeCreateTodo, hdec, h]

theorem executeCompleteTodo_missing (env : Env) (ctx : ExecutorContext) (w : World)
    (args : RawMessage) (hdec : (unmarshalStruct completeTodoFields args).2 = none)
    (h : (unmarshalStruct completeTodoFields args).1.str "id" = "") :
    executeCompleteTodo env ctx args w = .returns ((.null, some (errMissingArg "id")), w) := by
  simp [executeCompleteTodo, hdec, h]

theorem executeSearchKnowledge_missing (env : Env) (ctx : ExecutorContext) (w : World)
    (args : RawMessage) (hdec : (unmarshalStruct searchKnowledgeFields args).2 = none)
    (h : (unmarshalStruct searchKnowledgeFields args).1.str "query" = "") :
    executeSearchKnowledge env ctx args w = .returns ((.null, some (errMissingArg "query")), w) := by
  simp [executeSearchKnowledge, hdec, h]

theorem executeWriteFile_missing (env : Env) (ctx : ExecutorContext) (w : World)
    (args : RawMessage) (hdec : (unmarshalStruct writeFileFields args).2 = none)
    (h : (unmarshalStruct writeFileFields args).1.str "path" = "" ∨
      (unmarshalStruct writeFileFields args).1.str "language" = "") :
    executeWriteFile env ctx args w =
      .returns ((.null, some (errMissingArg "path or language")), w) := by
  simp [executeWriteFile, hdec, h]

theorem executeAnalyzeData_missing (env : Env) (ctx : ExecutorContext) (w : World)
    (args : RawMessage) (hdec : (unmarshalStruct analyzeDataFields args).2 = none)
    (h : (unmarshalStruct analyzeDataFields args).1.str "data" = "" ∨
      (unmarshalStruct analyzeDataFields args).1.str "query" = "") :
    executeAnalyzeData env ctx args w = .returns ((.null, some (errMissingArg "data or query")), w) := by
  simp [executeAnalyzeData, hdec, h]

theorem executeAnalyzeRequirements_missing (env : Env) (ctx : ExecutorContext) (w : World)
    (args : RawMessage) (hc : ctx.hasClient = true)
    (hdec : (unmarshalStruct analyzeRequirementsFields args).2 = none)
    (h : (unmarshalStruct analyzeRequirementsFields args).1.str "context" = "" ∨
      (unmarshalStruct analyzeRequirementsFields args).1.str "domain" = "") :
    executeAnalyzeRequirements env ctx args w =
      .returns ((.null, some (errMissingArg "context or domain")), w) := by
  simp [executeAnalyzeRequirements, hc, hdec, h]

theorem executeSelfReflect_missing (env : Env) (ctx : ExecutorContext) (w : World)
    (args : RawMessage) (hc : ctx.hasClient = true)
    (hdec : (unmarshalStruct selfReflectFields args).2 = none)
    (h : (unmarshalStruct selfReflectFields args).1.str "outputSummary" = "" ∨
      (unmarshalStruct selfReflectFields args).1.str "userRequest" = "") :
    executeSelfReflect env ctx args w =
      .returns ((.null, some (errMissingArg "outputSummary or userRequest")), w) := by
  simp [executeSelfReflect, hc, hdec, h]

/-! ## Lemmas: the session store -/

theorem mapGet_mem {α : Type} (kvs : List (String × α)) (k : String) (v : α)
    (h : mapGet kvs k = some v) : (k, v) ∈ kvs := by
  unfold mapGet at h
  cases hf : kvs.reverse.find? (fun kv => kv.1 == k) with
  | none => simp [hf] at h
  | some kv =>
    simp only [hf, Option.map_some', Option.some.injEq] at h
    have hm := List.mem_of_find?_eq_some hf
    have hk := List.find?_some hf
    simp only [beq_iff_eq] at hk
    rw [List.mem_reverse] at hm
    have : kv = (k, v) := by
      cases kv
      simp_all
    rw [← this]
    exact hm

theorem saveSession_storedLists (w : World) (id : String) (st : AgentSessionState)
    (old : AgentSessionState) (ho : w.sessions id = some old)
    (h1 : st.geminiHistory = old.geminiHistory) (h2 : st.uiMessages = old.uiMessages)
    (k : String) :
    storedLists (saveSession w id st) k = storedLists w k := by
  simp only [storedLists, saveSession]
  by_cases hk : k = id
  · subst hk
    simp [ho, h1, h2]
  · simp [hk]

theorem updateVFS_storedLists (env : Env) (w : World) (id path content language : String)
    (streaming : Bool) (k : String) :
    storedLists (updateVFS env w id path content language streaming) k = storedLists w k := by
  unfold updateVFS
  cases h : w.sessions id with
  | none => rfl
  | some old =>
    simp only
    exact saveSession_storedLists w id
      { old with vfs := env.vfsWrite old.vfs path content language streaming } old h rfl rfl k

theorem writeChunks_storedLists (env : Env) (id path language : String) (chunks : List String)
    (acc : String) (w : World) (k : String) :
    storedLists (writeChunks env id path language chunks acc w).2 k = storedLists w k := by
  induction chunks generalizing acc w with
  | nil => rfl
  | cons ch rest ih =>
    simp only [writeChunks]
    rw [ih, updateVFS_storedLists]

theorem todoSave_storedLists (env : Env) (w : World) (items : List TodoItem) (k : String) :
    storedLists (todoSave env w items).1 k = storedLists w k := by
  unfold todoSave
  split <;> rfl

theorem todoAdd_storedLists (env : Env) (w : World) (a b c : String) (k : String) :
    storedLists (todoAdd env w a b c).2 k = storedLists w k := by
  unfold todoAdd
  split
  · rfl
  · simp only
    rw [todoSave_storedLists]
    rfl

theorem todoComplete_storedLists (env : Env) (w : World) (id : String) (k : String) :
    storedLists (todoComplete env w id).2 k = storedLists w k := by
  unfold todoComplete
  split
  · rfl
  · split
    · rfl
    · simp only
      rw [todoSave_storedLists]

theorem executeCreateTodo_storedLists (env : Env) (ctx : ExecutorContext) (args : RawMessage)
    (w : World) (k : String) :
    storedLists (executeCreateTodo env ctx args w).2 k = storedLists w k := by
  unfold executeCreateTodo
  simp only
  split
  · rfl
  · split
    · rfl
    · split <;> exact todoAdd_storedLists _ _ _ _ _ _

theorem executeCompleteTodo_storedLists (env : Env) (ctx : ExecutorContext)
    (args : RawMessage) (w : World) (k : String) :
    storedLists (executeCompleteTodo env ctx args w).2 k = storedLists w k := by
  unfold executeCompleteTodo
  simp only
  split
  · rfl
  · split
    · rfl
    · split
      · exact todoComplete_storedLists _ _ _ _
      · split <;> exact todoComplete_storedLists _ _ _ _

theorem executeWriteFile_storedLists (env : Env) (ctx : ExecutorContext) (args : RawMessage)
    (w : World) (k : String) :
    storedLists (executeWriteFile env ctx args w).2 k = storedLists w k := by
  unfold executeWriteFile
  simp only
  split
  · rfl
  · split
    · rfl
    · rw [updateVFS_storedLists, writeChunks_storedLists, updateVFS_storedLists]

theorem executeSearchKnowledge_storedLists (env : Env) (ctx : ExecutorContext)
    (args : RawMessage) (w : World) (k : String) :
    storedLists (executeSearchKnowledge env ctx args w).2 k = storedLists w k := by
  unfold executeSearchKnowledge
  simp only
  split
  · rfl
  · split
    · rfl
    · split
      · rfl
      · split
        · rfl
        · split <;> rfl

theorem executeAnalyzeData_storedLists (env : Env) (ctx : ExecutorContext) (args : RawMessage)
    (w : World) (k : String) :
    storedLists (executeAnalyzeData env ctx args w).2 k = storedLists w k := by
  unfold executeAnalyzeData
  simp only
  split
  · rfl
  · split <;> rfl

theorem executeAnalyzeRequirements_storedLists (env : Env) (ctx : ExecutorContext)
    (args : RawMessage) (w : World) (k : String) :
    storedLists (executeAnalyzeRequirements env ctx args w).2 k = storedLists w k := by
  unfold executeAnalyzeRequirements
  split
  · rfl
  · simp only
    split
    · rfl
    · split
      · rfl
      · split <;> rfl

theorem executeSelfReflect_storedLists (env : Env) (ctx : ExecutorContext) (args : RawMessage)
    (w : World) (k : String) :
    storedLists (executeSelfReflect env ctx args w).2 k = storedLists w k := by
  unfold executeSelfReflect
  split
  · rfl
  · simp only
    split
    · rfl
    · split
      · rfl
      · split
        · rfl
        · split <;> rfl

theorem executeProposePlan_storedLists (env : Env) (ctx : ExecutorContext) (args : RawMessage)
    (w : World) (k : String) :
    storedLists (executeProposePlan env ctx args w).2 k = storedLists w k := by
  unfold executeProposePlan
  split
  · rfl
  · simp only
    split
    · rfl
    · split
      · rfl
      · split <;> rfl

theorem executeListTodos_storedLists (env : Env) (ctx : ExecutorContext) (args : RawMessage)
    (w : World) (k : String) :
    storedLists (executeListTodos env ctx args w).2 k = storedLists w k := by
  unfold executeListTodos
  simp only
  split <;> rfl

theorem executeReportStepDone_storedLists (env : Env) (ctx : ExecutorContext)
    (args : RawMessage) (w : World) (k : String) :
    storedLists (executeReportStepDone env ctx args w).2 k = storedLists w k := by
  unfold executeReportStepDone
  simp only
  split <;> rfl

theorem executeGenerateChart_storedLists (env : Env) (ctx : ExecutorContext)
    (args : RawMessage) (w : World) (k : String) :
    storedLists (executeGenerateChart env ctx args w).2 k = storedLists w k := by
  unfold executeGenerateChart
  simp only
  split <;> rfl

/-- No builtin executor changes the stored history or UI messages of a session. -/
theorem Execute_storedLists (r : Registry) (env : Env) (req : ExecuteRequest) (name : String)
    (args : RawMessage) (w : World) (k : String) :
    storedLists (r.Execute env req name args w).2 k = storedLists w k := by
  unfold Registry.Execute
  cases h : GetExecutor name with
  | none => rfl
  | some exec =>
    simp only
    have hm := mapGet_mem executors name exec h
    simp only [executors, List.mem_cons, Prod.mk.injEq, List.mem_singleton, List.not_mem_nil,
      or_false] at hm
    rcases hm with ⟨_, rfl⟩ | ⟨_, rfl⟩ | ⟨_, rfl⟩ | ⟨_, rfl⟩ | ⟨_, rfl⟩ | ⟨_, rfl⟩ | ⟨_, rfl⟩ |
      ⟨_, rfl⟩ | ⟨_, rfl⟩ | ⟨_, rfl⟩ | ⟨_, rfl⟩ | ⟨_, rfl⟩
    · rfl
    · exact executeCreateTodo_storedLists _ _ _ _ _
    · exact executeListTodos_storedLists _ _ _ _ _
    · exact executeCompleteTodo_storedLists _ _ _ _ _
    · exact executeSearchKnowledge_storedLists _ _ _ _ _
    · exact executeReportStepDone_storedLists _ _ _ _ _
    · exact executeWriteFile_storedLists _ _ _ _ _
    · exact executeGenerateChart_storedLists _ _ _ _ _
    · exact executeProposePlan_storedLists _ _ _ _ _
    · exact executeAnalyzeData_storedLists _ _ _ _ _
    · exact executeAnalyzeRequirements_storedLists _ _ _ _ _
    · exact executeSelfReflect_storedLists _ _ _ _ _

/-! ## Lemmas: what a request leaves in the store -/

theorem consumeStream_error (env : Env) (cb : Callbacks) (tid : String)
    (items : List StreamItem) (st : StreamState) :
    (consumeStream env cb tid items st).1 = streamError items := by
  induction items generalizing st with
  | nil => rfl
  | cons it rest ih =>
    cases it with
    | error e => rfl
    | ok resp =>
      simp only [consumeStream, streamError]
      exact ih _

theorem streamPhase_error (c : LoopCtx) (st : LoopState) :
    (streamPhase c st).1 =
      streamError (c.env.generate (st.loopCount + 1) (historyToContents st.history)) := by
  unfold streamPhase
  dsimp only
  rw [← consumeStream_error c.env c.cb ("th-" ++ toString (st.loopCount + 1)) _
    { currentTurnText := "", accumulatedParts := [], currentThought := "", thinkingSteps := [],
      fresh := st.fresh,
      trace := st.trace ++ [.generateStream (st.loopCount + 1) (historyToContents st.history)
        c.toolDefs] }]
  split
  · rename_i e h
    rw [h]
  · rename_i h
    rw [h]

theorem processCall_storedLists (env : Env) (reg : Registry) (cb : Callbacks)
    (params : Option Params) (execReq : ExecuteRequest) (plan : Bool) (st : CallState)
    (fc : FunctionCall) (k : String) :
    storedLists (processCall env reg cb params execReq plan st fc).world k =
      storedLists st.world k := by
  unfold processCall
  split
  · rfl
  · split
    · rfl
    · rw [dispatchCall_world, Execute_storedLists]

theorem foldl_processCall_storedLists (env : Env) (reg : Registry) (cb : Callbacks)
    (params : Option Params) (execReq : ExecuteRequest) (plan : Bool)
    (order : List FunctionCall) (st : CallState) (k : String) :
    storedLists (order.foldl (processCall env reg cb params execReq plan) st).world k =
      storedLists st.world k := by
  induction order generalizing st with
  | nil => rfl
  | cons fc rest ih =>
    simp only [List.foldl_cons]
    rw [ih, processCall_storedLists]

theorem callPhase_storedLists (c : LoopCtx) (w : World) (s1 : StreamState) (k : String) :
    storedLists (callPhase c w s1).world k = storedLists w k := by
  unfold callPhase
  exact foldl_callStep_keeps c.env c.registry c.cb c.params c.execReq _
    (fun s => storedLists s.world k = storedLists w k)
    (fun st fc h => (processCall_storedLists _ _ _ _ _ _ st fc k).trans h) _ _ rfl

theorem generate_not_update (a : Nat) (b : List Content) (t : List FunctionDeclaration) :
    (Event.generateStream a b t).isUpdateSession = false := rfl

theorem streamPhase_noUpdate (c : LoopCtx) (st : LoopState)
    (h : ∀ e ∈ st.trace, e.isUpdateSession = false) :
    ∀ e ∈ (streamPhase c st).2.trace, e.isUpdateSession = false := by
  obtain ⟨d, hd, ho⟩ := streamPhase_trace c st
  intro e he
  rw [hd] at he
  rcases List.mem_append.mp he with h1 | h1
  · exact h e h1
  · rcases List.mem_cons.mp h1 with h2 | h2
    · rw [h2]; rfl
    · exact observer_not_update e (ho e h2)

/-- An iteration leaves the stored lists as they were and calls no `UpdateSession`. -/
theorem iteration_preserves (c : LoopCtx) (st : LoopState)
    (h : ∀ e ∈ st.trace, e.isUpdateSession = false) :
    (∀ e ∈ (iteration c st).state.trace, e.isUpdateSession = false) ∧
    (∀ k, storedLists (iteration c st).state.world k = storedLists st.world k) := by
  cases hs : (streamPhase c st).1 with
  | some e =>
    obtain ⟨st1, h1, _, ht, hw, _⟩ := iteration_failed c st e hs
    rw [h1]
    simp only [IterOutcome.state, ht, hw]
    exact ⟨streamPhase_noUpdate c st h, fun _ => trivial⟩
  | none =>
    by_cases h0 : extractCalls (streamPhase c st).2.accumulatedParts = []
    · obtain ⟨st1, h1, _, ht, hw, _⟩ := iteration_noCalls c st hs h0
      rw [h1]
      simp only [IterOutcome.state, ht, hw]
      exact ⟨streamPhase_noUpdate c st h, fun _ => trivial⟩
    · obtain ⟨d, hd, _, hp⟩ := callPhase_trace c st.world (streamPhase c st).2
      cases hpan : (callPhase c st.world (streamPhase c st).2).panic with
      | some v =>
        obtain ⟨st1, h1, _, ht, hw, _⟩ := iteration_panicked c st v hs h0 hpan
        rw [h1]
        simp only [IterOutcome.state, ht, hw]
        exact ⟨ExtendsBy.noUpdate ⟨d, hd, hp⟩ (streamPhase_noUpdate c st h),
          fun k => callPhase_storedLists c st.world _ k⟩
      | none =>
        obtain ⟨st1, h1, _, ht, hw, _⟩ := iteration_calls c st hs h0 hpan
        have hst : (iteration c st).state = st1 := by
          rw [h1]; split <;> rfl
        rw [hst, ht, hw]
        exact ⟨ExtendsBy.noUpdate ⟨d, hd, hp⟩ (streamPhase_noUpdate c st h),
          fun k => callPhase_storedLists c st.world _ k⟩

theorem supervisorLoop_preserves (c : LoopCtx) (fuel : Nat) (st : LoopState)
    (h : ∀ e ∈ st.trace, e.isUpdateSession = false) :
    (∀ e ∈ (supervisorLoop c fuel st).2.trace, e.isUpdateSession = false) ∧
    (∀ k, storedLists (supervisorLoop c fuel st).2.world k = storedLists st.world k) := by
  induction fuel generalizing st with
  | zero => exact ⟨h, fun _ => rfl⟩
  | succ n ih =>
    unfold supervisorLoop
    split
    · have hp := iteration_preserves c st h
      cases hi : iteration c st with
      | failed e st1 =>
        rw [hi] at hp
        exact hp
      | exit st1 =>
        rw [hi] at hp
        exact hp
      | next st1 =>
        rw [hi] at hp
        simp only [IterOutcome.state] at hp
        simp only
        have := ih st1 hp.1
        exact ⟨this.1, fun k => by rw [this.2 k, hp.2 k]⟩
      | panicked v st1 =>
        rw [hi] at hp
        exact hp
    · exact ⟨h, fun _ => rfl⟩

theorem stateAt_loop (c : LoopCtx) (k : Nat) (st stk : LoopState)
    (h : stateAt c k st = some stk) (fuel : Nat) :
    supervisorLoop c (k + fuel) st = supervisorLoop c fuel stk ∧
    stk.loopCount = st.loopCount + k := by
  induction k generalizing st with
  | zero =>
    simp only [stateAt, Option.some.injEq] at h
    subst h
    simp
  | succ n ih =>
    simp only [stateAt] at h
    split at h
    · rename_i hlt
      cases hi : iteration c st with
      | failed e st1 => simp [hi] at h
      | exit st1 => simp [hi] at h
      | next st1 =>
        simp only [hi] at h
        have h2 := ih st1 h
        have hc := (iteration_counts c st).2
        rw [hi] at hc
        simp only [IterOutcome.state] at hc
        refine ⟨?_, by rw [h2.2, hc]; omega⟩
        have : n + 1 + fuel = (n + fuel) + 1 := by omega
        rw [this, supervisorLoop_next c (n + fuel) st st1 hlt hi]
        exact h2.1
      | panicked v st1 => simp [hi] at h
    · simp at h

theorem startState_noUpdate (env : Env) (sessionID message : String) (params : Option Params)
    (w : World) :
    ∀ e ∈ (startState env sessionID message params w).trace, e.isUpdateSession = false := by
  simp only [startState, initialLoopState]
  split
  · simp
  · intro e he
    simp only [List.mem_singleton] at he
    rw [he]; rfl

/-- A stream error leaves the panic mark of the state as it was. -/
theorem iteration_failed_panicked (c : LoopCtx) (st st1 : LoopState) (e : String)
    (h : iteration c st = .failed e st1) : st1.panicked = st.panicked := by
  revert h
  unfold iteration
  dsimp only
  split
  · intro h
    simp only [IterOutcome.failed.injEq] at h
    rw [← h.2]
  · split
    · intro h; cases h
    · split
      · intro h; cases h
      · split
        · intro h; cases h
        · split <;> (intro h; cases h)

/-- The state the next iteration starts from bears no panic mark. -/
theorem iteration_next_panicked (c : LoopCtx) (st st1 : LoopState)
    (h : iteration c st = .next st1) : st1.panicked = false := by
  revert h
  unfold iteration
  dsimp only
  split
  · intro h; cases h
  · split
    · intro h; cases h
    · split
      · intro h; cases h
      · split
        · intro h; cases h
        · split <;> (intro h; simp only [IterOutcome.next.injEq] at h; rw [← h])

/-- The states the loop passes through bear no panic mark. -/
theorem stateAt_panicked (c : LoopCtx) (k : Nat) (st stk : LoopState)
    (h : stateAt c k st = some stk) (h0 : st.panicked = false) : stk.panicked = false := by
  induction k generalizing st with
  | zero =>
    simp only [stateAt, Option.some.injEq] at h
    rw [← h]
    exact h0
  | succ n ih =>
    simp only [stateAt] at h
    split at h
    · cases hi : iteration c st with
      | failed e st1 => simp [hi] at h
      | exit st1 => simp [hi] at h
      | next st1 =>
        simp only [hi] at h
        exact ih st1 h (iteration_next_panicked c st st1 hi)
      | panicked v st1 => simp [hi] at h
    · simp at h

theorem startState_panicked (env : Env) (sessionID message : String) (params : Option Params)
    (w : World) : (startState env sessionID message params w).panicked = false := rfl

/-- A call of `RunSupervisor` that yields no error is one that returned. -/
theorem RunSupervisor_nil_returned (env : Env) (deps : SupervisorDeps)
    (sessionID message : String) (opts : SupervisorOptions) (cb : Callbacks)
    (params : Option Params) (w : World)
    (h : (RunSupervisor env deps sessionID message opts cb params w).err = none) :
    (RunSupervisor env deps sessionID message opts cb params w).panicked = false := by
  unfold RunSupervisor at h ⊢
  split
  · rfl
  · rename_i hc
    simp only [hc] at h
    dsimp only at h ⊢
    split
    · rename_i e he
      simp only [he] at h
      cases h
    · rfl

theorem loadedWorld_found (env : Env) (sessionID : String) (w : World)
    (h : (getSession w sessionID).isSome = true) : loadedWorld env sessionID w = w := by
  simp [loadedWorld, h]

theorem loadedWorld_new (env : Env) (sessionID : String) (w : World)
    (h : getSession w sessionID = none) :
    storedLists (loadedWorld env sessionID w) sessionID = some (some [], some []) ∧
    ∀ k, k ≠ sessionID → storedLists (loadedWorld env sessionID w) k = storedLists w k := by
  simp only [loadedWorld, h, Option.isSome_none, Bool.false_eq_true, if_false]
  refine ⟨by simp [storedLists, saveSession, newSession], ?_⟩
  intro k hk
  simp [storedLists, saveSession, hk]

/-! ## Lemmas: dispatch errors -/

theorem mem_appendOrUpdate (steps : List ThinkingStep) (id : String) (step : ThinkingStep) :
    step ∈ appendOrUpdate steps id step := by
  induction steps with
  | nil => simp [appendOrUpdate]
  | cons s rest ih =>
    simp only [appendOrUpdate]
    split
    · simp
    · exact List.mem_cons_of_mem _ ih

theorem iteration_failed_stream (c : LoopCtx) (st st1 : LoopState) (e : String)
    (h : iteration c st = .failed e st1) : (streamPhase c st).1 = some e := by
  cases hs : (streamPhase c st).1 with
  | some x =>
    obtain ⟨st2, h2, _⟩ := iteration_failed c st x hs
    rw [h2] at h
    cases h
    rfl
  | none =>
    by_cases h0 : extractCalls (streamPhase c st).2.accumulatedParts = []
    · obtain ⟨st2, h2, _⟩ := iteration_noCalls c st hs h0
      rw [h2] at h
      cases h
    · cases hpan : (callPhase c st.world (streamPhase c st).2).panic with
      | some v =>
        obtain ⟨st2, h2, _⟩ := iteration_panicked c st v hs h0 hpan
        rw [h2] at h
        cases h
      | none =>
        obtain ⟨st2, h2, _⟩ := iteration_calls c st hs h0 hpan
        rw [h2] at h
        split at h <;> cases h

/-- An iteration ends by a panic only when its call phase is left by one. -/
theorem iteration_panicked_calls (c : LoopCtx) (st st1 : LoopState) (v : String)
    (h : iteration c st = .panicked v st1) :
    (streamPhase c st).1 = none ∧
    extractCalls (streamPhase c st).2.accumulatedParts ≠ [] ∧
    (callPhase c st.world (streamPhase c st).2).panic = some v := by
  cases hs : (streamPhase c st).1 with
  | some x =>
    obtain ⟨st2, h2, _⟩ := iteration_failed c st x hs
    rw [h2] at h
    cases h
  | none =>
    by_cases h0 : extractCalls (streamPhase c st).2.accumulatedParts = []
    · obtain ⟨st2, h2, _⟩ := iteration_noCalls c st hs h0
      rw [h2] at h
      cases h
    · cases hpan : (callPhase c st.world (streamPhase c st).2).panic with
      | some w =>
        obtain ⟨st2, h2, _⟩ := iteration_panicked c st w hs h0 hpan
        rw [h2] at h
        cases h
        exact ⟨rfl, h0, rfl⟩
      | none =>
        obtain ⟨st2, h2, _⟩ := iteration_calls c st hs h0 hpan
        rw [h2] at h
        split at h <;> cases h

/-- What the loop is left with, when it is not left in order: the stream
error of an iteration it entered, which `RunSupervisor` returns, or the panic
of a dispatch in the call phase of such an iteration. -/
theorem supervisorLoop_error (c : LoopCtx) (fuel : Nat) (st st1 : LoopState) (x : String)
    (h : supervisorLoop c fuel st = (some x, st1)) :
    ∃ k stk, stateAt c k st = some stk ∧ stk.loopCount < 10 ∧
      (streamError (c.env.generate (stk.loopCount + 1) (historyToContents stk.history)) =
          some x ∨
        iteration c stk = .panicked x st1) := by
  induction fuel generalizing st with
  | zero => simp [supervisorLoop] at h
  | succ n ih =>
    unfold supervisorLoop at h
    split at h
    · rename_i hlt
      cases hi : iteration c st with
      | failed e st2 =>
        simp only [hi, Prod.mk.injEq, Option.some.injEq] at h
        refine ⟨0, st, rfl, hlt, Or.inl ?_⟩
        rw [← streamPhase_error, iteration_failed_stream c st st2 e hi, h.1]
      | exit st2 => simp [hi] at h
      | next st2 =>
        simp only [hi] at h
        obtain ⟨k, stk, hk, hl, he⟩ := ih st2 h
        exact ⟨k + 1, stk, by simp [stateAt, hlt, hi, hk], hl, he⟩
      | panicked v st2 =>
        simp only [hi, Prod.mk.injEq, Option.some.injEq] at h
        refine ⟨0, st, rfl, hlt, Or.inr ?_⟩
        rw [hi, h.1, h.2]
    · simp at h

/-! ## Lemmas: text and plan observers -/

theorem textCalls_append (a b : List Event) : textCalls (a ++ b) = textCalls a ++ textCalls b := by
  simp [textCalls]

theorem planCalls_append (a b : List Event) : planCalls (a ++ b) = planCalls a ++ planCalls b := by
  simp [planCalls]

theorem textCalls_other (d : List Event) (h : ∀ e ∈ d, e.isOther = true) : textCalls d = [] := by
  induction d with
  | nil => rfl
  | cons e rest ih =>
    have he := h e (by simp)
    have hr := ih (fun x hx => h x (List.mem_cons_of_mem _ hx))
    cases e <;> simp_all [textCalls, Event.text, Event.isOther]

theorem planCalls_other (d : List Event) (h : ∀ e ∈ d, e.isOther = true) : planCalls d = [] := by
  induction d with
  | nil => rfl
  | cons e rest ih =>
    have he := h e (by simp)
    have hr := ih (fun x hx => h x (List.mem_cons_of_mem _ hx))
    cases e <;> simp_all [planCalls, Event.plan, Event.isOther]

theorem ExtendsBy.textCalls {t0 t1 : List Event} (h : ExtendsBy Event.isOther t0 t1) :
    textCalls t1 = textCalls t0 := by
  obtain ⟨d, hd, ho⟩ := h
  rw [hd, textCalls_append, textCalls_other d ho, List.append_nil]

theorem ExtendsBy.planCalls {t0 t1 : List Event} (h : ExtendsBy Event.isOther t0 t1) :
    planCalls t1 = planCalls t0 := by
  obtain ⟨d, hd, ho⟩ := h
  rw [hd, planCalls_append, planCalls_other d ho, List.append_nil]

theorem flushBeforeText_other (cb : Callbacks) (tid : String) (st : StreamState) :
    ExtendsBy Event.isOther st.trace (flushBeforeText cb tid st).trace := by
  unfold flushBeforeText
  split
  · exact ExtendsBy.emit _ _ _ rfl
  · exact ExtendsBy.refl _ _

theorem flushBeforeCall_other (cb : Callbacks) (tid : String) (st : StreamState) :
    ExtendsBy Event.isOther st.trace (flushBeforeCall cb tid st).trace := by
  unfold flushBeforeCall
  split
  · exact ExtendsBy.emit _ _ _ rfl
  · exact ExtendsBy.refl _ _

theorem flushAtEnd_other (cb : Callbacks) (tid : String) (st : StreamState) :
    ExtendsBy Event.isOther st.trace (flushAtEnd cb tid st).trace := by
  unfold flushAtEnd
  split
  · exact ExtendsBy.emit _ _ _ rfl
  · exact ExtendsBy.refl _ _

theorem announceCall_other (cb : Callbacks) (st : StreamState) (fc : FunctionCall) :
    ExtendsBy Event.isOther st.trace (announceCall cb st fc).trace := by
  unfold announceCall
  split
  · exact ExtendsBy.emit _ _ _ rfl
  · exact ExtendsBy.refl _ _

theorem flushBeforeText_text (cb : Callbacks) (tid : String) (st : StreamState) :
    (flushBeforeText cb tid st).currentTurnText = st.currentTurnText := by
  unfold flushBeforeText
  split <;> rfl

theorem flushBeforeCall_text (cb : Callbacks) (tid : String) (st : StreamState) :
    (flushBeforeCall cb tid st).currentTurnText = st.currentTurnText := by
  unfold flushBeforeCall
  split <;> rfl

theorem announceCall_text (cb : Callbacks) (st : StreamState) (fc : FunctionCall) :
    (announceCall cb st fc).currentTurnText = st.currentTurnText := by
  unfold announceCall
  split <;> rfl

theorem flushAtEnd_text (cb : Callbacks) (tid : String) (st : StreamState) :
    (flushAtEnd cb tid st).currentTurnText = st.currentTurnText := by
  unfold flushAtEnd
  split <;> rfl

/-- What one part does to the accumulator `currentTurnText`. -/
theorem processPart_currentText (env : Env) (cb : Callbacks) (tid : String) (st : StreamState)
    (p : Part) :
    (processPart env cb tid st p).currentTurnText = st.currentTurnText ++ p.text := by
  unfold processPart
  split
  · simp only [processTextPart, flushBeforeText_text]
  · rename_i ht
    have ht0 : p.text = "" := by simpa using ht
    simp only [ht0, String.append_empty]
    split
    · rfl
    · split
      · rfl
      · simp only [processCallPart, announceCall_text, flushBeforeCall_text]

/-- What one part does to the calls of the text observer. -/
theorem processPart_textCalls (env : Env) (cb : Callbacks) (tid : String) (st : StreamState)
    (p : Part) (hcb : cb.onText = true) :
    textCalls (processPart env cb tid st p).trace =
      textCalls st.trace ++ (if p.text ≠ "" then [st.currentTurnText ++ p.text] else []) := by
  unfold processPart
  split
  · rename_i ht
    simp only [processTextPart, flushBeforeText_text, hcb, emit, if_true, ht, ne_eq,
      not_false_eq_true, textCalls_append, (flushBeforeText_other cb tid st).textCalls]
    rfl
  · rename_i ht
    have ht0 : p.text = "" := by simpa using ht
    simp only [ht0, ne_eq, not_true_eq_false, if_false, List.append_nil]
    split
    · have h : ExtendsBy Event.isOther st.trace (processThoughtPart cb tid st p.thought).trace :=
        ExtendsBy.emit _ _ _ rfl
      exact h.textCalls
    · split
      · rfl
      · simp only [processCallPart]
        exact ((flushBeforeCall_other cb tid st).trans (announceCall_other cb _ _)).textCalls

theorem foldl_append_join (acc : String) (l : List String) :
    List.foldl (fun r s => r ++ s) acc l = acc ++ String.join l := by
  induction l generalizing acc with
  | nil => simp [String.join]
  | cons t rest ih =>
    simp only [List.foldl_cons, String.join]
    rw [ih (acc ++ t), ih ("" ++ t)]
    simp [String.append_assoc]

theorem join_cons (t : String) (l : List String) : String.join (t :: l) = t ++ String.join l := by
  simp only [String.join, List.foldl_cons]
  rw [foldl_append_join, foldl_append_join]
  simp

theorem foldl_processPart_currentText (env : Env) (cb : Callbacks) (tid : String)
    (ps : List Part) (st : StreamState) :
    (ps.foldl (processPart env cb tid) st).currentTurnText =
      st.currentTurnText ++
        String.join ((ps.map (fun p => p.text)).filter (fun t => t ≠ "")) := by
  induction ps generalizing st with
  | nil => simp [String.join]
  | cons p rest ih =>
    simp only [List.foldl_cons, List.map_cons]
    rw [ih, processPart_currentText]
    by_cases ht : p.text = ""
    · simp [ht, List.filter_cons]
    · simp [ht, List.filter_cons, join_cons, String.append_assoc]

theorem foldl_processPart_textCalls (env : Env) (cb : Callbacks) (tid : String)
    (hcb : cb.onText = true) (ps : List Part) (st : StreamState) :
    textCalls (ps.foldl (processPart env cb tid) st).trace =
      textCalls st.trace ++
        runningTexts st.currentTurnText
          ((ps.map (fun p => p.text)).filter (fun t => t ≠ "")) := by
  induction ps generalizing st with
  | nil => simp [runningTexts]
  | cons p rest ih =>
    simp only [List.foldl_cons, List.map_cons]
    rw [ih, processPart_textCalls env cb tid st p hcb, processPart_currentText]
    by_cases ht : p.text = ""
    · simp [ht, List.filter_cons]
    · simp [ht, List.filter_cons, runningTexts]

theorem processResponse_parts (env : Env) (cb : Callbacks) (tid : String)
    (st : StreamState) (resp : Option GenerateContentResponse) :
    processResponse env cb tid st resp = (readParts resp).foldl (processPart env cb tid) st := by
  cases resp with
  | none => rfl
  | some r =>
    cases hc : r.candidates with
    | nil => simp [processResponse, readParts, hc]
    | cons cand tl =>
      cases hk : cand.content with
      | none => simp [processResponse, readParts, hc, hk]
      | some k => simp [processResponse, readParts, hc, hk]

theorem consumeStream_parts (env : Env) (cb : Callbacks) (tid : String)
    (items : List StreamItem) (st : StreamState) :
    (consumeStream env cb tid items st).2 =
      (streamParts items).foldl (processPart env cb tid) st := by
  induction items generalizing st with
  | nil => rfl
  | cons it rest ih =>
    cases it with
    | error e => rfl
    | ok resp =>
      simp only [consumeStream, streamParts, List.foldl_append]
      rw [ih, processResponse_parts]

theorem runningTexts_range (acc : String) (ts : List String) :
    runningTexts acc ts =
      (List.range ts.length).map (fun k => acc ++ String.join (ts.take (k + 1))) := by
  induction ts generalizing acc with
  | nil => rfl
  | cons t rest ih =>
    simp only [runningTexts, List.length_cons, List.range_succ_eq_map, List.map_cons,
      List.map_map, List.take_succ_cons, List.take_zero, join_cons]
    rw [ih (acc ++ t)]
    refine congrArg₂ _ ?_ ?_
    · simp [String.join]
    · apply List.map_congr_left
      intro k _
      simp [join_cons, String.append_assoc]

/-- The accumulator after the stream loop of an iteration: it starts empty,
whatever it was before, and holds the text deltas read. -/
theorem streamPhase_currentText (c : LoopCtx) (st : LoopState) :
    (streamPhase c st).2.currentTurnText =
      String.join (textDeltas (c.env.generate (st.loopCount + 1)
        (historyToContents st.history))) := by
  have key := foldl_processPart_currentText c.env c.cb ("th-" ++ toString (st.loopCount + 1))
    (streamParts (c.env.generate (st.loopCount + 1) (historyToContents st.history)))
    { currentTurnText := "", accumulatedParts := [], currentThought := "", thinkingSteps := [],
      fresh := st.fresh,
      trace := st.trace ++ [.generateStream (st.loopCount + 1) (historyToContents st.history)
        c.toolDefs] }
  rw [← consumeStream_parts] at key
  simp only [String.empty_append] at key
  unfold streamPhase
  dsimp only
  split
  · exact key
  · rw [flushAtEnd_text]
    exact key

/-- The calls of the text observer in the stream loop of an iteration. -/
theorem streamPhase_textCalls (c : LoopCtx) (st : LoopState) (hcb : c.cb.onText = true) :
    textCalls (streamPhase c st).2.trace = textCalls st.trace ++
      runningTexts "" (textDeltas (c.env.generate (st.loopCount + 1)
        (historyToContents st.history))) := by
  have key := foldl_processPart_textCalls c.env c.cb ("th-" ++ toString (st.loopCount + 1)) hcb
    (streamParts (c.env.generate (st.loopCount + 1) (historyToContents st.history)))
    { currentTurnText := "", accumulatedParts := [], currentThought := "", thinkingSteps := [],
      fresh := st.fresh,
      trace := st.trace ++ [.generateStream (st.loopCount + 1) (historyToContents st.history)
        c.toolDefs] }
  rw [← consumeStream_parts] at key
  simp only [textCalls_append] at key
  have hg : textCalls [Event.generateStream (st.loopCount + 1) (historyToContents st.history)
      c.toolDefs] = [] := rfl
  rw [hg, List.append_nil] at key
  unfold streamPhase
  dsimp only
  split
  · exact key
  · rw [(flushAtEnd_other _ _ _).textCalls]
    exact key

theorem notifyStepDone_other (cb : Callbacks) (params : Option Params) (st : CallState)
    (fc : FunctionCall) (result : GoVal) :
    ExtendsBy Event.isOther st.trace (notifyStepDone cb params st fc result).trace := by
  unfold notifyStepDone
  split
  · split
    · exact ExtendsBy.append _ _ (by simp [Event.isOther])
    · exact ExtendsBy.refl _ _
  · exact ExtendsBy.refl _ _

theorem recordWrittenFile_other (cb : Callbacks) (st : CallState) (fc : FunctionCall)
    (result : GoVal) :
    ExtendsBy Event.isOther st.trace (recordWrittenFile cb st fc result).trace := by
  unfold recordWrittenFile
  split
  · split
    · exact ExtendsBy.emit _ _ _ rfl
    · exact ExtendsBy.refl _ _
  · exact ExtendsBy.refl _ _

theorem completeStep_other (env : Env) (cb : Callbacks) (st : CallState) (fc : FunctionCall)
    (result : GoVal) :
    ExtendsBy Event.isOther st.trace (completeStep env cb st fc result).trace := by
  unfold completeStep
  split
  · exact ExtendsBy.emit _ _ _ rfl
  · exact ExtendsBy.refl _ _

theorem dispatchFailure_other (cb : Callbacks) (st : CallState) (fc : FunctionCall)
    (e : String) :
    ExtendsBy Event.isOther st.trace (dispatchFailure cb st fc e).trace := by
  unfold dispatchFailure
  exact ExtendsBy.emit _ _ _ rfl

theorem afterExecute_other (st : CallState) (fc : FunctionCall) (w : World) :
    ExtendsBy Event.isOther st.trace (afterExecute st fc w).trace :=
  ExtendsBy.append _ _ (by simp [Event.isOther])

/-- The plan observer is called by `notifyPlan` alone, once, when the call is
`propose_plan` and its result holds a plan map. -/
theorem notifyPlan_calls (cb : Callbacks) (st : CallState) (fc : FunctionCall)
    (result : GoVal) :
    textCalls (notifyPlan cb st fc result).trace = textCalls st.trace ∧
    planCalls (notifyPlan cb st fc result).trace = planCalls st.trace ++
      (if fc.name = "propose_plan" ∧ cb.onPlanProposed = true then
        (approvedFalsePlan result).toList else []) := by
  unfold notifyPlan
  split
  · rename_i hn
    split
    · rename_i plan hp
      cases hcb : cb.onPlanProposed <;>
        simp [hn, hp, hcb, emit, textCalls, planCalls, Event.text, Event.plan]
    · rename_i hp
      simp [hn, hp]
  · rename_i hn
    simp [hn]

theorem dispatchSuccess_calls (env : Env) (cb : Callbacks) (params : Option Params)
    (st : CallState) (fc : FunctionCall) (result : GoVal) :
    textCalls (dispatchSuccess env cb params st fc result).trace = textCalls st.trace ∧
    planCalls (dispatchSuccess env cb params st fc result).trace = planCalls st.trace ++
      (if fc.name = "propose_plan" ∧ cb.onPlanProposed = true then
        (approvedFalsePlan result).toList else []) := by
  unfold dispatchSuccess
  dsimp only
  have h1 := notifyStepDone_other cb params st fc result
  have h2 := notifyPlan_calls cb (notifyStepDone cb params st fc result) fc result
  have h3 := (recordWrittenFile_other cb (notifyPlan cb (notifyStepDone cb params st fc result)
    fc result) fc (markedResult fc result)).trans (completeStep_other env cb _ fc
      (markedResult fc result))
  rw [h3.textCalls, h3.planCalls, h2.1, h2.2, h1.textCalls, h1.planCalls]
  exact ⟨rfl, rfl⟩

theorem dispatchCall_text (env : Env) (reg : Registry) (cb : Callbacks)
    (params : Option Params) (execReq : ExecuteRequest) (st : CallState) (fc : FunctionCall) :
    textCalls (dispatchCall env reg cb params execReq st fc).trace = textCalls st.trace := by
  cases hp : (reg.Execute env execReq fc.name fc.args st.world).panic with
  | some v =>
    rw [dispatchCall_panicked env reg cb params execReq st fc v hp]
    exact (afterExecute_other st fc
      (reg.Execute env execReq fc.name fc.args st.world).2).textCalls
  | none =>
    cases h : (reg.Execute env execReq fc.name fc.args st.world).1.2 with
    | some e =>
      rw [dispatchCall_err env reg cb params execReq st fc e hp h]
      exact ((afterExecute_other st fc _).trans (dispatchFailure_other cb _ fc e)).textCalls
    | none =>
      rw [dispatchCall_ok env reg cb params execReq st fc hp h,
        (dispatchSuccess_calls _ _ _ _ _ _).1]
      exact (afterExecute_other st fc _).textCalls

theorem processCall_text (env : Env) (reg : Registry) (cb : Callbacks)
    (params : Option Params) (execReq : ExecuteRequest) (plan : Bool) (st : CallState)
    (fc : FunctionCall) :
    textCalls (processCall env reg cb params execReq plan st fc).trace = textCalls st.trace := by
  unfold processCall
  split
  · rfl
  · split
    · have h : ExtendsBy Event.isOther st.trace
          (st.trace ++ emit cb.onChartData (.onChartData (unmarshalMap fc.args).1)) :=
        ExtendsBy.emit _ _ _ rfl
      exact h.textCalls
    · exact dispatchCall_text env reg cb params execReq st fc

theorem foldl_processCall_text (env : Env) (reg : Registry) (cb : Callbacks)
    (params : Option Params) (execReq : ExecuteRequest) (plan : Bool)
    (calls : List FunctionCall) (st : CallState) :
    textCalls (calls.foldl (processCall env reg cb params execReq plan) st).trace =
      textCalls st.trace := by
  induction calls generalizing st with
  | nil => rfl
  | cons fc rest ih =>
    simp only [List.foldl_cons]
    rw [ih, processCall_text]

theorem callPhase_text (c : LoopCtx) (w : World) (s1 : StreamState) :
    textCalls (callPhase c w s1).trace = textCalls s1.trace := by
  unfold callPhase
  exact foldl_callStep_keeps c.env c.registry c.cb c.params c.execReq _
    (fun s => textCalls s.trace = textCalls s1.trace)
    (fun st fc h => (processCall_text _ _ _ _ _ _ st fc).trans h) _ _ rfl

/-- The text an iteration leaves and the calls of the text observer it makes
are those of its stream loop. -/
theorem iteration_text (c : LoopCtx) (st : LoopState) :
    (iteration c st).state.currentTurnText = (streamPhase c st).2.currentTurnText ∧
    textCalls (iteration c st).state.trace = textCalls (streamPhase c st).2.trace := by
  cases h : (streamPhase c st).1 with
  | some e =>
    simp only [iteration, h, IterOutcome.state, and_self]
  | none =>
    by_cases h0 : extractCalls (streamPhase c st).2.accumulatedParts = []
    · obtain ⟨st1, h1, _, ht, _, _, hx, _⟩ := iteration_noCalls c st h h0
      rw [h1]
      simp only [IterOutcome.state, ht, hx, and_self]
    · cases hpan : (callPhase c st.world (streamPhase c st).2).panic with
      | some v =>
        obtain ⟨st1, h1, _, ht, _, _, _, hx⟩ := iteration_panicked c st v h h0 hpan
        rw [h1]
        simp only [IterOutcome.state, ht, hx, callPhase_text, and_self]
      | none =>
        obtain ⟨st1, h1, _, ht, _, _, hx, _⟩ := iteration_calls c st h h0 hpan
        have hs : (iteration c st).state = st1 := by
          rw [h1]; split <;> rfl
        rw [hs, ht, hx, callPhase_text]
        exact ⟨rfl, rfl⟩

theorem appendTextPart_noCall (parts : List Part) (t : String)
    (h : ∀ p ∈ parts, p.functionCall = none) :
    ∀ p ∈ appendTextPart parts t, p.functionCall = none := by
  induction parts with
  | nil =>
    intro p hp
    simp only [appendTextPart, List.mem_singleton] at hp
    rw [hp]
  | cons x rest ih =>
    cases rest with
    | nil =>
      intro p hp
      simp only [appendTextPart] at hp
      split at hp
      · simp only [List.mem_singleton] at hp
        rw [hp]
        exact h x (by simp)
      · simp only [List.mem_cons, List.mem_singleton, List.not_mem_nil, or_false] at hp
        rcases hp with h1 | h1
        · rw [h1]; exact h x (by simp)
        · rw [h1]
    | cons y rest2 =>
      intro p hp
      simp only [appendTextPart, List.mem_cons] at hp
      rcases hp with h1 | h1
      · rw [h1]; exact h x (by simp)
      · exact ih (fun q hq => h q (List.mem_cons_of_mem _ hq)) p (by simpa using h1)

theorem append_noCall (parts : List Part) (q : Part)
    (h : ∀ p ∈ parts, p.functionCall = none) (hq : q.functionCall = none) :
    ∀ p ∈ parts ++ [q], p.functionCall = none := by
  intro p hp
  rcases List.mem_append.mp hp with h1 | h1
  · exact h p h1
  · simp only [List.mem_singleton] at h1
    rw [h1]; exact hq

theorem flushBeforeText_noCall (cb : Callbacks) (tid : String) (st : StreamState)
    (h : ∀ p ∈ st.accumulatedParts, p.functionCall = none) :
    ∀ p ∈ (flushBeforeText cb tid st).accumulatedParts, p.functionCall = none := by
  unfold flushBeforeText
  split
  · exact append_noCall _ _ h rfl
  · exact h

/-- A part without a function call adds no function call to the accumulated
parts. -/
theorem processPart_noCall (env : Env) (cb : Callbacks) (tid : String) (st : StreamState)
    (p : Part) (hp : p.functionCall = none)
    (h : ∀ q ∈ st.accumulatedParts, q.functionCall = none) :
    ∀ q ∈ (processPart env cb tid st p).accumulatedParts, q.functionCall = none := by
  unfold processPart
  split
  · exact appendTextPart_noCall _ _ (flushBeforeText_noCall cb tid st h)
  · split
    · exact append_noCall _ _ h rfl
    · rw [hp]
      exact h

theorem foldl_processPart_noCall (env : Env) (cb : Callbacks) (tid : String)
    (ps : List Part) (st : StreamState) (hp : ∀ p ∈ ps, p.functionCall = none)
    (h : ∀ q ∈ st.accumulatedParts, q.functionCall = none) :
    ∀ q ∈ (ps.foldl (processPart env cb tid) st).accumulatedParts, q.functionCall = none := by
  induction ps generalizing st with
  | nil => exact h
  | cons p rest ih =>
    exact ih _ (fun q hq => hp q (List.mem_cons_of_mem _ hq))
      (processPart_noCall env cb tid st p (hp p (by simp)) h)

theorem extractCalls_noCall (parts : List Part) (h : ∀ q ∈ parts, q.functionCall = none) :
    extractCalls parts = [] := by
  unfold extractCalls
  rw [List.filterMap_eq_nil_iff]
  exact h

/-- A stream whose parts hold no function call leaves no call to process. -/
theorem streamPhase_noCalls (c : LoopCtx) (st : LoopState)
    (hp : ∀ p ∈ streamParts (c.env.generate (st.loopCount + 1) (historyToContents st.history)),
      p.functionCall = none) :
    extractCalls (streamPhase c st).2.accumulatedParts = [] := by
  apply extractCalls_noCall
  have key := foldl_processPart_noCall c.env c.cb ("th-" ++ toString (st.loopCount + 1))
    (streamParts (c.env.generate (st.loopCount + 1) (historyToContents st.history)))
    { currentTurnText := "", accumulatedParts := [], currentThought := "", thinkingSteps := [],
      fresh := st.fresh,
      trace := st.trace ++ [.generateStream (st.loopCount + 1) (historyToContents st.history)
        c.toolDefs] } hp (by simp)
  rw [← consumeStream_parts] at key
  unfold streamPhase
  dsimp only
  split
  · exact key
  · rw [flushAtEnd_parts]
    exact key

theorem startState_invocations (env : Env) (sessionID message : String)
    (params : Option Params) (w : World) :
    modelInvocations (startState env sessionID message params w).trace = 0 := by
  simp only [startState, initialLoopState]
  split <;> simp [modelInvocations, Event.isGenerateStream]

theorem objGet_mapSet (m : List (String × GoVal)) (k : String) (v : GoVal) :
    objGet (mapSet m k v) k = some v := by
  simp [objGet, mapGet, mapSet, List.find?_cons]

/-- The plan observer calls of a dispatch: one, for a `propose_plan` call
whose result holds a plan map, and none otherwise. -/
theorem dispatchCall_planCalls (env : Env) (reg : Registry) (cb : Callbacks)
    (params : Option Params) (execReq : ExecuteRequest) (st : CallState) (fc : FunctionCall)
    (hpan : (reg.Execute env execReq fc.name fc.args st.world).panic = none)
    (h : (reg.Execute env execReq fc.name fc.args st.world).1.2 = none) :
    planCalls (dispatchCall env reg cb params execReq st fc).trace = planCalls st.trace ++
      (if fc.name = "propose_plan" ∧ cb.onPlanProposed = true then
        (approvedFalsePlan (reg.Execute env execReq fc.name fc.args st.world).1.1).toList
       else []) := by
  rw [dispatchCall_ok env reg cb params execReq st fc hpan h,
    (dispatchSuccess_calls _ _ _ _ _ _).2, (afterExecute_other st fc _).planCalls]

/-- Every result of `executeProposePlan` that holds a plan holds a plan map
whose `isApproved` entry is false. -/
theorem executeProposePlan_plan (env : Env) (ctx : ExecutorContext) (args : RawMessage)
    (w : World) (m : List (String × GoVal)) (p : GoVal)
    (hm : (executeProposePlan env ctx args w).1.1 = .obj m) (hp : objGet m "plan" = some p) :
    ∃ pm, p = .obj pm ∧ objGet pm "isApproved" = some (.bool false) := by
  revert hm hp
  have hno : ∀ (kvs : List (String × GoVal)), objGet kvs "plan" = none →
      GoVal.obj kvs = .obj m → objGet m "plan" = some p →
      ∃ pm, p = .obj pm ∧ objGet pm "isApproved" = some (.bool false) := by
    intro kvs hk hm hp
    simp only [GoVal.obj.injEq] at hm
    subst hm
    rw [hk] at hp
    exact absurd hp (by simp)
  unfold executeProposePlan
  split
  · exact hno _ (by simp [objGet, mapGet, List.find?_cons])
  · simp only
    split
    · intro hm
      exact absurd hm (by simp)
    · split
      · exact hno _ (by simp [objGet, mapGet, List.find?_cons])
      · split
        · exact hno _ (by simp [objGet, mapGet, List.find?_cons])
        · intro hm hp
          simp only [GoVal.obj.injEq] at hm
          subst hm
          simp [objGet, mapGet, List.find?_cons] at hp
          subst hp
          exact ⟨_, rfl, by simp [objGet, mapGet, List.find?_cons]⟩

/-- An iteration whose batch holds a `propose_plan` call is the last one. -/
theorem iteration_plan_exit (c : LoopCtx) (st : LoopState)
    (hs : (streamPhase c st).1 = none)
    (hp : hasPlanCall (extractCalls (streamPhase c st).2.accumulatedParts) = true) :
    ∃ st1, iteration c st = .exit st1 ∧
      st1.currentTurnText = (streamPhase c st).2.currentTurnText ∧
      st1.trace = (callPhase c st.world (streamPhase c st).2).trace := by
  have hne : extractCalls (streamPhase c st).2.accumulatedParts ≠ [] := by
    intro h0
    rw [h0] at hp
    simp [hasPlanCall] at hp
  obtain ⟨st1, h1, _, ht, _, _, hx, _⟩ := iteration_calls c st hs hne
    (callPhase_locked_panic c st.world _ hp)
  rw [hp] at h1
  simp only [if_true] at h1
  exact ⟨st1, h1, hx, ht⟩

/-- The model invocations made before the loop reaches an iteration. -/
theorem stateAt_invocations (c : LoopCtx) (k : Nat) (st stk : LoopState)
    (h : stateAt c k st = some stk) :
    modelInvocations stk.trace = modelInvocations st.trace + k := by
  induction k generalizing st with
  | zero =>
    simp only [stateAt, Option.some.injEq] at h
    subst h
    rfl
  | succ n ih =>
    simp only [stateAt] at h
    split at h
    · cases hi : iteration c st with
      | failed e st1 => simp [hi] at h
      | exit st1 => simp [hi] at h
      | next st1 =>
        simp only [hi] at h
        have hc := (iteration_counts c st).1
        rw [hi] at hc
        simp only [IterOutcome.state] at hc
        rw [ih st1 h, hc]
        omega
      | panicked v st1 => simp [hi] at h
    · simp at h

/-! ## Lemmas: the registry -/

theorem Register_ids (r : Registry) (id : String) (d : Option FunctionDeclaration) (b : Bool) :
    (r.Register id d b).GetIDs = if id ∈ r.GetIDs then r.GetIDs else r.GetIDs ++ [id] := by
  induction r with
  | nil => simp [Registry.Register, Registry.GetIDs]
  | cons kt rest ih =>
    obtain ⟨k, t⟩ := kt
    simp only [Registry.Register]
    by_cases hk : k = id
    · simp [hk, Registry.GetIDs]
    · have ih2 : List.map (fun kt => kt.1) (Registry.Register rest id d b) =
          if id ∈ List.map (fun kt => kt.1) rest then List.map (fun kt => kt.1) rest
          else List.map (fun kt => kt.1) rest ++ [id] := ih
      have hk2 : ¬ id = k := fun h => hk h.symm
      simp only [hk, if_false, Registry.GetIDs, List.map_cons, List.mem_cons, hk2, false_or, ih2]
      split <;> simp

theorem Register_count_other (r : Registry) (id other : String)
    (d : Option FunctionDeclaration) (b : Bool) (h : other ≠ id) :
    (r.Register id d b).GetIDs.count other = r.GetIDs.count other := by
  rw [Register_ids]
  split
  · rfl
  · rw [List.count_append]
    have : List.count other [id] = 0 := List.count_eq_zero.mpr (by simpa using h)
    rw [this, Nat.add_zero]

theorem Register_nodup (r : Registry) (id : String) (d : Option FunctionDeclaration) (b : Bool)
    (h : r.GetIDs.Nodup) : (r.Register id d b).GetIDs.Nodup := by
  rw [Register_ids]
  split
  · exact h
  · rename_i hn
    exact List.Nodup.append h (by simp) (by simpa using hn)

theorem ofCalls_nodup (calls : List (String × Option FunctionDeclaration × Bool)) :
    (Registry.ofCalls calls).GetIDs.Nodup := by
  unfold Registry.ofCalls
  have key : ∀ (r : Registry), r.GetIDs.Nodup →
      (calls.foldl (fun r call => r.Register call.1 call.2.1 call.2.2) r).GetIDs.Nodup := by
    induction calls with
    | nil => intro r h; exact h
    | cons c rest ih =>
      intro r h
      exact ih _ (Register_nodup r c.1 c.2.1 c.2.2 h)
  exact key Registry.New (by simp [Registry.New, Registry.GetIDs])

theorem Register_lookup_same (r : Registry) (id : String) (d : Option FunctionDeclaration)
    (b : Bool) : (r.Register id d b).lookup id = some ⟨d, b⟩ := by
  induction r with
  | nil => simp [Registry.Register, Registry.lookup]
  | cons kt rest ih =>
    obtain ⟨k, t⟩ := kt
    simp only [Registry.Register]
    by_cases hk : k = id
    · simp [hk, Registry.lookup]
    · have hb : (k == id) = false := by simpa using hk
      simp only [hk, if_false]
      simp only [Registry.lookup, List.find?_cons, hb] at ih ⊢
      exact ih

theorem Register_lookup_other (r : Registry) (id other : String)
    (d : Option FunctionDeclaration) (b : Bool) (h : other ≠ id) :
    (r.Register id d b).lookup other = r.lookup other := by
  induction r with
  | nil =>
    have h2 : ¬ id = other := fun e => h e.symm
    simp [Registry.Register, Registry.lookup, h2]
  | cons kt rest ih =>
    obtain ⟨k, t⟩ := kt
    simp only [Registry.Register]
    by_cases hk : k = id
    · have h2 : ¬ id = other := fun e => h e.symm
      have h3 : ¬ k = other := by rw [hk]; exact h2
      simp [hk, Registry.lookup, h2]
    · simp only [hk, if_false]
      simp only [Registry.lookup, List.find?_cons] at ih ⊢
      by_cases hko : k = other
      · simp [hko]
      · have hb : (k == other) = false := by simpa using hko
        simp only [hb]
        exact ih

theorem GetTool_lookup (r : Registry) (id : String) :
    r.GetTool id =
      match r.lookup id with
      | none => (none, false, false)
      | some t =>
        match t.definition with
        | none => (none, false, false)
        | some d => (some d, t.blocking, true) := by
  unfold Registry.GetTool Registry.lookup
  cases r.find? (fun kt => kt.1 == id) <;> rfl

theorem Register_twice (r : Registry) (id : String) (d : Option FunctionDeclaration)
    (b : Bool) : (r.Register id d b).Register id d b = r.Register id d b := by
  induction r with
  | nil => simp [Registry.Register]
  | cons kt rest ih =>
    obtain ⟨k, t⟩ := kt
    simp only [Registry.Register]
    by_cases hk : k = id
    · simp [hk, Registry.Register]
    · simp only [hk, if_false, Registry.Register]
      rw [ih]

/-- In a map every entry is the one its key reads. -/
theorem lookup_of_mem (r : Registry) (h : r.GetIDs.Nodup) (kt : String × ToolDef)
    (hm : kt ∈ r) : r.lookup kt.1 = some kt.2 := by
  induction r with
  | nil => simp at hm
  | cons x rest ih =>
    simp only [Registry.GetIDs, List.map_cons, List.nodup_cons] at h
    rcases List.mem_cons.mp hm with h1 | h1
    · subst h1
      simp [Registry.lookup]
    · have hne : ¬ x.1 = kt.1 := by
        intro e
        apply h.1
        rw [e]
        exact List.mem_map_of_mem (fun kt => kt.1) h1
      have hb : (x.1 == kt.1) = false := by simpa using hne
      simp only [Registry.lookup, List.find?_cons, hb]
      exact ih h.2 h1

/-- The enabled definitions, read name by name. -/
theorem GetDefinitionsEnabled_byName (r : Registry) (h : r.GetIDs.Nodup)
    (isEnabled : Option (String → Bool)) :
    r.GetDefinitionsEnabled isEnabled =
      (r.GetIDs.filter (fun n => match isEnabled with
        | none => true
        | some p => p n)).filterMap (fun n => (r.GetTool n).1) := by
  unfold Registry.GetDefinitionsEnabled Registry.GetIDs
  rw [← List.filterMap_eq_filter, List.filterMap_map, List.filterMap_filterMap]
  apply List.filterMap_congr
  intro kt hkt
  have hl := lookup_of_mem r h kt hkt
  have hg : (r.GetTool kt.1).1 = kt.2.definition := by
    rw [GetTool_lookup, hl]
    cases hd : kt.2.definition <;> simp [hd]
  simp only [Function.comp, Option.guard]
  cases hd : kt.2.definition <;> cases isEnabled with
  | none => simp [hg, hd]
  | some p => cases hp : p kt.1 <;> simp [hp, hg, hd]

/-! ## Lemmas: the settings stores -/

theorem find_filter_ne {α : Type} (l : List (String × α)) (j k : String) (h : j ≠ k) :
    (l.filter (fun kv => kv.1 != k)).find? (fun kv => kv.1 == j) =
      l.find? (fun kv => kv.1 == j) := by
  induction l with
  | nil => rfl
  | cons x rest ih =>
    by_cases hx : x.1 = k
    · have h1 : (x.1 != k) = false := by simp [hx]
      have h2 : (x.1 == j) = false := by
        rw [hx]
        simpa using fun e => h e.symm
      simp only [List.filter_cons, h1, List.find?_cons, h2]
      exact ih
    · have h1 : (x.1 != k) = true := by simpa using hx
      simp only [List.filter_cons, h1, if_true, List.find?_cons, ih]

theorem mapGet_mapPut_same {α : Type} (kvs : List (String × α)) (k : String) (v : α) :
    mapGet (mapPut kvs k v) k = some v := by
  simp [mapGet, mapPut, List.find?_cons]

theorem mapGet_mapPut_other {α : Type} (kvs : List (String × α)) (j k : String) (v : α)
    (h : j ≠ k) : mapGet (mapPut kvs k v) j = mapGet kvs j := by
  have hkj : (k == j) = false := by simpa using fun e => h e.symm
  simp only [mapGet, mapPut, List.reverse_append, List.reverse_cons, List.reverse_nil,
    List.nil_append, List.singleton_append, List.find?_cons, hkj]
  rw [← List.filter_reverse, find_filter_ne _ _ _ h]

theorem mapGet_absent {α : Type} (kvs : List (String × α)) (k : String)
    (h : ∀ kv ∈ kvs, kv.1 ≠ k) : mapGet kvs k = none := by
  simp only [mapGet, Option.map_eq_none', List.find?_eq_none, List.mem_reverse]
  intro kv hkv
  simpa using h kv hkv

theorem Add_duplicate (s : McpStore) (randomID : String) (writeErr : Option String)
    (name url : String)
    (h : ∃ svr ∈ s.servers, normalizeMcpUrl svr.url = normalizeMcpUrl url) :
    s.Add randomID writeErr name url = (s, ⟨"", "", ""⟩, some .mcpExists) := by
  have ha : s.servers.any (fun svr => normalizeMcpUrl svr.url == normalizeMcpUrl url) = true := by
    rw [List.any_eq_true]
    obtain ⟨svr, hm, he⟩ := h
    exact ⟨svr, hm, by simpa using he⟩
  simp [McpStore.Add, ha]

theorem Add_fresh (s : McpStore) (randomID : String) (writeErr : Option String)
    (name url : String)
    (h : ∀ svr ∈ s.servers, normalizeMcpUrl svr.url ≠ normalizeMcpUrl url) :
    s.Add randomID writeErr name url =
      (⟨s.servers ++ [⟨genMcpID randomID, name, url⟩]⟩,
        match writeErr with
        | some e => (⟨"", "", ""⟩, some (.other e))
        | none => (⟨genMcpID randomID, name, url⟩, none)) := by
  have ha : s.servers.any (fun svr => normalizeMcpUrl svr.url == normalizeMcpUrl url) = false := by
    rw [List.any_eq_false]
    intro svr hm
    simpa using h svr hm
  cases writeErr <;> simp [McpStore.Add, ha]

/-- A call of `Add` that returned no error appended its server. -/
theorem Add_ok_mem (s : McpStore) (randomID : String) (writeErr : Option String)
    (name url : String) (h : (s.Add randomID writeErr name url).2.2 = none) :
    (⟨genMcpID randomID, name, url⟩ : McpServer) ∈ (s.Add randomID writeErr name url).1.servers := by
  by_cases hd : ∃ svr ∈ s.servers, normalizeMcpUrl svr.url = normalizeMcpUrl url
  · rw [Add_duplicate s randomID writeErr name url hd] at h
    simp at h
  · have hf : ∀ svr ∈ s.servers, normalizeMcpUrl svr.url ≠ normalizeMcpUrl url := by
      intro svr hm he
      exact hd ⟨svr, hm, he⟩
    rw [Add_fresh s randomID writeErr name url hf]
    simp

/-- What `normalizeMcpUrl` drops is a suffix of `/` and space characters, and
what it leaves does not end in one. -/
theorem rdropWhile_suffix {α : Type} (p : α → Bool) (l : List α) :
    ∃ t, l = l.rdropWhile p ++ t ∧ ∀ c ∈ t, p c = true := by
  induction l using List.reverseRecOn with
  | nil => exact ⟨[], by simp [List.rdropWhile_nil], by simp⟩
  | append_singleton l x ih =>
    by_cases hx : p x = true
    · obtain ⟨t, ht, hp⟩ := ih
      refine ⟨t ++ [x], ?_, ?_⟩
      · rw [List.rdropWhile_concat_pos _ _ _ hx, ← List.append_assoc, ← ht]
      · intro c hc
        rcases List.mem_append.mp hc with h1 | h1
        · exact hp c h1
        · simp only [List.mem_singleton] at h1
          rw [h1]; exact hx
    · refine ⟨[], ?_, by simp⟩
      rw [List.rdropWhile_concat_neg _ _ _ hx, List.append_nil]

theorem handler_mcpStore_eta (h : Handler) (store : McpStore) (hs : h.mcpStore = some store) :
    ({ h with mcpStore := some store } : Handler) = h := by
  cases h
  simp_all

/-- The list without the first element that satisfies `p`, as `Remove`
builds it from the index the loop stopped at. -/
theorem take_drop_findIdx {α : Type} (p : α → Bool) (l : List α) (i : Nat)
    (h : l.findIdx? p = some i) :
    ∃ pre x post, l = pre ++ x :: post ∧ p x = true ∧ (∀ y ∈ pre, p y = false) ∧
      l.take i ++ l.drop (i + 1) = pre ++ post := by
  induction l generalizing i with
  | nil => simp at h
  | cons a rest ih =>
    rw [List.findIdx?_cons] at h
    by_cases ha : p a = true
    · simp only [ha, if_true, Option.some.injEq] at h
      subst h
      exact ⟨[], a, rest, rfl, ha, by simp, by simp⟩
    · simp only [ha, Bool.false_eq_true, if_false, List.findIdx?_succ, Option.map_eq_some'] at h
      obtain ⟨j, hj, hji⟩ := h
      obtain ⟨pre, x, post, hl, hx, hpre, htd⟩ := ih j hj
      subst hji
      refine ⟨a :: pre, x, post, by rw [hl]; rfl, hx, ?_, ?_⟩
      · intro y hy
        rcases List.mem_cons.mp hy with h1 | h1
        · rw [h1]; simpa using ha
        · exact hpre y h1
      · simp only [List.take_succ_cons, List.drop_succ_cons, List.cons_append]
        rw [htd]

theorem getFrom_absent (l : List McpServer) (id : String) (i : Nat)
    (h : ∀ y ∈ l, y.id ≠ id) : getFrom l id i = (none, -1) := by
  induction l generalizing i with
  | nil => rfl
  | cons a rest ih =>
    have ha : ¬ a.id = id := h a (by simp)
    simp only [getFrom, ha, if_false]
    exact ih (i + 1) (fun y hy => h y (List.mem_cons_of_mem _ hy))

theorem Remove_absent (s : McpStore) (writeErr : Option String) (id : String)
    (h : ∀ svr ∈ s.servers, svr.id ≠ id) : s.Remove writeErr id = (s, some .mcpNotFound) := by
  have hf : s.servers.findIdx? (fun svr => svr.id == id) = none := by
    rw [List.findIdx?_eq_none_iff]
    intro x hx
    simpa using h x hx
  simp only [McpStore.Remove, hf]

theorem Remove_present (s : McpStore) (writeErr : Option String) (id : String)
    (h : ∃ svr ∈ s.servers, svr.id = id) :
    ∃ pre x post, s.servers = pre ++ x :: post ∧ x.id = id ∧ (∀ y ∈ pre, y.id ≠ id) ∧
      s.Remove writeErr id = (⟨pre ++ post⟩, writeErr.map StoreError.other) := by
  obtain ⟨svr, hm, he⟩ := h
  cases hf : s.servers.findIdx? (fun svr => svr.id == id) with
  | none =>
    rw [List.findIdx?_eq_none_iff] at hf
    have := hf svr hm
    simp [he] at this
  | some i =>
    obtain ⟨pre, x, post, hl, hx, hpre, htd⟩ := take_drop_findIdx _ _ i hf
    refine ⟨pre, x, post, hl, by simpa using hx, ?_, ?_⟩
    · intro y hy
      simpa using hpre y hy
    · simp only [McpStore.Remove, hf, htd]

/-! ## Lemmas: UTF-8 -/

theorem char_toNat_lt (c : Char) : c.toNat < 0x110000 := by
  have h := c.valid
  simp only [UInt32.isValidChar, Nat.isValidChar] at h
  simp only [Char.toNat]
  rcases h with h | h
  · omega
  · omega

theorem utf8Scan_encode (c : Char) (rest : List Nat) :
    utf8Scan 0 (utf8EncodeChar c ++ rest) = utf8Scan 0 rest := by
  have hlt := char_toNat_lt c
  unfold utf8EncodeChar
  dsimp only
  split
  · rename_i h1
    have : c.toNat < 0x80 := by omega
    simp [utf8Scan, this]
  · rename_i h1
    split
    · rename_i h2
      have a1 : ¬ (0xc0 + c.toNat / 64 < 0x80) := by omega
      have a2 : 0xc2 ≤ 0xc0 + c.toNat / 64 ∧ 0xc0 + c.toNat / 64 < 0xe0 := by omega
      have a3 : 0x80 ≤ 0x80 + c.toNat % 64 ∧ 0x80 + c.toNat % 64 < 0xc0 := by omega
      simp only [List.cons_append, List.nil_append, List.append_eq, utf8Scan, a1, a2, a3, if_true, if_false,
        and_self]
    · rename_i h2
      split
      · rename_i h3
        have a1 : ¬ (0xe0 + c.toNat / 4096 < 0x80) := by omega
        have a2 : ¬ (0xc2 ≤ 0xe0 + c.toNat / 4096 ∧ 0xe0 + c.toNat / 4096 < 0xe0) := by omega
        have a3 : 0xe0 ≤ 0xe0 + c.toNat / 4096 ∧ 0xe0 + c.toNat / 4096 < 0xf0 := by omega
        have a4 : 0x80 ≤ 0x80 + c.toNat / 64 % 64 ∧ 0x80 + c.toNat / 64 % 64 < 0xc0 := by omega
        have a5 : 0x80 ≤ 0x80 + c.toNat % 64 ∧ 0x80 + c.toNat % 64 < 0xc0 := by omega
        simp only [List.cons_append, List.nil_append, List.append_eq, utf8Scan, a1, a2, a3, a4, a5, if_true,
          if_false, and_self]
      · rename_i h3
        have a1 : ¬ (0xf0 + c.toNat / 262144 < 0x80) := by omega
        have a2 : ¬ (0xc2 ≤ 0xf0 + c.toNat / 262144 ∧ 0xf0 + c.toNat / 262144 < 0xe0) := by omega
        have a3 : ¬ (0xe0 ≤ 0xf0 + c.toNat / 262144 ∧ 0xf0 + c.toNat / 262144 < 0xf0) := by omega
        have a4 : 0xf0 ≤ 0xf0 + c.toNat / 262144 ∧ 0xf0 + c.toNat / 262144 < 0xf5 := by omega
        have a5 : 0x80 ≤ 0x80 + c.toNat / 4096 % 64 ∧ 0x80 + c.toNat / 4096 % 64 < 0xc0 := by
          omega
        have a6 : 0x80 ≤ 0x80 + c.toNat / 64 % 64 ∧ 0x80 + c.toNat / 64 % 64 < 0xc0 := by omega
        have a7 : 0x80 ≤ 0x80 + c.toNat % 64 ∧ 0x80 + c.toNat % 64 < 0xc0 := by omega
        simp only [List.cons_append, List.nil_append, List.append_eq, utf8Scan, a1, a2, a3, a4, a5, a6, a7,
          if_true, if_false, and_self]

/-- The bytes of every string are whole characters. -/
theorem utf8Whole_goBytes (s : String) : utf8Whole (goBytes s) = true := by
  unfold utf8Whole goBytes
  induction s.toList with
  | nil => rfl
  | cons c rest ih =>
    simp only [List.flatMap_cons]
    rw [utf8Scan_encode]
    exact ih

/-! ## Lemmas: the MCP store -/

theorem splitAtId_eq (l : List McpServer) (id : String)
    (before : List McpServer) (svr : McpServer) (after : List McpServer)
    (h : splitAtId l id = some (before, svr, after)) :
    l = before ++ svr :: after ∧ svr.id = id ∧ ∀ y ∈ before, y.id ≠ id := by
  induction l generalizing before with
  | nil => simp [splitAtId] at h
  | cons a rest ih =>
    simp only [splitAtId] at h
    split at h
    · rename_i ha
      simp only [Option.some.injEq, Prod.mk.injEq] at h
      obtain ⟨h1, h2, h3⟩ := h
      subst h1 h2 h3
      exact ⟨rfl, ha, by simp⟩
    · rename_i ha
      cases hr : splitAtId rest id with
      | none => simp [hr] at h
      | some r =>
        obtain ⟨b, s, a2⟩ := r
        simp only [hr, Option.map_some', Option.some.injEq, Prod.mk.injEq] at h
        obtain ⟨h1, h2, h3⟩ := h
        subst h1 h2 h3
        obtain ⟨e1, e2, e3⟩ := ih b hr
        refine ⟨by rw [e1]; rfl, e2, ?_⟩
        intro y hy
        rcases List.mem_cons.mp hy with h4 | h4
        · rw [h4]; exact ha
        · exact e3 y h4

theorem splitAtId_none (l : List McpServer) (id : String) (h : splitAtId l id = none) :
    ∀ y ∈ l, y.id ≠ id := by
  induction l with
  | nil => simp
  | cons a rest ih =>
    simp only [splitAtId] at h
    split at h
    · simp at h
    · rename_i ha
      intro y hy
      rcases List.mem_cons.mp hy with h4 | h4
      · rw [h4]; exact ha
      · exact ih (by simpa using h) y h4

theorem normalizeMcpUrl_idem (url : String) :
    normalizeMcpUrl (normalizeMcpUrl url) = normalizeMcpUrl url := by
  simp only [normalizeMcpUrl, String.toList, List.rdropWhile_idempotent]

theorem Add_urls (s : McpStore) (randomID : String) (writeErr : Option String)
    (name url : String)
    (h : (s.servers.map (fun svr => normalizeMcpUrl svr.url)).Nodup) :
    ((s.Add randomID writeErr name url).1.servers.map
      (fun svr => normalizeMcpUrl svr.url)).Nodup := by
  by_cases hd : ∃ svr ∈ s.servers, normalizeMcpUrl svr.url = normalizeMcpUrl url
  · rw [Add_duplicate s randomID writeErr name url hd]
    exact h
  · have hf : ∀ svr ∈ s.servers, normalizeMcpUrl svr.url ≠ normalizeMcpUrl url := by
      intro svr hm he
      exact hd ⟨svr, hm, he⟩
    rw [Add_fresh s randomID writeErr name url hf]
    simp only [List.map_append, List.map_cons, List.map_nil]
    refine List.Nodup.append h (by simp) ?_
    intro u hu hu2
    simp only [List.mem_singleton] at hu2
    obtain ⟨svr, hm, he⟩ := List.mem_map.mp hu
    exact hf svr hm (by rw [he, hu2])

theorem Remove_urls (s : McpStore) (writeErr : Option String) (id : String)
    (h : (s.servers.map (fun svr => normalizeMcpUrl svr.url)).Nodup) :
    ((s.Remove writeErr id).1.servers.map (fun svr => normalizeMcpUrl svr.url)).Nodup := by
  by_cases hd : ∃ svr ∈ s.servers, svr.id = id
  · obtain ⟨pre, x, post, hl, _, _, hr⟩ := Remove_present s writeErr id hd
    rw [hr]
    rw [hl] at h
    simp only [List.map_append, List.map_cons] at h ⊢
    exact (List.nodup_middle.mp h).of_cons
  · have hf : ∀ svr ∈ s.servers, svr.id ≠ id := by
      intro svr hm he
      exact hd ⟨svr, hm, he⟩
    rw [Remove_absent s writeErr id hf]
    exact h

theorem Update_urls (s : McpStore) (writeErr : Option String) (id : String)
    (updates : List (String × String))
    (h : (s.servers.map (fun svr => normalizeMcpUrl svr.url)).Nodup) :
    ((s.Update writeErr id updates).1.servers.map
      (fun svr => normalizeMcpUrl svr.url)).Nodup := by
  unfold McpStore.Update
  cases hs : splitAtId s.servers id with
  | none => exact h
  | some r =>
    obtain ⟨before, svr, after⟩ := r
    obtain ⟨hl, _, _⟩ := splitAtId_eq s.servers id before svr after hs
    rw [hl] at h
    simp only [List.map_append, List.map_cons] at h
    have hnamed : ∀ (named : McpServer), named.url = svr.url →
        ((before ++ named :: after).map (fun svr => normalizeMcpUrl svr.url)).Nodup := by
      intro named hu
      simp only [List.map_append, List.map_cons, hu]
      exact h
    have hn : (match mapGet updates "name" with
        | some name => ({ svr with name := name } : McpServer)
        | none => svr).url = svr.url := by
      cases mapGet updates "name" <;> rfl
    simp only
    cases hu : mapGet updates "url" with
    | none => exact hnamed _ hn
    | some url =>
      simp only
      split
      · exact hnamed _ hn
      · rename_i hany
        simp only [List.map_append, List.map_cons]
        apply List.nodup_middle.mpr
        refine List.nodup_cons.mpr ⟨?_, ?_⟩
        · intro hmem
          apply hany
          rw [List.any_eq_true]
          rw [← List.map_append] at hmem
          obtain ⟨o, ho, he⟩ := List.mem_map.mp hmem
          exact ⟨o, ho, by simpa using he⟩
        · exact (List.nodup_middle.mp h).of_cons

theorem after_urls (s : McpStore) (call : McpCall)
    (h : (s.servers.map (fun svr => normalizeMcpUrl svr.url)).Nodup) :
    ((s.after call).servers.map (fun svr => normalizeMcpUrl svr.url)).Nodup := by
  cases call with
  | add randomID writeErr name url => exact Add_urls s randomID writeErr name url h
  | update writeErr id updates => exact Update_urls s writeErr id updates h
  | remove writeErr id => exact Remove_urls s writeErr id h

theorem foldl_after_urls (calls : List McpCall) (s : McpStore)
    (h : (s.servers.map (fun svr => normalizeMcpUrl svr.url)).Nodup) :
    ((calls.foldl McpStore.after s).servers.map (fun svr => normalizeMcpUrl svr.url)).Nodup := by
  induction calls generalizing s with
  | nil => exact h
  | cons c rest ih => exact ih _ (after_urls s c h)

/-! ## Lemmas: continuation of the loop -/

theorem iteration_continue (c : LoopCtx) (st : LoopState)
    (hs : (streamPhase c st).1 = none)
    (h0 : extractCalls (streamPhase c st).2.accumulatedParts ≠ [])
    (hp : hasPlanCall (extractCalls (streamPhase c st).2.accumulatedParts) = false)
    (hpan : (callPhase c st.world (streamPhase c st).2).panic = none) :
    ∃ st1, iteration c st = .next st1 ∧ st1.loopCount = st.loopCount + 1 ∧
      modelInvocations st1.trace = modelInvocations st.trace + 1 := by
  obtain ⟨st1, h1, hc, _⟩ := iteration_calls c st hs h0 hpan
  rw [hp] at h1
  simp only [Bool.false_eq_true, if_false] at h1
  refine ⟨st1, h1, hc, ?_⟩
  have hi := (iteration_counts c st).1
  rw [h1] at hi
  exact hi

theorem iteration_exit_cases (c : LoopCtx) (st st1 : LoopState)
    (h : iteration c st = .exit st1) :
    (streamPhase c st).1 = none ∧
    (extractCalls (streamPhase c st).2.accumulatedParts = [] ∨
      hasPlanCall (extractCalls (streamPhase c st).2.accumulatedParts) = true) := by
  cases hs : (streamPhase c st).1 with
  | some x =>
    obtain ⟨st2, h2, _⟩ := iteration_failed c st x hs
    rw [h2] at h
    cases h
  | none =>
    refine ⟨rfl, ?_⟩
    by_cases h0 : extractCalls (streamPhase c st).2.accumulatedParts = []
    · exact Or.inl h0
    · right
      cases hp : hasPlanCall (extractCalls (streamPhase c st).2.accumulatedParts) with
      | true => rfl
      | false =>
        cases hpan : (callPhase c st.world (streamPhase c st).2).panic with
        | some v =>
          obtain ⟨st2, h2, _⟩ := iteration_panicked c st v hs h0 hpan
          rw [h2] at h
          cases h
        | none =>
          obtain ⟨st2, h2, _⟩ := iteration_continue c st hs h0 hp hpan
          rw [h2] at h
          cases h

theorem supervisorLoop_invocations_ge (c : LoopCtx) (fuel : Nat) (st : LoopState) :
    modelInvocations st.trace ≤ modelInvocations (supervisorLoop c fuel st).2.trace := by
  induction fuel generalizing st with
  | zero => simp [supervisorLoop]
  | succ n ih =>
    unfold supervisorLoop
    split
    · have hc := (iteration_counts c st).1
      cases hi : iteration c st with
      | failed e st1 =>
        rw [hi] at hc
        simp only [IterOutcome.state] at hc
        simp only
        omega
      | exit st1 =>
        rw [hi] at hc
        simp only [IterOutcome.state] at hc
        simp only
        omega
      | next st1 =>
        rw [hi] at hc
        simp only [IterOutcome.state] at hc
        simp only
        have := ih st1
        omega
      | panicked v st1 =>
        rw [hi] at hc
        simp only [IterOutcome.state] at hc
        simp only
        omega
    · simp

/-- When the loop condition holds and there is fuel, the loop makes a model
invocation. -/
theorem supervisorLoop_invokes (c : LoopCtx) (fuel : Nat) (st : LoopState)
    (hlt : st.loopCount < 10) :
    modelInvocations st.trace + 1 ≤
      modelInvocations (supervisorLoop c (fuel + 1) st).2.trace := by
  have hc := (iteration_counts c st).1
  cases hi : iteration c st with
  | failed e st1 =>
    rw [supervisorLoop_failed c fuel st st1 e hlt hi]
    rw [hi] at hc
    simp only [IterOutcome.state] at hc
    simp only
    omega
  | exit st1 =>
    rw [supervisorLoop_exit c fuel st st1 hlt hi]
    rw [hi] at hc
    simp only [IterOutcome.state] at hc
    simp only
    omega
  | next st1 =>
    rw [supervisorLoop_next c fuel st st1 hlt hi]
    rw [hi] at hc
    simp only [IterOutcome.state] at hc
    have := supervisorLoop_invocations_ge c fuel st1
    omega
  | panicked v st1 =>
    rw [supervisorLoop_panicked c fuel st st1 v hlt hi]
    rw [hi] at hc
    simp only [IterOutcome.state] at hc
    simp only
    omega

/-- Where a loop that ends without error ends: at the loop condition, or at
an iteration that leaves by `break`. -/
theorem supervisorLoop_stop (c : LoopCtx) (fuel : Nat) (st r : LoopState)
    (hf : 10 ≤ fuel + st.loopCount) (h : supervisorLoop c fuel st = (none, r)) :
    ∃ k stk, stateAt c k st = some stk ∧
      ((10 ≤ stk.loopCount ∧ r = stk) ∨
       (stk.loopCount < 10 ∧ iteration c stk = .exit r)) := by
  induction fuel generalizing st with
  | zero =>
    simp only [supervisorLoop, Prod.mk.injEq, true_and] at h
    exact ⟨0, st, rfl, Or.inl ⟨by omega, h.symm⟩⟩
  | succ n ih =>
    by_cases hlt : st.loopCount < 10
    · cases hi : iteration c st with
      | failed e st1 =>
        rw [supervisorLoop_failed c n st st1 e hlt hi] at h
        simp at h
      | exit st1 =>
        rw [supervisorLoop_exit c n st st1 hlt hi] at h
        simp only [Prod.mk.injEq, true_and] at h
        exact ⟨0, st, rfl, Or.inr ⟨hlt, by rw [hi, h]⟩⟩
      | next st1 =>
        rw [supervisorLoop_next c n st st1 hlt hi] at h
        have hc := (iteration_counts c st).2
        rw [hi] at hc
        simp only [IterOutcome.state] at hc
        obtain ⟨k, stk, hk, hcase⟩ := ih st1 (by omega) h
        refine ⟨k + 1, stk, ?_, hcase⟩
        simp only [stateAt, hlt, if_true, hi]
        exact hk
      | panicked v st1 =>
        rw [supervisorLoop_panicked c n st st1 v hlt hi] at h
        simp at h
    · simp only [supervisorLoop, hlt, if_false, Prod.mk.injEq, true_and] at h
      exact ⟨0, st, rfl, Or.inl ⟨by omega, h.symm⟩⟩

/-! ## Lemmas: thinking steps and UI messages -/

theorem appendOrUpdate_present (steps : List ThinkingStep) (id : String) (step : ThinkingStep)
    (h : ∃ s ∈ steps, s.id = id) :
    ∃ pre x post, steps = pre ++ x :: post ∧ x.id = id ∧ (∀ y ∈ pre, y.id ≠ id) ∧
      appendOrUpdate steps id step = pre ++ step :: post := by
  induction steps with
  | nil =>
    obtain ⟨s, hs, _⟩ := h
    simp at hs
  | cons a rest ih =>
    by_cases ha : a.id = id
    · exact ⟨[], a, rest, rfl, ha, by simp, by simp [appendOrUpdate, ha]⟩
    · have h2 : ∃ s ∈ rest, s.id = id := by
        obtain ⟨s, hs, he⟩ := h
        rcases List.mem_cons.mp hs with h1 | h1
        · rw [h1] at he
          exact absurd he ha
        · exact ⟨s, h1, he⟩
      obtain ⟨pre, x, post, hl, hx, hpre, hr⟩ := ih h2
      refine ⟨a :: pre, x, post, by rw [hl]; rfl, hx, ?_, ?_⟩
      · intro y hy
        rcases List.mem_cons.mp hy with h1 | h1
        · rw [h1]; exact ha
        · exact hpre y h1
      · simp only [appendOrUpdate, ha, if_false, hr, List.cons_append]

theorem appendOrUpdate_absent (steps : List ThinkingStep) (id : String) (step : ThinkingStep)
    (h : ∀ s ∈ steps, s.id ≠ id) : appendOrUpdate steps id step = steps ++ [step] := by
  induction steps with
  | nil => rfl
  | cons a rest ih =>
    have ha : ¬ a.id = id := h a (by simp)
    simp only [appendOrUpdate, ha, if_false, List.cons_append]
    rw [ih (fun s hs => h s (List.mem_cons_of_mem _ hs))]

theorem appendOrUpdate_nodup (steps : List ThinkingStep) (id : String) (step : ThinkingStep)
    (hn : (steps.map (fun s => s.id)).Nodup) (hid : step.id = id) :
    ((appendOrUpdate steps id step).map (fun s => s.id)).Nodup := by
  by_cases h : ∃ s ∈ steps, s.id = id
  · obtain ⟨pre, x, post, hl, hx, _, hr⟩ := appendOrUpdate_present steps id step h
    rw [hr]
    rw [hl] at hn
    simp only [List.map_append, List.map_cons, hid, hx] at hn ⊢
    exact hn
  · have hf : ∀ s ∈ steps, s.id ≠ id := by
      intro s hs he
      exact h ⟨s, hs, he⟩
    rw [appendOrUpdate_absent steps id step hf]
    simp only [List.map_append, List.map_cons, List.map_nil]
    refine List.Nodup.append hn (by simp) ?_
    intro u hu hu2
    simp only [List.mem_singleton] at hu2
    obtain ⟨s, hs, he⟩ := List.mem_map.mp hu
    exact hf s hs (by rw [he, hu2, hid])

theorem replaceAssistant_fresh (aid : String) (msg : AssistantMsg) (l : List UIMsg)
    (h : ∀ m ∈ l, m.mapId ≠ some aid) : replaceAssistant aid msg l = (l, false) := by
  induction l with
  | nil => rfl
  | cons m rest ih =>
    have hr := ih (fun x hx => h x (List.mem_cons_of_mem _ hx))
    have hm := h m (by simp)
    simp only [replaceAssistant, hr]
    cases hid : m.mapId with
    | none => rfl
    | some rid =>
      have : ¬ rid = aid := by
        intro e
        apply hm
        rw [hid, e]
      simp [this]

theorem replaceAssistant_append (aid : String) (msg : AssistantMsg) (l tail : List UIMsg)
    (h : ∀ m ∈ l, m.mapId ≠ some aid) :
    replaceAssistant aid msg (l ++ tail) =
      (l ++ (replaceAssistant aid msg tail).1, (replaceAssistant aid msg tail).2) := by
  induction l with
  | nil => rfl
  | cons m rest ih =>
    have hr := ih (fun x hx => h x (List.mem_cons_of_mem _ hx))
    have hm := h m (by simp)
    simp only [List.cons_append, replaceAssistant, List.append_eq]
    rw [hr]
    cases hid : m.mapId with
    | none => rfl
    | some rid =>
      have : ¬ rid = aid := by
        intro e
        apply hm
        rw [hid, e]
      simp [this]

theorem user_id_ne_assistant_id (a b : String) : "u-" ++ a ≠ "agent-" ++ b := by
  intro h
  have h2 := congrArg String.data h
  simp only [String.data_append] at h2
  simp at h2

/-- The final list, when no earlier message has the id of the assistant
message: the placeholder, which is the last entry, is replaced. -/
theorem finalUIMessages_fresh (env : Env) (sessionID message : String)
    (params : Option Params) (w : World) (msg : AssistantMsg)
    (h : ∀ m ∈ (loadedSession env sessionID w).uiMessages.getD [],
      m.mapId ≠ some (assistantMsgIDOf env)) :
    finalUIMessages (assistantMsgIDOf env) msg (startUIMessages env sessionID message params w) =
      (loadedSession env sessionID w).uiMessages.getD [] ++
        [.user ("u-" ++ toString env.userMsgTime) (effectiveUserText message params),
         .assistant msg] := by
  unfold finalUIMessages startUIMessages
  rw [replaceAssistant_append _ _ _ _ h]
  have hu : ¬ ("u-" ++ toString env.userMsgTime = assistantMsgIDOf env) :=
    user_id_ne_assistant_id _ _
  simp [replaceAssistant, UIMsg.mapId, hu]

theorem loadedWorld_isSome (env : Env) (sessionID : String) (w : World) :
    ((loadedWorld env sessionID w).sessions sessionID).isSome = true := by
  unfold loadedWorld
  split
  · rename_i h
    exact h
  · simp [saveSession]

theorem updateSession_storedLists (w : World) (id : String) (history : List GoVal)
    (uiMessages : List UIMsg) (h : (w.sessions id).isSome = true) :
    storedLists (updateSession w id history uiMessages) id =
      some (some history, some uiMessages) := by
  cases hs : w.sessions id with
  | none => simp [hs] at h
  | some st => simp [updateSession, hs, storedLists, saveSession]

theorem storedLists_isSome (w : World) (id : String) :
    (storedLists w id).isSome = (w.sessions id).isSome := by
  simp [storedLists]

/-! ## Lemmas: batches whose dispatches return -/

/-- The order of processing is the stable partition of the batch, blocking
names first, and a permutation of the batch; when no dispatch of the call
phase panics, the function responses of the user turn are one per call in
that order, and the dispatches happen in that order. -/
theorem callPhase_ordering (c : LoopCtx) (w : World) (s1 : StreamState)
    (hp : (callPhase c w s1).panic = none) :
    processingOrder c.blockingIDs (extractCalls s1.accumulatedParts) =
      (extractCalls s1.accumulatedParts).filter (fun fc => c.blockingIDs.contains fc.name) ++
      (extractCalls s1.accumulatedParts).filter (fun fc => !c.blockingIDs.contains fc.name) ∧
    (processingOrder c.blockingIDs (extractCalls s1.accumulatedParts)).Perm
      (extractCalls s1.accumulatedParts) ∧
    (turnParts (responseTurn (callPhase c w s1))).filterMap storedResponseKey =
      (processingOrder c.blockingIDs (extractCalls s1.accumulatedParts)).map FunctionCall.key ∧
    (turnParts (responseTurn (callPhase c w s1))).length =
      (extractCalls s1.accumulatedParts).length ∧
    executedCalls (callPhase c w s1).trace =
      executedCalls s1.trace ++
        (processingOrder c.blockingIDs (extractCalls s1.accumulatedParts)).filter
          (isDispatched (hasPlanCall (extractCalls s1.accumulatedParts))) := by
  obtain ⟨d, hd, hx, _⟩ := callPhase_trace c w s1
  refine ⟨processingOrder_eq _ _, processingOrder_perm _ _, responseTurn_keys c w s1 hp,
    responseTurn_length c w s1 hp, ?_⟩
  rw [hd, executedCalls_append, hx hp]

/-- In an iteration whose model turn holds at least one function call, whose
call ids are pairwise distinct and whose call phase is left by no panic, the
history grows by the model turn and one user turn; the user turn has exactly
one part per call, every part is a function response, the (name, id) pairs of
the responses are a permutation of those of the calls of the model turn, each
call id is the id of exactly one response, which carries the same tool name,
and every response id is a call id. -/
theorem iteration_correlation (c : LoopCtx) (st : LoopState)
    (hs : (streamPhase c st).1 = none)
    (hne : 0 < (extractCalls (streamPhase c st).2.accumulatedParts).length)
    (hid : ((extractCalls (streamPhase c st).2.accumulatedParts).map
      (fun fc => fc.id)).Nodup)
    (hpan : (callPhase c st.world (streamPhase c st).2).panic = none) :
    (iteration c st).state.history =
      st.history ++ [modelTurn (streamPhase c st).2,
        responseTurn (callPhase c st.world (streamPhase c st).2)] ∧
    (turnParts (modelTurn (streamPhase c st).2)).filterMap storedCallKey =
      (extractCalls (streamPhase c st).2.accumulatedParts).map FunctionCall.key ∧
    (turnParts (responseTurn (callPhase c st.world (streamPhase c st).2))).length =
      (extractCalls (streamPhase c st).2.accumulatedParts).length ∧
    ((turnParts (responseTurn (callPhase c st.world (streamPhase c st).2))).filterMap
      storedResponseKey).length = (extractCalls (streamPhase c st).2.accumulatedParts).length ∧
    ((turnParts (responseTurn (callPhase c st.world (streamPhase c st).2))).filterMap
      storedResponseKey).Perm
      ((turnParts (modelTurn (streamPhase c st).2)).filterMap storedCallKey) ∧
    (∀ fc ∈ extractCalls (streamPhase c st).2.accumulatedParts,
      ((turnParts (responseTurn (callPhase c st.world (streamPhase c st).2))).filterMap
        storedResponseKey).filter (CallKey.hasId fc.id) = [fc.key]) ∧
    (∀ k ∈ (turnParts (responseTurn (callPhase c st.world (streamPhase c st).2))).filterMap
        storedResponseKey,
      ∃ fc ∈ extractCalls (streamPhase c st).2.accumulatedParts, k = fc.key) := by
  have hne2 : extractCalls (streamPhase c st).2.accumulatedParts ≠ [] := by
    intro h0
    rw [h0] at hne
    simp at hne
  obtain ⟨st1, h1, _, _, _, hh, _⟩ := iteration_calls c st hs hne2 hpan
  have hst : (iteration c st).state = st1 := by
    rw [h1]; split <;> rfl
  have hk := responseTurn_keys c st.world (streamPhase c st).2 hpan
  have hp0 := processingOrder_perm c.blockingIDs
    (extractCalls (streamPhase c st).2.accumulatedParts)
  have hperm := (hp0.map FunctionCall.key)
  have hcalls := partsToHistory_callKeys _ (streamPhase_callOnly c st)
  rw [← turnParts_modelTurn] at hcalls
  refine ⟨by rw [hst, hh], hcalls, responseTurn_length c st.world (streamPhase c st).2 hpan,
    ?_, ?_, ?_, ?_⟩
  · rw [hk, List.length_map]
    exact hp0.length_eq
  · rw [hk, hcalls]
    exact hperm
  · intro fc hfc
    rw [hk]
    have hf := (hperm.filter (CallKey.hasId fc.id))
    rw [filter_hasId_of_nodup _ hid fc hfc] at hf
    exact List.perm_singleton.mp hf
  · intro k hk2
    rw [hk] at hk2
    obtain ⟨fc, hfc, hkey⟩ := List.mem_map.mp hk2
    exact ⟨fc, (hp0.mem_iff).mp hfc, hkey.symm⟩

/-- A dispatch that returns an error `e`: the response added for the call is
`error: e` and a step with the id `call-` followed by the call id and the
status `failed` is recorded; when no later dispatch of the batch panics, the
calls after it are processed, each getting its response. -/
theorem dispatch_error_recorded (env : Env) (reg : Registry) (cb : Callbacks)
    (params : Option Params) (execReq : ExecuteRequest) (plan : Bool) (st : CallState)
    (fc : FunctionCall) (rest : List FunctionCall) (e : String)
    (hd : isDispatched plan fc = true)
    (hpan : (reg.Execute env execReq fc.name fc.args st.world).panic = none)
    (herr : (reg.Execute env execReq fc.name fc.args st.world).1.2 = some e) :
    (processCall env reg cb params execReq plan st fc).responseParts =
      st.responseParts ++ [responsePart fc [("error", .str e)]] ∧
    failedStep fc e ∈ (processCall env reg cb params execReq plan st fc).thinkingSteps ∧
    (failedStep fc e).id = "call-" ++ fc.id ∧ (failedStep fc e).status = "failed" ∧
    (((fc :: rest).foldl (processCall env reg cb params execReq plan) st).panic = none →
      ∃ rs : List (List (String × GoVal)), rs.length = rest.length ∧
        ((fc :: rest).foldl (processCall env reg cb params execReq plan) st).responseParts =
          st.responseParts ++
            responsePart fc [("error", .str e)] :: List.zipWith responsePart rest rs) := by
  have hp := processCall_dispatched env reg cb params execReq plan st fc hd
  have hf := dispatchCall_err env reg cb params execReq st fc e hpan herr
  have h1 : (processCall env reg cb params execReq plan st fc).responseParts =
      st.responseParts ++ [responsePart fc [("error", .str e)]] := by
    rw [hp, hf]
    rfl
  refine ⟨h1, ?_, rfl, rfl, ?_⟩
  · rw [hp, hf]
    exact mem_appendOrUpdate _ _ _
  · intro hrest
    obtain ⟨rs, hl, hr⟩ := foldl_processCall_response env reg cb params execReq plan rest
      (processCall env reg cb params execReq plan st fc) hrest
    refine ⟨rs, hl, ?_⟩
    simp only [List.foldl_cons]
    rw [hr, h1]
    simp

/-- How `RunSupervisor` can end other than by returning nil: with the error
of the client creation, with the stream error of an iteration the loop
entered, or by the panic of a dispatch; a dispatch error is never what it
returns. -/
theorem RunSupervisor_error (env : Env) (deps : SupervisorDeps) (sessionID message : String)
    (opts : SupervisorOptions) (cb : Callbacks) (params : Option Params) (w : World)
    (x : String)
    (hx : (RunSupervisor env deps sessionID message opts cb params w).err = some x) :
    (∃ ce, env.clientErr = some ce ∧ x = "create genai client: " ++ ce) ∨
    (∃ k stk, stateAt (requestCtx env deps sessionID cb params) k
        (startState env sessionID message params w) = some stk ∧ stk.loopCount < 10 ∧
      (streamError (env.generate (stk.loopCount + 1) (historyToContents stk.history)) =
          some x ∨
        ∃ st1, iteration (requestCtx env deps sessionID cb params) stk = .panicked x st1)) := by
  cases hc : env.clientErr with
  | some ce =>
    left
    simp only [RunSupervisor, hc, Option.some.injEq] at hx
    exact ⟨ce, rfl, hx.symm⟩
  | none =>
    right
    cases hr : (supervisorLoop (requestCtx env deps sessionID cb params) 10
        (startState env sessionID message params w)).1 with
    | none =>
      simp only [RunSupervisor, hc, hr] at hx
      cases hx
    | some y =>
      simp only [RunSupervisor, hc, hr, Option.some.injEq] at hx
      subst hx
      obtain ⟨k, stk, hk, hl, hcase⟩ := supervisorLoop_error
        (requestCtx env deps sessionID cb params) 10
        (startState env sessionID message params w)
        (supervisorLoop (requestCtx env deps sessionID cb params) 10
          (startState env sessionID message params w)).2 y
        (by rw [← hr])
      refine ⟨k, stk, hk, hl, ?_⟩
      rcases hcase with h1 | h1
      · exact Or.inl h1
      · exact Or.inr ⟨_, h1⟩

/-- After an iteration whose stream ended without error, whose batch holds at
least one function call and no `propose_plan` call, and whose call phase is
left by no panic, whatever the partition of the batch into blocking and other
calls, the loop condition is tested again, and when the iteration was not the
10th the loop performs another model invocation; and a loop that is left in
order is left at the loop condition, after the 10th iteration, or at an
iteration that leaves by `break`, which has no function call or has a
`propose_plan` call. -/
theorem loop_continuation (c : LoopCtx) :
    (∀ st : LoopState, (streamPhase c st).1 = none →
      extractCalls (streamPhase c st).2.accumulatedParts ≠ [] →
      hasPlanCall (extractCalls (streamPhase c st).2.accumulatedParts) = false →
      (callPhase c st.world (streamPhase c st).2).panic = none →
      ∃ st1, iteration c st = .next st1 ∧ st1.loopCount = st.loopCount + 1 ∧
        (st.loopCount + 1 < 10 → ∀ fuel,
          supervisorLoop c (fuel + 2) st = supervisorLoop c (fuel + 1) st1 ∧
          modelInvocations st1.trace + 1 ≤
            modelInvocations (supervisorLoop c (fuel + 2) st).2.trace)) ∧
    (∀ (fuel : Nat) (st r : LoopState), 10 ≤ fuel + st.loopCount →
      supervisorLoop c fuel st = (none, r) →
      ∃ k stk, stateAt c k st = some stk ∧
        ((10 ≤ stk.loopCount ∧ r = stk) ∨
         (stk.loopCount < 10 ∧ iteration c stk = .exit r ∧
           (extractCalls (streamPhase c stk).2.accumulatedParts = [] ∨
            hasPlanCall (extractCalls (streamPhase c stk).2.accumulatedParts) = true)))) := by
  refine ⟨?_, ?_⟩
  · intro st hs h0 hp hpan
    obtain ⟨st1, h1, hc, _⟩ := iteration_continue c st hs h0 hp hpan
    refine ⟨st1, h1, hc, ?_⟩
    intro hlt fuel
    have hn := supervisorLoop_next c (fuel + 1) st st1 (by omega) h1
    refine ⟨hn, ?_⟩
    rw [hn]
    exact supervisorLoop_invokes c fuel st1 (by omega)
  · intro fuel st r hf h
    obtain ⟨k, stk, hk, hcase⟩ := supervisorLoop_stop c fuel st r hf h
    refine ⟨k, stk, hk, ?_⟩
    rcases hcase with h1 | ⟨h1, h2⟩
    · exact Or.inl h1
    · exact Or.inr ⟨h1, h2, (iteration_exit_cases c stk r h2).2⟩

/-- Only the executor of `search_knowledge` has a panic path. -/
theorem Execute_panic_name (r : Registry) (env : Env) (req : ExecuteRequest) (name : String)
    (args : RawMessage) (w : World) (h : name ≠ "search_knowledge") :
    (r.Execute env req name args w).panic = none := by
  unfold Registry.Execute
  cases hg : GetExecutor name with
  | none => rfl
  | some exec =>
    simp only
    have hm := mapGet_mem executors name exec hg
    simp only [executors, List.mem_cons, Prod.mk.injEq, List.mem_singleton, List.not_mem_nil,
      or_false] at hm
    rcases hm with ⟨_, rfl⟩ | ⟨_, rfl⟩ | ⟨_, rfl⟩ | ⟨_, rfl⟩ | ⟨hn, rfl⟩ | ⟨_, rfl⟩ | ⟨_, rfl⟩ |
      ⟨_, rfl⟩ | ⟨_, rfl⟩ | ⟨_, rfl⟩ | ⟨_, rfl⟩ | ⟨_, rfl⟩
    · rfl
    · rfl
    · rfl
    · rfl
    · exact absurd hn h
    · rfl
    · rfl
    · rfl
    · rfl
    · rfl
    · rfl
    · rfl

/-- The executor of `search_knowledge` panics exactly when the arguments
decode without error, the query is not empty, the knowledge base of the
session is not empty and `limit` is out of range. -/
theorem executeSearchKnowledge_panic (env : Env) (ctx : ExecutorContext) (args : RawMessage)
    (w : World) :
    (executeSearchKnowledge env ctx args w).panic.isSome = true ↔
      (unmarshalStruct searchKnowledgeFields args).2 = none ∧
      (unmarshalStruct searchKnowledgeFields args).1.str "query" ≠ "" ∧
      (∃ chunks, getKnowledgeChunks w ctx.sessionID = .ok chunks ∧ chunks ≠ []) ∧
      makeslicePanics env.maxChunkCap
        (searchLimit ((unmarshalStruct searchKnowledgeFields args).1.number "limit")) = true := by
  unfold executeSearchKnowledge
  simp only
  split
  · rename_i e he
    simp [he]
  · rename_i he
    split
    · rename_i hq
      simp [hq]
    · rename_i hq
      split
      · rename_i x hx
        simp [hx]
      · rename_i chunks hx
        split
        · rename_i h0
          have : chunks = [] := List.length_eq_zero.mp h0
          simp [hx, this]
        · rename_i h0
          have hne : chunks ≠ [] := fun h => h0 (by rw [h]; rfl)
          split
          · rename_i hm
            simp [he, hq, hx, hne, hm]
          · rename_i hm
            simp [hm]

/-- For every builtin tool other than
`report_step_done`, `generate_chart` and `propose_plan`, and every field
listed as required in its schema: when the executor runs with a model client
and is given a JSON object in which no key is decoded into that field and
whose decoding into the argument struct reports no error, it returns no
result and an error whose message is "missing required argument: " followed
by a text that contains the field name, and it leaves the world as it was. -/
theorem required_argument_checked (env : Env) (ctx : ExecutorContext) (w : World)
    (d : FunctionDeclaration) (field : String) (exec : ToolExecutor)
    (kvs : List (String × GoVal))
    (hd : d ∈ Definitions) (hf : field ∈ d.required)
    (hchk : d.name ≠ "report_step_done" ∧ d.name ≠ "generate_chart" ∧
      d.name ≠ "propose_plan")
    (hex : GetExecutor d.name = some exec)
    (hclient : ctx.hasClient = true)
    (homit : ∀ kv ∈ kvs, keyMatches kv.1 field = false)
    (hdec : (unmarshalStruct (argFields d.name) (.doc (.obj kvs))).2 = none) :
    ∃ msg, exec env ctx (.doc (.obj kvs)) w =
        .returns ((GoVal.null, some (errMissingArg msg)), w) ∧
      field.toList <:+: msg.toList := by
  have hz := fun fields => unmarshalStruct_omitted fields kvs field homit
  simp only [Definitions, List.mem_cons, List.mem_singleton, List.not_mem_nil, or_false] at hd
  rcases hd with rfl | rfl | rfl | rfl | rfl | rfl | rfl | rfl | rfl | rfl | rfl | rfl
  · simp at hf
  · simp only [List.mem_singleton] at hf
    subst hf
    have hx : GetExecutor "create_todo" = some executeCreateTodo := rfl
    rw [hx] at hex
    cases hex
    exact ⟨"title", executeCreateTodo_missing env ctx w _ hdec (hz _), List.infix_refl _⟩
  · simp at hf
  · simp only [List.mem_singleton] at hf
    subst hf
    have hx : GetExecutor "complete_todo" = some executeCompleteTodo := rfl
    rw [hx] at hex
    cases hex
    exact ⟨"id", executeCompleteTodo_missing env ctx w _ hdec (hz _), List.infix_refl _⟩
  · simp only [List.mem_singleton] at hf
    subst hf
    have hx : GetExecutor "search_knowledge" = some executeSearchKnowledge := rfl
    rw [hx] at hex
    cases hex
    exact ⟨"query", executeSearchKnowledge_missing env ctx w _ hdec (hz _), List.infix_refl _⟩
  · exact absurd rfl hchk.1
  · have hx : GetExecutor "write_file" = some executeWriteFile := rfl
    rw [hx] at hex
    cases hex
    simp only [List.mem_cons, List.mem_singleton, List.not_mem_nil, or_false] at hf
    rcases hf with rfl | rfl
    · exact ⟨_, executeWriteFile_missing env ctx w _ hdec (Or.inl (hz _)), by decide⟩
    · exact ⟨_, executeWriteFile_missing env ctx w _ hdec (Or.inr (hz _)), by decide⟩
  · exact absurd rfl hchk.2.1
  · exact absurd rfl hchk.2.2
  · have hx : GetExecutor "analyze_data" = some executeAnalyzeData := rfl
    rw [hx] at hex
    cases hex
    simp only [List.mem_cons, List.mem_singleton, List.not_mem_nil, or_false] at hf
    rcases hf with rfl | rfl
    · exact ⟨_, executeAnalyzeData_missing env ctx w _ hdec (Or.inl (hz _)), by decide⟩
    · exact ⟨_, executeAnalyzeData_missing env ctx w _ hdec (Or.inr (hz _)), by decide⟩
  · have hx : GetExecutor "analyze_requirements" = some executeAnalyzeRequirements := rfl
    rw [hx] at hex
    cases hex
    simp only [List.mem_cons, List.mem_singleton, List.not_mem_nil, or_false] at hf
    rcases hf with rfl | rfl
    · exact ⟨_, executeAnalyzeRequirements_missing env ctx w _ hclient hdec (Or.inl (hz _)),
        by decide⟩
    · exact ⟨_, executeAnalyzeRequirements_missing env ctx w _ hclient hdec (Or.inr (hz _)),
        by decide⟩
  · have hx : GetExecutor "self_reflect" = some executeSelfReflect := rfl
    rw [hx] at hex
    cases hex
    simp only [List.mem_cons, List.mem_singleton, List.not_mem_nil, or_false] at hf
    rcases hf with rfl | rfl
    · exact ⟨_, executeSelfReflect_missing env ctx w _ hclient hdec (Or.inl (hz _)),
        by decide⟩
    · exact ⟨_, executeSelfReflect_missing env ctx w _ hclient hdec (Or.inr (hz _)),
        by decide⟩

/-! ## Claims -/

/-- C1 (bounded loop): for every model (every sequence of responses, also
those where every response holds function calls and none is `propose_plan`),
registry, session and request, one call of `RunSupervisor` makes at most 10
model stream invocations in its loop.  The bound comes from the loop
condition: it holds for every amount of fuel given to the loop, and fuel
beyond 10 changes nothing. -/
theorem C1_bounded_loop (env : Env) (deps : SupervisorDeps) (sessionID message : String)
    (opts : SupervisorOptions) (cb : Callbacks) (params : Option Params) (w : World)
    (fuel : Nat) :
    modelInvocations (RunSupervisor env deps sessionID message opts cb params w).trace ≤ 10 ∧
    modelInvocations (supervisorLoop (requestCtx env deps sessionID cb params) fuel
      (startState env sessionID message params w)).2.trace ≤ 10 ∧
    supervisorLoop (requestCtx env deps sessionID cb params) (10 + fuel)
        (startState env sessionID message params w) =
      supervisorLoop (requestCtx env deps sessionID cb params) 10
        (startState env sessionID message params w) := by
  have h0 : modelInvocations (startState env sessionID message params w).trace = 0 := by
    simp only [startState, initialLoopState]
    split <;> simp [modelInvocations, Event.isGenerateStream]
  have hl : (startState env sessionID message params w).loopCount = 0 := rfl
  have hb : ∀ n, modelInvocations (supervisorLoop (requestCtx env deps sessionID cb params) n
      (startState env sessionID message params w)).2.trace ≤ 10 := by
    intro n
    have := supervisorLoop_bound (requestCtx env deps sessionID cb params) n
      (startState env sessionID message params w) (by rw [hl]; omega)
    rw [h0, hl] at this
    omega
  refine ⟨?_, hb fuel, ?_⟩
  · unfold RunSupervisor
    split
    · simp [modelInvocations]
    · dsimp only
      split
      · exact hb 10
      · rw [modelInvocations_append]
        have := hb 10
        simp only [modelInvocations, List.countP_cons, List.countP_nil,
          Event.isGenerateStream] at this ⊢
        simpa using this
  · induction fuel with
    | zero => rfl
    | succ n ih =>
      rw [← ih]
      exact supervisorLoop_fuel (requestCtx env deps sessionID cb params) (10 + n)
        (startState env sessionID message params w) (by omega)

/-- C3 (ordering), evaluated where the code departs from it: the batch is a
`get_current_date` call, the `search_knowledge` call with `limit` `1e19`, and
a second `get_current_date` call, no name is blocking, and the session holds
a knowledge chunk.  The order of processing is the batch as it stands, but
the dispatch of `search_knowledge` panics in `make` (builtin.go line 163):
the calls processed are the first two, which is not a permutation of the
batch, one response was added and no user turn is appended to the history.
On a session without chunks the same batch is processed to the end and the
responses are one per call in the order of the batch. -/
theorem C3_processing_cut_by_panic :
    (extractCalls (streamPhase (demoCtx dateSearchDateScript)
      (chunkStart dateSearchDateScript)).2.accumulatedParts).map FunctionCall.key =
      [("get_current_date", "d1"), ("search_knowledge", "k1"), ("get_current_date", "d2")] ∧
    (processingOrder (demoCtx dateSearchDateScript).blockingIDs
      (extractCalls (streamPhase (demoCtx dateSearchDateScript)
        (chunkStart dateSearchDateScript)).2.accumulatedParts)).map FunctionCall.key =
      [("get_current_date", "d1"), ("search_knowledge", "k1"), ("get_current_date", "d2")] ∧
    (callPhase (demoCtx dateSearchDateScript) (chunkStart dateSearchDateScript).world
      (streamPhase (demoCtx dateSearchDateScript) (chunkStart dateSearchDateScript)).2).panic =
      some "runtime error: makeslice: cap out of range" ∧
    (executedCalls (callPhase (demoCtx dateSearchDateScript)
      (chunkStart dateSearchDateScript).world
      (streamPhase (demoCtx dateSearchDateScript)
        (chunkStart dateSearchDateScript)).2).trace).map FunctionCall.key =
      [("get_current_date", "d1"), ("search_knowledge", "k1")] ∧
    ((callPhase (demoCtx dateSearchDateScript) (chunkStart dateSearchDateScript).world
      (streamPhase (demoCtx dateSearchDateScript)
        (chunkStart dateSearchDateScript)).2).responseParts.map
          (fun p => p.functionResponse.map (fun r => r.id))) = [some "d1"] ∧
    (iteration (demoCtx dateSearchDateScript) (chunkStart dateSearchDateScript)).state.history.length =
      (chunkStart dateSearchDateScript).history.length + 1 ∧
    (RunSupervisor (scriptedEnv dateSearchDateScript) builtinDeps "s" "hello" demoOptions
      allCallbacks none worldWithChunk).panicked = true ∧
    (callPhase (demoCtx dateSearchDateScript) (demoStart dateSearchDateScript).world
      (streamPhase (demoCtx dateSearchDateScript) (demoStart dateSearchDateScript)).2).panic =
      none ∧
    (turnParts (responseTurn (callPhase (demoCtx dateSearchDateScript)
      (demoStart dateSearchDateScript).world
      (streamPhase (demoCtx dateSearchDateScript)
        (demoStart dateSearchDateScript)).2))).filterMap storedResponseKey =
      [("get_current_date", "d1"), ("search_knowledge", "k1"), ("get_current_date", "d2")] := by
  decide!

/-- C2 (plan lock): when the batch of an iteration holds exactly one
`propose_plan` call `pp` and any other calls, of any names and in any
positions, the only call dispatched to the registry in that iteration is
`pp`, the responses are, in the order of processing, the blocked response for
every other call and the response of the dispatch for `pp`, no chart is
recorded, and the loop ends with that iteration: no further model invocation
follows. -/
theorem C2_plan_lock (c : LoopCtx) (st : LoopState) (pp : FunctionCall)
    (hs : (streamPhase c st).1 = none)
    (hp : (extractCalls (streamPhase c st).2.accumulatedParts).filter isPlanCall = [pp])
    (hlt : st.loopCount < 10) :
    executedCalls (callPhase c st.world (streamPhase c st).2).trace =
      executedCalls st.trace ++ [pp] ∧
    (∃ rs : List (List (String × GoVal)),
      rs.length = (extractCalls (streamPhase c st).2.accumulatedParts).length ∧
      (callPhase c st.world (streamPhase c st).2).responseParts =
        List.zipWith lockedResponse
          (processingOrder c.blockingIDs (extractCalls (streamPhase c st).2.accumulatedParts))
          rs) ∧
    (∀ fc ∈ extractCalls (streamPhase c st).2.accumulatedParts, fc.name ≠ "propose_plan" →
      blockedResponse fc ∈ (callPhase c st.world (streamPhase c st).2).responseParts) ∧
    (callPhase c st.world (streamPhase c st).2).charts = [] ∧
    (∃ st1, iteration c st = .exit st1 ∧
      st1.trace = (callPhase c st.world (streamPhase c st).2).trace ∧
      modelInvocations st1.trace = modelInvocations st.trace + 1 ∧
      ∀ fuel, supervisorLoop c (fuel + 1) st = (none, st1)) := by
  have hplan := hasPlanCall_of_filter _ pp hp
  have hpan := callPhase_locked_panic c st.world (streamPhase c st).2 hplan
  have hne : extractCalls (streamPhase c st).2.accumulatedParts ≠ [] := by
    intro h0
    rw [h0] at hp
    simp at hp
  obtain ⟨rs, hl, hr⟩ : ∃ rs : List (List (String × GoVal)),
      rs.length = (processingOrder c.blockingIDs
        (extractCalls (streamPhase c st).2.accumulatedParts)).length ∧
      (callPhase c st.world (streamPhase c st).2).responseParts =
        List.zipWith lockedResponse
          (processingOrder c.blockingIDs (extractCalls (streamPhase c st).2.accumulatedParts))
          rs := by
    rw [callPhase_eq c st.world _ hpan, hplan]
    obtain ⟨rs, hl, hr⟩ := foldl_processCall_locked c.env c.registry c.cb c.params c.execReq
      (processingOrder c.blockingIDs (extractCalls (streamPhase c st).2.accumulatedParts))
      { thinkingSteps := (streamPhase c st).2.thinkingSteps, responseParts := [], charts := [],
        writtenFilePaths := [], trace := (streamPhase c st).2.trace, world := st.world }
    exact ⟨rs, hl, by simpa using hr⟩
  have hlen := (processingOrder_perm c.blockingIDs
    (extractCalls (streamPhase c st).2.accumulatedParts)).length_eq
  have hch : (callPhase c st.world (streamPhase c st).2).charts = [] := by
    rw [callPhase_eq c st.world _ hpan, hplan, foldl_processCall_locked_charts]
  refine ⟨?_, ⟨rs, by rw [hl, hlen], hr⟩, ?_, hch, ?_⟩
  · obtain ⟨d, hd, hx, _⟩ := callPhase_trace c st.world (streamPhase c st).2
    rw [hd, executedCalls_append, hx hpan, streamPhase_executed, hplan]
    have hf : (processingOrder c.blockingIDs
        (extractCalls (streamPhase c st).2.accumulatedParts)).filter (isDispatched true) =
        [pp] := by
      have hfun : isDispatched true = isPlanCall := funext isDispatched_locked
      rw [hfun]
      have hperm := (processingOrder_perm c.blockingIDs
        (extractCalls (streamPhase c st).2.accumulatedParts)).filter isPlanCall
      rw [hp] at hperm
      exact List.perm_singleton.mp hperm
    rw [hf]
  · intro fc hfc hname
    rw [hr]
    have hmem : fc ∈ processingOrder c.blockingIDs
        (extractCalls (streamPhase c st).2.accumulatedParts) :=
      (processingOrder_perm _ _).mem_iff.mpr hfc
    exact blocked_mem_zipWith _ rs hl fc hmem hname
  · obtain ⟨st1, h1, _, ht, _⟩ := iteration_calls c st hs hne hpan
    rw [hplan] at h1
    simp only [if_true] at h1
    refine ⟨st1, h1, ht, ?_, fun fuel => supervisorLoop_exit c fuel st st1 hlt h1⟩
    have hc := (iteration_counts c st).1
    rw [h1] at hc
    exact hc

/-- C2 at a batch with a chart call, the plan proposal and an unknown tool. -/
theorem C2_plan_lock_witness :
    (streamPhase (demoCtx planLockScript) (demoStart planLockScript)).1 = none ∧
    (extractCalls (streamPhase (demoCtx planLockScript)
      (demoStart planLockScript)).2.accumulatedParts).filter isPlanCall = [planCall] ∧
    (demoStart planLockScript).loopCount < 10 ∧
    executedCalls (callPhase (demoCtx planLockScript) (demoStart planLockScript).world
      (streamPhase (demoCtx planLockScript) (demoStart planLockScript)).2).trace =
      executedCalls (demoStart planLockScript).trace ++ [planCall] :=
  ⟨by decide, by rfl, by decide,
   (C2_plan_lock (demoCtx planLockScript) (demoStart planLockScript) planCall
      (by decide) (by rfl) (by decide)).1⟩

/-- C4 (call/response correlation), evaluated where the code departs from
it: the model turn of the first iteration holds one call, `search_knowledge`
with the id `k1` and `limit` `1e19`, and the session holds a knowledge chunk.
The dispatch panics in `make` (builtin.go line 163): the iteration appends
the model turn and no user turn, no response carries the id `k1`,
`RunSupervisor` does not return and nothing is stored.  On a session without
chunks the same call gets its one response. -/
theorem C4_no_response_after_panic :
    ((iteration (demoCtx searchScript) (chunkStart searchScript)).state.history.map
      (fun t => (turnParts t).filterMap storedCallKey)) =
      [[], [("search_knowledge", "k1")]] ∧
    ((iteration (demoCtx searchScript) (chunkStart searchScript)).state.history.map
      (fun t => (turnParts t).filterMap storedResponseKey)) = [[], []] ∧
    (callPhase (demoCtx searchScript) (chunkStart searchScript).world
      (streamPhase (demoCtx searchScript) (chunkStart searchScript)).2).responseParts.length =
      0 ∧
    (callPhase (demoCtx searchScript) (chunkStart searchScript).world
      (streamPhase (demoCtx searchScript) (chunkStart searchScript)).2).panic =
      some "runtime error: makeslice: cap out of range" ∧
    (RunSupervisor (scriptedEnv searchScript) builtinDeps "s" "hello" demoOptions
      allCallbacks none worldWithChunk).panicked = true ∧
    (RunSupervisor (scriptedEnv searchScript) builtinDeps "s" "hello" demoOptions
      allCallbacks none worldWithChunk).trace.all (fun e => !e.isUpdateSession) = true ∧
    ((iteration (demoCtx searchScript) (demoStart searchScript)).state.history.map
      (fun t => (turnParts t).filterMap storedResponseKey)) =
      [[], [], [("search_knowledge", "k1")]] := by
  decide!

/-- C5 (thinking-step dedup), evaluated where the code departs from it: when
the stream of the first iteration is a thought delta followed by a text delta,
the final assistant message holds two steps with the id `th-1`, the first
still `active`, because the flush before a text delta appends (line 150)
where the flush before a function call and the one at the end of the stream
update in place; `gatherThinkingSteps`, which would drop the second, is not
called. -/
theorem C5_duplicate_thought_step :
    (demoFinalMsg thoughtThenTextScript).map
        (fun m => m.thinkingSteps.map (fun t => (t.id, t.status))) =
      some [("th-1", "active"), ("th-1", "completed")] ∧
    (demoFinalMsg thoughtThenTextScript).map
        (fun m => (gatherThinkingSteps m.thinkingSteps).map (fun t => (t.id, t.status))) =
      some [("th-1", "active")] ∧
    ((streamPhase (demoCtx thoughtThenCallScript)
        (demoStart thoughtThenCallScript)).2.thinkingSteps.map (fun t => (t.id, t.status))) =
      [("th-1", "completed"), ("call-u1", "pending")] := by
  decide

/-- C6 as stated fails: `Execute` looks the name up in the builtin executor
table, not in the registry, so on the empty registry the unregistered name
`get_current_date` is executed and yields a non-nil result. -/
theorem C6_counterexample :
    "get_current_date" ∉ Registry.GetIDs Registry.New ∧
    (Registry.Execute Registry.New (scriptedEnv thoughtThenTextScript) ⟨"s", true, false⟩
      "get_current_date" (.doc (.obj [])) emptyWorld).1 =
      (GoVal.strMap [("iso", "1970-01-01T00:00:00Z")], none) ∧
    (Registry.Execute Registry.New (scriptedEnv thoughtThenTextScript) ⟨"s", true, false⟩
      "get_current_date" (.doc (.obj [])) emptyWorld).1.1 ≠ GoVal.null := by
  refine ⟨by decide, rfl, ?_⟩
  intro h
  have h2 : (Registry.Execute Registry.New (scriptedEnv thoughtThenTextScript)
      ⟨"s", true, false⟩ "get_current_date" (.doc (.obj [])) emptyWorld).1.1 =
      GoVal.strMap [("iso", "1970-01-01T00:00:00Z")] := rfl
  rw [h2] at h
  cases h

/-- C6 amended (unknown tool no-op): for every registry and every name that
has no executor in the builtin table, whether or not the name is registered,
`Execute` returns a nil result and a nil error for all arguments and leaves
the world as it was; and when the supervisor dispatches such a call (no
`propose_plan` call in the batch) the function response it adds is
`result: nil`, with no error entry. -/
theorem C6_unknown_tool_noop (r : Registry) (env : Env) (req : ExecuteRequest)
    (name : String) (h : GetExecutor name = none) :
    (∀ (args : RawMessage) (w : World),
      r.Execute env req name args w = .returns ((GoVal.null, none), w)) ∧
    (∀ (cb : Callbacks) (params : Option Params) (st : CallState) (fc : FunctionCall),
      fc.name = name →
      (processCall env r cb params req false st fc).responseParts =
        st.responseParts ++ [responsePart fc [("result", GoVal.null)]] ∧
      objGet [("result", GoVal.null)] "error" = none ∧
      (processCall env r cb params req false st fc).world = st.world) := by
  refine ⟨fun args w => Execute_unknown r env req name args w h, ?_⟩
  intro cb params st fc hname
  have hx : r.Execute env req fc.name fc.args st.world =
      .returns ((GoVal.null, none), st.world) :=
    Execute_unknown r env req fc.name fc.args st.world (by rw [hname]; exact h)
  have hchart : fc.name ≠ "generate_chart" := by
    intro hc
    have := generate_chart_known
    rw [← hc, hname, h] at this
    simp at this
  have hp : processCall env r cb params req false st fc =
      dispatchCall env r cb params req st fc := by
    simp [processCall, hchart]
  rw [hp, dispatchCall_ok env r cb params req st fc (by rw [hx]) (by rw [hx])]
  refine ⟨?_, by simp [objGet, mapGet], ?_⟩
  · rw [(dispatchSuccess_frame env cb params _ fc _).1, hx]
    simp [markedResult_null, afterExecute]
  · rw [(dispatchSuccess_frame env cb params _ fc _).2.1, hx]
    rfl

/-- C6 amended at the unknown tool `launch_rocket`. -/
theorem C6_unknown_tool_noop_witness :
    GetExecutor "launch_rocket" = none ∧
    Registry.Execute (RegisterBuiltinTools Registry.New) (scriptedEnv thoughtThenTextScript)
      ⟨"s", true, false⟩ "launch_rocket" (.doc (.obj [])) emptyWorld =
      .returns ((GoVal.null, none), emptyWorld) :=
  ⟨rfl, (C6_unknown_tool_noop (RegisterBuiltinTools Registry.New)
    (scriptedEnv thoughtThenTextScript) ⟨"s", true, false⟩ "launch_rocket" rfl).1
      (.doc (.obj [])) emptyWorld⟩

/-- C7 (argument validation), evaluated where the code departs from it: the
schema of `report_step_done` lists `stepId` as required, but
`executeReportStepDone` decodes its arguments and never tests the field
(builtin.go lines 176-184): called with the empty object it returns the
result `status: OK, stepId: ""` and no error.  The executor of
`create_todo`, like those of six other tools, does test its required field:
called with the empty object it returns no result and the error
`missing required argument: title`. -/
theorem C7_required_field_unchecked :
    (Definitions.filter (fun d => d.name == "report_step_done")).map (fun d => d.required) =
      [["stepId"]] ∧
    GetExecutor "report_step_done" = some executeReportStepDone ∧
    (executeReportStepDone (scriptedEnv thoughtThenTextScript) demoExecutorContext
      (.doc (.obj [])) emptyWorld).1 =
      (GoVal.obj [("status", .str "OK"), ("stepId", .str "")], none) ∧
    (executeReportStepDone (scriptedEnv thoughtThenTextScript) demoExecutorContext
      (.doc (.obj [])) emptyWorld).1.2 ≠ some (errMissingArg "stepId") ∧
    (Definitions.filter (fun d => d.name == "create_todo")).map (fun d => d.required) =
      [["title"]] ∧
    (executeCreateTodo (scriptedEnv thoughtThenTextScript) demoExecutorContext
      (.doc (.obj [])) emptyWorld).1 =
      (GoVal.null, some "missing required argument: title") := by
  refine ⟨by decide, rfl, rfl, ?_, by decide, rfl⟩
  intro h
  have h2 : (executeReportStepDone (scriptedEnv thoughtThenTextScript) demoExecutorContext
    (.doc (.obj [])) emptyWorld).1.2 = none := rfl
  rw [h2] at h
  cases h

/-- C9 (model-stream failure aborts atomically): when the loop of a request
enters some iteration (the first, at `k = 0`, or a later one) and the model
stream of that iteration yields an error `e`, `RunSupervisor` returns `e` (it
returns: the call is not one that a panic leaves), assembles no assistant
message and makes no `UpdateSession` call; the stored
history and UI messages of every session are those the store held after the
session was loaded at the start of the request: unchanged when the session
existed, and the two empty lists of the session created by the initial
`SaveSession` when it did not. -/
theorem C9_stream_failure_aborts (env : Env) (deps : SupervisorDeps)
    (sessionID message : String) (opts : SupervisorOptions) (cb : Callbacks)
    (params : Option Params) (w : World) (k : Nat) (stk : LoopState) (e : String)
    (hc : env.clientErr = none)
    (hk : stateAt (requestCtx env deps sessionID cb params) k
      (startState env sessionID message params w) = some stk)
    (hlt : stk.loopCount < 10)
    (he : streamError (env.generate (stk.loopCount + 1) (historyToContents stk.history)) =
      some e) :
    (RunSupervisor env deps sessionID message opts cb params w).err = some e ∧
    (RunSupervisor env deps sessionID message opts cb params w).panicked = false ∧
    (RunSupervisor env deps sessionID message opts cb params w).assistantMsg.isNone = true ∧
    (∀ ev ∈ (RunSupervisor env deps sessionID message opts cb params w).trace,
      ev.isUpdateSession = false) ∧
    ((getSession w sessionID).isSome = true → ∀ id,
      storedLists (RunSupervisor env deps sessionID message opts cb params w).world id =
        storedLists w id) ∧
    (getSession w sessionID = none →
      storedLists (RunSupervisor env deps sessionID message opts cb params w).world sessionID =
        some (some [], some []) ∧
      ∀ id, id ≠ sessionID →
        storedLists (RunSupervisor env deps sessionID message opts cb params w).world id =
          storedLists w id) := by
  have hst := stateAt_loop (requestCtx env deps sessionID cb params) k
    (startState env sessionID message params w) stk hk (10 - k)
  have h0 : (startState env sessionID message params w).loopCount = 0 := rfl
  have hkk : stk.loopCount = k := by rw [hst.2, h0]; omega
  have hs : (streamPhase (requestCtx env deps sessionID cb params) stk).1 = some e := by
    rw [streamPhase_error]
    exact he
  obtain ⟨st1, hi, _⟩ := iteration_failed (requestCtx env deps sessionID cb params) stk e hs
  have hpan : st1.panicked = false := by
    rw [iteration_failed_panicked (requestCtx env deps sessionID cb params) stk st1 e hi]
    exact stateAt_panicked (requestCtx env deps sessionID cb params) k
      (startState env sessionID message params w) stk hk
      (startState_panicked env sessionID message params w)
  have hl := supervisorLoop_failed (requestCtx env deps sessionID cb params) (9 - k) stk st1 e
    hlt hi
  have hr : supervisorLoop (requestCtx env deps sessionID cb params) 10
      (startState env sessionID message params w) = (some e, st1) := by
    have h1 : k + (10 - k) = 10 := by omega
    have h2 : 10 - k = 9 - k + 1 := by omega
    rw [← h1, hst.1, h2]
    exact hl
  have hp := supervisorLoop_preserves (requestCtx env deps sessionID cb params) 10
    (startState env sessionID message params w)
    (startState_noUpdate env sessionID message params w)
  rw [hr] at hp
  have hw : (RunSupervisor env deps sessionID message opts cb params w).world = st1.world := by
    simp only [RunSupervisor, hc, hr]
  have ht : (RunSupervisor env deps sessionID message opts cb params w).trace = st1.trace := by
    simp only [RunSupervisor, hc, hr]
  refine ⟨by simp only [RunSupervisor, hc, hr], by simp only [RunSupervisor, hc, hr]; exact hpan,
    by simp only [RunSupervisor, hc, hr]; rfl, by rw [ht]; exact hp.1, ?_, ?_⟩
  · intro hsome id
    rw [hw, hp.2 id]
    simp only [startState, initialLoopState, loadedWorld_found env sessionID w hsome]
  · intro hnone
    have hn := loadedWorld_new env sessionID w hnone
    refine ⟨?_, ?_⟩
    · rw [hw, hp.2 sessionID]
      exact hn.1
    · intro id hid
      rw [hw, hp.2 id]
      exact hn.2 id hid

/-- C9 at a request whose second model stream breaks after a text delta. -/
theorem C9_stream_failure_aborts_witness :
    stateAt (requestCtx (scriptedEnv failingScript) builtinDeps "s" allCallbacks none) 1
      (startState (scriptedEnv failingScript) "s" "hello" none emptyWorld) =
      some (iteration (requestCtx (scriptedEnv failingScript) builtinDeps "s" allCallbacks none)
        (startState (scriptedEnv failingScript) "s" "hello" none emptyWorld)).state ∧
    (RunSupervisor (scriptedEnv failingScript) builtinDeps "s" "hello" demoOptions allCallbacks
      none emptyWorld).err = some "stream broke" :=
  ⟨rfl, (C9_stream_failure_aborts (scriptedEnv failingScript) builtinDeps "s" "hello"
    demoOptions allCallbacks none emptyWorld 1
    (iteration (requestCtx (scriptedEnv failingScript) builtinDeps "s" allCallbacks none)
      (startState (scriptedEnv failingScript) "s" "hello" none emptyWorld)).state
    "stream broke" rfl rfl (by decide) rfl).1⟩

/-- C10 (tool dispatch errors are recovered locally), evaluated where the
code departs from it: the batch is a `create_todo` call without title and the
`search_knowledge` call with `limit` `1e19`, and the session holds a
knowledge chunk.  `Execute` returns the error for `create_todo` and the
response `error: missing required argument: title` is added; the remaining
call is then dispatched and panics in `make` (builtin.go line 163), so the
loop does not get to its exit check: no user turn is appended, no further
model invocation is made and `RunSupervisor` does not return.  With
`get_current_date` as the remaining call the loop goes on to a second model
invocation and `RunSupervisor` returns nil. -/
theorem C10_later_panic_not_recovered :
    (Registry.Execute (RegisterBuiltinTools Registry.New) (scriptedEnv todoSearchScript)
      ⟨"s", true, false⟩ badTodoCall.name badTodoCall.args worldWithChunk).1.2 =
      some "missing required argument: title" ∧
    ((callPhase (demoCtx todoSearchScript) (chunkStart todoSearchScript).world
      (streamPhase (demoCtx todoSearchScript) (chunkStart todoSearchScript)).2).responseParts.map
        (fun p => p.functionResponse.map (fun r => r.id))) = [some "t1"] ∧
    ((callPhase (demoCtx todoSearchScript) (chunkStart todoSearchScript).world
      (streamPhase (demoCtx todoSearchScript) (chunkStart todoSearchScript)).2).thinkingSteps.map
        (fun s => (s.id, s.status))) =
      [("call-t1", "failed"), ("call-k1", "pending")] ∧
    (executedCalls (callPhase (demoCtx todoSearchScript) (chunkStart todoSearchScript).world
      (streamPhase (demoCtx todoSearchScript)
        (chunkStart todoSearchScript)).2).trace).map FunctionCall.key =
      [("create_todo", "t1"), ("search_knowledge", "k1")] ∧
    (callPhase (demoCtx todoSearchScript) (chunkStart todoSearchScript).world
      (streamPhase (demoCtx todoSearchScript) (chunkStart todoSearchScript)).2).panic =
      some "runtime error: makeslice: cap out of range" ∧
    (iteration (demoCtx todoSearchScript) (chunkStart todoSearchScript)).state.history.length =
      (chunkStart todoSearchScript).history.length + 1 ∧
    (RunSupervisor (scriptedEnv todoSearchScript) builtinDeps "s" "hello" demoOptions
      allCallbacks none worldWithChunk).panicked = true ∧
    modelInvocations (RunSupervisor (scriptedEnv todoSearchScript) builtinDeps "s" "hello"
      demoOptions allCallbacks none worldWithChunk).trace = 1 ∧
    (RunSupervisor (scriptedEnv todoDateScript) builtinDeps "s" "hello" demoOptions
      allCallbacks none worldWithChunk).panicked = false ∧
    (RunSupervisor (scriptedEnv todoDateScript) builtinDeps "s" "hello" demoOptions
      allCallbacks none worldWithChunk).err = none ∧
    modelInvocations (RunSupervisor (scriptedEnv todoDateScript) builtinDeps "s" "hello"
      demoOptions allCallbacks none worldWithChunk).trace = 2 := by
  decide!

/-- C11 (natural termination): when the stream of the first model invocation
of a request yields no error and none of the parts read from it holds a
function call (text parts, thought parts, or no part at all), the first
iteration leaves the loop: the loop made exactly one model invocation, the
history is the starting history with exactly one turn appended, the model
turn, and no function-response turn, no call is dispatched, and
`RunSupervisor` returns without error after that one invocation, storing
that history. -/
theorem C11_natural_termination (env : Env) (deps : SupervisorDeps)
    (sessionID message : String) (opts : SupervisorOptions) (cb : Callbacks)
    (params : Option Params) (w : World)
    (hclient : env.clientErr = none)
    (herr : streamError (env.generate 1
      (historyToContents (startHistory env sessionID message params w))) = none)
    (hparts : ∀ p ∈ streamParts (env.generate 1
      (historyToContents (startHistory env sessionID message params w))),
      p.functionCall = none) :
    ∃ st1, iteration (requestCtx env deps sessionID cb params)
        (startState env sessionID message params w) = .exit st1 ∧
      supervisorLoop (requestCtx env deps sessionID cb params) 10
        (startState env sessionID message params w) = (none, st1) ∧
      modelInvocations st1.trace = 1 ∧
      executedCalls st1.trace = [] ∧
      st1.history = startHistory env sessionID message params w ++
        [.obj [("role", .str "model"),
          ("parts", .list (partsToHistory (streamPhase (requestCtx env deps sessionID cb params)
            (startState env sessionID message params w)).2.accumulatedParts))]] ∧
      (RunSupervisor env deps sessionID message opts cb params w).err = none ∧
      modelInvocations (RunSupervisor env deps sessionID message opts cb params w).trace = 1 ∧
      ∃ ui, (RunSupervisor env deps sessionID message opts cb params w).trace =
        st1.trace ++ [.updateSession sessionID st1.history ui] := by
  have hs : (streamPhase (requestCtx env deps sessionID cb params)
      (startState env sessionID message params w)).1 = none := by
    rw [streamPhase_error]
    exact herr
  have h0 := streamPhase_noCalls (requestCtx env deps sessionID cb params)
    (startState env sessionID message params w) hparts
  obtain ⟨st1, h1, hc, ht, _, hh, _⟩ := iteration_noCalls _ _ hs h0
  have hloop := supervisorLoop_exit (requestCtx env deps sessionID cb params) 9
    (startState env sessionID message params w) st1 (show (0 : Nat) < 10 by decide) h1
  have hm : modelInvocations st1.trace = 1 := by
    rw [ht, streamPhase_modelInvocations, startState_invocations]
  have hx : executedCalls st1.trace = [] := by
    rw [ht, streamPhase_executed]
    simp only [startState, initialLoopState]
    split <;> rfl
  refine ⟨st1, h1, hloop, hm, hx, hh, ?_, ?_, ?_⟩
  · simp only [RunSupervisor, hclient, hloop]
  · simp only [RunSupervisor, hclient, hloop, modelInvocations_append, hm]
    rfl
  · simp only [RunSupervisor, hclient, hloop]
    exact ⟨_, rfl⟩


/-- C11 on a model that answers with a thought and the text "hi": one model
invocation, no dispatch, no error. -/
theorem C11_natural_termination_witness :
    (scriptedEnv thoughtThenTextScript).clientErr = none ∧
    streamError ((scriptedEnv thoughtThenTextScript).generate 1 (historyToContents
      (startHistory (scriptedEnv thoughtThenTextScript) "s" "hello" none emptyWorld))) = none ∧
    (RunSupervisor (scriptedEnv thoughtThenTextScript) builtinDeps "s" "hello" demoOptions
      allCallbacks none emptyWorld).err = none ∧
    modelInvocations (RunSupervisor (scriptedEnv thoughtThenTextScript) builtinDeps "s" "hello"
      demoOptions allCallbacks none emptyWorld).trace = 1 := by
  obtain ⟨_, _, _, _, _, _, he, hm, _⟩ :=
    C11_natural_termination (scriptedEnv thoughtThenTextScript) builtinDeps "s" "hello"
      demoOptions allCallbacks none emptyWorld rfl rfl (by
        intro p hp
        simp [scriptedEnv, thoughtThenTextScript, streamParts, readParts, partsResponse] at hp
        rcases hp with h | h <;> rw [h])
  exact ⟨rfl, rfl, he, hm⟩

/-- C12 (Scenario C, approval resume): the history the loop starts from is the
stored history with exactly one user turn appended, whose only part is a text
part.  When the parameters are present with `IsApprovalConfirmed` true and a
non-nil `ResumePlan`, the text is the fixed approval sentence and the literal
message does not appear; in every other case (no parameters, not confirmed,
or a nil plan) the text is the literal message. -/
theorem C12_approval_resume_text (env : Env) (sessionID message : String) (w : World) :
    (∀ p : Params, p.isApprovalConfirmed = true → p.resumePlan ≠ none →
      (startState env sessionID message (some p) w).history =
        (loadedSession env sessionID w).geminiHistory.getD [] ++
          [.obj [("role", .str "user"),
            ("parts", .list [.strMap [("text", "计划已批准。请按计划立即开始执行。")]])]]) ∧
    (∀ params : Option Params,
      (params = none ∨ ∃ p, params = some p ∧
        (p.isApprovalConfirmed = false ∨ p.resumePlan = none)) →
      (startState env sessionID message params w).history =
        (loadedSession env sessionID w).geminiHistory.getD [] ++
          [.obj [("role", .str "user"), ("parts", .list [.strMap [("text", message)]])]]) := by
  constructor
  · intro p hc hp
    have hs : p.resumePlan.isSome = true := by
      cases h : p.resumePlan with
      | none => exact absurd h hp
      | some v => rfl
    simp [startState, initialLoopState, startHistory, effectiveUserText, hc, hs]
  · intro params h
    rcases h with h | ⟨p, h, hp⟩
    · subst h
      rfl
    · subst h
      rcases hp with hp | hp
      · simp [startState, initialLoopState, startHistory, effectiveUserText, hp]
      · simp [startState, initialLoopState, startHistory, effectiveUserText, hp]

/-- C12 at an approved resume and at a plain message on the empty store. -/
theorem C12_approval_resume_text_witness :
    (startState (scriptedEnv thoughtThenTextScript) "s" "go on" (some approvedParams)
        emptyWorld).history =
      [.obj [("role", .str "user"),
        ("parts", .list [.strMap [("text", "计划已批准。请按计划立即开始执行。")]])]] ∧
    (startState (scriptedEnv thoughtThenTextScript) "s" "go on" none emptyWorld).history =
      [.obj [("role", .str "user"), ("parts", .list [.strMap [("text", "go on")]])]] :=
  ⟨(C12_approval_resume_text (scriptedEnv thoughtThenTextScript) "s" "go on" emptyWorld).1
      approvedParams rfl (by simp [approvedParams]),
   (C12_approval_resume_text (scriptedEnv thoughtThenTextScript) "s" "go on" emptyWorld).2
      none (Or.inl rfl)⟩


/-- C13 (Scenario B, plan proposal): (1) whenever a `propose_plan` call is
dispatched without error and its result is a map holding a plan map, the
dispatch calls the plan-proposed observer (when there is one) exactly once,
with that plan and its `isApproved` entry set to false; (2) when the batch of
an iteration the loop reaches holds a `propose_plan` call, the loop ends with
that iteration and the content of the final message is the text accumulated
in that same iteration, the concatenation of its text deltas, possibly empty;
(3) every result of `executeProposePlan` that holds a plan holds a plan map
whose `isApproved` entry is false. -/
theorem C13_plan_proposal :
    (∀ (env : Env) (reg : Registry) (cb : Callbacks) (params : Option Params)
        (execReq : ExecuteRequest) (st : CallState) (fc : FunctionCall)
        (m plan0 : List (String × GoVal)),
      fc.name = "propose_plan" → cb.onPlanProposed = true →
      (reg.Execute env execReq fc.name fc.args st.world).1.2 = none →
      (reg.Execute env execReq fc.name fc.args st.world).1.1 = .obj m →
      objGet m "plan" = some (.obj plan0) →
      planCalls (dispatchCall env reg cb params execReq st fc).trace =
        planCalls st.trace ++ [mapSet plan0 "isApproved" (.bool false)] ∧
      objGet (mapSet plan0 "isApproved" (.bool false)) "isApproved" = some (.bool false)) ∧
    (∀ (env : Env) (deps : SupervisorDeps) (sessionID message : String)
        (opts : SupervisorOptions) (cb : Callbacks) (params : Option Params) (w : World)
        (k : Nat) (stk : LoopState),
      env.clientErr = none →
      stateAt (requestCtx env deps sessionID cb params) k
        (startState env sessionID message params w) = some stk →
      stk.loopCount < 10 →
      (streamPhase (requestCtx env deps sessionID cb params) stk).1 = none →
      hasPlanCall (extractCalls
        (streamPhase (requestCtx env deps sessionID cb params) stk).2.accumulatedParts) = true →
      modelInvocations (RunSupervisor env deps sessionID message opts cb params w).trace =
        k + 1 ∧
      ∃ msg, (RunSupervisor env deps sessionID message opts cb params w).assistantMsg =
          some msg ∧
        msg.content = String.join (textDeltas (env.generate (stk.loopCount + 1)
          (historyToContents stk.history)))) ∧
    (∀ (env : Env) (ctx : ExecutorContext) (args : RawMessage) (w : World)
        (m : List (String × GoVal)) (p : GoVal),
      (executeProposePlan env ctx args w).1.1 = .obj m → objGet m "plan" = some p →
      ∃ pm, p = .obj pm ∧ objGet pm "isApproved" = some (.bool false)) := by
  refine ⟨?_, ?_, ?_⟩
  · intro env reg cb params execReq st fc m plan0 hn hcb he hr hp
    refine ⟨?_, objGet_mapSet _ _ _⟩
    rw [dispatchCall_planCalls env reg cb params execReq st fc
      (by rw [hn]; exact Execute_propose_plan_panic reg env execReq fc.args st.world) he, hr]
    simp [hn, hcb, approvedFalsePlan, GoVal.asObj, hp]
  · intro env deps sessionID message opts cb params w k stk hclient hk hlt hs hp
    obtain ⟨st1, h1, hx, ht⟩ := iteration_plan_exit _ stk hs hp
    obtain ⟨hl, hc⟩ := stateAt_loop _ k _ stk hk (10 - k)
    have hk10 : k + (10 - k) = 10 := by
      have h0 : (startState env sessionID message params w).loopCount = 0 := rfl
      omega
    have hf : 10 - k = (9 - k) + 1 := by
      have h0 : (startState env sessionID message params w).loopCount = 0 := rfl
      omega
    rw [hk10, hf, supervisorLoop_exit _ (9 - k) stk st1 hlt h1] at hl
    have hm : modelInvocations st1.trace = k + 1 := by
      have hb := stateAt_invocations (requestCtx env deps sessionID cb params) k
        (startState env sessionID message params w) stk hk
      have hi := (iteration_counts (requestCtx env deps sessionID cb params) stk).1
      rw [h1] at hi
      simp only [IterOutcome.state] at hi
      rw [hi, hb, startState_invocations]
      omega
    refine ⟨?_, ?_⟩
    · simp only [RunSupervisor, hclient, hl, modelInvocations_append, hm]
      rfl
    · refine ⟨assembleAssistantMsg (assistantMsgIDOf env) st1, ?_, ?_⟩
      · simp only [RunSupervisor, hclient, hl]
      · simp only [assembleAssistantMsg, hx]
        exact streamPhase_currentText _ stk
  · intro env ctx args w m p hm hp
    exact executeProposePlan_plan env ctx args w m p hm hp


/-- C13 on a model that answers with text and a `propose_plan` call, and a
sub-model that answers with a plan document claiming `isApproved` true: the
observer gets the plan with `isApproved` false, and the final content is the
text of that iteration. -/
theorem C13_plan_proposal_witness :
    planCalls (dispatchCall (planEnv textThenPlanScript) builtinDeps.registry allCallbacks none
      ⟨"s", true, false⟩ emptyCallState planCall).trace =
      [mapSet demoPlanMap "isApproved" (.bool false)] ∧
    (∃ msg, (RunSupervisor (planEnv textThenPlanScript) builtinDeps "s" "hello" demoOptions
        allCallbacks none emptyWorld).assistantMsg = some msg ∧
      msg.content = "Here is the plan.") ∧
    (∃ pm, GoVal.obj demoPlanMap = .obj pm ∧
      objGet pm "isApproved" = some (.bool false)) := by
  refine ⟨?_, ?_, ?_⟩
  · exact (C13_plan_proposal.1 (planEnv textThenPlanScript) builtinDeps.registry allCallbacks
      none ⟨"s", true, false⟩ emptyCallState planCall
      [("plan", .obj demoPlanMap), ("status", .str "PLAN_PROPOSED")] demoPlanMap
      rfl rfl rfl rfl rfl).1
  · obtain ⟨_, msg, h1, h2⟩ := C13_plan_proposal.2.1 (planEnv textThenPlanScript) builtinDeps
      "s" "hello" demoOptions allCallbacks none emptyWorld 0 _ rfl rfl (by decide) rfl rfl
    exact ⟨msg, h1, by rw [h2]; decide⟩
  · exact C13_plan_proposal.2.2 (planEnv textThenPlanScript) demoExecutorContext planCall.args
      emptyWorld [("plan", .obj demoPlanMap), ("status", .str "PLAN_PROPOSED")]
      (.obj demoPlanMap) rfl rfl


/-- C14 (cumulative text broadcast): in every iteration, with a text observer
present, if the non-empty text deltas read from the stream of that iteration
are `t1 .. tn` in order, the iteration calls the text observer exactly `n`
times and the `k`-th call receives `t1 ++ .. ++ tk`; the accumulator holds
`t1 ++ .. ++ tn` after the iteration, whatever it held before: it starts
empty in every iteration. -/
theorem C14_cumulative_text (c : LoopCtx) (st : LoopState) (hcb : c.cb.onText = true) :
    textCalls (iteration c st).state.trace = textCalls st.trace ++
      (List.range (textDeltas (c.env.generate (st.loopCount + 1)
          (historyToContents st.history))).length).map
        (fun k => String.join ((textDeltas (c.env.generate (st.loopCount + 1)
          (historyToContents st.history))).take (k + 1))) ∧
    (iteration c st).state.currentTurnText =
      String.join (textDeltas (c.env.generate (st.loopCount + 1)
        (historyToContents st.history))) ∧
    ∀ t ∈ textDeltas (c.env.generate (st.loopCount + 1) (historyToContents st.history)),
      t ≠ "" := by
  obtain ⟨h1, h2⟩ := iteration_text c st
  refine ⟨?_, ?_, ?_⟩
  · rw [h2, streamPhase_textCalls c st hcb, runningTexts_range]
    simp
  · rw [h1, streamPhase_currentText]
  · intro t ht
    simpa using (List.mem_filter.mp ht).2

/-- C14 on a stream with the text deltas "Hel" and "lo": two calls, with
"Hel" and "Hello". -/
theorem C14_cumulative_text_witness :
    (demoCtx twoTextScript).cb.onText = true ∧
    textDeltas ((demoCtx twoTextScript).env.generate ((demoStart twoTextScript).loopCount + 1)
      (historyToContents (demoStart twoTextScript).history)) = ["Hel", "lo"] ∧
    textCalls (iteration (demoCtx twoTextScript) (demoStart twoTextScript)).state.trace =
      ["Hel", "Hello"] ∧
    (iteration (demoCtx twoTextScript) (demoStart twoTextScript)).state.currentTurnText =
      "Hello" :=
  ⟨rfl, by decide, by
    rw [(C14_cumulative_text (demoCtx twoTextScript) (demoStart twoTextScript) rfl).1]
    decide, by
    rw [(C14_cumulative_text (demoCtx twoTextScript) (demoStart twoTextScript) rfl).2.1]
    decide⟩


/-- C15 (Register is an idempotent upsert): for every registry (every
sequence of `Register` calls on a new registry), name, non-nil definitions
`d1`, `d2` and flags `b1`, `b2`: after `Register(name, d1, b1)` followed by
`Register(name, d2, b2)`, `GetTool(name)` returns `(d2, b2, true)`, `GetIDs`
holds the name exactly once, and for every other name the map entry, the
answer of `GetTool` and the membership in `GetIDs` are what they were;
registering the same `(name, d, b)` twice leaves the registry as registering
it once does. -/
theorem C15_register_upsert (calls : List (String × Option FunctionDeclaration × Bool))
    (name : String) (d1 d2 : FunctionDeclaration) (b1 b2 : Bool) :
    (((Registry.ofCalls calls).Register name (some d1) b1).Register name (some d2) b2).GetTool
      name = (some d2, b2, true) ∧
    (((Registry.ofCalls calls).Register name (some d1) b1).Register name
      (some d2) b2).GetIDs.count name = 1 ∧
    (∀ other, other ≠ name →
      (((Registry.ofCalls calls).Register name (some d1) b1).Register name (some d2) b2).lookup
        other = (Registry.ofCalls calls).lookup other ∧
      (((Registry.ofCalls calls).Register name (some d1) b1).Register name (some d2) b2).GetTool
        other = (Registry.ofCalls calls).GetTool other ∧
      (((Registry.ofCalls calls).Register name (some d1) b1).Register name
        (some d2) b2).GetIDs.count other = (Registry.ofCalls calls).GetIDs.count other) ∧
    (∀ (d : Option FunctionDeclaration) (b : Bool),
      ((Registry.ofCalls calls).Register name d b).Register name d b =
        (Registry.ofCalls calls).Register name d b) := by
  have hn := ofCalls_nodup calls
  have hn1 := Register_nodup _ name (some d1) b1 hn
  have hn2 := Register_nodup _ name (some d2) b2 hn1
  refine ⟨?_, ?_, ?_, ?_⟩
  · rw [GetTool_lookup, Register_lookup_same]
  · apply List.count_eq_one_of_mem hn2
    rw [Register_ids]
    split
    · assumption
    · simp
  · intro other ho
    have hl : (((Registry.ofCalls calls).Register name (some d1) b1).Register name
        (some d2) b2).lookup other = (Registry.ofCalls calls).lookup other := by
      rw [Register_lookup_other _ _ _ _ _ ho, Register_lookup_other _ _ _ _ _ ho]
    refine ⟨hl, ?_, ?_⟩
    · rw [GetTool_lookup, GetTool_lookup, hl]
    · rw [Register_count_other _ _ _ _ _ ho, Register_count_other _ _ _ _ _ ho]
  · intro d b
    exact Register_twice _ name d b


/-- C15 on a registry with two entries: `beta` is registered twice, the
entry of `alpha` stays. -/
theorem C15_register_upsert_witness :
    "alpha" ≠ "beta" ∧
    (((Registry.ofCalls demoCalls).Register "beta" (some betaOld) false).Register "beta"
      (some betaNew) true).GetTool "beta" = (some betaNew, true, true) ∧
    (((Registry.ofCalls demoCalls).Register "beta" (some betaOld) false).Register "beta"
      (some betaNew) true).GetTool "alpha" = (Registry.ofCalls demoCalls).GetTool "alpha" ∧
    (Registry.ofCalls demoCalls).GetTool "alpha" =
      (some ⟨"alpha", "first tool", [], []⟩, true, true) :=
  ⟨by decide, (C15_register_upsert demoCalls "beta" betaOld betaNew false true).1,
   ((C15_register_upsert demoCalls "beta" betaOld betaNew false true).2.2.1 "alpha"
      (by decide)).2.1, by decide⟩


/-- C16 (schema listing): for every registry (every sequence of `Register`
calls on a new registry), `GetDefinitionsEnabled(nil)` returns the same
definitions as `GetDefinitions`, and for every predicate `p`,
`GetDefinitionsEnabled(p)` returns, up to the order of the map iteration,
exactly the definitions of the registered names `n` with `p(n) = true`, one
for each such name that has a definition; the registered names are pairwise
distinct. -/
theorem C16_schema_listing (calls : List (String × Option FunctionDeclaration × Bool))
    (p : String → Bool) :
    ((Registry.ofCalls calls).GetDefinitionsEnabled none).Perm
      (Registry.ofCalls calls).GetDefinitions ∧
    ((Registry.ofCalls calls).GetDefinitionsEnabled (some p)).Perm
      (((Registry.ofCalls calls).GetIDs.filter p).filterMap
        (fun n => ((Registry.ofCalls calls).GetTool n).1)) ∧
    (Registry.ofCalls calls).GetIDs.Nodup ∧
    (∀ d, d ∈ (Registry.ofCalls calls).GetDefinitionsEnabled (some p) ↔
      ∃ n, n ∈ (Registry.ofCalls calls).GetIDs ∧ p n = true ∧
        ((Registry.ofCalls calls).GetTool n).1 = some d) := by
  have hn := ofCalls_nodup calls
  have hp := GetDefinitionsEnabled_byName (Registry.ofCalls calls) hn (some p)
  simp only at hp
  refine ⟨?_, ?_, hn, ?_⟩
  · have : (Registry.ofCalls calls).GetDefinitionsEnabled none =
        (Registry.ofCalls calls).GetDefinitions := by
      unfold Registry.GetDefinitionsEnabled Registry.GetDefinitions
      apply List.filterMap_congr
      intro kt _
      cases kt.2.definition <;> rfl
    rw [this]
  · rw [hp]
  · intro d
    rw [hp, List.mem_filterMap]
    constructor
    · rintro ⟨n, hn1, hn2⟩
      rw [List.mem_filter] at hn1
      exact ⟨n, hn1.1, hn1.2, hn2⟩
    · rintro ⟨n, hn1, hn2, hn3⟩
      exact ⟨n, List.mem_filter.mpr ⟨hn1, hn2⟩, hn3⟩


/-- C17 (tool enable state): `GetEnabled(id)` is true for every id without a
stored entry; after `SetEnabled(id, v)`, whether or not the file write
succeeded, `GetEnabled(id)` is `v` and `GetEnabled(j)` is what it was for
every other `j`; and `UpdateTool` applies `SetEnabled` to the id it is given
without consulting the registry, so for builtin and other (for instance MCP)
ids alike a `PUT` with `enabled: v` leaves `GetEnabled(id) = v` and is
answered with 200 when the write succeeded. -/
theorem C17_tool_enable_state :
    (∀ (s : ToolEnableStore) (id : String),
      (∀ kv ∈ s.data, kv.1 ≠ id) → s.GetEnabled id = true) ∧
    (∀ (s : ToolEnableStore) (writeErr : Option String) (id : String) (v : Bool),
      (s.SetEnabled writeErr id v).2 = writeErr ∧
      (s.SetEnabled writeErr id v).1.GetEnabled id = v ∧
      ∀ j, j ≠ id → (s.SetEnabled writeErr id v).1.GetEnabled j = s.GetEnabled j) ∧
    (∀ (h : Handler) (store : ToolEnableStore) (writeErr : Option String) (r : Request)
        (id : String) (v : Bool),
      r.method = "PUT" → h.toolEnable = some store →
      decodeEnabledBody r.body = (some v, none) →
      (h.UpdateTool writeErr r id).2.toolEnable = some (store.SetEnabled writeErr id v).1 ∧
      (writeErr = none → (h.UpdateTool writeErr r id).1.code = 200) ∧
      ((h.UpdateTool writeErr r id).2.toolEnable.map (fun s => s.GetEnabled id)) = some v) := by
  refine ⟨?_, ?_, ?_⟩
  · intro s id h
    simp [ToolEnableStore.GetEnabled, mapGet_absent s.data id h]
  · intro s writeErr id v
    refine ⟨rfl, ?_, ?_⟩
    · simp [ToolEnableStore.GetEnabled, ToolEnableStore.SetEnabled, mapGet_mapPut_same]
    · intro j hj
      simp [ToolEnableStore.GetEnabled, ToolEnableStore.SetEnabled,
        mapGet_mapPut_other _ _ _ _ hj]
  · intro h store writeErr r id v hm hs hd
    have hv : (store.SetEnabled writeErr id v).1.GetEnabled id = v := by
      simp [ToolEnableStore.GetEnabled, ToolEnableStore.SetEnabled, mapGet_mapPut_same]
    cases hw : writeErr with
    | none =>
      simp [Handler.UpdateTool, hm, hs, hd, ToolEnableStore.SetEnabled, writeJSON,
        ToolEnableStore.GetEnabled, mapGet_mapPut_same]
    | some e =>
      simp [Handler.UpdateTool, hm, hs, hd, ToolEnableStore.SetEnabled,
        ToolEnableStore.GetEnabled, mapGet_mapPut_same]

/-- C17 on the example handler: an id without an entry is enabled, and a
builtin id and an MCP id are both switched off by `UpdateTool`, while the
registry knows only the first. -/
theorem C17_tool_enable_state_witness :
    demoEnableStore.GetEnabled "get_current_date" = true ∧
    (demoHandler.registry.GetTool "get_current_date").2.2 = true ∧
    (demoHandler.registry.GetTool "mcp_xyz__read_file").2.2 = false ∧
    (demoHandler.UpdateTool none disableRequest "get_current_date").1.code = 200 ∧
    (demoHandler.UpdateTool none disableRequest "get_current_date").2.toolEnable.map
      (fun s => s.GetEnabled "get_current_date") = some false ∧
    (demoHandler.UpdateTool none disableRequest "mcp_xyz__read_file").1.code = 200 ∧
    (demoHandler.UpdateTool none disableRequest "mcp_xyz__read_file").2.toolEnable.map
      (fun s => s.GetEnabled "mcp_xyz__read_file") = some false :=
  ⟨C17_tool_enable_state.1 demoEnableStore "get_current_date" (by decide),
   by decide, by decide,
   (C17_tool_enable_state.2.2 demoHandler demoEnableStore none disableRequest
      "get_current_date" false rfl rfl rfl).2.1 rfl,
   (C17_tool_enable_state.2.2 demoHandler demoEnableStore none disableRequest
      "get_current_date" false rfl rfl rfl).2.2,
   (C17_tool_enable_state.2.2 demoHandler demoEnableStore none disableRequest
      "mcp_xyz__read_file" false rfl rfl rfl).2.1 rfl,
   (C17_tool_enable_state.2.2 demoHandler demoEnableStore none disableRequest
      "mcp_xyz__read_file" false rfl rfl rfl).2.2⟩


/-- C18 as stated fails where the file write fails: on the empty store no
stored server has the URL, yet `Add` does not return the server it appended
but the zero server and the write error. -/
theorem C18_counterexample :
    (∀ svr ∈ (⟨[]⟩ : McpStore).servers,
      normalizeMcpUrl svr.url ≠ normalizeMcpUrl "http://localhost:5202/mcp") ∧
    ((⟨[]⟩ : McpStore).Add "1" (some "disk full") "utils" "http://localhost:5202/mcp").1.servers =
      [⟨"mcp_1", "utils", "http://localhost:5202/mcp"⟩] ∧
    ((⟨[]⟩ : McpStore).Add "1" (some "disk full") "utils" "http://localhost:5202/mcp").2 =
      (⟨"", "", ""⟩, some (.other "disk full")) ∧
    ((⟨[]⟩ : McpStore).Add "1" (some "disk full") "utils" "http://localhost:5202/mcp").2.1 ≠
      ⟨"mcp_1", "utils", "http://localhost:5202/mcp"⟩ := by
  decide

/-- C18 (duplicate MCP URL is rejected), amended: (1) for every store and
URLs `u1`, `u2` with the same normal form, once `Add(_, u1)` has returned
without error, `Add(_, u2)` returns `ErrMcpExists` and the zero server and
leaves the server list unchanged; (2) `AddMcpServer` answers 409 and changes
nothing when the store holds a server whose URL has the normal form of the
trimmed URL of the body; (3) when no stored server has the normal form of
the URL, `Add` appends exactly one server, with a new id and the given name
and URL, and returns it when the file write succeeds; when the write fails it
returns the write error and the zero server, and the server stays appended;
(4) the normal form of a URL is the URL without a suffix of `/` and space
characters, and it does not end in one. -/
theorem C18_duplicate_url_rejected :
    (∀ (s : McpStore) (r1 r2 : String) (w1 w2 : Option String) (n1 n2 u1 u2 : String),
      normalizeMcpUrl u1 = normalizeMcpUrl u2 → (s.Add r1 w1 n1 u1).2.2 = none →
      (s.Add r1 w1 n1 u1).1.Add r2 w2 n2 u2 =
        ((s.Add r1 w1 n1 u1).1, ⟨"", "", ""⟩, some .mcpExists)) ∧
    (∀ (h : Handler) (store : McpStore) (randomID : String) (w1 w2 : Option String)
        (r : Request),
      r.method = "POST" → h.mcpStore = some store →
      (decodeStructBody addMcpServerFields r.body).2 = none →
      trimSpace ((decodeStructBody addMcpServerFields r.body).1.str "url") ≠ "" →
      (∃ svr ∈ store.servers, normalizeMcpUrl svr.url = normalizeMcpUrl
        (trimSpace ((decodeStructBody addMcpServerFields r.body).1.str "url"))) →
      h.AddMcpServer randomID w1 w2 r =
        some (writeJSONStatus 409 (.strMap [("error", "该 MCP 地址已存在")]), h)) ∧
    (∀ (s : McpStore) (randomID : String) (writeErr : Option String) (name url : String),
      (∀ svr ∈ s.servers, normalizeMcpUrl svr.url ≠ normalizeMcpUrl url) →
      (s.Add randomID writeErr name url).1.servers =
        s.servers ++ [⟨genMcpID randomID, name, url⟩] ∧
      (writeErr = none →
        (s.Add randomID writeErr name url).2 = (⟨genMcpID randomID, name, url⟩, none)) ∧
      (∀ e, writeErr = some e →
        (s.Add randomID writeErr name url).2 = (⟨"", "", ""⟩, some (.other e)))) ∧
    (∀ url : String, ∃ t : List Char,
      url.toList = (normalizeMcpUrl url).toList ++ t ∧ (∀ c ∈ t, c = '/' ∨ c = ' ') ∧
      ∀ c, (normalizeMcpUrl url).toList.getLast? = some c → c ≠ '/' ∧ c ≠ ' ') := by
  refine ⟨?_, ?_, ?_, ?_⟩
  · intro s r1 r2 w1 w2 n1 n2 u1 u2 hn hok
    exact Add_duplicate _ r2 w2 n2 u2 ⟨_, Add_ok_mem s r1 w1 n1 u1 hok, hn⟩
  · intro h store randomID w1 w2 r hm hs hd hu hex
    have ha := Add_duplicate store randomID w1
      ((decodeStructBody addMcpServerFields r.body).1.str "name")
      (trimSpace ((decodeStructBody addMcpServerFields r.body).1.str "url")) hex
    simp only [Handler.AddMcpServer, hm, hs, hd, hu, ha, ne_eq, not_true_eq_false, if_false,
      if_true, handler_mcpStore_eta h store hs]
  · intro s randomID writeErr name url hf
    rw [Add_fresh s randomID writeErr name url hf]
    refine ⟨rfl, ?_, ?_⟩
    · intro hw
      rw [hw]
    · intro e hw
      rw [hw]
  · intro url
    obtain ⟨t, ht, hp⟩ := rdropWhile_suffix (fun c => c == '/' || c == ' ') url.toList
    refine ⟨t, ht, ?_, ?_⟩
    · intro c hc
      simpa using hp c hc
    · intro c hc
      have hc1 : (url.toList.rdropWhile (fun c => c == '/' || c == ' ')).getLast? = some c := hc
      have hne : url.toList.rdropWhile (fun c => c == '/' || c == ' ') ≠ [] := by
        intro h0
        rw [h0] at hc1
        simp at hc1
      have hl := List.rdropWhile_last_not (fun c => c == '/' || c == ' ') url.toList hne
      have hc2 : (url.toList.rdropWhile (fun c => c == '/' || c == ' ')).getLast hne = c := by
        rw [List.getLast?_eq_getLast _ hne] at hc1
        exact Option.some.inj hc1
      rw [hc2] at hl
      simpa using hl


/-- C18 on the empty store: the URL added first is refused when it comes
again with a trailing slash and space, by the store and with 409 by the
handler, and a URL not stored yet is appended and returned. -/
theorem C18_duplicate_url_rejected_witness :
    normalizeMcpUrl "http://localhost:5202/mcp" = normalizeMcpUrl "http://localhost:5202/mcp/ " ∧
    ((⟨[]⟩ : McpStore).Add "1" none "utils" "http://localhost:5202/mcp").2.2 = none ∧
    (((⟨[]⟩ : McpStore).Add "1" none "utils" "http://localhost:5202/mcp").1.Add "2" none "again"
      "http://localhost:5202/mcp/ ") =
      (⟨[utilsServer]⟩, ⟨"", "", ""⟩, some .mcpExists) ∧
    (demoHandlerWithServer.AddMcpServer "2" none none duplicateRequest).map
      (fun res => res.1.code) = some 409 ∧
    ((⟨[utilsServer]⟩ : McpStore).Add "2" none "notes" "http://localhost:5203/mcp").2 =
      (⟨"mcp_2", "notes", "http://localhost:5203/mcp"⟩, none) := by
  refine ⟨by decide, by decide, ?_, ?_, ?_⟩
  · exact C18_duplicate_url_rejected.1 ⟨[]⟩ "1" "2" none none "utils" "again"
      "http://localhost:5202/mcp" "http://localhost:5202/mcp/ " (by decide) (by decide)
  · rw [C18_duplicate_url_rejected.2.1 demoHandlerWithServer ⟨[utilsServer]⟩ "2" none none
      duplicateRequest rfl rfl (by decide) (by decide) ⟨utilsServer, by simp, by decide⟩]
    rfl
  · exact (C18_duplicate_url_rejected.2.2.1 ⟨[utilsServer]⟩ "2" none "notes"
      "http://localhost:5203/mcp" (by decide)).2.1 rfl


/-- C19 as stated fails on a store in which two servers carry the id:
`Remove` deletes the first of them and `Get` then returns the second, at
index 0, not `(nil, -1)`. -/
theorem C19_counterexample :
    (∃ svr ∈ twinStore.servers, svr.id = "mcp_7") ∧
    (twinStore.Remove none "mcp_7").1.servers = [⟨"mcp_7", "second", "http://b"⟩] ∧
    (twinStore.Remove none "mcp_7").1.Get "mcp_7" =
      (some ⟨"mcp_7", "second", "http://b"⟩, 0) ∧
    (twinStore.Remove none "mcp_7").1.Get "mcp_7" ≠ (none, -1) := by
  refine ⟨⟨⟨"mcp_7", "first", "http://a"⟩, by decide, rfl⟩, by decide, by decide, by decide⟩

/-- C19 (MCP server removal), amended: (1) for every store that holds a
server with the id, `Remove(id)` deletes exactly one server, the first with
that id, keeps every other server unchanged and in the same order, and
returns the result of the file write; afterwards `Get(id)` returns
`(nil, -1)` when no other stored server has that id; (2) when no server has
the id, `Remove` returns `ErrMcpNotFound` and the list is unchanged, and
(3) `DeleteMcpServer` then answers 404 and changes nothing. -/
theorem C19_server_removal :
    (∀ (s : McpStore) (writeErr : Option String) (id : String),
      (∃ svr ∈ s.servers, svr.id = id) →
      ∃ pre x post, s.servers = pre ++ x :: post ∧ x.id = id ∧ (∀ y ∈ pre, y.id ≠ id) ∧
        (s.Remove writeErr id).1.servers = pre ++ post ∧
        (s.Remove writeErr id).2 = writeErr.map StoreError.other ∧
        ((∀ y ∈ post, y.id ≠ id) → (s.Remove writeErr id).1.Get id = (none, -1))) ∧
    (∀ (s : McpStore) (writeErr : Option String) (id : String),
      (∀ svr ∈ s.servers, svr.id ≠ id) → s.Remove writeErr id = (s, some .mcpNotFound)) ∧
    (∀ (h : Handler) (store : McpStore) (w1 w2 : Option String) (r : Request) (id : String),
      r.method = "DELETE" → h.mcpStore = some store →
      (∀ svr ∈ store.servers, svr.id ≠ id) →
      h.DeleteMcpServer w1 w2 r id =
        some (writeJSONStatus 404 (.strMap [("error", "not found")]), h)) := by
  refine ⟨?_, ?_, ?_⟩
  · intro s writeErr id h
    obtain ⟨pre, x, post, hl, hx, hpre, hr⟩ := Remove_present s writeErr id h
    refine ⟨pre, x, post, hl, hx, hpre, by rw [hr], by rw [hr], ?_⟩
    intro hpost
    rw [hr]
    apply getFrom_absent
    intro y hy
    rcases List.mem_append.mp hy with h1 | h1
    · exact hpre y h1
    · exact hpost y h1
  · intro s writeErr id h
    exact Remove_absent s writeErr id h
  · intro h store w1 w2 r id hm hs hab
    simp only [Handler.DeleteMcpServer, hm, hs, Remove_absent store w1 id hab, ne_eq,
      not_true_eq_false, if_false, if_true, handler_mcpStore_eta h store hs]

/-- C19 on a store with three servers of distinct ids: the middle one is
removed, the others stay in order, `Get` no longer finds it, and removing it
again is answered with `ErrMcpNotFound` and 404. -/
theorem C19_server_removal_witness :
    (∃ svr ∈ threeStore.servers, svr.id = "mcp_2") ∧
    (threeStore.Remove none "mcp_2").1.servers =
      [⟨"mcp_1", "a", "http://a"⟩, ⟨"mcp_3", "c", "http://c"⟩] ∧
    (threeStore.Remove none "mcp_2").1.Get "mcp_2" = (none, -1) ∧
    (threeStore.Remove none "mcp_2").1.Remove none "mcp_2" =
      ((threeStore.Remove none "mcp_2").1, some .mcpNotFound) ∧
    (demoHandler.DeleteMcpServer none none ⟨"DELETE", .nil⟩ "nonexistent").map
      (fun res => res.1.code) = some 404 := by
  have hex : ∃ svr ∈ threeStore.servers, svr.id = "mcp_2" :=
    ⟨⟨"mcp_2", "b", "http://b"⟩, by decide, rfl⟩
  obtain ⟨pre, x, post, hl, hx, hpre, hs, _, hg⟩ := C19_server_removal.1 threeStore none "mcp_2" hex
  refine ⟨hex, by decide, by decide, ?_, ?_⟩
  · exact C19_server_removal.2.1 (threeStore.Remove none "mcp_2").1 none "mcp_2" (by decide)
  · rw [C19_server_removal.2.2 demoHandler ⟨[]⟩ none none ⟨"DELETE", .nil⟩ "nonexistent" rfl rfl
      (by simp)]
    rfl


/-- C20 as stated fails on requests whose method is not `POST`: `ChatStream`
tests the method first and answers 405, not 400, to a `GET` request whose
body is not valid JSON and to one whose body is the empty object. -/
theorem C20_counterexample :
    (decodeChatRequest invalidBody).2 ≠ none ∧
    (demoHandler.ChatStream (scriptedEnv thoughtThenTextScript) "key" true
      ⟨"GET", invalidBody⟩ emptyWorld).code = some 405 ∧
    (decodeChatRequest (.doc (.obj []))).1.sessionID = "" ∧
    (demoHandler.ChatStream (scriptedEnv thoughtThenTextScript) "key" true
      ⟨"GET", .doc (.obj [])⟩ emptyWorld).code = some 405 ∧
    (demoHandler.ChatStream (scriptedEnv thoughtThenTextScript) "key" true
      ⟨"GET", invalidBody⟩ emptyWorld).code ≠ some 400 := by
  decide

/-- C20 (chat request validation precedence), amended: `ChatStream` answers
405 to every request whose method is not `POST`.  To a `POST` request it
answers 400 when the body does not decode, which is so whenever no JSON value
can be read from the start of the body and for the empty body, and 400 when
the decoded `sessionId` is empty, as for the body of the empty object, in
both cases whether or not an API key is configured; it answers 500 when the
body decodes, `sessionId` is not empty and the API key is empty.  In all
these cases the supervisor is not run. -/
theorem C20_chat_validation (h : Handler) (env : Env) (apiKey : String) (canFlush : Bool)
    (r : Request) (w : World) :
    (r.method ≠ "POST" →
      h.ChatStream env apiKey canFlush r w = .rejected (httpError "Method not allowed" 405)) ∧
    (r.method = "POST" → (decodeChatRequest r.body).2 ≠ none →
      h.ChatStream env apiKey canFlush r w =
        .rejected (writeJSONError 400 "invalid request body")) ∧
    (r.method = "POST" → (decodeChatRequest r.body).2 = none →
      (decodeChatRequest r.body).1.sessionID = "" →
      h.ChatStream env apiKey canFlush r w =
        .rejected (writeJSONError 400 "sessionId is required")) ∧
    (r.method = "POST" → (decodeChatRequest r.body).2 = none →
      (decodeChatRequest r.body).1.sessionID ≠ "" → apiKey = "" →
      h.ChatStream env apiKey canFlush r w =
        .rejected (writeJSONError 500 "GEMINI_API_KEY not configured")) ∧
    ((r.method ≠ "POST" ∨ (decodeChatRequest r.body).2 ≠ none ∨
        (decodeChatRequest r.body).1.sessionID = "" ∨ apiKey = "") →
      (h.ChatStream env apiKey canFlush r w).run = none) ∧
    (∀ e, (decodeChatRequest (.invalid e)).2 = some e) ∧
    (decodeChatRequest .nil).2 = some "EOF" ∧
    (decodeChatRequest (.doc (.obj []))).2 = none ∧
    (decodeChatRequest (.doc (.obj []))).1.sessionID = "" := by
  have h0 : r.method ≠ "POST" →
      h.ChatStream env apiKey canFlush r w = .rejected (httpError "Method not allowed" 405) := by
    intro hm
    simp [Handler.ChatStream, hm]
  have h1 : r.method = "POST" → (decodeChatRequest r.body).2 ≠ none →
      h.ChatStream env apiKey canFlush r w =
        .rejected (writeJSONError 400 "invalid request body") := by
    intro hm hd
    cases hd2 : (decodeChatRequest r.body).2 with
    | none => exact absurd hd2 hd
    | some e => simp [Handler.ChatStream, hm, hd2]
  have h2 : r.method = "POST" → (decodeChatRequest r.body).2 = none →
      (decodeChatRequest r.body).1.sessionID = "" →
      h.ChatStream env apiKey canFlush r w =
        .rejected (writeJSONError 400 "sessionId is required") := by
    intro hm hd hs
    simp [Handler.ChatStream, hm, hd, hs]
  have h3 : r.method = "POST" → (decodeChatRequest r.body).2 = none →
      (decodeChatRequest r.body).1.sessionID ≠ "" → apiKey = "" →
      h.ChatStream env apiKey canFlush r w =
        .rejected (writeJSONError 500 "GEMINI_API_KEY not configured") := by
    intro hm hd hs hk
    simp [Handler.ChatStream, hm, hd, hs, hk]
  refine ⟨h0, h1, h2, h3, ?_, fun e => rfl, rfl, rfl, rfl⟩
  intro hc
  by_cases hm : r.method = "POST"
  · by_cases hd : (decodeChatRequest r.body).2 = none
    · by_cases hs : (decodeChatRequest r.body).1.sessionID = ""
      · rw [h2 hm hd hs]; rfl
      · have hk : apiKey = "" := by
          rcases hc with hc | hc | hc | hc
          · exact absurd hm hc
          · exact absurd hd hc
          · exact absurd hc hs
          · exact hc
        rw [h3 hm hd hs hk]; rfl
    · rw [h1 hm hd]; rfl
  · rw [h0 hm]; rfl

/-- C20 on `POST` requests: a body that is not JSON and the empty object are
answered with 400, with and without an API key; a session id without an API
key is answered with 500; the supervisor is not run. -/
theorem C20_chat_validation_witness :
    (demoHandler.ChatStream (scriptedEnv thoughtThenTextScript) "" true
      ⟨"POST", invalidBody⟩ emptyWorld).code = some 400 ∧
    (demoHandler.ChatStream (scriptedEnv thoughtThenTextScript) "key" true
      ⟨"POST", invalidBody⟩ emptyWorld).code = some 400 ∧
    (demoHandler.ChatStream (scriptedEnv thoughtThenTextScript) "key" true
      ⟨"POST", .doc (.obj [])⟩ emptyWorld).code = some 400 ∧
    (demoHandler.ChatStream (scriptedEnv thoughtThenTextScript) "" true
      ⟨"POST", sessionBody⟩ emptyWorld).code = some 500 ∧
    (demoHandler.ChatStream (scriptedEnv thoughtThenTextScript) "" true
      ⟨"POST", sessionBody⟩ emptyWorld).run = none ∧
    ((demoHandler.ChatStream (scriptedEnv thoughtThenTextScript) "key" true
      ⟨"POST", sessionBody⟩ emptyWorld).run.map (fun run => modelInvocations run.trace)) =
      some 1 := by
  refine ⟨?_, ?_, ?_, ?_, ?_, by decide⟩
  · rw [(C20_chat_validation demoHandler (scriptedEnv thoughtThenTextScript) "" true
      ⟨"POST", invalidBody⟩ emptyWorld).2.1 rfl (by decide)]
    rfl
  · rw [(C20_chat_validation demoHandler (scriptedEnv thoughtThenTextScript) "key" true
      ⟨"POST", invalidBody⟩ emptyWorld).2.1 rfl (by decide)]
    rfl
  · rw [(C20_chat_validation demoHandler (scriptedEnv thoughtThenTextScript) "key" true
      ⟨"POST", .doc (.obj [])⟩ emptyWorld).2.2.1 rfl rfl rfl]
    rfl
  · rw [(C20_chat_validation demoHandler (scriptedEnv thoughtThenTextScript) "" true
      ⟨"POST", sessionBody⟩ emptyWorld).2.2.2.1 rfl rfl (by decide) rfl]
    rfl
  · exact (C20_chat_validation demoHandler (scriptedEnv thoughtThenTextScript) "" true
      ⟨"POST", sessionBody⟩ emptyWorld).2.2.2.2.1 (Or.inr (Or.inr (Or.inr rfl)))


/-- C21 (the model turn records each part once), evaluated where the code
departs from it: a thought delta "plan" followed by a text delta, or by a
function call, is stored in the model turn twice, once by the append of the
delta (line 169) and once more by the flush (lines 151 and 172), so the
stored thought parts concatenate to "planplan"; a thought still pending at
the end of the stream is stored once, because that flush (lines 197-202)
appends no part.  The text parts are stored once. -/
theorem C21_thought_recorded_twice :
    thoughtDeltas (thoughtThenTextScript 1) = ["plan"] ∧
    ((supervisorLoop (demoCtx thoughtThenTextScript) 10
      (demoStart thoughtThenTextScript)).2.history.map storedThoughts) =
      [[], ["plan", "plan"]] ∧
    ((supervisorLoop (demoCtx thoughtThenTextScript) 10
      (demoStart thoughtThenTextScript)).2.history.map storedTexts) = [["hello"], ["hi"]] ∧
    thoughtDeltas (thoughtThenCallScript 1) = ["plan"] ∧
    ((supervisorLoop (demoCtx thoughtThenCallScript) 10
      (demoStart thoughtThenCallScript)).2.history.map storedThoughts) =
      [[], ["plan", "plan"], [], []] ∧
    thoughtDeltas (thoughtOnlyScript 1) = ["plan"] ∧
    ((supervisorLoop (demoCtx thoughtOnlyScript) 10
      (demoStart thoughtOnlyScript)).2.history.map storedThoughts) = [[], ["plan"]] := by
  decide

/-- C22 (the rendered history carries the turns the loop appended), evaluated
where the code departs from it: the user turn and the text parts of a model
turn are stored as `map[string]string`, and `historyToContents` skips every
part that is not a `map[string]any` (lines 485-488).  For the message "hello"
on a new session the stored user turn holds the text, but the contents of the
first model invocation are empty; and of a model turn with a thought, a text
and a function-call part only the thought and the call are rendered. -/
theorem C22_text_parts_not_rendered :
    effectiveUserText "hello" none = "hello" ∧
    (startHistory (scriptedEnv thoughtThenTextScript) "s" "hello" none emptyWorld).map
      storedTexts = [["hello"]] ∧
    historyToContents
      (startHistory (scriptedEnv thoughtThenTextScript) "s" "hello" none emptyWorld) = [] ∧
    (RunSupervisor (scriptedEnv thoughtThenTextScript) builtinDeps "s" "hello" demoOptions
      allCallbacks none emptyWorld).trace.filterMap Event.contents = [[]] ∧
    mixedParts.map Part.summary =
      [("", "t", none), ("hi", "", none), ("", "", some ("get_current_date", "d1"))] ∧
    (historyToContents
      [.obj [("role", .str "model"), ("parts", .list (partsToHistory mixedParts))]]).map
        (fun c => (c.role, c.parts.map Part.summary)) =
      [("model", [("", "t", none), ("", "", some ("get_current_date", "d1"))])] :=
  ⟨rfl, by decide, rfl, rfl, rfl, rfl⟩

/-- C23 (tool label truncation), evaluated where the code departs from it:
`toolLabel` measures and cuts the sentence in bytes (`len(first) > 36`,
`first[:33]`).  The first sentence of `complete_todo` has 15 characters, yet
it is 37 bytes long, so it is cut after 33 bytes, inside the character "完":
the label ends in two of its three bytes and is not a sequence of whole
characters, so it is the text of no string.  The first sentence of
`get_current_date` has 18 characters and is cut as well. -/
theorem C23_label_cut_by_bytes :
    firstSentence (descriptionOf "complete_todo") = "将指定 ID 的待办标为已完成" ∧
    (firstSentence (descriptionOf "complete_todo")).length = 15 ∧
    goLen (firstSentence (descriptionOf "complete_todo")) = 37 ∧
    toolLabel "complete_todo" = goBytes "将指定 ID 的待办标为已" ++ [229, 174] ++ goBytes "..." ∧
    goBytes "完" = [229, 174, 140] ∧
    utf8Whole (toolLabel "complete_todo") = false ∧
    (∀ s : String, goBytes s ≠ toolLabel "complete_todo") ∧
    toolLabel "complete_todo" ≠ goBytes (firstSentence (descriptionOf "complete_todo")) ∧
    (firstSentence (descriptionOf "get_current_date")).length = 18 ∧
    toolLabel "get_current_date" = goBytes "获取当前系统时间（ISO 86..." := by
  refine ⟨by decide, by decide, by decide, by decide, by decide, by decide, ?_, by decide,
    by decide, by decide⟩
  intro s hs
  have h1 := utf8Whole_goBytes s
  rw [hs] at h1
  exact absurd h1 (by decide)


/-- C24 (continuation is not gated by the blocking partition), evaluated
where the code departs from it: the first iteration has one function call,
`search_knowledge` with `limit` `1e19`, which is not `propose_plan` and not
blocking, and the session holds a knowledge chunk.  The dispatch panics in
`make` (builtin.go line 163) and the loop is left: one model invocation is
made in all and `RunSupervisor` does not return.  On a session without
chunks the same call is followed by a second model invocation, as is a call
of the blocking tool `analyze_requirements`. -/
theorem C24_no_invocation_after_panic :
    (extractCalls (streamPhase (demoCtx searchScript)
      (chunkStart searchScript)).2.accumulatedParts).map FunctionCall.key =
      [("search_knowledge", "k1")] ∧
    hasPlanCall (extractCalls (streamPhase (demoCtx searchScript)
      (chunkStart searchScript)).2.accumulatedParts) = false ∧
    (blockingCalls (demoCtx searchScript).blockingIDs (extractCalls
      (streamPhase (demoCtx searchScript) (chunkStart searchScript)).2.accumulatedParts)).length =
      0 ∧
    (chunkStart searchScript).loopCount = 0 ∧
    (RunSupervisor (scriptedEnv searchScript) builtinDeps "s" "hello" demoOptions
      allCallbacks none worldWithChunk).panicked = true ∧
    (RunSupervisor (scriptedEnv searchScript) builtinDeps "s" "hello" demoOptions
      allCallbacks none worldWithChunk).err =
      some "runtime error: makeslice: cap out of range" ∧
    modelInvocations (RunSupervisor (scriptedEnv searchScript) builtinDeps "s" "hello"
      demoOptions allCallbacks none worldWithChunk).trace = 1 ∧
    modelInvocations (RunSupervisor (scriptedEnv searchScript) builtinDeps "s" "hello"
      demoOptions allCallbacks none emptyWorld).trace = 2 ∧
    modelInvocations (RunSupervisor (scriptedEnv blockingCallScript) builtinDeps "s" "hello"
      demoOptions allCallbacks none emptyWorld).trace = 2 := by
  decide!

/-- C25 (`appendOrUpdate` is last-write-wins at the first occurrence): when
some entry of the list has the id, the result has the length of the list, the
first entry with the id is replaced by the step and every other entry is
unchanged and in place; when no entry has it, the result is the list with the
step appended; and when the ids of the list are pairwise distinct and the
step carries the id, the ids of the result are pairwise distinct. -/
theorem C25_appendOrUpdate (steps : List ThinkingStep) (id : String) (step : ThinkingStep) :
    ((∃ s ∈ steps, s.id = id) →
      (appendOrUpdate steps id step).length = steps.length ∧
      ∃ pre x post, steps = pre ++ x :: post ∧ x.id = id ∧ (∀ y ∈ pre, y.id ≠ id) ∧
        appendOrUpdate steps id step = pre ++ step :: post) ∧
    ((∀ s ∈ steps, s.id ≠ id) → appendOrUpdate steps id step = steps ++ [step]) ∧
    ((steps.map (fun s => s.id)).Nodup → step.id = id →
      ((appendOrUpdate steps id step).map (fun s => s.id)).Nodup) := by
  refine ⟨?_, appendOrUpdate_absent steps id step, appendOrUpdate_nodup steps id step⟩
  intro h
  obtain ⟨pre, x, post, hl, hx, hpre, hr⟩ := appendOrUpdate_present steps id step h
  refine ⟨?_, pre, x, post, hl, hx, hpre, hr⟩
  rw [hr, hl]
  simp

/-- C25 on a list with the steps `th-1` and `call-d1`: a step with the id
`th-1` replaces the first entry, a step with a new id is appended. -/
theorem C25_appendOrUpdate_witness :
    (∃ s ∈ demoSteps, s.id = "th-1") ∧
    appendOrUpdate demoSteps "th-1" (thoughtStep "th-1" "completed" "plan") =
      [thoughtStep "th-1" "completed" "plan", pendingStep dateCall] ∧
    (∀ s ∈ demoSteps, s.id ≠ "th-2") ∧
    appendOrUpdate demoSteps "th-2" (thoughtStep "th-2" "active" "more") =
      demoSteps ++ [thoughtStep "th-2" "active" "more"] ∧
    ((appendOrUpdate demoSteps "th-1" (thoughtStep "th-1" "completed" "plan")).map
      (fun s => s.id)).Nodup := by
  have hex : ∃ s ∈ demoSteps, s.id = "th-1" :=
    ⟨thoughtStep "th-1" "active" "plan", by decide, rfl⟩
  refine ⟨hex, by decide, by decide, ?_, ?_⟩
  · exact (C25_appendOrUpdate demoSteps "th-2" (thoughtStep "th-2" "active" "more")).2.1
      (by decide)
  · exact (C25_appendOrUpdate demoSteps "th-1" (thoughtStep "th-1" "completed" "plan")).2.2
      (by decide) rfl

/-- C26 (final UI message list): when `RunSupervisor` returns without error
and no message the session held before has the id of the new assistant
message, the list passed to `UpdateSession`, which the store then holds, is
the list the session held before, unchanged and in order, followed by the
user message with the effective text and the final assistant message; its
length is the earlier length plus 2 and exactly one entry has the id of the
assistant message. -/
theorem C26_final_ui_messages (env : Env) (deps : SupervisorDeps) (sessionID message : String)
    (opts : SupervisorOptions) (cb : Callbacks) (params : Option Params) (w : World)
    (herr : (RunSupervisor env deps sessionID message opts cb params w).err = none)
    (hfresh : ∀ m ∈ (loadedSession env sessionID w).uiMessages.getD [],
      m.mapId ≠ some (assistantMsgIDOf env)) :
    ∃ msg history,
      (RunSupervisor env deps sessionID message opts cb params w).assistantMsg = some msg ∧
      msg.id = assistantMsgIDOf env ∧
      (RunSupervisor env deps sessionID message opts cb params w).trace.getLast? =
        some (.updateSession sessionID history
          ((loadedSession env sessionID w).uiMessages.getD [] ++
            [.user ("u-" ++ toString env.userMsgTime) (effectiveUserText message params),
             .assistant msg])) ∧
      storedLists (RunSupervisor env deps sessionID message opts cb params w).world sessionID =
        some (some history,
          some ((loadedSession env sessionID w).uiMessages.getD [] ++
            [.user ("u-" ++ toString env.userMsgTime) (effectiveUserText message params),
             .assistant msg])) ∧
      ((loadedSession env sessionID w).uiMessages.getD [] ++
          [UIMsg.user ("u-" ++ toString env.userMsgTime) (effectiveUserText message params),
           UIMsg.assistant msg]).length =
        ((loadedSession env sessionID w).uiMessages.getD []).length + 2 ∧
      ((loadedSession env sessionID w).uiMessages.getD [] ++
          [UIMsg.user ("u-" ++ toString env.userMsgTime) (effectiveUserText message params),
           UIMsg.assistant msg]).countP
        (fun m => decide (m.mapId = some (assistantMsgIDOf env))) = 1 := by
  cases hclient : env.clientErr with
  | some e => simp [RunSupervisor, hclient] at herr
  | none =>
    cases hloop : (supervisorLoop (requestCtx env deps sessionID cb params) 10
        (startState env sessionID message params w)).1 with
    | some e => simp [RunSupervisor, hclient, hloop] at herr
    | none =>
      have hpres := (supervisorLoop_preserves (requestCtx env deps sessionID cb params) 10
        (startState env sessionID message params w)
        (startState_noUpdate env sessionID message params w)).2 sessionID
      have hsome : (((supervisorLoop (requestCtx env deps sessionID cb params) 10
          (startState env sessionID message params w)).2.world).sessions sessionID).isSome =
          true := by
        rw [← storedLists_isSome, hpres, storedLists_isSome]
        exact loadedWorld_isSome env sessionID w
      refine ⟨assembleAssistantMsg (assistantMsgIDOf env)
          (supervisorLoop (requestCtx env deps sessionID cb params) 10
            (startState env sessionID message params w)).2,
        (supervisorLoop (requestCtx env deps sessionID cb params) 10
            (startState env sessionID message params w)).2.history, ?_, rfl, ?_, ?_, ?_, ?_⟩
      · simp only [RunSupervisor, hclient, hloop]
      · simp only [RunSupervisor, hclient, hloop, List.getLast?_append, List.getLast?_singleton,
          finalUIMessages_fresh env sessionID message params w _ hfresh]
        rfl
      · simp only [RunSupervisor, hclient, hloop,
          finalUIMessages_fresh env sessionID message params w _ hfresh]
        exact updateSession_storedLists _ _ _ _ hsome
      · simp
      · rw [List.countP_append]
        have h0 : List.countP (fun m => decide (m.mapId = some (assistantMsgIDOf env)))
            ((loadedSession env sessionID w).uiMessages.getD []) = 0 := by
          rw [List.countP_eq_zero]
          intro m hm
          simpa using hfresh m hm
        have hu : ¬ ("u-" ++ toString env.userMsgTime = assistantMsgIDOf env) :=
          user_id_ne_assistant_id _ _
        rw [h0]
        simp [List.countP_cons, UIMsg.mapId, hu, assembleAssistantMsg]

/-- C26 on a session that holds one earlier user message: the run of a model
that answers with text stores three UI messages, the earlier one first. -/
theorem C26_final_ui_messages_witness :
    (RunSupervisor (scriptedEnv twoTextScript) builtinDeps "s" "hello" demoOptions allCallbacks
      none worldWithMessage).err = none ∧
    (∀ m ∈ (loadedSession (scriptedEnv twoTextScript) "s" worldWithMessage).uiMessages.getD [],
      m.mapId ≠ some (assistantMsgIDOf (scriptedEnv twoTextScript))) ∧
    (storedLists (RunSupervisor (scriptedEnv twoTextScript) builtinDeps "s" "hello" demoOptions
      allCallbacks none worldWithMessage).world "s").map
        (fun p => (p.2.getD []).map UIMsg.mapId) =
      some [some "u-1", some "u-0", some "agent-0"] ∧
    ∃ msg history,
      (RunSupervisor (scriptedEnv twoTextScript) builtinDeps "s" "hello" demoOptions allCallbacks
        none worldWithMessage).assistantMsg = some msg ∧
      storedLists (RunSupervisor (scriptedEnv twoTextScript) builtinDeps "s" "hello" demoOptions
        allCallbacks none worldWithMessage).world "s" =
        some (some history,
          some ([UIMsg.user "u-1" "earlier"] ++ [.user "u-0" "hello", .assistant msg])) := by
  refine ⟨by decide, by decide, by decide, ?_⟩
  obtain ⟨msg, history, h1, _, _, h4, _, _⟩ :=
    C26_final_ui_messages (scriptedEnv twoTextScript) builtinDeps "s" "hello" demoOptions
      allCallbacks none worldWithMessage (by decide) (by decide)
  exact ⟨msg, history, h1, h4⟩


/-- C27 (`McpStore.Update` is atomic on failure), evaluated where the code
departs from it: `Update` assigns the name (lines 113-115) before it looks
for a collision of the URL (lines 116-123).  With a name and the URL of
another server in the updates it returns `ErrMcpExists` and writes no file,
but the targeted server already carries the new name; `UpdateMcpServer`
answers 409 and the store is changed.  A colliding URL alone, and an id that
no server has, leave the list as it was. -/
theorem C27_update_not_atomic :
    pairStore.Update none "mcp_1" [("name", "renamed"), ("url", "http://b/")] =
      (⟨[⟨"mcp_1", "renamed", "http://a"⟩, ⟨"mcp_2", "notes", "http://b"⟩]⟩,
        some .mcpExists) ∧
    (pairStore.Update none "mcp_1" [("name", "renamed"), ("url", "http://b/")]).1 ≠ pairStore ∧
    (pairHandler.UpdateMcpServer none renameCollideRequest "mcp_1").1.code = 409 ∧
    (pairHandler.UpdateMcpServer none renameCollideRequest "mcp_1").2.mcpStore =
      some ⟨[⟨"mcp_1", "renamed", "http://a"⟩, ⟨"mcp_2", "notes", "http://b"⟩]⟩ ∧
    pairStore.Update none "mcp_1" [("url", "http://b/")] = (pairStore, some .mcpExists) ∧
    pairStore.Update none "mcp_9" [("name", "renamed"), ("url", "http://b/")] =
      (pairStore, some .mcpNotFound) := by
  decide


/-- C28 (URL uniqueness invariant of `McpStore`): in every state reached from
the empty store by a sequence of `Add`, `Update` and `Remove` calls, each with
any arguments and any result of its file write, succeeding or failing, the
normal forms of the stored URLs are pairwise distinct; and `normalizeMcpUrl`
is idempotent. -/
theorem C28_url_uniqueness (calls : List McpCall) :
    ((McpStore.afterAll calls).servers.map (fun svr => normalizeMcpUrl svr.url)).Nodup ∧
    (McpStore.afterAll calls).servers.Pairwise
      (fun a b => normalizeMcpUrl a.url ≠ normalizeMcpUrl b.url) ∧
    ∀ url, normalizeMcpUrl (normalizeMcpUrl url) = normalizeMcpUrl url := by
  have h := foldl_after_urls calls ⟨[]⟩ (by simp)
  refine ⟨h, ?_, normalizeMcpUrl_idem⟩
  exact (List.pairwise_map.mp h)


/-- C29 (the builtin tool table is consistent): the names of `Definitions`
are pairwise distinct and are, up to order, the keys of the `executors`
table, which are pairwise distinct too; after `RegisterBuiltinTools` on a new
registry the registered names are those names, every registered name has an
executor, so that `Execute` does not take the unknown-name branch for it, and
the blocking ids are `propose_plan` and `analyze_requirements`. -/
theorem C29_builtin_table_consistent :
    (Definitions.map (fun d => d.name)).Nodup ∧
    (executors.map (fun e => e.1)).Nodup ∧
    (Definitions.map (fun d => d.name)).Perm (executors.map (fun e => e.1)) ∧
    (RegisterBuiltinTools Registry.New).GetIDs.Perm (Definitions.map (fun d => d.name)) ∧
    (RegisterBuiltinTools Registry.New).GetIDs.all (fun n => (GetExecutor n).isSome) = true ∧
    (executors.map (fun e => e.1)).all
      (fun n => ((RegisterBuiltinTools Registry.New).GetTool n).2.2) = true ∧
    (RegisterBuiltinTools Registry.New).GetBlockingIDs.Perm
      ["propose_plan", "analyze_requirements"] ∧
    (RegisterBuiltinTools Registry.New).GetBlockingIDs.Nodup := by
  refine ⟨by decide, by decide, ?_, ?_, by decide, by decide, ?_, by decide⟩
  · have h : Definitions.map (fun d => d.name) = executors.map (fun e => e.1) := by decide
    rw [h]
  · have h : (RegisterBuiltinTools Registry.New).GetIDs = Definitions.map (fun d => d.name) := by
      decide
    rw [h]
  · have h : (RegisterBuiltinTools Registry.New).GetBlockingIDs =
        ["propose_plan", "analyze_requirements"] := by decide
    rw [h]

/-- C30 (the status store never locks its mutex twice), evaluated where the
code departs from it: `save` takes the read lock (line 76) and is called by
`EnsureEntry`, `RemoveServer`, `SetChecking` and `SetResult` while they hold
the write lock, so on a store whose mutex is free each of these calls blocks
on its own lock whenever it gets to `save`: `EnsureEntry` returns only when
the id has an entry already, `SetChecking` only when it has none, and
`RemoveServer` and `SetResult` never.  On a new store `EnsureEntry` of an id
does not return, and neither does `AddMcpServer` of a handler with a status
store after the server was added. -/
theorem C30_status_store_self_deadlock :
    (∀ (byID : List (String × McpServerStatusEntry)) (writeErr : Option String) (id : String),
      ((⟨⟨false, 0⟩, byID⟩ : McpStatusStore).EnsureEntry writeErr id).isSome =
        (mapGet byID id).isSome) ∧
    (∀ (byID : List (String × McpServerStatusEntry)) (writeErr : Option String) (id : String),
      (⟨⟨false, 0⟩, byID⟩ : McpStatusStore).RemoveServer writeErr id = none) ∧
    (∀ (byID : List (String × McpServerStatusEntry)) (writeErr : Option String)
        (nowMilli : Int) (id : String),
      ((⟨⟨false, 0⟩, byID⟩ : McpStatusStore).SetChecking writeErr nowMilli id).isSome =
        (mapGet byID id).isNone) ∧
    (∀ (byID : List (String × McpServerStatusEntry)) (writeErr : Option String)
        (nowMilli : Int) (id status errMsg : String) (toolsCount : Int) (endpoint : String),
      (⟨⟨false, 0⟩, byID⟩ : McpStatusStore).SetResult writeErr nowMilli id status errMsg
        toolsCount endpoint = none) ∧
    newStatusStore.EnsureEntry none "mcp_1" = none ∧
    (newStatusStore.Get "mcp_1").map (fun r => r.1) = some none ∧
    (demoHandler.AddMcpServer "1" none none addServerRequest).isNone = true := by
  refine ⟨?_, ?_, ?_, ?_, by decide, by decide, by decide⟩
  · intro byID writeErr id
    cases h : mapGet byID id <;>
      simp [McpStatusStore.EnsureEntry, RWMutex.Lock, h, McpStatusStore.save, RWMutex.RLock]
  · intro byID writeErr id
    simp [McpStatusStore.RemoveServer, RWMutex.Lock, McpStatusStore.save, RWMutex.RLock]
  · intro byID writeErr nowMilli id
    cases h : mapGet byID id <;>
      simp [McpStatusStore.SetChecking, RWMutex.Lock, h, McpStatusStore.save, RWMutex.RLock]
  · intro byID writeErr nowMilli id status errMsg toolsCount endpoint
    simp [McpStatusStore.SetResult, RWMutex.Lock, McpStatusStore.save, RWMutex.RLock]

end AgenticDemo
